import Mathlib

/-!
# Shallow embedding of `frontend/js/api.js`

The module is a browser-side HTTP client (`class API`) together with a demo-mode request
simulator (`demoRequest`) that works on one JSON document kept in `localStorage`.

Modelling conventions.

* JavaScript values are the inductive type `JVal`.  Numbers are integers or `NaN`
  (`JVal.num`, `JVal.nan`): fractional and infinite doubles are outside the number domain.
  The arithmetic of the model is exact.  JavaScript computes with doubles, which hold every
  integer of magnitude up to 2^53 and add, multiply and compare such integers exactly as
  long as the result stays in that range (`Exact`); strings are converted as `Number` does
  when they are empty, white space or a signed run of decimal digits.  The theorems about
  numbers the simulator computes (new ids, totals) or reads from a path or a body state this
  range as a hypothesis: `Exact`, `Whole`, `ExactDigits`.
* Code that can raise a `TypeError` runs in `Except JsError`.
* A JavaScript string that is only ever handed to `JSON.parse` is represented by what
  `JSON.parse` makes of it (`Text`): the empty string, a text that does not parse, or a text
  that parses to a given value.
* `localStorage` is the record `Storage`, one field per key the module touches.
* The clock (`new Date()`) is an explicit argument; it carries the local time zone of the
  browser, which `setHours` and `getHours` work in.
-/

namespace Api

/-! ## JavaScript values -/

/-- JavaScript values as they occur in the module: JSON data plus `undefined` and `NaN`. -/
inductive JVal where
  | undefined
  | null
  | nan
  | bool (b : Bool)
  | num (n : Int)
  | str (s : String)
  | arr (xs : List JVal)
  | obj (fs : List (String × JVal))
  deriving Inhabited, Repr

/-- Property lists of objects, in insertion order. -/
abbrev Fields := List (String × JVal)

/-- The only exception the simulator can raise: `TypeError` (property read on `null` or
`undefined`, array method on a non-array, spread of a non-iterable). -/
inductive JsError where
  | typeError
  deriving DecidableEq, Repr

/-- Computations that may raise a `TypeError`. -/
abbrev JsM := Except JsError

/-- A number (integer or `NaN`, the latter `none`) as a value. -/
def ofNum : Option Int → JVal
  | some n => .num n
  | none => .nan

/-- JavaScript truthiness (`ToBoolean`). -/
def truthy : JVal → Bool
  | .undefined => false
  | .null => false
  | .nan => false
  | .bool b => b
  | .num n => n != 0
  | .str s => s != ""
  | .arr _ => true
  | .obj _ => true

/-- The operator `a || b`. -/
def jsOr (a b : JVal) : JVal := if truthy a then a else b

/-- Value of a run of decimal digits. -/
def digitsToNat (ds : List Char) : Nat :=
  ds.foldl (fun n c => 10 * n + (c.toNat - 48)) 0

/-- White space that `Number` trims from a string: space, tab, line feed, carriage return. -/
def isSpace (c : Char) : Bool :=
  c.toNat == 32 || c.toNat == 9 || c.toNat == 10 || c.toNat == 13

/-- Strips leading and trailing white space. -/
def trimSpaces (cs : List Char) : List Char :=
  ((cs.dropWhile isSpace).reverse.dropWhile isSpace).reverse

/-- Reads a trimmed string as a signed decimal integer; the empty string is `0`, anything
else is `NaN`.  (Texts that `Number` reads as a fraction, with an exponent, in another
base or as `Infinity` are outside the number domain.) -/
def parseInteger : List Char → Option Int
  | [] => some 0
  | '-' :: ds => if !ds.isEmpty && ds.all Char.isDigit then some (-(digitsToNat ds : Int)) else none
  | '+' :: ds => if !ds.isEmpty && ds.all Char.isDigit then some (digitsToNat ds : Int) else none
  | ds => if ds.all Char.isDigit then some (digitsToNat ds : Int) else none

/-- The conversion `Number(s)` of a string, on the integer number domain: as in JavaScript
for the empty string, white space and signed runs of decimal digits of value up to 2^53. -/
def strToNum (s : String) : Option Int := parseInteger (trimSpaces s.toList)

mutual
/-- The conversion `Number(v)` (`ToNumber`); `none` is `NaN`.  An array converts through its
string form: `[]` is `0`, a one-element array converts as its element does, longer ones are
`NaN`. -/
def toNumber : JVal → Option Int
  | .undefined => none
  | .null => some 0
  | .nan => none
  | .bool b => some (if b then 1 else 0)
  | .num n => some n
  | .str s => strToNum s
  | .arr xs => toNumberElems xs
  | .obj _ => none
/-- The conversion `Number` of an array, from its elements. -/
def toNumberElems : List JVal → Option Int
  | [] => some 0
  | [.undefined] => some 0
  | [.null] => some 0
  | [.bool _] => none
  | [.obj _] => none
  | [x] => toNumber x
  | _ => none
end

/-- Addition of numbers, exact: as in JavaScript when the operands and the sum are integers
of magnitude up to 2^53 (`Exact`). -/
def numAdd : Option Int → Option Int → Option Int
  | some a, some b => some (a + b)
  | _, _ => none

/-- Multiplication of numbers, exact: as in JavaScript when the operands and the product are
integers of magnitude up to 2^53 (`Exact`). -/
def numMul : Option Int → Option Int → Option Int
  | some a, some b => some (a * b)
  | _, _ => none

/-- The comparison `a >= b` on numbers; false when either side is `NaN`. -/
def numGe : Option Int → Option Int → Bool
  | some a, some b => decide (b ≤ a)
  | _, _ => false

/-- The comparison `a > b` on numbers; false when either side is `NaN`. -/
def numGt : Option Int → Option Int → Bool
  | some a, some b => decide (b < a)
  | _, _ => false

/-- The call `Math.max(floor, ...xs)`: every argument is converted with `Number`, and one
`NaN` makes the result `NaN`. -/
def mathMax (floor : Int) (xs : List JVal) : Option Int :=
  xs.foldl (fun acc x =>
    match acc, toNumber x with
    | some a, some b => some (max a b)
    | _, _ => none) (some floor)

/-- The bound 2^53: every integer of magnitude up to it is a JavaScript number. -/
def maxExact : Int := 9007199254740992

/-- An integer in the range where JavaScript holds every integer and computes sums, products,
maxima and comparisons of integers exactly (results included): magnitude at most 2^53. -/
def Exact (n : Int) : Prop := -maxExact ≤ n ∧ n ≤ maxExact

/-- Strict equality `a === b`.  Arrays and objects are compared by identity; every array or
object the module compares is a fresh one, so the comparison is false. -/
def strictEq : JVal → JVal → Bool
  | .undefined, .undefined => true
  | .null, .null => true
  | .bool a, .bool b => a == b
  | .num a, .num b => a == b
  | .str a, .str b => a == b
  | _, _ => false

/-! ## Objects -/

/-- The binding of a key in a property list, the last one listed winning (as in JSON text). -/
def lookupLast : Fields → String → Option JVal
  | [], _ => none
  | (k', v) :: fs, k =>
    match lookupLast fs k with
    | some w => some w
    | none => if k' = k then some v else none

/-- Property read on a property list: `undefined` for a missing key. -/
def getField (fs : Fields) (k : String) : JVal := (lookupLast fs k).getD .undefined

/-- Property write: an existing key keeps its place and takes the new value, a new key goes
last. -/
def objSet (fs : Fields) (k : String) (v : JVal) : Fields :=
  if (lookupLast fs k).isSome then fs.map (fun e => if e.1 = k then (k, v) else e)
  else fs ++ [(k, v)]

/-- Index keys `0, 1, ...` for the elements of a list. -/
def indexed (xs : List JVal) : Fields :=
  xs.enum.map (fun p => (toString p.1, p.2))

/-- Own enumerable properties, as an object spread `{...v}` copies them: the properties of an
object, the indexed elements of an array, the indexed characters of a string, nothing for
any other value. -/
def ownEntries : JVal → Fields
  | .obj fs => fs
  | .arr xs => indexed xs
  | .str s => indexed (s.toList.map (fun c => JVal.str (String.singleton c)))
  | _ => []

/-- Object spread into a literal under construction: `{ ...target, ...src }`. -/
def spread (target : Fields) (src : JVal) : Fields :=
  (ownEntries src).foldl (fun acc e => objSet acc e.1 e.2) target

/-- Property read `v.k`: a `TypeError` on `null` and `undefined`, the property of an object,
`undefined` on every other value (the module reads no built-in property name). -/
def getProp (v : JVal) (k : String) : JsM JVal :=
  match v with
  | .undefined => throw .typeError
  | .null => throw .typeError
  | .obj fs => pure (getField fs k)
  | _ => pure .undefined

/-- Receiver of an array method in `(v || []).map(...)`, `.filter`, `.find`: the list of
elements, or a `TypeError` when `v` is truthy and not an array. -/
def listOrEmpty (v : JVal) : JsM (List JVal) :=
  match jsOr v (.arr []) with
  | .arr xs => pure xs
  | _ => throw .typeError

/-- Assignment `data.k = v`.  On an object it writes the property; on a primitive it is
silently ignored (the simulator is sloppy-mode code); on an array it sets a named property,
which `JSON.stringify` does not serialise; on `null` and `undefined` it is a `TypeError`. -/
def setProp (data : JVal) (k : String) (v : JVal) : JsM JVal :=
  match data with
  | .undefined => throw .typeError
  | .null => throw .typeError
  | .obj fs => pure (.obj (objSet fs k v))
  | d => pure d

/-- What `data.k` reads right after the assignment `data.k = v`: the value on an object or an
array, `undefined` on a primitive. -/
def propAfterSet (data : JVal) (v : JVal) : JVal :=
  match data with
  | .obj _ => v
  | .arr _ => v
  | _ => .undefined

/-! ## Strings made from values -/

/-- Joins strings with commas, as `Array.prototype.join` does. -/
def joinComma : List String → String
  | [] => ""
  | [s] => s
  | s :: rest => s ++ "," ++ joinComma rest

/-- The string form of a number: decimal digits, or `NaN`. -/
def numToString : Option Int → String
  | some n => toString n
  | none => "NaN"

mutual
/-- The conversion `String(v)`, as template literals apply it. -/
def jsToString : JVal → String
  | .undefined => "undefined"
  | .null => "null"
  | .nan => "NaN"
  | .bool b => if b then "true" else "false"
  | .num n => toString n
  | .str s => s
  | .arr xs => joinComma (elemStrings xs)
  | .obj _ => "[object Object]"
/-- String forms of array elements: `null` and `undefined` give the empty string. -/
def elemStrings : List JVal → List String
  | [] => []
  | .undefined :: xs => "" :: elemStrings xs
  | .null :: xs => "" :: elemStrings xs
  | x :: xs => jsToString x :: elemStrings xs
end

/-- The call `s.padStart(n, '0')`. -/
def padStart (n : Nat) (s : String) : String :=
  String.mk (List.replicate (n - s.length) '0') ++ s

/-- The call `s.slice(-n)`: the last `n` characters. -/
def sliceLast (n : Nat) (s : String) : String :=
  String.mk (s.toList.drop (s.length - n))

/-! ## JSON round trip -/

mutual
/-- What `JSON.parse(JSON.stringify(v))` returns: `NaN` becomes `null`, an `undefined` array
element becomes `null`, a property bound to `undefined` is dropped. -/
def jsonify : JVal → JVal
  | .undefined => .null
  | .nan => .null
  | .arr xs => .arr (jsonifyList xs)
  | .obj fs => .obj (jsonifyFields fs)
  | v => v
/-- The round trip on the elements of an array. -/
def jsonifyList : List JVal → List JVal
  | [] => []
  | x :: xs => jsonify x :: jsonifyList xs
/-- The round trip on the properties of an object.  Keys are unique in a JavaScript object;
were a key listed twice, the binding kept is the last one, the one property reads return. -/
def jsonifyFields : List (String × JVal) → List (String × JVal)
  | [] => []
  | (k, v) :: fs =>
    if (lookupLast fs k).isSome then jsonifyFields fs
    else match v with
      | .undefined => jsonifyFields fs
      | w => (k, jsonify w) :: jsonifyFields fs
end

/-! ## Browser storage -/

/-- A string that is only handed to `JSON.parse`, by what `JSON.parse` makes of it. -/
inductive Text where
  /-- The empty string: falsy, and `JSON.parse` throws on it. -/
  | empty
  /-- A non-empty string that is not JSON: `JSON.parse` throws on it. -/
  | junk
  /-- A non-empty string that parses to `v`. -/
  | json (v : JVal)
  deriving Inhabited, Repr

/-- A stored expiry timestamp, by what `new Date(...)` makes of it. -/
inductive DateText where
  /-- The empty string. -/
  | empty
  /-- A non-empty string that is not a date. -/
  | invalid
  /-- The ISO form of the instant `t`, in milliseconds. -/
  | at (t : Int)
  deriving DecidableEq, Repr

/-- The keys of `localStorage` that the module reads or writes; `none` is an absent key. -/
structure Storage where
  token : Option String := none
  access_token : Option String := none
  refreshToken : Option String := none
  refresh_token : Option String := none
  tokenExpiry : Option DateText := none
  userData : Option String := none
  demo_mode : Option String := none
  demo_data_v3 : Option Text := none
  demo_data_v2 : Option Text := none
  demo_data_v1 : Option Text := none
  deriving Repr

/-- Truthiness of what `localStorage.getItem` returned for a JSON key. -/
def textTruthy : Option Text → Bool
  | none => false
  | some .empty => false
  | some _ => true

/-- The call `JSON.parse(s)` inside the `try` of `getDemoData`: a text that does not parse
lands in the `catch`, which returns the empty object. -/
def parseOrEmpty : Option Text → JVal
  | some (.json v) => v
  | _ => .obj []

/-- The function `getDemoData` (api.js lines 42-52). -/
def getDemoData (ls : Storage) : JVal :=
  if textTruthy ls.demo_data_v3 then parseOrEmpty ls.demo_data_v3
  else if textTruthy ls.demo_data_v2 then parseOrEmpty ls.demo_data_v2
  else if textTruthy ls.demo_data_v1 then parseOrEmpty ls.demo_data_v1
  else .obj []

/-- The function `saveDemoData` (api.js lines 54-56): the document is written as JSON text
under `demo_data_v3`. -/
def saveDemoData (ls : Storage) (data : JVal) : Storage :=
  { ls with demo_data_v3 := some (.json (jsonify data)) }

/-! ## Request options and routing helpers -/

/-- The `options` argument of a request: method and body (headers are added by `API`). -/
structure Options where
  method : Option String := none
  body : Option Text := none
  authorization : Option String := none
  deriving Repr

/-- The expression `(options.method || 'GET').toUpperCase()`. -/
def methodOf (options : Options) : String :=
  match options.method with
  | none => "GET"
  | some m => if m = "" then "GET" else String.mk (m.toList.map Char.toUpper)

/-- The closure `jsonBody` (api.js lines 64-70): the parsed body, or the empty object when
the body is absent, empty or does not parse. -/
def jsonBody (options : Options) : JVal :=
  match options.body with
  | some (.json v) => v
  | _ => .obj []

/-- The expression `endpoint.split('?')[0]`. -/
def pathOf (endpoint : String) : List Char :=
  endpoint.toList.takeWhile (fun c => c != '?')

/-- The query string: `endpoint.split('?')[1]` when the endpoint has a `?`, else empty. -/
def queryOf (endpoint : String) : List Char :=
  ((endpoint.toList.dropWhile (fun c => c != '?')).drop 1).takeWhile (fun c => c != '?')

/-- The test `path.startsWith(p)`. -/
def startsWith (path : List Char) (p : String) : Bool := p.toList.isPrefixOf path

/-- The optional final slash of a pattern ending in `\/?$`. -/
def stripSlash (cs : List Char) : List Char :=
  if cs.getLast? = some '/' then cs.dropLast else cs

/-- A match of the pattern `pre(\d+)$`, not anchored at the start: the number read from
the final run of digits, when that run is not empty and follows `pre`.  The number is read
exactly, as `Number(match[1])` reads a run of value up to 2^53 (`ExactDigits`). -/
def matchIdSuffix (pre : String) (cs : List Char) : Option Nat :=
  let ds := (cs.reverse.takeWhile Char.isDigit).reverse
  let rest := (cs.reverse.dropWhile Char.isDigit).reverse
  if !ds.isEmpty && pre.toList.isSuffixOf rest then some (digitsToNat ds) else none

/-- Removes a final `suf`, when present. -/
def dropSuffix? (suf : String) (cs : List Char) : Option (List Char) :=
  if suf.toList.isSuffixOf cs then some (cs.take (cs.length - suf.length)) else none

/-- The pattern `/\/api\/lots\/(\d+)\/?$/`: the captured id. -/
def lotMatch (path : List Char) : Option Nat :=
  matchIdSuffix "/api/lots/" (stripSlash path)

/-- A match of a pattern `pre(\d+)\/(a1|a2|...)\/?$`: the captured id and action. -/
def actionMatch (pre : String) (actions : List String) (path : List Char) :
    Option (Nat × String) :=
  actions.findSome? (fun a =>
    match dropSuffix? ("/" ++ a) (stripSlash path) with
    | some rest => (matchIdSuffix pre rest).map (fun id => (id, a))
    | none => none)

/-- The pattern for procurement-order actions (api.js line 164). -/
def approvActionMatch (path : List Char) : Option (Nat × String) :=
  actionMatch "/api/approvisionnements/" ["mark_in_transit", "mark_delivered", "cancel"] path

/-- The pattern for sale actions (api.js line 213). -/
def venteMatch (path : List Char) : Option (Nat × String) :=
  actionMatch "/api/ventes/" ["valider", "annuler"] path

/-- The pattern `/utilisateur=(\d+)/` on the query string: the first place where
`utilisateur=` is followed by a digit, and the number read there, exactly, as
`Number(match[1])` reads a run of value up to 2^53 (`ExactDigits`). -/
def userParam : List Char → Option Nat
  | [] => none
  | c :: cs =>
    let ds := ((c :: cs).drop 12).takeWhile Char.isDigit
    if startsWith (c :: cs) "utilisateur=" && !ds.isEmpty then some (digitsToNat ds)
    else userParam cs

/-- The test `queryString.includes('utilisateur=')`. -/
def hasUserParam : List Char → Bool
  | [] => false
  | c :: cs => startsWith (c :: cs) "utilisateur=" || hasUserParam cs

/-! ## The demo simulator -/

/-- The expression `data.k || []` that the read-only routes return. -/
def collection (data : JVal) (k : String) : JsM JVal := do
  let v ← getProp data k
  pure (jsOr v (.arr []))

/-- The method `xs.map(f)` for a callback that may throw. -/
def mapE {α β : Type} (f : α → JsM β) : List α → JsM (List β)
  | [] => pure []
  | x :: xs => do
    let y ← f x
    let ys ← mapE f xs
    pure (y :: ys)

/-- The method `xs.filter(p)` for a callback that may throw. -/
def filterE {α : Type} (p : α → JsM Bool) : List α → JsM (List α)
  | [] => pure []
  | x :: xs => do
    let keep ← p x
    let ys ← filterE p xs
    pure (if keep then x :: ys else ys)

/-- The method `xs.find(p)`: the first element that satisfies `p`. -/
def findM (p : JVal → JsM Bool) : List JVal → JsM (Option JVal)
  | [] => pure none
  | x :: xs => do
    if (← p x) then pure (some x) else findM p xs

/-- A spread `[...v]`: the elements of an array, the characters of a string, a `TypeError`
on anything else. -/
def iterList (v : JVal) : JsM (List JVal) :=
  match v with
  | .arr xs => pure xs
  | .str s => pure (s.toList.map (fun c => JVal.str (String.singleton c)))
  | _ => throw .typeError

/-- The receiver of an array method called without a guard: the elements of an array, a
`TypeError` on anything else (`undefined` has no properties; a string, a number or a record
has no such method). -/
def arrayOf (v : JVal) : JsM (List JVal) :=
  match v with
  | .arr xs => pure xs
  | _ => throw .typeError

/-- The expression `Number(x) || 0` inside a `reduce`: `NaN` counts as `0`. -/
def numOrZero (v : JVal) : Int := (toNumber v).getD 0

/-- Property read on a value the simulator has just built with an object literal. -/
def propOf (v : JVal) (k : String) : JVal :=
  match v with
  | .obj fs => getField fs k
  | _ => .undefined

/-- The callback `l => l.id_lot` (api.js line 88). -/
def lotIdOf (l : JVal) : JsM JVal := getProp l "id_lot"

/-- Route `POST /api/lots/` (api.js lines 86-93): the new lot and the updated document. -/
def createLot (data payload : JVal) : JsM (JVal × JVal) := do
  let lots ← listOrEmpty (← getProp data "lots")
  let ids ← mapE lotIdOf lots
  let nextId := numAdd (mathMax 0 ids) (some 1)
  let lot := JVal.obj (spread [("id_lot", ofNum nextId)] payload)
  let data' ← setProp data "lots" (.arr (lots ++ [lot]))
  pure (lot, data')

/-- Route `PUT /api/lots/{id}/` (api.js lines 95-101). -/
def updateLot (data payload : JVal) (id : Nat) : JsM (JVal × JVal) := do
  let lots ← listOrEmpty (← getProp data "lots")
  let lots' ← mapE (fun l => do
    if strictEq (← getProp l "id_lot") (.num id) then
      pure (JVal.obj (spread (spread [] l) payload))
    else pure l) lots
  let data' ← setProp data "lots" (.arr lots')
  let cur ← arrayOf (propAfterSet data (.arr lots'))
  let found ← findM (fun l => do pure (strictEq (← getProp l "id_lot") (.num id))) cur
  pure (jsOr (found.getD .undefined) payload, data')

/-- Route `DELETE /api/lots/{id}/` (api.js lines 102-107). -/
def deleteLot (data : JVal) (id : Nat) : JsM (JVal × JVal) := do
  let lots ← listOrEmpty (← getProp data "lots")
  let lots' ← filterE (fun l => do pure (!(strictEq (← getProp l "id_lot") (.num id)))) lots
  let data' ← setProp data "lots" (.arr lots')
  pure (.obj [("success", .bool true)], data')

/-- The predicate of the `find` over the products (api.js line 122). -/
def sameProduit (l p : JVal) : JsM Bool := do
  let pid ← getProp p "id_produit"
  let ref ← getProp l "produit"
  pure (strictEq pid (ofNum (toNumber ref)))

/-- One line of a new procurement order (api.js lines 121-132); `idx` is its position. -/
def makeLigne (produits : JVal) (nextId : Option Int) (idx : Nat) (l : JVal) : JsM JVal := do
  let candidates ← listOrEmpty produits
  let found ← findM (sameProduit l) candidates
  let produit := jsOr (found.getD .undefined) (.obj [])
  let ref ← getProp l "produit"
  let nom ← getProp l "produit_nom"
  let qc ← getProp l "quantite_commandee"
  let q ← getProp l "quantite"
  pure (.obj [
    ("id_ligne", ofNum (numAdd (numAdd (numMul nextId (some 100)) (some idx)) (some 1))),
    ("produit_id", ref),
    ("produit_nom", jsOr (jsOr (propOf produit "nom_produit") nom) (.str "Produit")),
    ("produit_unite", jsOr (propOf produit "unite") (.str "kg")),
    ("quantite_commandee", ofNum (toNumber (jsOr (jsOr qc q) (.num 0)))),
    ("quantite_recue", .num 0),
    ("statut_ligne", .str "pending")])

/-- The callback `(l, idx) => ...` of the `map` over the supplied lines. -/
def makeLigneAt (produits : JVal) (nextId : Option Int) (p : Nat × JVal) : JsM JVal :=
  makeLigne produits nextId p.1 p.2

/-- The callback `a => a.id_approvisionnement || 0` (api.js line 119). -/
def approvIdOrZero (a : JVal) : JsM JVal := do
  pure (jsOr (← getProp a "id_approvisionnement") (.num 0))

/-- The generated order number `APP-20260223-NNNN`. -/
def numeroCommande (nextId : Option Int) : String :=
  "APP-20260223-" ++ padStart 4 (numToString nextId)

/-- Route `POST /api/approvisionnements/` (api.js lines 117-150). -/
def createApprov (now : String) (data payload : JVal) : JsM (JVal × JVal) := do
  let approvs ← listOrEmpty (← getProp data "approvisionnements")
  let ids ← mapE approvIdOrZero approvs
  let nextId := numAdd (mathMax 0 ids) (some 1)
  let produits := jsOr (← getProp data "produits") (.arr [])
  let supplied ← listOrEmpty (← getProp payload "lignes")
  let lignes ← mapE (makeLigneAt produits nextId) supplied.enum
  let totalCommandee := lignes.foldl
    (fun sum l => sum + numOrZero (propOf l "quantite_commandee")) (0 : Int)
  let approv := JVal.obj [
    ("id_approvisionnement", ofNum nextId),
    ("numero_commande",
      jsOr (← getProp payload "numero_commande") (.str (numeroCommande nextId))),
    ("fournisseur", jsOr (← getProp payload "fournisseur") (.str "Fournisseur demo")),
    ("statut_approvisionnement", .str "pending"),
    ("date_commande", jsOr (← getProp payload "date_commande") (.str now)),
    ("date_livraison_attendue",
      jsOr (← getProp payload "date_livraison_attendue") (.str now)),
    ("entrepot_nom", jsOr (← getProp payload "entrepot_nom") (.str "Entrepot Central")),
    ("gestionnaire_nom",
      jsOr (← getProp payload "gestionnaire_nom") (.str "Gestionnaire Logistique")),
    ("total_quantite_commandee", .num totalCommandee),
    ("total_quantite_recue", .num 0),
    ("lignes", .arr lignes)]
  let data' ← setProp data "approvisionnements" (.arr (approvs ++ [approv]))
  pure (approv, data')

/-- Route `/api/approvisionnements/stats/` (api.js lines 153-162). -/
def approvStats (data : JVal) : JsM JVal := do
  let approvs ← listOrEmpty (← getProp data "approvisionnements")
  let count := fun (s : String) => do
    let hits ← filterE (fun a => do
      pure (strictEq (← getProp a "statut_approvisionnement") (.str s))) approvs
    pure (JVal.num hits.length)
  pure (.obj [
    ("total_pending", ← count "pending"),
    ("total_in_transit", ← count "in_transit"),
    ("total_delivered", ← count "delivered"),
    ("total_cancelled", ← count "cancelled")])

/-- The predicate of the `find` over the receptions (api.js line 179). -/
def sameLigne (l r : JVal) : JsM Bool := do
  let rid ← getProp r "id_ligne"
  let lid ← getProp l "id_ligne"
  pure (strictEq (ofNum (toNumber rid)) (ofNum (toNumber lid)))

/-- One line of an order being marked delivered (api.js lines 178-182). -/
def receiveLigne (payload l : JVal) : JsM JVal := do
  let receptions ← listOrEmpty (← getProp payload "lignes_receptions")
  let found ← findM (sameLigne l) receptions
  let commandee := toNumber (jsOr (← getProp l "quantite_commandee") (.num 0))
  let quantiteRecue ←
    if truthy (found.getD .undefined) then do
      pure (toNumber (jsOr (← getProp (found.getD .undefined) "quantite_recue") (.num 0)))
    else pure commandee
  pure (.obj (objSet (objSet (spread [] l) "quantite_recue" (ofNum quantiteRecue))
    "statut_ligne" (.str (if numGe quantiteRecue commandee then "delivered" else "partial"))))

/-- The callback of the `map` over the stored orders (api.js lines 169-187). -/
def applyApprovAction (id : Nat) (action : String) (payload a : JVal) : JsM JVal := do
  if !(strictEq (← getProp a "id_approvisionnement") (.num id)) then pure a
  else if action = "mark_in_transit" then
    pure (.obj (objSet (spread [] a) "statut_approvisionnement" (.str "in_transit")))
  else if action = "cancel" then do
    let raison ← getProp payload "raison"
    let notes ← getProp a "notes"
    pure (.obj (objSet (objSet (spread [] a) "statut_approvisionnement" (.str "cancelled"))
      "notes" (jsOr raison notes)))
  else if action = "mark_delivered" then do
    let stored ← listOrEmpty (← getProp a "lignes")
    let lignes ← mapE (receiveLigne payload) stored
    let totalRecue := lignes.foldl
      (fun sum l => sum + numOrZero (propOf l "quantite_recue")) (0 : Int)
    pure (.obj (objSet (objSet (objSet (spread [] a)
      "statut_approvisionnement" (.str "delivered"))
      "total_quantite_recue" (.num totalRecue))
      "lignes" (.arr lignes)))
  else pure a

/-- Routes `POST /api/approvisionnements/{id}/{action}/` (api.js lines 165-190). -/
def approvAction (data payload : JVal) (id : Nat) (action : String) : JsM (JVal × JVal) := do
  let approvs ← listOrEmpty (← getProp data "approvisionnements")
  let approvs' ← mapE (applyApprovAction id action payload) approvs
  let data' ← setProp data "approvisionnements" (.arr approvs')
  pure (.obj [("success", .bool true)], data')

/-- The generated invoice number `FAC-20260218-NNNNN`. -/
def numeroFacture (nextId : Option Int) : String :=
  "FAC-20260218-" ++ padStart 5 (sliceLast 5 (numToString nextId))

/-- The callback `v => v.id_vente` (api.js line 198). -/
def venteIdOf (v : JVal) : JsM JVal := getProp v "id_vente"

/-- Route `POST /api/ventes/creer_avec_lignes/` (api.js lines 196-211). -/
def createVente (now : String) (data payload : JVal) : JsM (JVal × JVal) := do
  let ventes ← listOrEmpty (← getProp data "ventes")
  let ids ← mapE venteIdOf ventes
  let nextId := numAdd (mathMax 500 ids) (some 1)
  let supplied ← listOrEmpty (← getProp payload "lignes")
  let amounts ← mapE (fun l => do
    let q ← getProp l "quantite_vendue"
    let p ← getProp l "prix_unitaire"
    pure (numMul (toNumber (jsOr q (.num 0))) (toNumber (jsOr p (.num 0))))) supplied
  let total := amounts.foldl numAdd (some 0)
  let vente := JVal.obj [
    ("id_vente", ofNum nextId),
    ("numero_facture", .str (numeroFacture nextId)),
    ("nom_client", jsOr (← getProp payload "nom_client") (.str "Client demo")),
    ("montant_total", ofNum total),
    ("statut_vente", .str "brouillon"),
    ("date_vente", .str now)]
  let data' ← setProp data "ventes" (.arr (ventes ++ [vente]))
  pure (vente, data')

/-- Routes `POST /api/ventes/{id}/valider/` and `.../annuler/` (api.js lines 214-223). -/
def venteAction (data : JVal) (id : Nat) (action : String) : JsM (JVal × JVal) := do
  let ventes ← listOrEmpty (← getProp data "ventes")
  let ventes' ← mapE (fun v => do
    if !(strictEq (← getProp v "id_vente") (.num id)) then pure v
    else pure (JVal.obj (objSet (spread [] v) "statut_vente"
      (.str (if action = "valider" then "validée" else "annulée"))))) ventes
  let data' ← setProp data "ventes" (.arr ventes')
  pure (.obj [("success", .bool true)], data')

/-- The callback `n => n.id_notification || 0` (api.js lines 234 and 252). -/
def notificationIdOrZero (n : JVal) : JsM JVal := do
  pure (jsOr (← getProp n "id_notification") (.num 0))

/-- The next notification id (api.js lines 234 and 252). -/
def nextNotificationId (notifications : JVal) : JsM (Option Int) := do
  let stored ← listOrEmpty notifications
  let ids ← mapE notificationIdOrZero stored
  pure (numAdd (mathMax 0 ids) (some 1))

/-- Route `POST /api/notifications/generer_alertes/` (api.js lines 232-248); `notifications`
is what `data.notifications` reads after the assignment of line 230. -/
def genererAlertes (now : String) (data notifications : JVal) : JsM (JVal × JVal) := do
  let alertes := jsOr (← getProp data "previsions_alertes") (.arr [])
  let nextId ← nextNotificationId notifications
  let dangers ← filterE (fun a => do
    pure (strictEq (← getProp a "niveau") (.str "danger"))) (← listOrEmpty alertes)
  let nouvelles ← mapE (fun p => do
    let a := p.2
    pure (JVal.obj [
      ("id_notification", ofNum (numAdd nextId (some (p.1 : Nat)))),
      ("type_notification", .str ("alerte_" ++ jsToString (← getProp a "type"))),
      ("message", .str ("⚠️ ALERTE " ++ jsToString (← getProp a "produit_nom") ++ ": " ++
        jsToString (← getProp a "message"))),
      ("date_envoi", .str now)])) dangers.enum
  let current ← iterList notifications
  let data' ← setProp data "notifications" (.arr (current ++ nouvelles))
  pure (.obj [("status", .str "ok"), ("notifications_creees", .num nouvelles.length)], data')

/-- Route `POST /api/notifications/` (api.js lines 250-261). -/
def createNotification (now : String) (data notifications payload : JVal) :
    JsM (JVal × JVal) := do
  let nextId ← nextNotificationId notifications
  let notif := JVal.obj (objSet (spread [("id_notification", ofNum nextId)] payload)
    "date_envoi" (jsOr (← getProp payload "date_envoi") (.str now)))
  let current ← iterList notifications
  let data' ← setProp data "notifications" (.arr (current ++ [notif]))
  pure (notif, data')

/-- Route `GET /api/notifications/?utilisateur=N` (api.js lines 263-269): the call
`data.notifications.filter(...)`. -/
def notificationsOf (notifications : JVal) (userId : Nat) : JsM JVal := do
  let stored ← arrayOf notifications
  let mine ← filterE (fun n => do
    let owner ← getProp n "utilisateur"
    pure (!(truthy owner) || strictEq owner (.num userId))) stored
  pure (.arr mine)

/-- The block for paths under `/api/notifications/` (api.js lines 229-272). -/
def notificationsRoute (now : String) (path query : List Char) (method : String)
    (options : Options) (data : JVal) (ls : Storage) : JsM (JVal × Storage) := do
  let assigned := jsOr (← getProp data "notifications") (.arr [])
  let data1 ← setProp data "notifications" assigned
  let notifications := propAfterSet data assigned
  if path = "/api/notifications/generer_alertes/".toList && method = "POST" then do
    let (res, data') ← genererAlertes now data1 notifications
    pure (res, saveDemoData ls data')
  else if method = "POST" && path = "/api/notifications/".toList then do
    let (res, data') ← createNotification now data1 notifications (jsonBody options)
    pure (res, saveDemoData ls data')
  else
    match (if method = "GET" && hasUserParam query then userParam query else none) with
    | some userId => do pure (← notificationsOf notifications userId, ls)
    | none => pure (jsOr notifications (.arr []), ls)

/-- The function `demoRequest` (api.js lines 58-295): the response and the storage after the
call, or the `TypeError` the call ends with.  `now` is the clock reading, as an ISO string. -/
def demoRequest (now : String) (endpoint : String) (options : Options) (ls : Storage) :
    JsM (JVal × Storage) :=
  let method := methodOf options
  let path := pathOf endpoint
  let query := queryOf endpoint
  let data := getDemoData ls
  let done := fun (r : JsM JVal) => r.map (fun v => (v, ls))
  let saved := fun (r : JsM (JVal × JVal)) => r.map (fun p => (p.1, saveDemoData ls p.2))
  if startsWith path "/api/produits/" then done (collection data "produits")
  else if startsWith path "/api/categories/" then done (collection data "categories")
  else if startsWith path "/api/entrepots/" then done (collection data "entrepots")
  else if startsWith path "/api/lots/" then
    if method = "GET" then done (collection data "lots")
    else if method = "POST" then saved (createLot data (jsonBody options))
    else
      match lotMatch path with
      | some id =>
        if method = "PUT" then saved (updateLot data (jsonBody options) id)
        else if method = "DELETE" then saved (deleteLot data id)
        else done (collection data "lots")
      | none => done (collection data "lots")
  else if startsWith path "/api/mouvements/" then done (collection data "mouvements")
  else if path = "/api/approvisionnements/".toList && method = "GET" then
    done (collection data "approvisionnements")
  else if path = "/api/approvisionnements/".toList && method = "POST" then
    saved (createApprov now data (jsonBody options))
  else if path = "/api/approvisionnements/stats/".toList then done (approvStats data)
  else
    match (if method = "POST" then approvActionMatch path else none) with
    | some (id, action) => saved (approvAction data (jsonBody options) id action)
    | none =>
      if path = "/api/ventes/".toList then done (collection data "ventes")
      else if path = "/api/ventes/creer_avec_lignes/".toList && method = "POST" then
        saved (createVente now data (jsonBody options))
      else
        match (if method = "POST" then venteMatch path else none) with
        | some (id, action) => saved (venteAction data id action)
        | none =>
          if startsWith path "/api/livraisons/" then done (collection data "livraisons")
          else if startsWith path "/api/notifications/" then
            notificationsRoute now path query method options data ls
          else if startsWith path "/api/previsions/tous_resumés/" then
            done (collection data "previsions")
          else if startsWith path "/api/previsions/risques_peremption/" then
            done (collection data "risques_peremption")
          else if startsWith path "/api/previsions/predictions_ml/" then
            done (collection data "predictions_ml")
          else if startsWith path "/api/previsions/alertes_critiques/" then
            done (collection data "previsions_alertes")
          else if startsWith path "/api/utilisateurs/" then
            done (collection data "utilisateurs")
          else pure (.arr [], ls)

/-! ## The remote client -/

/-- The constant `API_CONFIG.BASE_URL`. -/
def BASE_URL : String := "http://localhost:8000"

/-- The constant `API_CONFIG.ENDPOINTS.LOGIN`. -/
def LOGIN : String := "/api/users/login/"

/-- The constant `API_CONFIG.ENDPOINTS.LOGOUT`. -/
def LOGOUT : String := "/api/auth/logout/"

/-- The constant `API_CONFIG.ENDPOINTS.REFRESH_TOKEN`. -/
def REFRESH_TOKEN : String := "/api/token/refresh/"

/-- The test `s.includes(sub)` on character lists. -/
def includesChars (sub : List Char) : List Char → Bool
  | [] => sub.isEmpty
  | c :: cs => sub.isPrefixOf (c :: cs) || includesChars sub cs

/-- The test `s.includes(sub)`. -/
def includes (s sub : String) : Bool := includesChars sub.toList s.toList

/-- What `fetch` is called with. -/
structure Request where
  url : String
  method : Option String
  body : Option Text
  authorization : Option String
  deriving Repr

/-- An HTTP response: status line, whether the content type is JSON, and the body both as
text and as what `JSON.parse` makes of it (`none` when it does not parse). -/
structure Response where
  status : Nat
  statusText : String := ""
  isJson : Bool := true
  bodyJson : Option JVal := none
  bodyText : String := ""
  deriving Repr

/-- The flag `response.ok`: a status in the range 200-299. -/
def Response.ok (r : Response) : Bool := decide (200 ≤ r.status) && decide (r.status ≤ 299)

/-- How a `fetch` ends: aborted by the timeout, rejected for a transport failure, or
answered. -/
inductive FetchResult where
  | aborted
  | failed
  | response (r : Response)
  deriving Repr

/-- A server, in full generality: the answer to the latest request may depend on every
request received so far (the list ends with the latest one). -/
abbrev Server := List Request → FetchResult

/-- The local time zone of the browser, as `Date` uses it.  `offsetAt t` is the offset of
local time from UTC, in milliseconds, in force at the instant `t`: the local getters
(`getHours`) read the instant `t` as the wall-clock time `t + offsetAt t`.  `offsetOfLocal w`
is the offset by which the local setters (`setHours`) read the wall-clock time `w` back as
the instant `w - offsetOfLocal w`; at a wall-clock hour that occurs twice it is the offset
in force before the change.  The default is UTC. -/
structure Zone where
  offsetAt : Int → Int := fun _ => 0
  offsetOfLocal : Int → Int := fun _ => 0

/-- The clock reading used during one call, in milliseconds and as an ISO string, with the
local time zone of the browser. -/
structure Clock where
  ms : Int
  iso : String
  zone : Zone := {}

/-- The instant `expiry` holds after `expiry.setHours(expiry.getHours() + 1)` (api.js lines
478-479): the wall-clock time of the reading, one hour on, read back as an instant. -/
def hourLater (now : Clock) : Int :=
  (now.ms + now.zone.offsetAt now.ms + 3600000) -
    now.zone.offsetOfLocal (now.ms + now.zone.offsetAt now.ms + 3600000)

/-- An `API` instance with its environment: the fields `this.token` and
`this.refreshToken`, `localStorage`, and the log of the requests handed to `fetch`. -/
structure Client where
  token : JVal := .null
  refreshToken : JVal := .null
  storage : Storage := {}
  log : List Request := []
  deriving Repr

/-- How a call of an asynchronous method ends; `pending` is a call still running when the
evaluation budget is used up. -/
inductive Outcome where
  | returned (v : JVal)
  | threw (e : JVal)
  | pending
  deriving Repr

/-- What `localStorage.getItem` returns, as a value: the string, or `null`. -/
def itemValue : Option String → JVal
  | some s => .str s
  | none => .null

/-- The constructor of `API` (api.js lines 300-303). -/
def newClient (ls : Storage) : Client :=
  { token := jsOr (itemValue ls.token) (itemValue ls.access_token),
    refreshToken := jsOr (itemValue ls.refreshToken) (itemValue ls.refresh_token),
    storage := ls }

/-- The method `setTokens` (api.js lines 468-481).  The expiry is the clock reading moved one
hour on in local time (`hourLater`). -/
def setTokens (now : Clock) (accessToken refreshToken : JVal) (c : Client) : Client :=
  { c with
    token := accessToken,
    refreshToken := refreshToken,
    storage := { c.storage with
      token := some (jsToString accessToken),
      access_token := some (jsToString accessToken),
      refreshToken := some (jsToString refreshToken),
      refresh_token := some (jsToString refreshToken),
      tokenExpiry := some (.at (hourLater now)) } }

/-- The method `clearTokens` (api.js lines 483-493). -/
def clearTokens (c : Client) : Client :=
  { c with
    token := .null,
    refreshToken := .null,
    storage := { c.storage with
      token := none, access_token := none, refreshToken := none, refresh_token := none,
      tokenExpiry := none, userData := none } }

/-- The method `isTokenValid` (api.js lines 495-500) at clock reading `now`. -/
def isTokenValid (now : Clock) (c : Client) : Bool :=
  match c.storage.tokenExpiry with
  | some (.at t) => truthy c.token && decide (now.ms < t)
  | _ => false

/-- The exception of an aborted `fetch`. -/
def abortError : JVal :=
  .obj [("name", .str "AbortError"), ("message", .str "The operation was aborted.")]

/-- The exception of a `fetch` that could not reach the server. -/
def networkError : JVal :=
  .obj [("name", .str "TypeError"), ("message", .str "Failed to fetch")]

/-- The exception of `response.json()` on a body that is not JSON. -/
def syntaxError : JVal :=
  .obj [("name", .str "SyntaxError"), ("message", .str "Unexpected token")]

/-- The exception a failing simulator call rejects with. -/
def typeErrorValue : JVal :=
  .obj [("name", .str "TypeError"), ("message", .str "Cannot read properties")]

/-- The method `parseError` (api.js lines 373-387). -/
def parseError (r : Response) : JVal :=
  let fallback := JVal.obj [
    ("status", .num r.status),
    ("message", .str ("HTTP " ++ toString r.status ++ ": " ++ r.statusText))]
  match r.bodyJson with
  | none => fallback
  | some errorData =>
    match getProp errorData "detail", getProp errorData "message" with
    | .ok detail, .ok message =>
      .obj [
        ("status", .num r.status),
        ("message", jsOr (jsOr detail message) (.str ("HTTP " ++ toString r.status))),
        ("data", errorData)]
    | _, _ => fallback

/-- The method `normalizeError` (api.js lines 389-405), on an error that is an object. -/
def normalizeError (error : JVal) : JVal :=
  if strictEq (propOf error "name") (.str "AbortError") then
    .obj [("status", .num 408), ("message", .str "Request timeout")]
  else if truthy (propOf error "status") then error
  else .obj [("status", .num 0), ("message", .str "Network error or server unreachable")]

/-- The header `Authorization` that `request` sends: the caller's own header when the options
carry one, else `Bearer <token>` when a token is known and the endpoint is not an auth
endpoint. -/
def authHeader (isAuthEndpoint : Bool) (options : Options) (c : Client) : Option String :=
  match options.authorization with
  | some a => some a
  | none =>
    let token := jsOr c.token (jsOr (itemValue c.storage.token) (itemValue c.storage.access_token))
    if truthy token && !isAuthEndpoint then some ("Bearer " ++ jsToString token) else none

/-- The test `isAuthEndpoint` of `request` (api.js line 309). -/
def isAuthEndpoint (endpoint : String) : Bool :=
  includes endpoint "/users/login/" || includes endpoint "/token/refresh/"

/-- The request that `request` hands to `fetch` (api.js lines 307-337). -/
def outgoing (endpoint : String) (options : Options) (c : Client) : Request :=
  { url := BASE_URL ++ endpoint,
    method := options.method,
    body := options.body,
    authorization := authHeader (isAuthEndpoint endpoint) options c }

/-- The options of the refresh request: `POST` with the body `{ refresh: <token> }`. -/
def refreshOptions (rt : JVal) : Options :=
  { method := some "POST", body := some (.json (.obj [("refresh", rt)])) }

/-- Records a request handed to `fetch`. -/
def sent (c : Client) (q : Request) : Client := { c with log := c.log ++ [q] }

mutual
/-- The method `API.request` (api.js lines 306-371).  The first argument bounds the depth of
nested calls; with the budget used up the call is `pending`. -/
def request (now : Clock) (srv : Server) :
    Nat → String → Options → Client → Outcome × Client
  | 0, _, _, c => (.pending, c)
  | fuel + 1, endpoint, options, c =>
    if c.storage.demo_mode = some "true" && !isAuthEndpoint endpoint then
      match demoRequest now.iso endpoint options c.storage with
      | .ok (v, ls) => (.returned v, { c with storage := ls })
      | .error _ => (.threw typeErrorValue, c)
    else
      let c1 := sent c (outgoing endpoint options c)
      match srv c1.log with
      | .aborted => (.threw (normalizeError abortError), c1)
      | .failed => (.threw (normalizeError networkError), c1)
      | .response r =>
        if !r.ok then
          if r.status = 401 && truthy c1.refreshToken && !includes endpoint "/auth/refresh/" then
            match refreshAccessToken now srv fuel c1 with
            | (none, c2) => (.pending, c2)
            | (some true, c2) =>
              request now srv fuel endpoint
                { options with authorization := some ("Bearer " ++ jsToString c2.token) } c2
            | (some false, c2) => (.threw (normalizeError (parseError r)), c2)
          else (.threw (normalizeError (parseError r)), c1)
        else if r.isJson then
          match r.bodyJson with
          | some v => (.returned v, c1)
          | none => (.threw (normalizeError syntaxError), c1)
        else (.returned (.str r.bodyText), c1)
/-- The method `API.refreshAccessToken` (api.js lines 448-465); `none` is a call still
running when the budget is used up. -/
def refreshAccessToken (now : Clock) (srv : Server) : Nat → Client → Option Bool × Client
  | 0, c => (none, c)
  | fuel + 1, c =>
    let rt := jsOr c.refreshToken
      (jsOr (itemValue c.storage.refreshToken) (itemValue c.storage.refresh_token))
    let c1 := { c with refreshToken := rt }
    if !truthy rt then (some false, c1)
    else
      match request now srv fuel REFRESH_TOKEN (refreshOptions rt) c1 with
      | (.pending, c2) => (none, c2)
      | (.returned data, c2) =>
        match getProp data "access" with
        | .ok access => (some true, setTokens now access c2.refreshToken c2)
        | .error _ => (some false, clearTokens c2)
      | (.threw _, c2) => (some false, clearTokens c2)
end

/-! ## Servers and traces used to state the retry claims -/

/-- A request to the token-refresh endpoint. -/
def isRefreshRequest (q : Request) : Bool := q.url == BASE_URL ++ REFRESH_TOKEN

/-- Number of token-refresh requests in a log. -/
def refreshCount (log : List Request) : Nat := (log.filter isRefreshRequest).length

/-- Number of requests to a given endpoint in a log. -/
def requestCount (endpoint : String) (log : List Request) : Nat :=
  (log.filter (fun q => q.url == BASE_URL ++ endpoint)).length

/-- A server that accepts every refresh request: it answers 200 with a JSON object. -/
def AcceptsRefresh (srv : Server) : Prop :=
  ∀ log q, q.url = BASE_URL ++ REFRESH_TOKEN →
    ∃ r fs, srv (log ++ [q]) = .response r ∧ r.ok = true ∧ r.isJson = true ∧
      r.bodyJson = some (.obj fs)

/-- A server that answers 401 to every request that is not a refresh request. -/
def Rejects401 (srv : Server) : Prop :=
  ∀ log q, q.url ≠ BASE_URL ++ REFRESH_TOKEN →
    ∃ r, srv (log ++ [q]) = .response r ∧ r.status = 401

/-- A server that gives the answers `r1`, `r2`, `r3` to the first three requests. -/
def AnswersInTurn (srv : Server) (r1 r2 r3 : Response) : Prop :=
  (∀ q1, srv [q1] = .response r1) ∧ (∀ q1 q2, srv [q1, q2] = .response r2) ∧
    (∀ q1 q2 q3, srv [q1, q2, q3] = .response r3)

/-- The server of the retry scenario: 200 with a fresh access token for a refresh request,
401 for everything else. -/
def expiringServer : Server := fun log =>
  match log.getLast? with
  | some q =>
    if q.url = BASE_URL ++ REFRESH_TOKEN then
      .response { status := 200, bodyJson := some (.obj [("access", .str "a2")]) }
    else .response { status := 401 }
  | none => .failed

/-- A server that answers 401 to every request. -/
def unauthorizedServer : Server := fun _ => .response { status := 401 }

/-- A server that answers 401, then accepts a refresh, then answers 200 with an empty list. -/
def recoveringServer : Server := fun log =>
  match log.length with
  | 1 => .response { status := 401 }
  | 2 => .response { status := 200, bodyJson := some (.obj [("access", .str "a2")]) }
  | _ => .response { status := 200, bodyJson := some (.arr []) }

/-- A logged-in client in remote mode: access token `a1`, refresh token `r1`. -/
def loggedIn : Client := { token := .str "a1", refreshToken := .str "r1" }

/-- A fixed clock reading. -/
def noon : Clock := { ms := 0, iso := "2026-02-23T12:00:00.000Z" }

/-! ## Predicates used to state the simulator claims -/

/-- The round trip on what a property read finds: a property bound to `undefined` is gone,
any other value is round-tripped. -/
def jsonProp : Option JVal → Option JVal
  | some .undefined => none
  | some v => some (jsonify v)
  | none => none

/-- A non-empty run of decimal digits: the `{id}` part of a path. -/
def IsDigits (ds : List Char) : Prop := ds ≠ [] ∧ ∀ c ∈ ds, c.isDigit = true

/-- A non-empty run of decimal digits of value at most 2^53: an id that `Number(match[1])`
reads exactly, as `digitsToNat` does. -/
def ExactDigits (ds : List Char) : Prop := IsDigits ds ∧ (digitsToNat ds : Int) ≤ maxExact

/-- A value that `Number` converts as the model does and that computes exactly: a falsy
value (missing, `null`, `false`, `0`, the empty string), or an integer in the exact range. -/
def Whole (v : JVal) : Prop := truthy v = false ∨ ∃ n : Int, v = .num n ∧ Exact n

/-- The endpoint `/api/approvisionnements/{id}/{action}/`, the id written with the digits
`ds`. -/
def approvActionPath (ds : List Char) (action : String) : String :=
  String.mk ("/api/approvisionnements/".toList ++ (ds ++ ("/" ++ action).toList ++ ['/']))

/-- The options of a `POST` with a JSON body `v`. -/
def postJson (v : JVal) : Options := { method := some "POST", body := some (.json v) }

/-- A value whose properties can be read: anything but `null` and `undefined`. -/
def Readable (v : JVal) : Prop := v ≠ .null ∧ v ≠ .undefined

/-- A property that is missing (or otherwise falsy) or holds an array of readable values:
what `(v || []).map(x => x.k)` needs in order not to throw. -/
def ReadableList (v : JVal) : Prop :=
  ∃ xs, listOrEmpty v = .ok xs ∧ ∀ x ∈ xs, Readable x

/-- The elements of `v || []` when that is an array, else none. -/
def elemsOf (v : JVal) : List JVal :=
  match jsOr v (.arr []) with
  | .arr xs => xs
  | _ => []

/-- The ordered quantity the simulator reads from a line: `Number(l.quantite_commandee || 0)`. -/
def orderedOf (l : JVal) : Option Int := toNumber (jsOr (propOf l "quantite_commandee") (.num 0))

/-- The reception the simulator picks for a line: the first one whose `id_ligne` is, as a
number, the line's `id_ligne`. -/
def receptionFor (payload l : JVal) : Option JVal :=
  (elemsOf (propOf payload "lignes_receptions")).find? (fun r =>
    strictEq (ofNum (toNumber (propOf r "id_ligne"))) (ofNum (toNumber (propOf l "id_ligne"))))

/-- The received quantity the simulator gives a line (api.js line 180). -/
def receivedOf (payload l : JVal) : Option Int :=
  match receptionFor payload l with
  | some r => toNumber (jsOr (propOf r "quantite_recue") (.num 0))
  | none => orderedOf l

/-- The line written by `mark_delivered` for the stored line `l` (api.js line 181). -/
def receivedLine (payload l : JVal) : JVal :=
  .obj (objSet (objSet (spread [] l) "quantite_recue" (ofNum (receivedOf payload l)))
    "statut_ligne"
    (.str (if numGe (receivedOf payload l) (orderedOf l) then "delivered" else "partial")))

/-- An object (a record). -/
def IsObj (v : JVal) : Prop := ∃ fs, v = .obj fs

/-- A property that is falsy or holds an array of objects. -/
def ObjList (v : JVal) : Prop := ∃ xs, listOrEmpty v = .ok xs ∧ ∀ x ∈ xs, IsObj x

/-- A stored procurement order the simulator can process: an object whose `lignes`, when
present, is an array of objects. -/
def OrderShape (a : JVal) : Prop := IsObj a ∧ ObjList (propOf a "lignes")

/-- A body the order actions can process: not `null`, with `lignes_receptions`, when present,
an array without `null`. -/
def BodyShape (payload : JVal) : Prop :=
  Readable payload ∧ ReadableList (propOf payload "lignes_receptions")

/-- The test `a.id_approvisionnement === id` that selects the order an action applies to. -/
def isTarget (id : Nat) (a : JVal) : Bool :=
  strictEq (propOf a "id_approvisionnement") (.num id)

/-- The order written by `mark_delivered` for the stored order `a` (api.js lines 178-184). -/
def deliveredOrder (payload a : JVal) : JVal :=
  .obj (objSet (objSet (objSet (spread [] a)
    "statut_approvisionnement" (.str "delivered"))
    "total_quantite_recue" (.num (((elemsOf (propOf a "lignes")).map (receivedLine payload)).foldl
      (fun sum l => sum + numOrZero (propOf l "quantite_recue")) (0 : Int))))
    "lignes" (.arr ((elemsOf (propOf a "lignes")).map (receivedLine payload))))

/-- The order an action writes in place of the stored order `a` (api.js lines 169-187), when
nothing throws. -/
def actedOrder (id : Nat) (action : String) (payload a : JVal) : JVal :=
  if !isTarget id a then a
  else if action = "mark_in_transit" then
    .obj (objSet (spread [] a) "statut_approvisionnement" (.str "in_transit"))
  else if action = "cancel" then
    .obj (objSet (objSet (spread [] a) "statut_approvisionnement" (.str "cancelled"))
      "notes" (jsOr (propOf payload "raison") (propOf a "notes")))
  else if action = "mark_delivered" then deliveredOrder payload a
  else a

/-- The value every action route returns: `{ success: true }`. -/
def successValue : JVal := .obj [("success", .bool true)]

/-- The round trip on a property: `undefined` (a missing property) stays `undefined`. -/
def jsonField : JVal → JVal
  | .undefined => .undefined
  | v => jsonify v

/-- The stored procurement orders, as every route reads them:
`data.approvisionnements || []`. -/
def storedOrders (ls : Storage) : List JVal :=
  elemsOf (propOf (getDemoData ls) "approvisionnements")

/-- The stored document is an object whose procurement orders, when present, are an array of
orders the simulator can process. -/
def OrdersShape (ls : Storage) : Prop :=
  IsObj (getDemoData ls) ∧
    (∃ xs, listOrEmpty (propOf (getDemoData ls) "approvisionnements") = .ok xs) ∧
    ∀ a ∈ storedOrders ls, OrderShape a

/-- The status an action gives the order it applies to. -/
def statusAfter (action : String) : String :=
  if action = "mark_in_transit" then "in_transit"
  else if action = "cancel" then "cancelled"
  else "delivered"

/-- A document with one order, of id 7, already cancelled, with two lines. -/
def sampleOrders : Storage :=
  { demo_data_v3 := some (.json (.obj [("approvisionnements", .arr [.obj [
      ("id_approvisionnement", .num 7),
      ("statut_approvisionnement", .str "cancelled"),
      ("lignes", .arr [
        .obj [("id_ligne", .num 701), ("quantite_commandee", .num 10),
          ("quantite_recue", .num 0), ("statut_ligne", .str "pending")],
        .obj [("id_ligne", .num 702), ("quantite_commandee", .num 4),
          ("quantite_recue", .num 0), ("statut_ligne", .str "pending")]])]])])) }

/-- The comparison `a < b` on numbers; false when either side is `NaN`. -/
def numLt : Option Int → Option Int → Bool
  | some a, some b => decide (a < b)
  | _, _ => false

/-- The sum `x1 + x2 + ...` of numbers, starting from `0`; `NaN` if one of them is. -/
def sumNum (xs : List (Option Int)) : Option Int := xs.foldl numAdd (some 0)

/-- One per-line receipt `{ id_ligne, quantite_recue }` of a delivery body. -/
def receiptValue (r : Int × Int) : JVal :=
  .obj [("id_ligne", .num r.1), ("quantite_recue", .num r.2)]

/-- The body of `mark_delivered` for a list of per-line receipts (line id, quantity). -/
def receiptsBody (receipts : List (Int × Int)) : JVal :=
  .obj [("lignes_receptions", .arr (receipts.map receiptValue))]

/-- The quantity supplied for a line: that of the first receipt whose line id is the id of
the line. -/
def suppliedFor (receipts : List (Int × Int)) (l : JVal) : Option Int :=
  (receipts.find? (fun r => toNumber (propOf l "id_ligne") == some r.1)).map (fun r => r.2)

/-- What the claim says of a line `l` and the line `l'` stored in its place by
`mark_delivered`. -/
def LineDelivered (receipts : List (Int × Int)) (l l' : JVal) : Prop :=
  (∀ q, suppliedFor receipts l = some q → propOf l' "quantite_recue" = .num q) ∧
  (numLt (toNumber (propOf l' "quantite_recue")) (orderedOf l) = true →
    propOf l' "statut_ligne" = .str "partial") ∧
  (numGe (toNumber (propOf l' "quantite_recue")) (orderedOf l) = true →
    propOf l' "statut_ligne" = .str "delivered")

/-- What the claim says of an order `a` and the order `a'` stored in its place by
`mark_delivered`. -/
def OrderDelivered (receipts : List (Int × Int)) (a a' : JVal) : Prop :=
  propOf a' "statut_approvisionnement" = .str "delivered" ∧
  ∃ lignes', propOf a' "lignes" = .arr lignes' ∧
    List.Forall₂ (LineDelivered receipts) (elemsOf (propOf a "lignes")) lignes' ∧
    propOf a' "total_quantite_recue" =
      ofNum (sumNum (lignes'.map (fun l' => toNumber (propOf l' "quantite_recue"))))

/-- A body for order creation with one line that refers to an unknown product and supplies
its own name and unit. -/
def unitBody : JVal :=
  .obj [("lignes", .arr [.obj [
    ("produit", .num 9), ("produit_nom", .str "Sardine"), ("produit_unite", .str "caisse"),
    ("unite", .str "caisse"), ("quantite_commandee", .num 2)]])]

/-- The lines of an order. -/
def lignesOf (a : JVal) : List JVal := elemsOf (propOf a "lignes")

/-- Storage whose demo document is the JSON text `null`. -/
def nullDocument : Storage := { demo_data_v3 := some (.json .null) }

/-- Storage whose demo document has a `lots` property that is not a list. -/
def lotsNotAList : Storage :=
  { demo_data_v3 := some (.json (.obj [("lots", .str "aucun")])) }

/-- The stored lots, as every route reads them: `data.lots || []`. -/
def storedLots (ls : Storage) : List JVal := elemsOf (propOf (getDemoData ls) "lots")

/-- The stored document is an object whose lots, when present, are an array of records with
integer ids. -/
def LotsShape (ls : Storage) : Prop :=
  IsObj (getDemoData ls) ∧
    (∃ xs, listOrEmpty (propOf (getDemoData ls) "lots") = .ok xs) ∧
    ∀ l ∈ storedLots ls, ∃ n : Int, propOf l "id_lot" = .num n

/-- The body carries no property `k` of its own. -/
def NoKey (k : String) (payload : JVal) : Prop := lookupLast (ownEntries payload) k = none

/-- A sequence of demo-mode calls `POST /api/lots/`, one per element of the list; the result
is the list of the lots returned, in order, and the final storage. -/
def postLots (now : String) : List Options → Storage → JsM (List JVal × Storage)
  | [], ls => pure ([], ls)
  | o :: os, ls => do
    let r ← demoRequest now "/api/lots/" o ls
    let rest ← postLots now os r.2
    pure (r.1 :: rest.1, rest.2)

/-- A document with the single lot of id 1. -/
def oneLot : Storage :=
  { demo_data_v3 := some (.json (.obj [("lots", .arr [.obj [("id_lot", .num 1)]])])) }

/-- The product snapshot the simulator picks for a supplied line (api.js line 122): the first
product whose `id_produit` is the line's `produit` as a number, else the empty object. -/
def produitFor (produits l : JVal) : JVal :=
  jsOr (((elemsOf produits).find? (fun p =>
    strictEq (propOf p "id_produit") (ofNum (toNumber (propOf l "produit"))))).getD .undefined)
    (.obj [])

/-- The line built for the supplied line `l` at position `idx` (api.js lines 123-131), when
nothing throws. -/
def madeLigne (produits : JVal) (nextId : Option Int) (idx : Nat) (l : JVal) : JVal :=
  .obj [
    ("id_ligne", ofNum (numAdd (numAdd (numMul nextId (some 100)) (some idx)) (some 1))),
    ("produit_id", propOf l "produit"),
    ("produit_nom", jsOr (jsOr (propOf (produitFor produits l) "nom_produit")
      (propOf l "produit_nom")) (.str "Produit")),
    ("produit_unite", jsOr (propOf (produitFor produits l) "unite") (.str "kg")),
    ("quantite_commandee", ofNum (toNumber
      (jsOr (jsOr (propOf l "quantite_commandee") (propOf l "quantite")) (.num 0)))),
    ("quantite_recue", .num 0),
    ("statut_ligne", .str "pending")]

/-- The id given to a new order (api.js line 119). -/
def nextApprovId (orders : List JVal) : Option Int :=
  numAdd (mathMax 0 (orders.map (fun a => jsOr (propOf a "id_approvisionnement") (.num 0))))
    (some 1)

/-- The stored document and the body are such that order creation does not throw: the
document is an object whose orders and products, when present, are arrays without `null`;
the body is not `null` and its `lignes`, when present, is an array without `null`. -/
def CreateShape (ls : Storage) (payload : JVal) : Prop :=
  IsObj (getDemoData ls) ∧
    ReadableList (propOf (getDemoData ls) "approvisionnements") ∧
    ReadableList (propOf (getDemoData ls) "produits") ∧
    Readable payload ∧ ReadableList (propOf payload "lignes")

/-- The ordered quantity the simulator gives a created line:
`Number(l.quantite_commandee || l.quantite || 0)`, with `NaN` counted as 0 as the total of
the order counts it (api.js lines 128 and 133). -/
def askedOf (l : JVal) : Int :=
  (toNumber (jsOr (jsOr (propOf l "quantite_commandee") (propOf l "quantite")) (.num 0))).getD 0

/-- The stored orders and the body keep order creation inside the number domain: the
supplied lines are few enough and every stored order id is missing (or otherwise falsy) or
an integer small enough for the new id and the line ids `nextId * 100 + idx + 1` to stay in
the exact range; every supplied line carries a `produit`, a `quantite_commandee` and a
`quantite` that are missing (or otherwise falsy) or integers in the exact range; and the
magnitudes of the ordered quantities sum to at most 2^53, so that the total is computed
exactly. -/
def CreateDomain (ls : Storage) (payload : JVal) : Prop :=
  ((elemsOf (propOf payload "lignes")).length : Int) + 100 ≤ maxExact ∧
  (∀ a ∈ storedOrders ls, truthy (propOf a "id_approvisionnement") = false ∨
    ∃ n : Int, propOf a "id_approvisionnement" = .num n ∧
      (n + 1) * 100 + (elemsOf (propOf payload "lignes")).length ≤ maxExact) ∧
  (∀ l ∈ elemsOf (propOf payload "lignes"),
    Whole (propOf l "produit") ∧ Whole (propOf l "quantite_commandee") ∧
      Whole (propOf l "quantite")) ∧
  ((elemsOf (propOf payload "lignes")).map (fun l => |askedOf l|)).sum ≤ maxExact

/-- What the claim says of a supplied line `l` and the line `l'` created for it. -/
def LineCreated (l l' : JVal) : Prop :=
  propOf l' "produit_id" = jsonField (propOf l "produit") ∧
  propOf l' "quantite_recue" = .num 0 ∧
  propOf l' "statut_ligne" = .str "pending"

/-- What the claim says of the order `a'` created from the body `payload`. -/
def OrderCreated (payload a' : JVal) : Prop :=
  propOf a' "statut_approvisionnement" = .str "pending" ∧
  propOf a' "total_quantite_recue" = .num 0 ∧
  (∃ lignes', propOf a' "lignes" = .arr lignes' ∧
    List.Forall₂ LineCreated (elemsOf (propOf payload "lignes")) lignes' ∧
    propOf a' "total_quantite_commandee" =
      ofNum (sumNum (lignes'.map (fun l' => toNumber (propOf l' "quantite_commandee"))))) ∧
  (truthy (propOf payload "numero_commande") = true →
    propOf a' "numero_commande" = jsonify (propOf payload "numero_commande")) ∧
  (truthy (propOf payload "numero_commande") = false →
    ∃ id, propOf a' "numero_commande" = .str (numeroCommande id))

/-- A body for order creation with two lines and no order number. -/
def twoLinesBody : JVal :=
  .obj [("fournisseur", .str "Pêcherie du Cap"), ("lignes", .arr [
    .obj [("produit", .num 3), ("quantite_commandee", .num 5)],
    .obj [("produit", .num 4), ("quantite", .num 12)]])]

/-- The order built by `POST /api/approvisionnements/` (api.js lines 119-146), when nothing
throws. -/
def createdOrder (now : String) (data payload : JVal) : JVal :=
  .obj [
    ("id_approvisionnement",
      ofNum (nextApprovId (elemsOf (propOf data "approvisionnements")))),
    ("numero_commande", jsOr (propOf payload "numero_commande")
      (.str (numeroCommande (nextApprovId (elemsOf (propOf data "approvisionnements")))))),
    ("fournisseur", jsOr (propOf payload "fournisseur") (.str "Fournisseur demo")),
    ("statut_approvisionnement", .str "pending"),
    ("date_commande", jsOr (propOf payload "date_commande") (.str now)),
    ("date_livraison_attendue", jsOr (propOf payload "date_livraison_attendue") (.str now)),
    ("entrepot_nom", jsOr (propOf payload "entrepot_nom") (.str "Entrepot Central")),
    ("gestionnaire_nom",
      jsOr (propOf payload "gestionnaire_nom") (.str "Gestionnaire Logistique")),
    ("total_quantite_commandee", .num (((elemsOf (propOf payload "lignes")).enum.map
      (fun p => madeLigne (jsOr (propOf data "produits") (.arr []))
        (nextApprovId (elemsOf (propOf data "approvisionnements"))) p.1 p.2)).foldl
      (fun sum l => sum + numOrZero (propOf l "quantite_commandee")) (0 : Int))),
    ("total_quantite_recue", .num 0),
    ("lignes", .arr ((elemsOf (propOf payload "lignes")).enum.map
      (fun p => madeLigne (jsOr (propOf data "produits") (.arr []))
        (nextApprovId (elemsOf (propOf data "approvisionnements"))) p.1 p.2)))]

/-- A line as order creation builds it: nothing received, status `pending`, a numeric
ordered quantity. -/
def CreatedLine (l : JVal) : Prop :=
  ∃ lf x, l = .obj lf ∧ getField lf "quantite_recue" = .num 0 ∧
    getField lf "statut_ligne" = .str "pending" ∧ getField lf "quantite_commandee" = ofNum x

/-- A stored quantity that reads as a number: an integer, or `null` (a serialised `NaN`). -/
def StableQty (c : JVal) : Prop := c = .null ∨ ∃ o : Int, c = .num o

/-- The status rule of a stored line: it is as created (`pending`, nothing received), or as
written by a delivery (`delivered` when received >= ordered, `partial` when
received < ordered). -/
def LineStatus (l : JVal) : Prop :=
  ∃ r : Int, propOf l "quantite_recue" = .num r ∧
    ((propOf l "statut_ligne" = .str "pending" ∧ r = 0) ∨
     (propOf l "statut_ligne" = .str "delivered" ∧ numGe (some r) (orderedOf l) = true) ∨
     (propOf l "statut_ligne" = .str "partial" ∧ numLt (some r) (orderedOf l) = true))

/-- The states reachable from the empty demo document by order creations and order actions.
Creation takes any options whose body keeps the creation inside the number domain
(`CreateDomain`: line quantities that are missing or integers in the exact range);
`mark_in_transit` and `cancel` take any options; `mark_delivered` takes a list of receipts
with integer quantities. -/
inductive Reachable : Storage → Prop where
  | empty : Reachable {}
  | create (now : String) (options : Options) (ls : Storage) (v : JVal) (ls' : Storage) :
      Reachable ls → methodOf options = "POST" → CreateDomain ls (jsonBody options) →
      demoRequest now "/api/approvisionnements/" options ls = .ok (v, ls') → Reachable ls'
  | transit (now : String) (ds : List Char) (options : Options) (ls : Storage) (v : JVal)
      (ls' : Storage) :
      Reachable ls → IsDigits ds → methodOf options = "POST" →
      demoRequest now (approvActionPath ds "mark_in_transit") options ls = .ok (v, ls') →
      Reachable ls'
  | cancel (now : String) (ds : List Char) (options : Options) (ls : Storage) (v : JVal)
      (ls' : Storage) :
      Reachable ls → IsDigits ds → methodOf options = "POST" →
      demoRequest now (approvActionPath ds "cancel") options ls = .ok (v, ls') →
      Reachable ls'
  | deliver (now : String) (ds : List Char) (receipts : List (Int × Int)) (ls : Storage)
      (v : JVal) (ls' : Storage) :
      Reachable ls → IsDigits ds →
      demoRequest now (approvActionPath ds "mark_delivered")
        (postJson (receiptsBody receipts)) ls = .ok (v, ls') →
      Reachable ls'

/-- The invariant of a stored line: a stable ordered quantity and the status rule. -/
def LineInv (l : JVal) : Prop := StableQty (propOf l "quantite_commandee") ∧ LineStatus l

/-- The invariant of the stored document: well-shaped orders whose lines all satisfy the line
invariant. -/
def StateInv (ls : Storage) : Prop :=
  OrdersShape ls ∧ ∀ a ∈ storedOrders ls, ∀ l ∈ lignesOf a, LineInv l

/-- The body of an order creation with one line, of the given ordered quantity. -/
def oneLineBody (q : Int) : JVal :=
  .obj [("lignes", .arr [.obj [("produit", .num 3), ("quantite_commandee", .num q)]])]

/-- The empty document after the creation of an order with one line of ordered quantity 5. -/
def afterCreate : Storage :=
  match demoRequest "t" "/api/approvisionnements/" (postJson (oneLineBody 5)) {} with
  | .ok r => r.2
  | .error _ => {}

/-- The state `afterCreate` after a delivery that reports 0 received for the line. -/
def afterEmptyDelivery : Storage :=
  match demoRequest "t" (approvActionPath ['1'] "mark_delivered")
      (postJson (receiptsBody [(101, 0)])) afterCreate with
  | .ok r => r.2
  | .error _ => {}

/-- The empty document after the creation of an order with one line of ordered quantity 0. -/
def afterCreateZero : Storage :=
  match demoRequest "t" "/api/approvisionnements/" (postJson (oneLineBody 0)) {} with
  | .ok r => r.2
  | .error _ => {}

/-- The lines of all stored orders, each as (received, ordered, status). -/
def lineSummary (ls : Storage) : List (Option Int × Option Int × String) :=
  (storedOrders ls).flatMap (fun a => (lignesOf a).map (fun l =>
    (toNumber (propOf l "quantite_recue"), orderedOf l, jsToString (propOf l "statut_ligne"))))

/-! ## Values used to state the storage, error and token claims -/

/-- Storage whose current key holds text that is not JSON while the older key `demo_data_v2`
holds a document. -/
def brokenCurrentKey : Storage :=
  { demo_data_v3 := some .junk,
    demo_data_v2 := some (.json (.obj [("lots", .arr [.obj [("id_lot", .num 1)]])])) }

/-- Storage that only has a document under the oldest key. -/
def oldestKeyOnly : Storage :=
  { demo_data_v1 := some (.json (.obj [("lots", .arr [])])) }

/-- The error `normalizeError` returns for a timeout. -/
def timeoutError : JVal := .obj [("status", .num 408), ("message", .str "Request timeout")]

/-- The error `normalizeError` returns for a transport failure. -/
def unreachableError : JVal :=
  .obj [("status", .num 0), ("message", .str "Network error or server unreachable")]

/-- The test `error.name === 'AbortError'`. -/
def isAbort (e : JVal) : Bool := strictEq (propOf e "name") (.str "AbortError")

/-- A server error as `parseError` builds it for a 500 answer without a JSON body. -/
def serverError : JVal := parseError { status := 500, statusText := "Internal Server Error" }
/-! ## Login and logout -/

/-- The options of the login request: `POST` with the serialised credentials (no body when
the credentials are `undefined`, which `JSON.stringify` does not serialise). -/
def loginOptions (credentials : JVal) : Options :=
  { method := some "POST",
    body := match credentials with
      | .undefined => none
      | v => some (.json (jsonify v)) }

/-- The method `login` (api.js lines 408-436).  The call never throws: every failure is
reported in the returned object. -/
def login (now : Clock) (srv : Server) (fuel : Nat) (credentials : JVal) (c : Client) :
    Outcome × Client :=
  let c0 := clearTokens c
  match request now srv fuel LOGIN (loginOptions credentials) c0 with
  | (.pending, c1) => (.pending, c1)
  | (.returned data, c1) =>
    match getProp data "access", getProp data "refresh", getProp data "user" with
    | .ok access, .ok refresh, .ok user =>
      (.returned (.obj [("success", .bool true),
          ("tokens", .obj [("access", access), ("refresh", refresh)]), ("user", user)]),
        setTokens now access refresh c1)
    | _, _, _ =>
      (.returned (.obj [("success", .bool false),
        ("error", propOf typeErrorValue "message")]), c1)
  | (.threw e, c1) =>
    (.returned (.obj [("success", .bool false), ("error", propOf e "message")]), c1)

/-- The options of the logout request. -/
def logoutOptions : Options := { method := some "POST" }

/-- The method `logout` (api.js lines 438-446): the `finally` block clears the tokens
whether the request returned or threw; an error of the request is rethrown. -/
def logout (now : Clock) (srv : Server) (fuel : Nat) (c : Client) : Outcome × Client :=
  match request now srv fuel LOGOUT logoutOptions c with
  | (.pending, c1) => (.pending, c1)
  | (.returned _, c1) => (.returned .undefined, clearTokens c1)
  | (.threw e, c1) => (.threw e, clearTokens c1)

/-- A call that has ended, by returning or by throwing. -/
def Outcome.ended : Outcome → Bool
  | .pending => false
  | _ => true

/-- No token is left: the instance fields are `null` and the six storage keys are absent. -/
def Cleared (c : Client) : Prop :=
  c.token = .null ∧ c.refreshToken = .null ∧ c.storage.token = none ∧
    c.storage.access_token = none ∧ c.storage.refreshToken = none ∧
    c.storage.refresh_token = none ∧ c.storage.tokenExpiry = none ∧ c.storage.userData = none

/-- A server that accepts a login and hands out the tokens `a1` and `r1`. -/
def loginServer : Server := fun _ =>
  .response {
    status := 200,
    bodyJson := some (.obj [("access", .str "a1"), ("refresh", .str "r1"),
      ("user", .obj [("username", .str "awa")])]) }

/-- A server that cannot be reached. -/
def downServer : Server := fun _ => .failed

/-- A client with stale tokens and a cached profile in storage. -/
def staleClient : Client :=
  { token := .str "a0", refreshToken := .str "r0",
    storage := {
      token := some "a0", access_token := some "a0", refreshToken := some "r0",
      refresh_token := some "r0", tokenExpiry := some (.at 5), userData := some "awa" } }

/-! ## Clocks used to state the expiry claim -/

/-- A zone whose offset from UTC never changes: `k` milliseconds. -/
def fixedZone (k : Int) : Zone :=
  { offsetAt := fun _ => k
    offsetOfLocal := fun _ => k }

/-- The clock reading `t` in a zone of fixed offset `k`. -/
def clockAt (t : Int) (iso : String) (k : Int) : Clock :=
  { ms := t
    iso := iso
    zone := fixedZone k }

/-- The zone Europe/Paris around the end of summer time on 25 October 2026, 01:00 UTC
(1792890000000 ms): before that instant local time is UTC+2, from it on UTC+1; a wall-clock
time before 03:00 of that day is read back with the offset in force before the change. -/
def parisAutumn2026 : Zone :=
  { offsetAt := fun t => if t < 1792890000000 then 7200000 else 3600000
    offsetOfLocal := fun w => if w < 1792890000000 + 7200000 then 7200000 else 3600000 }

/-- The reading 2026-10-25T00:30:00.000Z in a browser whose zone is Europe/Paris (02:30 local
summer time, half an hour before the clocks go back). -/
def parisNight : Clock :=
  { ms := 1792888200000
    iso := "2026-10-25T00:30:00.000Z"
    zone := parisAutumn2026 }

/-- The reading one hour after `parisNight`: 2026-10-25T01:30:00.000Z. -/
def parisHourLater : Clock :=
  { ms := 1792888200000 + 3600000
    iso := "2026-10-25T01:30:00.000Z"
    zone := parisAutumn2026 }

/-! ## Answers to a refresh request -/

/-- An answer that makes the refresh request fail at once: an aborted or failed fetch, an
HTTP error other than 401, or a 2xx answer announced as JSON whose body does not parse. -/
def Refused (res : FetchResult) : Prop :=
  res = .aborted ∨ res = .failed ∨
    ∃ resp, res = .response resp ∧
      ((resp.ok = false ∧ resp.status ≠ 401) ∨
        (resp.ok = true ∧ resp.isJson = true ∧ resp.bodyJson = none))

/-- The tokens `a` and `r` are the ones held, in the instance and under both naming schemes
in storage. -/
def Holds (c : Client) (a r : String) : Prop :=
  c.token = .str a ∧ c.refreshToken = .str r ∧ c.storage.token = some a ∧
    c.storage.access_token = some a ∧ c.storage.refreshToken = some r ∧
    c.storage.refresh_token = some r

/-- A server that answers every request with a fresh access token `a2`. -/
def refreshingServer : Server := fun _ =>
  .response { status := 200, bodyJson := some (.obj [("access", .str "a2")]) }
/-! ## Values used to state the diversion claim -/

/-- The token `request` puts in the automatic header: `this.token`, else the stored `token`,
else the stored `access_token`. -/
def knownToken (c : Client) : JVal :=
  jsOr c.token (jsOr (itemValue c.storage.token) (itemValue c.storage.access_token))

/-- What a diverted call ends with: the value the simulator returns, or its `TypeError`. -/
def simulated (now : Clock) (endpoint : String) (options : Options) (c : Client) : Outcome :=
  match demoRequest now.iso endpoint options c.storage with
  | .ok (v, _) => .returned v
  | .error _ => .threw typeErrorValue

/-- Credentials for a login. -/
def someCredentials : JVal := .obj [("username", .str "awa"), ("password", .str "secret")]

/-- A client in demo mode that holds tokens. -/
def demoClient : Client :=
  { token := .str "a1", refreshToken := .str "r1", storage := { demo_mode := some "true" } }

/-! ## Predicates used to state the notification claims -/

/-- The endpoint `/api/notifications/?utilisateur={id}`, the id written with the digits
`ds`. -/
def userNotificationsPath (ds : List Char) : String :=
  String.mk ("/api/notifications/".toList ++ '?' :: ("utilisateur=".toList ++ ds))

/-- The stored notifications, as every route reads them: `data.notifications || []`. -/
def storedNotifications (ls : Storage) : List JVal :=
  elemsOf (propOf (getDemoData ls) "notifications")

/-- The stored forecast alerts: `data.previsions_alertes || []`. -/
def storedAlerts (ls : Storage) : List JVal :=
  elemsOf (propOf (getDemoData ls) "previsions_alertes")

/-- A notification the user `u` is shown: it has no owner (`utilisateur` is missing or
otherwise falsy) or its owner is `u`. -/
def visibleTo (u : Nat) (n : JVal) : Bool :=
  !truthy (propOf n "utilisateur") || strictEq (propOf n "utilisateur") (.num u)

/-- A document with three notifications: one without owner, one of user 4, one of user 5. -/
def threeNotifications : Storage :=
  { demo_data_v3 := some (.json (.obj [("notifications", .arr [
      .obj [("id_notification", .num 1), ("message", .str "stock bas")],
      .obj [("id_notification", .num 2), ("utilisateur", .num 4)],
      .obj [("id_notification", .num 3), ("utilisateur", .num 5)]])])) }

/-! ## Predicates used to state the alert-generation claim -/

/-- The test `a.niveau === 'danger'`. -/
def isDanger (a : JVal) : Bool := strictEq (propOf a "niveau") (.str "danger")

/-- The id the simulator reads from a stored notification: `n.id_notification || 0`. -/
def idOrZero (n : JVal) : JVal := jsOr (propOf n "id_notification") (.num 0)

/-- The next notification id for the stored notifications `xs`. -/
def nextIdOf (xs : List JVal) : Option Int := numAdd (mathMax 0 (xs.map idOrZero)) (some 1)

/-- The notification written for the alert `p.2`, the `p.1`-th of the danger alerts
(api.js lines 238-243), when nothing throws. -/
def alertNotification (now : String) (nextId : Option Int) (p : Nat × JVal) : JVal :=
  .obj [
    ("id_notification", ofNum (numAdd nextId (some (p.1 : Nat)))),
    ("type_notification", .str ("alerte_" ++ jsToString (propOf p.2 "type"))),
    ("message", .str ("⚠️ ALERTE " ++ jsToString (propOf p.2 "produit_nom") ++ ": " ++
      jsToString (propOf p.2 "message"))),
    ("date_envoi", .str now)]

/-- What the claim says of an alert `a` and the notification `n` created for it. -/
def Notifies (now : String) (a n : JVal) : Prop :=
  propOf n "type_notification" = .str ("alerte_" ++ jsToString (propOf a "type")) ∧
  propOf n "message" = .str ("⚠️ ALERTE " ++ jsToString (propOf a "produit_nom") ++ ": " ++
    jsToString (propOf a "message")) ∧
  propOf n "date_envoi" = .str now

/-- The value `generer_alertes` returns when it has created `k` notifications. -/
def alertsReport (k : Nat) : JVal :=
  .obj [("status", .str "ok"), ("notifications_creees", .num k)]

/-- A document with one stored notification and two forecast alerts, one at level `danger`
and one at level `warning`. -/
def twoAlerts : Storage :=
  { demo_data_v3 := some (.json (.obj [
      ("notifications", .arr [.obj [("id_notification", .num 3), ("message", .str "ancien")]]),
      ("previsions_alertes", .arr [
        .obj [("niveau", .str "danger"), ("type", .str "rupture"),
          ("produit_nom", .str "Thon"), ("message", .str "stock epuise")],
        .obj [("niveau", .str "warning"), ("type", .str "peremption"),
          ("produit_nom", .str "Sole"), ("message", .str "a surveiller")]])])) }

/-! ## Predicates used to state the sale-creation claim -/

/-- The stored sales, as every route reads them: `data.ventes || []`. -/
def storedVentes (ls : Storage) : List JVal := elemsOf (propOf (getDemoData ls) "ventes")

/-- The amount of a supplied line as the simulator reads it:
`Number(l.quantite_vendue || 0) * Number(l.prix_unitaire || 0)`. -/
def lineAmount (l : JVal) : Option Int :=
  numMul (toNumber (jsOr (propOf l "quantite_vendue") (.num 0)))
    (toNumber (jsOr (propOf l "prix_unitaire") (.num 0)))

/-- A supplied line with the quantity `q.1` and the unit price `q.2`. -/
def saleLine (q : Int × Int) : JVal :=
  .obj [("quantite_vendue", .num q.1), ("prix_unitaire", .num q.2)]

/-- The stored document is an object whose sales, when present, are an array of records
with integer ids. -/
def VentesShape (ls : Storage) : Prop :=
  IsObj (getDemoData ls) ∧
    (∃ xs, listOrEmpty (propOf (getDemoData ls) "ventes") = .ok xs) ∧
    ∀ v ∈ storedVentes ls, ∃ n : Int, propOf v "id_vente" = .num n

/-- A body the sale creation can process: not `null`, with `lignes`, when present, an array
without `null`. -/
def SaleBody (payload : JVal) : Prop :=
  Readable payload ∧ ReadableList (propOf payload "lignes")

/-- The sale written by the creation route (api.js lines 200-207), when nothing throws. -/
def createdVente (now : String) (ids : List Int) (payload : JVal) : JVal :=
  .obj [
    ("id_vente", .num (ids.foldl max 500 + 1)),
    ("numero_facture", .str (numeroFacture (some (ids.foldl max 500 + 1)))),
    ("nom_client", jsOr (propOf payload "nom_client") (.str "Client demo")),
    ("montant_total", ofNum (sumNum ((elemsOf (propOf payload "lignes")).map lineAmount))),
    ("statut_vente", .str "brouillon"),
    ("date_vente", .str now)]

/-- A document with two sales, of ids 501 and 640. -/
def twoSales : Storage :=
  { demo_data_v3 := some (.json (.obj [("ventes", .arr [
      .obj [("id_vente", .num 501), ("statut_vente", .str "validée")],
      .obj [("id_vente", .num 640), ("statut_vente", .str "brouillon")]])])) }

/-- A document with one stored sale that carries no `id_vente`. -/
def saleWithoutId : Storage :=
  { demo_data_v3 := some (.json (.obj [("ventes", .arr [
      .obj [("nom_client", .str "Awa"), ("statut_vente", .str "brouillon")]])])) }

/-- Supplied sale lines (quantity, unit price) in the exact range: every quantity and price
is in the range, and the magnitudes of the products sum to at most 2^53, so that every
product and every partial sum of the total is in the range too. -/
def ExactAmounts (qs : List (Int × Int)) : Prop :=
  (∀ q ∈ qs, Exact q.1 ∧ Exact q.2) ∧ (qs.map (fun q => |q.1 * q.2|)).sum ≤ maxExact

/-- The amount of a supplied line, `NaN` counted as 0. -/
def amountOf (l : JVal) : Int := (lineAmount l).getD 0

/-- Supplied sale lines inside the number domain: every line carries a `quantite_vendue` and
a `prix_unitaire` that are missing (or otherwise falsy) or integers in the exact range, and
the magnitudes of the amounts sum to at most 2^53, so that every product and every partial
sum of the total is in the exact range. -/
def ExactLines (lines : List JVal) : Prop :=
  (∀ l ∈ lines, Whole (propOf l "quantite_vendue") ∧ Whole (propOf l "prix_unitaire")) ∧
  (lines.map (fun l => |amountOf l|)).sum ≤ maxExact

/-- A sale body with two lines: 3 at 250 and 2 at 1000. -/
def twoSaleLines : JVal :=
  .obj [("nom_client", .str "Marché Kermel"), ("lignes", .arr [saleLine (3, 250), saleLine (2, 1000)])]

/-! ## Predicates used to state the lot update and deletion claim -/

/-- The endpoint `/api/lots/{id}/`, the id written with the digits `ds`. -/
def lotPath (ds : List Char) : String := String.mk ("/api/lots/".toList ++ (ds ++ ['/']))

/-- The test `l.id_lot === id`. -/
def isLot (id : Nat) (l : JVal) : Bool := strictEq (propOf l "id_lot") (.num id)

/-- The shallow merge `{ ...l, ...payload }`. -/
def mergedLot (payload l : JVal) : JVal := .obj (spread (spread [] l) payload)

/-- The element `PUT` writes in place of the stored lot `l` (api.js line 98). -/
def updatedLot (id : Nat) (payload l : JVal) : JVal :=
  if isLot id l then mergedLot payload l else l

/-- The stored document is an object whose lots, when present, are a list without `null`. -/
def LotsReadable (ls : Storage) : Prop :=
  IsObj (getDemoData ls) ∧ ReadableList (propOf (getDemoData ls) "lots")

/-- The options of a `PUT` with a JSON body `v`. -/
def putJson (v : JVal) : Options := { method := some "PUT", body := some (.json v) }

/-- The options of a `DELETE`. -/
def deleteOptions : Options := { method := some "DELETE" }

/-- A document with three lots, of ids 1, 2 and 3. -/
def threeLots : Storage :=
  { demo_data_v3 := some (.json (.obj [("lots", .arr [
      .obj [("id_lot", .num 1), ("espece", .str "thon"), ("quantite", .num 40)],
      .obj [("id_lot", .num 2), ("espece", .str "sole"), ("quantite", .num 15)],
      .obj [("id_lot", .num 3), ("espece", .str "dorade"), ("quantite", .num 8)]])])) }

/-! ## Uniqueness of ids -/

/-- The four collections with ids, each with the name of its id property. -/
def idCollections : List (String × String) :=
  [("lots", "id_lot"), ("approvisionnements", "id_approvisionnement"),
    ("ventes", "id_vente"), ("notifications", "id_notification")]

/-- The ids of a list of records are integers, pairwise distinct. -/
def Uniq (key : String) (xs : List JVal) : Prop :=
  ∃ ns : List Int, xs.map (fun x => propOf x key) = ns.map JVal.num ∧ ns.Nodup

/-- Within each collection of the document the ids are integers, pairwise distinct. -/
def UniqueDoc (data : JVal) : Prop :=
  ∀ p ∈ idCollections, Uniq p.2 (elemsOf (propOf data p.1))

/-- Uniqueness of ids in the stored demo document. -/
def UniqueIds (ls : Storage) : Prop := UniqueDoc (getDemoData ls)

/-- The ids of the four collections leave room, in the exact range, for the ids one call can
add (one new id, or one per stored alert): every id plus one plus the number of stored
alerts is at most 2^53, and so is one plus the number of stored alerts. -/
def IdsInRange (ls : Storage) : Prop :=
  ((storedAlerts ls).length : Int) + 1 ≤ maxExact ∧
  ∀ p ∈ idCollections, ∀ x ∈ elemsOf (propOf (getDemoData ls) p.1), ∀ n : Int,
    propOf x p.2 = .num n → n + 1 + (storedAlerts ls).length ≤ maxExact

/-! ## Requests that no route takes -/

/-- No route of the simulator takes the request: the path starts with none of the route
prefixes, is none of the exact route paths (with the method the route asks for, where it
asks for one), and is taken by neither of the two action patterns. -/
def unrouted (path : List Char) (method : String) : Bool :=
  !startsWith path "/api/produits/" && !startsWith path "/api/categories/" &&
  !startsWith path "/api/entrepots/" && !startsWith path "/api/lots/" &&
  !startsWith path "/api/mouvements/" &&
  !(decide (path = "/api/approvisionnements/".toList) && decide (method = "GET")) &&
  !(decide (path = "/api/approvisionnements/".toList) && decide (method = "POST")) &&
  !decide (path = "/api/approvisionnements/stats/".toList) &&
  (if method = "POST" then approvActionMatch path else none).isNone &&
  !decide (path = "/api/ventes/".toList) &&
  !(decide (path = "/api/ventes/creer_avec_lignes/".toList) && decide (method = "POST")) &&
  (if method = "POST" then venteMatch path else none).isNone &&
  !startsWith path "/api/livraisons/" && !startsWith path "/api/notifications/" &&
  !startsWith path "/api/previsions/tous_resumés/" &&
  !startsWith path "/api/previsions/risques_peremption/" &&
  !startsWith path "/api/previsions/predictions_ml/" &&
  !startsWith path "/api/previsions/alertes_critiques/" &&
  !startsWith path "/api/utilisateurs/"

/-- A request that reaches the block for paths under `/api/notifications/` and that none
of its three routes takes: neither action pattern takes it before the block, it is not the
`POST` on `generer_alertes/`, not the `POST` on `/api/notifications/` itself, and not a
`GET` whose query holds `utilisateur=` followed by a digit. -/
def notificationsUnrouted (path query : List Char) (method : String) : Bool :=
  startsWith path "/api/notifications/" &&
  (if method = "POST" then approvActionMatch path else none).isNone &&
  (if method = "POST" then venteMatch path else none).isNone &&
  !(decide (path = "/api/notifications/generer_alertes/".toList) && decide (method = "POST")) &&
  !(decide (method = "POST") && decide (path = "/api/notifications/".toList)) &&
  (if method = "GET" && hasUserParam query then userParam query else none).isNone

/-- The options of a request with the method `m` and no body. -/
def withMethod (m : String) : Options := { method := some m }

/-! ## Property lists in the form a serialised document has -/

/-- A property list as `JSON.parse` builds it: no key twice, no property bound to
`undefined`. -/
def Tidy (fs : Fields) : Prop := (fs.map Prod.fst).Nodup ∧ ∀ e ∈ fs, e.2 ≠ .undefined

/-- The round trip applied to the value of every property. -/
def mapValues (fs : Fields) : Fields := fs.map (fun e => (e.1, jsonify e.2))

/-! ## Theorems -/

/-! ### Token refresh and retry (C1, C2) -/

theorem url_inj (a b : String) : BASE_URL ++ a = BASE_URL ++ b ↔ a = b := by
  constructor
  · intro h
    have h2 := congrArg String.data h
    simp [String.data_append] at h2
    exact String.ext h2
  · intro h; rw [h]

theorem refreshCount_sent (c : Client) (q : Request) :
    refreshCount (sent c q).log = refreshCount c.log + (if isRefreshRequest q then 1 else 0) := by
  unfold refreshCount sent
  by_cases h : isRefreshRequest q = true <;> simp [List.filter_append, List.filter, h]

theorem refresh_is_auth : isAuthEndpoint REFRESH_TOKEN = true := by decide

theorem refresh_not_guarded : includes REFRESH_TOKEN "/auth/refresh/" = false := by decide

/-- With a budget of one a refresh is still running and has sent nothing. -/
theorem refresh_pending_one (now : Clock) (srv : Server) (c : Client)
    (ht : truthy c.refreshToken = true) :
    refreshAccessToken now srv 1 c = (none, c) := by
  simp [refreshAccessToken, request, jsOr, ht]

/-- Against a server that accepts refreshes, a refresh with budget at least two succeeds
after one refresh request and keeps the refresh token. -/
theorem refresh_accepted (now : Clock) (srv : Server) (hA : AcceptsRefresh srv) (fuel : Nat)
    (c : Client) (ht : truthy c.refreshToken = true) :
    ∃ c', refreshAccessToken now srv (fuel + 2) c = (some true, c') ∧
      truthy c'.refreshToken = true ∧ c'.storage.demo_mode = c.storage.demo_mode ∧
      refreshCount c'.log = refreshCount c.log + 1 := by
  obtain ⟨r, fs, hr, hok, hj, hb⟩ := hA c.log
    (outgoing REFRESH_TOKEN (refreshOptions c.refreshToken) c) rfl
  have hrt : jsOr c.refreshToken
      (jsOr (itemValue c.storage.refreshToken) (itemValue c.storage.refresh_token)) =
      c.refreshToken := by
    simp [jsOr, ht]
  have hc : ({ c with refreshToken := c.refreshToken } : Client) = c := rfl
  have hlog : (sent c (outgoing REFRESH_TOKEN (refreshOptions c.refreshToken) c)).log =
      c.log ++ [outgoing REFRESH_TOKEN (refreshOptions c.refreshToken) c] := rfl
  have hq : isRefreshRequest (outgoing REFRESH_TOKEN (refreshOptions c.refreshToken) c) = true := by
    simp [isRefreshRequest, outgoing]
  simp only [refreshAccessToken, request, hrt, ht, refresh_is_auth, hc, hlog, hr, hok, hj, hb]
  simp [getProp, setTokens, pure, Except.pure, refreshCount_sent, hq]
  exact ⟨ht, rfl⟩

/-- Against a server that answers 401 to every non-refresh request and accepts every
refresh, a request never returns: whatever the budget it is still pending, and it has made
`fuel - 2` refresh attempts. -/
theorem request_loops (now : Clock) (srv : Server) (hA : AcceptsRefresh srv)
    (hR : Rejects401 srv) (endpoint : String) (hne : endpoint ≠ REFRESH_TOKEN)
    (hg : includes endpoint "/auth/refresh/" = false) :
    ∀ (fuel : Nat) (options : Options) (c : Client), truthy c.refreshToken = true →
      c.storage.demo_mode ≠ some "true" →
      (request now srv fuel endpoint options c).1 = .pending ∧
      refreshCount (request now srv fuel endpoint options c).2.log =
        refreshCount c.log + (fuel - 2) := by
  intro fuel
  induction fuel with
  | zero => intro options c _ _; simp [request]
  | succ f ih =>
    intro options c ht hd
    have hurl : BASE_URL ++ endpoint ≠ BASE_URL ++ REFRESH_TOKEN := by
      intro h; exact hne ((url_inj _ _).1 h)
    obtain ⟨r, hr, h401⟩ := hR c.log (outgoing endpoint options c) hurl
    have hok : r.ok = false := by simp [Response.ok, h401]
    have hq : isRefreshRequest (outgoing endpoint options c) = false := by
      simp [isRefreshRequest, outgoing, hurl]
    have hlog : (sent c (outgoing endpoint options c)).log = c.log ++ [outgoing endpoint options c] := rfl
    have ht1 : truthy (sent c (outgoing endpoint options c)).refreshToken = true := ht
    rw [request]
    simp only [hd, decide_False, Bool.false_and, hlog, hr, hok, h401, ht1, hg]
    simp only [Bool.false_eq_true, if_false, Bool.not_false, if_true, decide_True,
      Bool.and_self, Bool.true_and]
    match f, ih with
    | 0, _ => simp [refreshAccessToken, refreshCount_sent, hq]
    | 1, _ =>
      rw [refresh_pending_one now srv _ ht1]
      simp [refreshCount_sent, hq]
    | k + 2, ih =>
      obtain ⟨c2, hc2, ht2, hd2, hn2⟩ := refresh_accepted now srv hA k
        (sent c (outgoing endpoint options c)) ht1
      rw [hc2]
      simp only
      have hd2' : c2.storage.demo_mode ≠ some "true" := by rw [hd2]; exact hd
      obtain ⟨ihp, ihc⟩ := ih
        { options with authorization := some ("Bearer " ++ jsToString c2.token) } c2 ht2 hd2'
      refine ⟨ihp, ?_⟩
      rw [ihc, hn2, refreshCount_sent, hq]
      simp only [Bool.false_eq_true, if_false]
      omega

/-- When the first answer is 401, the refresh is accepted and the re-issued request gets an
answer other than 401, the call ends after exactly one refresh and one retry. -/
theorem request_retries_once (now : Clock) (srv : Server) (r1 r2 r3 : Response)
    (fs : Fields) (endpoint : String) (options : Options) (c : Client) (fuel : Nat)
    (hsrv : AnswersInTurn srv r1 r2 r3) (h1 : r1.status = 401)
    (h2 : r2.ok = true ∧ r2.isJson = true ∧ r2.bodyJson = some (.obj fs))
    (h3 : r3.status ≠ 401) (hlog : c.log = []) (ht : truthy c.refreshToken = true)
    (hd : c.storage.demo_mode ≠ some "true") (hne : endpoint ≠ REFRESH_TOKEN)
    (hg : includes endpoint "/auth/refresh/" = false) :
    (request now srv (fuel + 3) endpoint options c).1 ≠ .pending ∧
      (request now srv (fuel + 3) endpoint options c).2.log.length = 3 ∧
      refreshCount (request now srv (fuel + 3) endpoint options c).2.log = 1 ∧
      requestCount endpoint (request now srv (fuel + 3) endpoint options c).2.log = 2 := by
  obtain ⟨s1, s2, s3⟩ := hsrv
  obtain ⟨h2a, h2b, h2c⟩ := h2
  have hok1 : r1.ok = false := by simp [Response.ok, h1]
  have hrt : jsOr c.refreshToken
      (jsOr (itemValue c.storage.refreshToken) (itemValue c.storage.refresh_token)) =
      c.refreshToken := by
    simp [jsOr, ht]
  have hurl : BASE_URL ++ endpoint ≠ BASE_URL ++ REFRESH_TOKEN := by
    intro h; exact hne ((url_inj _ _).1 h)
  have hurl2 : BASE_URL ++ REFRESH_TOKEN ≠ BASE_URL ++ endpoint := fun h => hurl h.symm
  rw [request]
  simp only [hd, decide_False, Bool.false_and, sent, hlog, List.nil_append, s1, hok1, h1, ht, hg]
  simp only [Bool.false_eq_true, if_false, Bool.not_false, if_true, decide_True,
    Bool.and_self, Bool.true_and]
  rw [refreshAccessToken]
  simp only [hrt, ht, Bool.not_true, Bool.false_eq_true, if_false]
  rw [request]
  simp only [refresh_is_auth, Bool.not_true, Bool.and_false, Bool.false_eq_true, if_false, sent,
    List.singleton_append, s2, h2a, h2b, h2c, getProp, pure, Except.pure, setTokens, if_true]
  rw [request]
  simp only [hd, decide_False, Bool.false_and, Bool.false_eq_true, if_false, sent,
    List.cons_append, List.nil_append, s3, h3, ht, hg]
  by_cases hok3 : r3.ok = true
  · by_cases hj3 : r3.isJson = true
    · cases hb3 : r3.bodyJson <;>
        simp [hok3, hj3, hb3, refreshCount, requestCount, isRefreshRequest, outgoing, hurl, hurl2]
    · simp [hok3, hj3, refreshCount, requestCount, isRefreshRequest, outgoing, hurl, hurl2]
  · simp [hok3, refreshCount, requestCount, isRefreshRequest, outgoing, hurl, hurl2]

/-- C1 (counterexample).  Against the server that answers 401 to every non-refresh request
and accepts every refresh, one call of `request` with budget 4 has already made two refresh
attempts and sent the original request three times, and is still running. -/
theorem c1_second_refresh :
    refreshCount (request noon expiringServer 4 "/api/lots/" {} loggedIn).2.log = 2 ∧
      requestCount "/api/lots/" (request noon expiringServer 4 "/api/lots/" {} loggedIn).2.log = 3 := by
  decide

/-- C1 (amended).  A call of `request` makes a refresh attempt after every 401 answer it
gets while it holds a refresh token, and re-issues the request after every accepted refresh;
the retry is not capped.  (1) Against a server that answers 401 to every non-refresh request
and accepts every refresh, the call is still running whatever the evaluation budget `fuel`,
having made `fuel - 2` refresh attempts.  (2) When the first answer is 401, the refresh is
accepted and the re-issued request gets an answer other than 401, the call ends after
exactly three requests: the original, one refresh, one retry. -/
theorem c1_refresh_after_every_401 :
    (∀ (now : Clock) (srv : Server) (endpoint : String) (options : Options) (c : Client),
      AcceptsRefresh srv → Rejects401 srv → endpoint ≠ REFRESH_TOKEN →
      includes endpoint "/auth/refresh/" = false → truthy c.refreshToken = true →
      c.storage.demo_mode ≠ some "true" →
      ∀ fuel : Nat, (request now srv fuel endpoint options c).1 = .pending ∧
        refreshCount (request now srv fuel endpoint options c).2.log =
          refreshCount c.log + (fuel - 2)) ∧
    (∀ (now : Clock) (srv : Server) (r1 r2 r3 : Response) (fs : Fields) (endpoint : String)
      (options : Options) (c : Client) (fuel : Nat),
      AnswersInTurn srv r1 r2 r3 → r1.status = 401 →
      (r2.ok = true ∧ r2.isJson = true ∧ r2.bodyJson = some (.obj fs)) → r3.status ≠ 401 →
      c.log = [] → truthy c.refreshToken = true → c.storage.demo_mode ≠ some "true" →
      endpoint ≠ REFRESH_TOKEN → includes endpoint "/auth/refresh/" = false →
      (request now srv (fuel + 3) endpoint options c).1 ≠ .pending ∧
        (request now srv (fuel + 3) endpoint options c).2.log.length = 3 ∧
        refreshCount (request now srv (fuel + 3) endpoint options c).2.log = 1 ∧
        requestCount endpoint (request now srv (fuel + 3) endpoint options c).2.log = 2) := by
  constructor
  · intro now srv endpoint options c hA hR hne hg ht hd fuel
    exact request_loops now srv hA hR endpoint hne hg fuel options c ht hd
  · intro now srv r1 r2 r3 fs endpoint options c fuel hsrv h1 h2 h3 hlog ht hd hne hg
    exact request_retries_once now srv r1 r2 r3 fs endpoint options c fuel hsrv h1 h2 h3 hlog
      ht hd hne hg

theorem expiringServer_accepts : AcceptsRefresh expiringServer := by
  intro log q hq
  refine ⟨{ status := 200, bodyJson := some (.obj [("access", .str "a2")]) }, _, ?_, rfl, rfl, rfl⟩
  simp [expiringServer, hq]

theorem expiringServer_rejects : Rejects401 expiringServer := by
  intro log q hq
  refine ⟨{ status := 401 }, ?_, rfl⟩
  simp [expiringServer, hq]

theorem recoveringServer_turns : AnswersInTurn recoveringServer { status := 401 }
    { status := 200, bodyJson := some (.obj [("access", .str "a2")]) }
    { status := 200, bodyJson := some (.arr []) } :=
  ⟨fun _ => rfl, fun _ _ => rfl, fun _ _ _ => rfl⟩

/-- C1 (witness): the two parts at concrete servers, with budget 7 and 3. -/
theorem c1_refresh_after_every_401_witness :
    ((request noon expiringServer 7 "/api/lots/" {} loggedIn).1 = .pending ∧
      refreshCount (request noon expiringServer 7 "/api/lots/" {} loggedIn).2.log =
        refreshCount loggedIn.log + (7 - 2)) ∧
    ((request noon recoveringServer (0 + 3) "/api/lots/" {} loggedIn).1 ≠ .pending ∧
      (request noon recoveringServer (0 + 3) "/api/lots/" {} loggedIn).2.log.length = 3 ∧
      refreshCount (request noon recoveringServer (0 + 3) "/api/lots/" {} loggedIn).2.log = 1 ∧
      requestCount "/api/lots/"
        (request noon recoveringServer (0 + 3) "/api/lots/" {} loggedIn).2.log = 2) :=
  ⟨c1_refresh_after_every_401.1 noon expiringServer "/api/lots/" {} loggedIn
      expiringServer_accepts expiringServer_rejects (by decide) (by decide) (by decide)
      (by decide) 7,
    c1_refresh_after_every_401.2 noon recoveringServer _ _ _ _ "/api/lots/" {} loggedIn 0
      recoveringServer_turns rfl ⟨rfl, rfl, rfl⟩ (by decide) rfl (by decide) (by decide)
      (by decide) (by decide)⟩

/-- C2 (the code at the failing input).  With a refresh token held and a server that answers
401 to every request, `refreshAccessToken` does not return false after one refresh request:
the 401 on the refresh endpoint starts a nested refresh, so with budget 6 three refresh
requests have been sent and the call is still running; and whatever the budget, the call is
never finished. -/
theorem c2_refresh_endpoint_refreshes_again :
    refreshCount (refreshAccessToken noon unauthorizedServer 6 loggedIn).2.log = 3 ∧
      ∀ fuel : Nat, (refreshAccessToken noon unauthorizedServer fuel loggedIn).1 = none := by
  refine ⟨by decide, ?_⟩
  have key : ∀ (fuel : Nat) (c : Client), truthy c.refreshToken = true →
      (refreshAccessToken noon unauthorizedServer fuel c).1 = none ∧
      (request noon unauthorizedServer fuel REFRESH_TOKEN (refreshOptions c.refreshToken) c).1 =
        .pending := by
    intro fuel
    induction fuel with
    | zero => intro c _; simp [refreshAccessToken, request]
    | succ f ih =>
      intro c ht
      have hrt : jsOr c.refreshToken
          (jsOr (itemValue c.storage.refreshToken) (itemValue c.storage.refresh_token)) =
          c.refreshToken := by
        simp [jsOr, ht]
      have hc : ({ c with refreshToken := c.refreshToken } : Client) = c := rfl
      constructor
      · rw [refreshAccessToken]
        simp only [hrt, ht, hc, Bool.not_true, Bool.false_eq_true, if_false]
        have h2 := (ih c ht).2
        revert h2
        generalize request noon unauthorizedServer f REFRESH_TOKEN (refreshOptions c.refreshToken) c = res
        obtain ⟨o, c2⟩ := res
        intro h2
        simp only at h2
        subst h2
        rfl
      · rw [request]
        have ht1 : truthy (sent c (outgoing REFRESH_TOKEN (refreshOptions c.refreshToken) c)).refreshToken = true := ht
        simp only [refresh_is_auth, Bool.not_true, Bool.and_false, Bool.false_eq_true, if_false,
          unauthorizedServer, Response.ok, ht1, refresh_not_guarded]
        simp only [decide_True, decide_False, Bool.and_false, Bool.not_false, if_true,
          Bool.and_self, Bool.not_false]
        have h1 := (ih (sent c (outgoing REFRESH_TOKEN (refreshOptions c.refreshToken) c)) ht1).1
        revert h1
        generalize refreshAccessToken noon unauthorizedServer f _ = res
        obtain ⟨o, c2⟩ := res
        intro h1
        simp only at h1
        subst h1
        rfl
  intro fuel
  exact (key fuel loggedIn (by decide)).1


/-! ### Objects, spreads and the JSON round trip -/

theorem lookupLast_cons (k0 : String) (v0 : JVal) (fs : Fields) (k : String) :
    lookupLast ((k0, v0) :: fs) k =
      match lookupLast fs k with
      | some w => some w
      | none => if k0 = k then some v0 else none := by
  simp [lookupLast]

theorem lookupLast_map_set (fs : Fields) (k k' : String) (v : JVal) :
    lookupLast (fs.map (fun e => if e.1 = k then (k, v) else e)) k' =
      if k = k' then (if (lookupLast fs k).isSome then some v else none)
      else lookupLast fs k' := by
  induction fs with
  | nil => simp [lookupLast]
  | cons e fs ih =>
    obtain ⟨k0, v0⟩ := e
    simp only [List.map_cons]
    by_cases h0 : k0 = k
    · simp only [h0, if_true, lookupLast_cons, ih]
      by_cases hk : k = k'
      · subst hk
        cases h : lookupLast fs k <;> simp
      · cases h : lookupLast fs k' <;> simp [hk]
    · simp only [h0, if_false, lookupLast_cons, ih]
      by_cases hk : k = k'
      · subst hk
        cases h : lookupLast fs k <;> simp [h0]
      · cases h : lookupLast fs k' <;> simp [hk]

theorem lookupLast_append_one (fs : Fields) (k k' : String) (v : JVal) :
    lookupLast (fs ++ [(k, v)]) k' = if k = k' then some v else lookupLast fs k' := by
  induction fs with
  | nil => simp [lookupLast]
  | cons e fs ih =>
    obtain ⟨k0, v0⟩ := e
    simp only [List.cons_append, lookupLast_cons, ih]
    by_cases hk : k = k'
    · simp [hk]
    · cases h : lookupLast fs k' <;> simp [hk]

theorem lookupLast_objSet (fs : Fields) (k k' : String) (v : JVal) :
    lookupLast (objSet fs k v) k' = if k = k' then some v else lookupLast fs k' := by
  unfold objSet
  by_cases h : (lookupLast fs k).isSome = true
  · simp [h, lookupLast_map_set]
  · simp [h, lookupLast_append_one]

theorem getField_objSet_same (fs : Fields) (k : String) (v : JVal) :
    getField (objSet fs k v) k = v := by
  simp [getField, lookupLast_objSet]

theorem getField_objSet_other (fs : Fields) (k k' : String) (v : JVal) (h : k ≠ k') :
    getField (objSet fs k v) k' = getField fs k' := by
  simp [getField, lookupLast_objSet, h]

theorem lookupLast_foldl_objSet (es t : Fields) (k : String) :
    lookupLast (es.foldl (fun acc e => objSet acc e.1 e.2) t) k =
      match lookupLast es k with
      | some v => some v
      | none => lookupLast t k := by
  induction es generalizing t with
  | nil => simp [lookupLast]
  | cons e es ih =>
    obtain ⟨k0, v0⟩ := e
    simp only [List.foldl_cons, ih, lookupLast_objSet, lookupLast]
    cases h : lookupLast es k <;> simp
    by_cases h0 : k0 = k <;> simp [h0]

theorem lookupLast_spread_obj (t fs : Fields) (k : String) :
    lookupLast (spread t (.obj fs)) k =
      match lookupLast fs k with
      | some v => some v
      | none => lookupLast t k := by
  simp [spread, ownEntries, lookupLast_foldl_objSet]

theorem getField_spread_nil (fs : Fields) (k : String) :
    getField (spread [] (.obj fs)) k = getField fs k := by
  simp only [getField, lookupLast_spread_obj]
  cases h : lookupLast fs k <;> simp [lookupLast]

theorem jsonifyFields_cons (k0 : String) (v0 : JVal) (fs : Fields) :
    jsonifyFields ((k0, v0) :: fs) =
      if (lookupLast fs k0).isSome then jsonifyFields fs
      else match v0 with
        | .undefined => jsonifyFields fs
        | w => (k0, jsonify w) :: jsonifyFields fs := by
  cases v0 <;> simp [jsonifyFields]

theorem lookupLast_jsonifyFields (fs : Fields) (k : String) :
    lookupLast (jsonifyFields fs) k = jsonProp (lookupLast fs k) := by
  induction fs with
  | nil => simp [jsonifyFields, lookupLast, jsonProp]
  | cons e fs ih =>
    obtain ⟨k0, v0⟩ := e
    rw [jsonifyFields_cons, lookupLast_cons]
    by_cases hs : (lookupLast fs k0).isSome = true
    · simp only [hs, if_true, ih]
      cases h : lookupLast fs k with
      | some w => rfl
      | none =>
        have hk : k0 ≠ k := by
          intro hk; subst hk; simp [h] at hs
        simp [hk]
    · have hn : lookupLast fs k0 = none := by
        cases h : lookupLast fs k0 <;> simp_all
      simp only [hs, if_false]
      cases h : lookupLast fs k with
      | some w =>
        have hk : k0 ≠ k := by
          intro hk; subst hk; simp [h] at hn
        cases v0 <;> simp [lookupLast_cons, ih, h, hk, jsonProp] <;>
          cases w <;> simp [jsonProp]
      | none =>
        by_cases hk : k0 = k
        · cases v0 <;> simp [lookupLast_cons, ih, h, hk, jsonProp]
        · cases v0 <;> simp [lookupLast_cons, ih, h, hk, jsonProp]

theorem jsonifyList_eq_map (xs : List JVal) : jsonifyList xs = xs.map jsonify := by
  induction xs with
  | nil => simp [jsonifyList]
  | cons x xs ih => simp [jsonifyList, ih]

/-! ### Routing -/

theorem isPrefixOf_append (pat a b : List Char) :
    pat.isPrefixOf (a ++ b) =
      ((pat.take a.length).isPrefixOf a && (pat.drop a.length).isPrefixOf b) := by
  induction a generalizing pat with
  | nil => simp
  | cons x a ih =>
    cases pat with
    | nil => simp
    | cons p ps => simp [List.isPrefixOf, ih, Bool.and_assoc]

theorem isSuffixOf_append (pat a b : List Char) :
    pat.isSuffixOf (a ++ b) =
      ((pat.reverse.take b.length).isPrefixOf b.reverse &&
        (pat.reverse.drop b.length).isPrefixOf a.reverse) := by
  simp [List.isSuffixOf, List.reverse_append, isPrefixOf_append]

theorem takeWhile_all (p : Char → Bool) (l : List Char) (h : ∀ c ∈ l, p c = true) :
    l.takeWhile p = l := by
  induction l with
  | nil => rfl
  | cons x l ih =>
    simp only [List.takeWhile_cons, h x (List.mem_cons_self _ _), if_true]
    rw [ih (fun c hc => h c (List.mem_cons_of_mem _ hc))]

theorem digit_ne_question (c : Char) (h : c.isDigit = true) : (c != '?') = true := by
  have : c ≠ '?' := by
    intro hc; subst hc; revert h; decide
  simp [this]

theorem digit_not_slash (c : Char) (h : c.isDigit = true) : c ≠ '/' := by
  intro hc; subst hc; revert h; decide

theorem pathOf_approvActionPath (ds : List Char) (action : String) (hds : IsDigits ds)
    (ha : action ∈ ["mark_in_transit", "mark_delivered", "cancel"]) :
    pathOf (approvActionPath ds action) =
      "/api/approvisionnements/".toList ++ (ds ++ ("/" ++ action).toList ++ ['/']) := by
  unfold pathOf approvActionPath
  apply takeWhile_all
  intro c hc
  replace hc : c ∈ "/api/approvisionnements/".toList ++
      (ds ++ ("/" ++ action).toList ++ ['/']) := hc
  simp only [List.mem_append] at hc
  rcases hc with hc | (hc | hc) | hc
  · revert c; decide
  · exact digit_ne_question c (hds.2 c hc)
  · simp only [List.mem_cons, List.mem_singleton, List.not_mem_nil, or_false] at ha
    rcases ha with rfl | rfl | rfl <;> revert c <;> decide
  · revert c; decide

theorem stripSlash_concat (X : List Char) : stripSlash (X ++ ['/']) = X := by
  simp [stripSlash]

theorem isPrefixOf_refl (l : List Char) : l.isPrefixOf l = true := by
  induction l with
  | nil => rfl
  | cons x l ih => simp [List.isPrefixOf, ih]

theorem dropSuffix_append (suf : String) (a : List Char) :
    dropSuffix? suf (a ++ suf.toList) = some a := by
  have h1 : suf.toList.isSuffixOf (a ++ suf.toList) = true := by
    rw [isSuffixOf_append]
    have e : suf.toList.length = suf.toList.reverse.length := (List.length_reverse _).symm
    rw [e, List.take_length, List.drop_length, isPrefixOf_refl, Bool.true_and]
    cases a.reverse <;> rfl
  have h2 : (a ++ suf.toList).length - suf.length = a.length := by
    show (a ++ suf.toList).length - suf.toList.length = a.length
    rw [List.length_append]; omega
  rw [dropSuffix?, if_pos h1, h2, List.take_left']
  rfl

theorem dropSuffix_mismatch (suf : String) (a b : List Char)
    (h : (suf.toList.reverse.take b.length).isPrefixOf b.reverse = false) :
    dropSuffix? suf (a ++ b) = none := by
  have h1 : suf.toList.isSuffixOf (a ++ b) = false := by
    rw [isSuffixOf_append, h]; rfl
  rw [dropSuffix?, if_neg (by rw [h1]; exact Bool.false_ne_true)]

theorem matchIdSuffix_digits (pre : String) (ds : List Char) (hds : IsDigits ds)
    (hp : pre.toList.reverse.takeWhile Char.isDigit = [])
    (hq : pre.toList.reverse.dropWhile Char.isDigit = pre.toList.reverse) :
    matchIdSuffix pre (pre.toList ++ ds) = some (digitsToNat ds) := by
  have hall : ∀ c ∈ ds.reverse, Char.isDigit c = true := by
    intro c hc; exact hds.2 c (List.mem_reverse.1 hc)
  have h1 : (pre.toList ++ ds).reverse.takeWhile Char.isDigit = ds.reverse := by
    rw [List.reverse_append, List.takeWhile_append_of_pos hall, hp, List.append_nil]
  have h2 : (pre.toList ++ ds).reverse.dropWhile Char.isDigit = pre.toList.reverse := by
    rw [List.reverse_append, List.dropWhile_append_of_pos hall, hq]
  have h3 : ds.isEmpty = false := by
    cases ds with
    | nil => exact absurd rfl hds.1
    | cons _ _ => rfl
  have h4 : pre.toList.isSuffixOf pre.toList = true := by
    rw [List.isSuffixOf, isPrefixOf_refl]
  unfold matchIdSuffix
  simp only [h1, h2, List.reverse_reverse, h3, h4]
  rfl

theorem approvActionMatch_path (ds : List Char) (action : String) (hds : IsDigits ds)
    (ha : action ∈ ["mark_in_transit", "mark_delivered", "cancel"]) :
    approvActionMatch
      ("/api/approvisionnements/".toList ++ (ds ++ ("/" ++ action).toList ++ ['/'])) =
      some (digitsToNat ds, action) := by
  have hm := matchIdSuffix_digits "/api/approvisionnements/" ds hds (by decide) (by decide)
  have hre : ∀ X : List Char, "/api/approvisionnements/".toList ++ (ds ++ X ++ ['/']) =
      (("/api/approvisionnements/".toList ++ ds) ++ X) ++ ['/'] := by
    intro X; simp only [List.append_assoc]
  unfold approvActionMatch actionMatch
  rw [hre, stripSlash_concat]
  simp only [List.mem_cons, List.mem_singleton, List.not_mem_nil, or_false] at ha
  rcases ha with rfl | rfl | rfl
  · simp only [List.findSome?, dropSuffix_append, hm, Option.map]
  · rw [List.findSome?, dropSuffix_mismatch _ _ _ (by decide)]
    simp only [List.findSome?, dropSuffix_append, hm, Option.map]
  · rw [List.findSome?, dropSuffix_mismatch _ _ _ (by decide)]
    simp only []
    rw [List.findSome?, dropSuffix_mismatch _ _ _ (by decide)]
    simp only [List.findSome?, dropSuffix_append, hm, Option.map]

theorem startsWith_mismatch (p : String) (a b : List Char)
    (h : (p.toList.take a.length).isPrefixOf a = false) : startsWith (a ++ b) p = false := by
  rw [startsWith, isPrefixOf_append, h]; rfl

/-- A `POST` on `/api/approvisionnements/{id}/{action}/` reaches the action route. -/
theorem demoRequest_approvAction (now : String) (ds : List Char) (action : String)
    (options : Options) (ls : Storage) (hds : IsDigits ds)
    (ha : action ∈ ["mark_in_transit", "mark_delivered", "cancel"])
    (hm : methodOf options = "POST") :
    demoRequest now (approvActionPath ds action) options ls =
      (approvAction (getDemoData ls) (jsonBody options) (digitsToNat ds) action).map
        (fun p => (p.1, saveDemoData ls p.2)) := by
  have hp := pathOf_approvActionPath ds action hds ha
  have hmatch := approvActionMatch_path ds action hds ha
  obtain ⟨d, ds', rfl⟩ : ∃ d ds', ds = d :: ds' := by
    cases ds with
    | nil => exact absurd rfl hds.1
    | cons d ds' => exact ⟨d, ds', rfl⟩
  have hd : d.isDigit = true := hds.2 d (List.mem_cons_self _ _)
  have e1 : decide ("/api/approvisionnements/".toList ++
      (d :: ds' ++ ("/" ++ action).toList ++ ['/']) = "/api/approvisionnements/".toList) = false := by
    apply decide_eq_false
    intro h
    have := List.append_right_eq_self.1 h
    simp at this
  have e2 : "/api/approvisionnements/".toList ++
      (d :: ds' ++ ("/" ++ action).toList ++ ['/']) ≠ "/api/approvisionnements/stats/".toList := by
    intro h
    have h2 : "/api/approvisionnements/stats/".toList =
        "/api/approvisionnements/".toList ++ "stats/".toList := by decide
    rw [h2] at h
    have h3 := List.append_cancel_left h
    simp only [List.cons_append] at h3
    have h4 : d = 's' := by
      have := List.head_eq_of_cons_eq h3
      exact this
    subst h4
    revert hd; decide
  unfold demoRequest
  simp only [hp, hm]
  rw [startsWith_mismatch _ _ _ (by decide), startsWith_mismatch _ _ _ (by decide),
    startsWith_mismatch _ _ _ (by decide), startsWith_mismatch _ _ _ (by decide),
    startsWith_mismatch _ _ _ (by decide)]
  simp only [e1, hmatch, Bool.false_eq_true, if_false, Bool.false_and, if_true]
  rw [if_neg e2]

/-! ### Traversals that do not throw -/

theorem mapE_spec {α β : Type} (f : α → JsM β) (P : α → β → Prop) (xs : List α)
    (h : ∀ x ∈ xs, ∃ y, f x = .ok y ∧ P x y) :
    ∃ ys, mapE f xs = .ok ys ∧ List.Forall₂ P xs ys := by
  induction xs with
  | nil => exact ⟨[], rfl, List.Forall₂.nil⟩
  | cons x xs ih =>
    obtain ⟨y, hy, hP⟩ := h x (List.mem_cons_self _ _)
    obtain ⟨ys, hys, hF⟩ := ih (fun z hz => h z (List.mem_cons_of_mem _ hz))
    refine ⟨y :: ys, ?_, List.Forall₂.cons hP hF⟩
    simp [mapE, hy, hys, bind, Except.bind, pure, Except.pure]

theorem mapE_eq_map {α β : Type} (f : α → JsM β) (g : α → β) (xs : List α)
    (h : ∀ x ∈ xs, f x = .ok (g x)) : mapE f xs = .ok (xs.map g) := by
  induction xs with
  | nil => rfl
  | cons x xs ih =>
    simp [mapE, h x (List.mem_cons_self _ _), ih (fun z hz => h z (List.mem_cons_of_mem _ hz)),
      bind, Except.bind, pure, Except.pure]

theorem findM_eq_find (p : JVal → JsM Bool) (g : JVal → Bool) (xs : List JVal)
    (h : ∀ x ∈ xs, p x = .ok (g x)) : findM p xs = .ok (xs.find? g) := by
  induction xs with
  | nil => rfl
  | cons x xs ih =>
    have hx := h x (List.mem_cons_self _ _)
    have ih' := ih (fun z hz => h z (List.mem_cons_of_mem _ hz))
    cases hg : g x <;>
      simp [findM, hx, ih', hg, bind, Except.bind, pure, Except.pure, List.find?]

theorem getProp_readable (v : JVal) (k : String) (h : Readable v) :
    getProp v k = .ok (propOf v k) := by
  obtain ⟨h1, h2⟩ := h
  cases v <;> simp_all [getProp, propOf, pure, Except.pure]

theorem listOrEmpty_elemsOf (v : JVal) (h : ReadableList v) :
    listOrEmpty v = .ok (elemsOf v) ∧ ∀ x ∈ elemsOf v, Readable x := by
  obtain ⟨xs, hxs, hr⟩ := h
  have : elemsOf v = xs := by
    unfold listOrEmpty at hxs
    unfold elemsOf
    cases hj : jsOr v (.arr []) <;> simp_all [pure, Except.pure, throw, throwThe, MonadExceptOf.throw]
  rw [this]
  exact ⟨hxs, hr⟩

/-- The body of a delivery: readable, with receptions that can be searched. -/
theorem receiveLigne_ok (payload l : JVal) (hp : Readable payload)
    (hr : ReadableList (propOf payload "lignes_receptions")) (hl : Readable l) :
    receiveLigne payload l = .ok (receivedLine payload l) := by
  obtain ⟨he, hall⟩ := listOrEmpty_elemsOf _ hr
  have hfind : findM (sameLigne l)
      (elemsOf (propOf payload "lignes_receptions")) = .ok (receptionFor payload l) := by
    apply findM_eq_find
    intro r hrm
    simp [sameLigne, getProp_readable r _ (hall r hrm), getProp_readable l _ hl, bind,
      Except.bind, pure, Except.pure]
  unfold receiveLigne
  simp only [getProp_readable payload _ hp, getProp_readable l _ hl, he, bind, Except.bind,
    hfind]
  unfold receivedLine receivedOf orderedOf
  cases hrec : receptionFor payload l with
  | none => simp [truthy, pure, Except.pure]
  | some r =>
    have hrm : r ∈ elemsOf (propOf payload "lignes_receptions") := by
      unfold receptionFor at hrec
      exact List.mem_of_find?_eq_some hrec
    have hrr := hall r hrm
    have hid := List.find?_some (show List.find? _ _ = some r from hrec)
    simp only at hid
    have htr : truthy r = true := by
      obtain ⟨h1, h2⟩ := hrr
      cases r <;> simp_all [truthy, propOf, toNumber, ofNum, strictEq]
    simp [htr, getProp_readable r _ hrr, pure, Except.pure, bind, Except.bind]

/-! ### Procurement-order actions -/

theorem readable_of_isObj (v : JVal) (h : IsObj v) : Readable v := by
  obtain ⟨fs, rfl⟩ := h
  exact ⟨by simp, by simp⟩

theorem readableList_of_objList (v : JVal) (h : ObjList v) : ReadableList v := by
  obtain ⟨xs, hxs, hall⟩ := h
  exact ⟨xs, hxs, fun x hx => readable_of_isObj x (hall x hx)⟩

theorem applyApprovAction_ok (id : Nat) (action : String) (payload a : JVal)
    (ha : OrderShape a) (hb : BodyShape payload) :
    applyApprovAction id action payload a = .ok (actedOrder id action payload a) := by
  obtain ⟨hobj, hlist⟩ := ha
  obtain ⟨hp, hr⟩ := hb
  have hra := readable_of_isObj a hobj
  obtain ⟨he, hall⟩ := listOrEmpty_elemsOf _ (readableList_of_objList _ hlist)
  have hmap : mapE (receiveLigne payload) (elemsOf (propOf a "lignes")) =
      .ok ((elemsOf (propOf a "lignes")).map (receivedLine payload)) :=
    mapE_eq_map _ _ _ (fun l hl => receiveLigne_ok payload l hp hr (hall l hl))
  unfold applyApprovAction actedOrder isTarget deliveredOrder
  simp only [getProp_readable a _ hra, getProp_readable payload _ hp, he, hmap, bind,
    Except.bind, pure, Except.pure]
  by_cases h1 : strictEq (propOf a "id_approvisionnement") (.num id) = true
  · by_cases h2 : action = "mark_in_transit"
    · simp [h1, h2]
    · by_cases h3 : action = "cancel"
      · simp [h1, h2, h3]
      · by_cases h4 : action = "mark_delivered"
        · simp [h1, h2, h3, h4]
        · simp [h1, h2, h3, h4]
  · simp [h1]

theorem approvAction_ok (fs : Fields) (payload : JVal) (id : Nat) (action : String)
    (hcoll : ∀ a ∈ elemsOf (getField fs "approvisionnements"), OrderShape a)
    (hlist : ∃ xs, listOrEmpty (getField fs "approvisionnements") = .ok xs)
    (hb : BodyShape payload) :
    approvAction (.obj fs) payload id action =
      .ok (successValue, .obj (objSet fs "approvisionnements"
        (.arr ((elemsOf (getField fs "approvisionnements")).map
          (actedOrder id action payload))))) := by
  obtain ⟨xs, hxs⟩ := hlist
  have hx : elemsOf (getField fs "approvisionnements") = xs := by
    unfold listOrEmpty at hxs
    unfold elemsOf
    cases hj : jsOr (getField fs "approvisionnements") (.arr []) <;>
      simp_all [pure, Except.pure, throw, throwThe, MonadExceptOf.throw]
  rw [hx] at hcoll ⊢
  have hmap : mapE (applyApprovAction id action payload) xs =
      .ok (xs.map (actedOrder id action payload)) :=
    mapE_eq_map _ _ _ (fun a ha => applyApprovAction_ok id action payload a (hcoll a ha) hb)
  unfold approvAction
  simp [getProp, hxs, hmap, setProp, bind, Except.bind, pure, Except.pure, successValue]

theorem getDemoData_save (ls : Storage) (data : JVal) :
    getDemoData (saveDemoData ls data) = jsonify data := by
  simp [getDemoData, saveDemoData, textTruthy, parseOrEmpty]

theorem getField_jsonifyFields (fs : Fields) (k : String) :
    getField (jsonifyFields fs) k = jsonField (getField fs k) := by
  unfold getField
  rw [lookupLast_jsonifyFields]
  cases h : lookupLast fs k with
  | none => rfl
  | some v => cases v <;> rfl

theorem propOf_jsonify_obj (fs : Fields) (k : String) :
    propOf (jsonify (.obj fs)) k = jsonField (getField fs k) := by
  simp [jsonify, propOf, getField_jsonifyFields]

theorem elemsOf_arr (xs : List JVal) : elemsOf (.arr xs) = xs := by
  simp [elemsOf, jsOr, truthy]

theorem forall2_map_right {α β : Type} (P : α → β → Prop) (f : α → β) (xs : List α)
    (h : ∀ x ∈ xs, P x (f x)) : List.Forall₂ P xs (xs.map f) := by
  induction xs with
  | nil => exact List.Forall₂.nil
  | cons x xs ih =>
    exact List.Forall₂.cons (h x (List.mem_cons_self _ _))
      (ih (fun z hz => h z (List.mem_cons_of_mem _ hz)))

/-- An action route on a well-shaped document: it returns `{ success: true }` and the stored
orders become the round trip of the orders the action writes. -/
theorem approvAction_stored (now : String) (ds : List Char) (action : String)
    (options : Options) (ls : Storage) (hds : IsDigits ds)
    (ha : action ∈ ["mark_in_transit", "mark_delivered", "cancel"])
    (hm : methodOf options = "POST") (hs : OrdersShape ls)
    (hb : BodyShape (jsonBody options)) :
    ∃ ls', demoRequest now (approvActionPath ds action) options ls = .ok (successValue, ls') ∧
      IsObj (getDemoData ls') ∧
      propOf (getDemoData ls') "approvisionnements" =
        .arr ((storedOrders ls).map
          (fun a => jsonify (actedOrder (digitsToNat ds) action (jsonBody options) a))) := by
  obtain ⟨⟨fs, hfs⟩, hlist, hcoll⟩ := hs
  have hso : storedOrders ls = elemsOf (getField fs "approvisionnements") := by
    simp [storedOrders, hfs, propOf]
  rw [hso] at hcoll ⊢
  rw [hfs] at hlist
  simp only [propOf] at hlist
  have h := approvAction_ok fs (jsonBody options) (digitsToNat ds) action hcoll hlist hb
  refine ⟨saveDemoData ls (.obj (objSet fs "approvisionnements"
    (.arr ((elemsOf (getField fs "approvisionnements")).map
      (actedOrder (digitsToNat ds) action (jsonBody options)))))), ?_, ?_, ?_⟩
  · rw [demoRequest_approvAction now ds action options ls hds ha hm, hfs, h]
    rfl
  · rw [getDemoData_save]
    exact ⟨_, rfl⟩
  · rw [getDemoData_save, propOf_jsonify_obj, getField_objSet_same]
    simp [jsonField, jsonify, jsonifyList_eq_map]

theorem storedOrders_of_prop (ls : Storage) (xs : List JVal)
    (h : propOf (getDemoData ls) "approvisionnements" = .arr xs) : storedOrders ls = xs := by
  simp [storedOrders, h, elemsOf_arr]

theorem getField_objSet (fs : Fields) (k k' : String) (v : JVal) :
    getField (objSet fs k v) k' = if k = k' then v else getField fs k' := by
  by_cases h : k = k'
  · subst h; simp [getField_objSet_same]
  · simp [h, getField_objSet_other]

theorem isObj_jsonify (v : JVal) (h : IsObj v) : IsObj (jsonify v) := by
  obtain ⟨fs, rfl⟩ := h
  exact ⟨jsonifyFields fs, by simp [jsonify]⟩

theorem objList_jsonField (v : JVal) (h : ObjList v) : ObjList (jsonField v) := by
  obtain ⟨xs, hxs, hall⟩ := h
  cases v with
  | arr ys =>
    have hy : ys = xs := by
      simpa [listOrEmpty, jsOr, truthy, pure, Except.pure] using hxs
    subst hy
    refine ⟨ys.map jsonify, ?_, ?_⟩
    · simp [jsonField, jsonify, jsonifyList_eq_map, listOrEmpty, jsOr, truthy, pure, Except.pure]
    · intro x hx
      obtain ⟨y, hy, rfl⟩ := List.mem_map.1 hx
      exact isObj_jsonify y (hall y hy)
  | undefined => exact ⟨[], by simp [jsonField, listOrEmpty, jsOr, truthy, pure, Except.pure], by simp⟩
  | null => exact ⟨[], by simp [jsonField, jsonify, listOrEmpty, jsOr, truthy, pure, Except.pure], by simp⟩
  | nan => exact ⟨[], by simp [jsonField, jsonify, listOrEmpty, jsOr, truthy, pure, Except.pure], by simp⟩
  | bool b =>
    cases b
    · exact ⟨[], by simp [jsonField, jsonify, listOrEmpty, jsOr, truthy, pure, Except.pure], by simp⟩
    · simp [listOrEmpty, jsOr, truthy, throw, throwThe, MonadExceptOf.throw] at hxs
  | num n =>
    by_cases hn : n = 0
    · subst hn
      exact ⟨[], by simp [jsonField, jsonify, listOrEmpty, jsOr, truthy, pure, Except.pure], by simp⟩
    · simp [listOrEmpty, jsOr, truthy, hn, throw, throwThe, MonadExceptOf.throw] at hxs
  | str s =>
    by_cases hn : s = ""
    · subst hn
      exact ⟨[], by simp [jsonField, jsonify, listOrEmpty, jsOr, truthy, pure, Except.pure], by simp⟩
    · simp [listOrEmpty, jsOr, truthy, hn, throw, throwThe, MonadExceptOf.throw] at hxs
  | obj fs => simp [listOrEmpty, jsOr, truthy, throw, throwThe, MonadExceptOf.throw] at hxs

theorem strictEq_jsonField_num (x : JVal) (n : Int) :
    strictEq (jsonField x) (.num n) = strictEq x (.num n) := by
  cases x <;> simp [jsonField, jsonify, strictEq]

theorem isObj_receivedLine (payload l : JVal) : IsObj (receivedLine payload l) :=
  ⟨_, rfl⟩

/-- What an action does to the three properties of an order that matter later: the id is
kept, the lines stay a list of objects. -/
theorem acted_shape (id : Nat) (action : String) (payload a : JVal) (ha : OrderShape a) :
    OrderShape (jsonify (actedOrder id action payload a)) ∧
      ∀ id', isTarget id' (jsonify (actedOrder id action payload a)) = isTarget id' a := by
  obtain ⟨⟨af, rfl⟩, hl⟩ := ha
  have hl' : ObjList (getField af "lignes") := hl
  have hlj := objList_jsonField _ hl'
  have hdel : ObjList (jsonField (.arr ((elemsOf (getField af "lignes")).map
      (receivedLine payload)))) := by
    apply objList_jsonField
    refine ⟨(elemsOf (getField af "lignes")).map (receivedLine payload),
      by simp [listOrEmpty, jsOr, truthy, pure, Except.pure], ?_⟩
    intro x hx
    obtain ⟨y, _, rfl⟩ := List.mem_map.1 hx
    exact isObj_receivedLine payload y
  unfold actedOrder
  by_cases h0 : isTarget id (.obj af) = true
  · by_cases h1 : action = "mark_in_transit"
    · simp only [h0, h1, Bool.not_true, Bool.false_eq_true, if_false, if_true]
      refine ⟨⟨⟨_, rfl⟩, ?_⟩, ?_⟩
      · simpa [jsonify, propOf, getField_jsonifyFields, getField_objSet, getField_spread_nil]
          using hlj
      · intro id'
        simp [isTarget, jsonify, propOf, getField_jsonifyFields, getField_objSet,
          getField_spread_nil, strictEq_jsonField_num]
    · by_cases h2 : action = "cancel"
      · simp only [h0, h1, h2, Bool.not_true, Bool.false_eq_true, if_false, if_true]
        refine ⟨⟨⟨_, rfl⟩, ?_⟩, ?_⟩
        · simpa [jsonify, propOf, getField_jsonifyFields, getField_objSet, getField_spread_nil]
            using hlj
        · intro id'
          simp [isTarget, jsonify, propOf, getField_jsonifyFields, getField_objSet,
            getField_spread_nil, strictEq_jsonField_num]
      · by_cases h3 : action = "mark_delivered"
        · simp only [h0, h1, h2, h3, Bool.not_true, Bool.false_eq_true, if_false, if_true]
          refine ⟨⟨⟨_, rfl⟩, ?_⟩, ?_⟩
          · simpa [deliveredOrder, jsonify, propOf, getField_jsonifyFields, getField_objSet,
              getField_spread_nil] using hdel
          · intro id'
            simp [deliveredOrder, isTarget, jsonify, propOf, getField_jsonifyFields,
              getField_objSet, getField_spread_nil, strictEq_jsonField_num]
        · simp only [h0, h1, h2, h3, Bool.not_true, Bool.false_eq_true, if_false]
          refine ⟨⟨⟨_, rfl⟩, ?_⟩, ?_⟩
          · simpa [jsonify, propOf, getField_jsonifyFields] using hlj
          · intro id'
            simp [isTarget, jsonify, propOf, getField_jsonifyFields, strictEq_jsonField_num]
  · simp only [h0, Bool.not_false, if_true]
    refine ⟨⟨⟨_, rfl⟩, ?_⟩, ?_⟩
    · simpa [jsonify, propOf, getField_jsonifyFields] using hlj
    · intro id'
      simp [isTarget, jsonify, propOf, getField_jsonifyFields, strictEq_jsonField_num]

theorem acted_status (id : Nat) (action : String) (payload a : JVal) (ha : OrderShape a)
    (ht : isTarget id a = true)
    (hact : action ∈ ["mark_in_transit", "mark_delivered", "cancel"]) :
    propOf (jsonify (actedOrder id action payload a)) "statut_approvisionnement" =
      .str (statusAfter action) := by
  obtain ⟨⟨af, rfl⟩, _⟩ := ha
  simp only [List.mem_cons, List.mem_singleton, List.not_mem_nil, or_false] at hact
  rcases hact with rfl | rfl | rfl <;>
    simp [actedOrder, deliveredOrder, ht, statusAfter, jsonify, propOf, getField_jsonifyFields,
      getField_objSet, jsonField]

theorem ordersShape_after (ls ls' : Storage) (f : JVal → JVal)
    (hobj : IsObj (getDemoData ls'))
    (hprop : propOf (getDemoData ls') "approvisionnements" = .arr ((storedOrders ls).map f))
    (hf : ∀ a ∈ storedOrders ls, OrderShape (f a)) : OrdersShape ls' := by
  refine ⟨hobj, ⟨(storedOrders ls).map f, ?_⟩, ?_⟩
  · rw [hprop]; simp [listOrEmpty, jsOr, truthy, pure, Except.pure]
  · rw [storedOrders_of_prop ls' _ hprop]
    intro a ha
    obtain ⟨b, hb, rfl⟩ := List.mem_map.1 ha
    exact hf b hb

/-- C9.  The simulator never rejects a procurement-order transition.  For every stored
document whose orders are records (whatever their current status), every id and every body
that is not `null`: each of `mark_in_transit`, `cancel` and `mark_delivered` returns
`{ success: true }` and leaves the order with that id with status `in_transit`, `cancelled`
and `delivered` respectively; and cancelling an order and then marking it delivered leaves it
with status `delivered`. -/
theorem c9_transitions_never_rejected (now : String) (ds : List Char) (action : String)
    (options cancelOptions deliverOptions : Options) (ls : Storage) (hds : IsDigits ds)
    (ha : action ∈ ["mark_in_transit", "mark_delivered", "cancel"])
    (hm : methodOf options = "POST") (hmc : methodOf cancelOptions = "POST")
    (hmd : methodOf deliverOptions = "POST") (hs : OrdersShape ls)
    (hb : BodyShape (jsonBody options)) (hbc : BodyShape (jsonBody cancelOptions))
    (hbd : BodyShape (jsonBody deliverOptions)) :
    (∃ ls', demoRequest now (approvActionPath ds action) options ls = .ok (successValue, ls') ∧
      List.Forall₂ (fun a a' => isTarget (digitsToNat ds) a = true →
          propOf a' "statut_approvisionnement" = .str (statusAfter action))
        (storedOrders ls) (storedOrders ls')) ∧
    (∃ ls1 ls2,
      demoRequest now (approvActionPath ds "cancel") cancelOptions ls =
        .ok (successValue, ls1) ∧
      demoRequest now (approvActionPath ds "mark_delivered") deliverOptions ls1 =
        .ok (successValue, ls2) ∧
      List.Forall₂ (fun a a2 => isTarget (digitsToNat ds) a = true →
          propOf a2 "statut_approvisionnement" = .str "delivered")
        (storedOrders ls) (storedOrders ls2)) := by
  constructor
  · obtain ⟨ls', hreq, _, hprop⟩ := approvAction_stored now ds action options ls hds ha hm hs hb
    refine ⟨ls', hreq, ?_⟩
    rw [storedOrders_of_prop ls' _ hprop]
    apply forall2_map_right
    intro a hmem ht
    exact acted_status _ action _ a (hs.2.2 a hmem) ht ha
  · obtain ⟨ls1, hreq1, hobj1, hprop1⟩ :=
      approvAction_stored now ds "cancel" cancelOptions ls hds (by simp) hmc hs hbc
    have hs1 : OrdersShape ls1 :=
      ordersShape_after ls ls1 _ hobj1 hprop1
        (fun a hmem => (acted_shape _ "cancel" _ a (hs.2.2 a hmem)).1)
    obtain ⟨ls2, hreq2, _, hprop2⟩ :=
      approvAction_stored now ds "mark_delivered" deliverOptions ls1 hds (by simp) hmd hs1 hbd
    refine ⟨ls1, ls2, hreq1, hreq2, ?_⟩
    rw [storedOrders_of_prop ls2 _ hprop2, storedOrders_of_prop ls1 _ hprop1, List.map_map]
    apply forall2_map_right
    intro a hmem ht
    have hsa := acted_shape (digitsToNat ds) "cancel" (jsonBody cancelOptions) a (hs.2.2 a hmem)
    have ht1 : isTarget (digitsToNat ds)
        (jsonify (actedOrder (digitsToNat ds) "cancel" (jsonBody cancelOptions) a)) = true := by
      rw [hsa.2]; exact ht
    have := acted_status (digitsToNat ds) "mark_delivered" (jsonBody deliverOptions) _ hsa.1 ht1
      (by simp)
    simpa [statusAfter] using this

theorem sampleOrders_shape : OrdersShape sampleOrders := by
  refine ⟨⟨_, rfl⟩, ⟨_, rfl⟩, ?_⟩
  intro a ha
  simp [storedOrders, sampleOrders, getDemoData, textTruthy, parseOrEmpty, propOf, getField,
    lookupLast, elemsOf, jsOr, truthy] at ha
  subst ha
  refine ⟨⟨_, rfl⟩, ⟨_, rfl, ?_⟩⟩
  intro l hl
  simp at hl
  rcases hl with rfl | rfl <;> exact ⟨_, rfl⟩

theorem emptyBody_shape : BodyShape (jsonBody (postJson (.obj []))) := by
  refine ⟨⟨by simp [jsonBody, postJson], by simp [jsonBody, postJson]⟩, ⟨[], rfl, by simp⟩⟩

/-- C9 (witness): order 7 of the sample document, stored as cancelled; `mark_in_transit`,
and cancel followed by `mark_delivered`, with empty bodies. -/
theorem c9_transitions_never_rejected_witness :
    (∃ ls', demoRequest "t" (approvActionPath ['7'] "mark_in_transit") (postJson (.obj []))
        sampleOrders = .ok (successValue, ls') ∧
      List.Forall₂ (fun a a' => isTarget (digitsToNat ['7']) a = true →
          propOf a' "statut_approvisionnement" = .str (statusAfter "mark_in_transit"))
        (storedOrders sampleOrders) (storedOrders ls')) ∧
    (∃ ls1 ls2,
      demoRequest "t" (approvActionPath ['7'] "cancel") (postJson (.obj [])) sampleOrders =
        .ok (successValue, ls1) ∧
      demoRequest "t" (approvActionPath ['7'] "mark_delivered") (postJson (.obj [])) ls1 =
        .ok (successValue, ls2) ∧
      List.Forall₂ (fun a a2 => isTarget (digitsToNat ['7']) a = true →
          propOf a2 "statut_approvisionnement" = .str "delivered")
        (storedOrders sampleOrders) (storedOrders ls2)) :=
  c9_transitions_never_rejected "t" ['7'] "mark_in_transit" (postJson (.obj []))
    (postJson (.obj [])) (postJson (.obj [])) sampleOrders ⟨by simp, by decide⟩ (by simp)
    (by decide) (by decide) (by decide) sampleOrders_shape emptyBody_shape emptyBody_shape
    emptyBody_shape

/-! ### Delivery (C3) -/

theorem receiptsBody_shape (receipts : List (Int × Int)) :
    BodyShape (jsonBody (postJson (receiptsBody receipts))) := by
  refine ⟨⟨by simp [jsonBody, postJson, receiptsBody], by simp [jsonBody, postJson, receiptsBody]⟩,
    ⟨receipts.map receiptValue, rfl, ?_⟩⟩
  intro x hx
  obtain ⟨r, _, rfl⟩ := List.mem_map.1 hx
  exact ⟨by simp [receiptValue], by simp [receiptValue]⟩

theorem find_map_receipts (receipts : List (Int × Int)) (n : Option Int) :
    (receipts.map receiptValue).find? (fun r =>
      strictEq (ofNum (toNumber (propOf r "id_ligne"))) (ofNum n)) =
      (receipts.find? (fun r => n == some r.1)).map receiptValue := by
  induction receipts with
  | nil => rfl
  | cons r rs ih =>
    have h : strictEq (ofNum (toNumber (propOf (receiptValue r) "id_ligne"))) (ofNum n) =
        (n == some r.1) := by
      cases n with
      | none => simp [receiptValue, propOf, getField, lookupLast, toNumber, ofNum, strictEq]
      | some j =>
        simp [receiptValue, propOf, getField, lookupLast, toNumber, ofNum, strictEq]
        exact eq_comm
    simp only [List.map_cons, List.find?_cons, h]
    cases hb : (n == some r.1)
    · simpa using ih
    · simp

theorem receivedOf_receipts (receipts : List (Int × Int)) (l : JVal) :
    receivedOf (receiptsBody receipts) l =
      match suppliedFor receipts l with
      | some q => some q
      | none => orderedOf l := by
  have hp : elemsOf (propOf (receiptsBody receipts) "lignes_receptions") =
      receipts.map receiptValue := by
    simp [receiptsBody, propOf, getField, lookupLast, elemsOf_arr]
  unfold receivedOf receptionFor suppliedFor
  rw [hp, find_map_receipts]
  cases hf : receipts.find? (fun r => toNumber (propOf l "id_ligne") == some r.1) with
  | none => rfl
  | some r =>
    by_cases h0 : r.2 = 0 <;>
      simp [receiptValue, propOf, getField, lookupLast, jsOr, truthy, toNumber, h0]

theorem sumNum_somes {α : Type} (f : α → Int) (xs : List α) (acc : Int) :
    (xs.map (fun x => some (f x))).foldl numAdd (some acc) =
      some (xs.foldl (fun s x => s + f x) acc) := by
  induction xs generalizing acc with
  | nil => rfl
  | cons x xs ih => simp [List.foldl, numAdd, ih]

theorem toNumber_jsonField_ofNum (q : Option Int) :
    toNumber (jsonField (ofNum q)) = some (numOrZero (ofNum q)) := by
  cases q <;> simp [ofNum, jsonField, jsonify, toNumber, numOrZero]

theorem propOf_receivedLine_recue (payload l : JVal) :
    propOf (receivedLine payload l) "quantite_recue" = ofNum (receivedOf payload l) := by
  simp [receivedLine, propOf, getField_objSet]

theorem propOf_jsonify_receivedLine_recue (payload l : JVal) :
    propOf (jsonify (receivedLine payload l)) "quantite_recue" =
      jsonField (ofNum (receivedOf payload l)) := by
  simp [receivedLine, propOf_jsonify_obj, getField_objSet]

theorem propOf_jsonify_receivedLine_statut (payload l : JVal) :
    propOf (jsonify (receivedLine payload l)) "statut_ligne" =
      .str (if numGe (receivedOf payload l) (orderedOf l) then "delivered" else "partial") := by
  rw [receivedLine, propOf_jsonify_obj, getField_objSet_same]
  rfl

theorem line_delivered (receipts : List (Int × Int)) (l : JVal) :
    LineDelivered receipts l (jsonify (receivedLine (receiptsBody receipts) l)) := by
  unfold LineDelivered
  rw [propOf_jsonify_receivedLine_recue, propOf_jsonify_receivedLine_statut,
    receivedOf_receipts]
  cases hs : suppliedFor receipts l with
  | some q =>
    refine ⟨?_, ?_, ?_⟩
    · intro q' hq'
      simp only [Option.some.injEq] at hq'
      subst hq'
      simp [ofNum, jsonField, jsonify]
    · cases ho : orderedOf l <;> simp [ofNum, jsonField, jsonify, toNumber, numLt, numGe]
    · cases ho : orderedOf l <;> simp [ofNum, jsonField, jsonify, toNumber, numLt, numGe]
  | none =>
    refine ⟨by simp, ?_, ?_⟩
    · cases ho : orderedOf l <;> simp [ofNum, jsonField, jsonify, toNumber, numLt, numGe]
    · cases ho : orderedOf l <;> simp [ofNum, jsonField, jsonify, toNumber, numLt, numGe]

theorem order_delivered (receipts : List (Int × Int)) (id : Nat) (a : JVal)
    (ha : OrderShape a) (ht : isTarget id a = true) :
    OrderDelivered receipts a
      (jsonify (actedOrder id "mark_delivered" (receiptsBody receipts) a)) := by
  have hst := acted_status id "mark_delivered" (receiptsBody receipts) a ha ht (by simp)
  obtain ⟨⟨af, rfl⟩, _⟩ := ha
  refine ⟨by simpa [statusAfter] using hst, ?_⟩
  refine ⟨((elemsOf (getField af "lignes")).map (receivedLine (receiptsBody receipts))).map
    jsonify, ?_, ?_, ?_⟩
  · simp only [actedOrder, ht, deliveredOrder, Bool.not_true, Bool.false_eq_true, if_false]
    simp [propOf_jsonify_obj, getField_jsonifyFields, getField_objSet, jsonField, jsonify,
      jsonifyList_eq_map, propOf]
  · rw [List.map_map]
    apply forall2_map_right
    intro l _
    exact line_delivered receipts l
  · have hsum : sumNum ((((elemsOf (getField af "lignes")).map
        (receivedLine (receiptsBody receipts))).map jsonify).map
        (fun l' => toNumber (propOf l' "quantite_recue"))) =
        some (((elemsOf (getField af "lignes")).map
          (receivedLine (receiptsBody receipts))).foldl
          (fun sum l => sum + numOrZero (propOf l "quantite_recue")) 0) := by
      unfold sumNum
      rw [← sumNum_somes, List.map_map]
      congr 1
      apply List.map_congr_left
      intro x hx
      obtain ⟨l, _, rfl⟩ := List.mem_map.1 hx
      simp [propOf_jsonify_receivedLine_recue, toNumber_jsonField_ofNum,
        propOf_receivedLine_recue]
    rw [hsum]
    simp only [actedOrder, ht, deliveredOrder, Bool.not_true, Bool.false_eq_true, if_false]
    simp [propOf_jsonify_obj, getField_jsonifyFields, getField_objSet, jsonField, jsonify,
      ofNum, propOf]

/-- C3.  For every stored document whose orders are records and every list of per-line
receipts (line id, quantity), `POST /api/approvisionnements/{id}/mark_delivered/` returns
`{ success: true }` and the order with that id is stored with status `delivered`; each of
its lines for which a receipt was supplied has `quantite_recue` equal to the supplied
quantity; each line has `statut_ligne` `partial` when its received quantity is less than its
ordered quantity and `delivered` when it is greater or equal; and `total_quantite_recue` is
the sum of `quantite_recue` over the lines. -/
theorem c3_mark_delivered (now : String) (ds : List Char) (receipts : List (Int × Int))
    (ls : Storage) (hds : IsDigits ds) (hs : OrdersShape ls) :
    ∃ ls', demoRequest now (approvActionPath ds "mark_delivered")
        (postJson (receiptsBody receipts)) ls = .ok (successValue, ls') ∧
      List.Forall₂ (fun a a' => isTarget (digitsToNat ds) a = true →
          OrderDelivered receipts a a')
        (storedOrders ls) (storedOrders ls') := by
  obtain ⟨ls', hreq, _, hprop⟩ := approvAction_stored now ds "mark_delivered"
    (postJson (receiptsBody receipts)) ls hds (by simp) rfl hs
    (receiptsBody_shape receipts)
  refine ⟨ls', hreq, ?_⟩
  rw [storedOrders_of_prop ls' _ hprop]
  apply forall2_map_right
  intro a hmem ht
  exact order_delivered receipts _ a (hs.2.2 a hmem) ht

/-- C3 (witness): order 7 of the sample document, with a receipt of 6 for line 701 (ordered
10) and none for line 702. -/
theorem c3_mark_delivered_witness :
    ∃ ls', demoRequest "t" (approvActionPath ['7'] "mark_delivered")
        (postJson (receiptsBody [(701, 6)])) sampleOrders = .ok (successValue, ls') ∧
      List.Forall₂ (fun a a' => isTarget (digitsToNat ['7']) a = true →
          OrderDelivered [(701, 6)] a a')
        (storedOrders sampleOrders) (storedOrders ls') :=
  c3_mark_delivered "t" ['7'] [(701, 6)] sampleOrders ⟨by simp, by decide⟩ sampleOrders_shape

/-! ### Unit snapshot (C8) and malformed state (C10) -/

/-- C8 (the code at the failing input).  With no product of id 9 in the product collection,
a line that supplies the name `Sardine` and the unit `caisse` is created with the supplied
name but with the unit `kg`: the supplied unit is not read. -/
theorem c8_supplied_unit_ignored :
    (demoRequest "t" "/api/approvisionnements/" (postJson unitBody) {}).map
      (fun r => (lignesOf r.1).map
        (fun l => (jsToString (propOf l "produit_nom"), jsToString (propOf l "produit_unite")))) =
      .ok [("Sardine", "kg")] := by
  rfl

/-- C10 (the code at failing inputs).  `demoRequest` ends with a `TypeError` when the stored
document is the JSON text `null` (any route that reads a collection), when a stored
collection is not a list (`POST /api/lots/` with `lots` a string), and when the body of an
order creation is the JSON text `null`. -/
theorem c10_type_errors :
    demoRequest "t" "/api/produits/" {} nullDocument = .error .typeError ∧
    demoRequest "t" "/api/lots/" (postJson (.obj [])) lotsNotAList = .error .typeError ∧
    demoRequest "t" "/api/approvisionnements/" (postJson .null) {} = .error .typeError := by
  refine ⟨rfl, rfl, rfl⟩

/-! ### Lot creation (C5) -/

/-- C5 (counterexample).  With the lot of id 1 stored, a `POST /api/lots/` whose body carries
`id_lot: 1` creates a lot of id 1: not greater than the id already in the collection, which
then holds the id 1 twice. -/
theorem c5_body_overrides_id :
    (demoRequest "t" "/api/lots/" (postJson (.obj [("id_lot", .num 1)])) oneLot).map
      (fun r => (toNumber (propOf r.1 "id_lot"),
        (storedLots r.2).map (fun l => toNumber (propOf l "id_lot")))) =
      .ok (some 1, [some 1, some 1]) := by
  rfl

theorem demoRequest_createLot (now : String) (options : Options) (ls : Storage)
    (hm : methodOf options = "POST") :
    demoRequest now "/api/lots/" options ls =
      (createLot (getDemoData ls) (jsonBody options)).map
        (fun p => (p.1, saveDemoData ls p.2)) := by
  have hp : pathOf "/api/lots/" = "/api/lots/".toList := by decide
  unfold demoRequest
  simp only [hp, hm]
  rw [if_neg (by decide), if_neg (by decide), if_neg (by decide), if_pos (by decide),
    if_neg (by decide), if_pos trivial]

theorem mathMax_nums (floor : Int) (ns : List Int) :
    mathMax floor (ns.map JVal.num) = some (ns.foldl max floor) := by
  unfold mathMax
  induction ns generalizing floor with
  | nil => rfl
  | cons n ns ih =>
    simp only [List.map_cons, List.foldl_cons, toNumber]
    exact ih (max floor n)

theorem le_foldl_max (floor : Int) (ns : List Int) :
    floor ≤ ns.foldl max floor ∧ ∀ m ∈ ns, m ≤ ns.foldl max floor := by
  induction ns generalizing floor with
  | nil => simp
  | cons n ns ih =>
    obtain ⟨h1, h2⟩ := ih (max floor n)
    refine ⟨le_trans (le_max_left _ _) h1, ?_⟩
    intro m hm
    rcases List.mem_cons.1 hm with rfl | hm
    · exact le_trans (le_max_right _ _) h1
    · exact h2 m hm

theorem isObj_of_prop_num (v : JVal) (k : String) (n : Int) (h : propOf v k = .num n) :
    IsObj v := by
  cases v <;> simp [propOf] at h
  exact ⟨_, rfl⟩

theorem elemsOf_of_listOrEmpty (v : JVal) (xs : List JVal) (h : listOrEmpty v = .ok xs) :
    elemsOf v = xs := by
  unfold listOrEmpty at h
  unfold elemsOf
  cases hj : jsOr v (.arr []) <;>
    simp_all [pure, Except.pure, throw, throwThe, MonadExceptOf.throw]

theorem ids_as_nums (xs : List JVal) (k : String)
    (h : ∀ l ∈ xs, ∃ n : Int, propOf l k = .num n) :
    ∃ ns : List Int, xs.map (fun l => propOf l k) = ns.map JVal.num := by
  induction xs with
  | nil => exact ⟨[], rfl⟩
  | cons x xs ih =>
    obtain ⟨n, hn⟩ := h x (List.mem_cons_self _ _)
    obtain ⟨ns, hns⟩ := ih (fun l hl => h l (List.mem_cons_of_mem _ hl))
    exact ⟨n :: ns, by simp [hn, hns]⟩

theorem foldl_max_le (floor b : Int) (ns : List Int) (hf : floor ≤ b)
    (h : ∀ m ∈ ns, m ≤ b) : ns.foldl max floor ≤ b := by
  induction ns generalizing floor with
  | nil => exact hf
  | cons n ns ih =>
    exact ih (max floor n) (max_le hf (h n (List.mem_cons_self _ _)))
      (fun m hm => h m (List.mem_cons_of_mem _ hm))

/-- One `POST /api/lots/` on well-shaped lots with a body that carries no `id_lot`. -/
theorem createLot_step (now : String) (options : Options) (ls : Storage)
    (hm : methodOf options = "POST") (hs : LotsShape ls)
    (hb : NoKey "id_lot" (jsonBody options)) :
    ∃ lot ls' n, demoRequest now "/api/lots/" options ls = .ok (lot, ls') ∧
      propOf lot "id_lot" = .num n ∧
      (∀ l ∈ storedLots ls, ∀ m : Int, propOf l "id_lot" = .num m → m < n) ∧
      storedLots ls' = (storedLots ls).map jsonify ++ [jsonify lot] ∧
      LotsShape ls' ∧ 1 ≤ n ∧
      (∀ b : Int, 0 ≤ b → (∀ l ∈ storedLots ls, ∀ m : Int, propOf l "id_lot" = .num m → m ≤ b) →
        n ≤ b + 1) := by
  obtain ⟨⟨fs, hfs⟩, ⟨xs, hxs⟩, hids⟩ := hs
  have hel : storedLots ls = xs := by
    unfold storedLots; exact elemsOf_of_listOrEmpty _ _ hxs
  rw [hel] at hids ⊢
  rw [hfs] at hxs
  obtain ⟨ns, hns⟩ := ids_as_nums xs "id_lot" hids
  have hmap : mapE lotIdOf xs = .ok (xs.map (fun l => propOf l "id_lot")) :=
    mapE_eq_map _ _ _ (fun l hl => by
      obtain ⟨n, hn⟩ := hids l hl
      exact getProp_readable l _ (readable_of_isObj l (isObj_of_prop_num l _ n hn)))
  have hlot : propOf (JVal.obj (spread [("id_lot", JVal.num (ns.foldl max 0 + 1))]
      (jsonBody options))) "id_lot" = .num (ns.foldl max 0 + 1) := by
    simp only [propOf, getField, spread, lookupLast_foldl_objSet]
    rw [show lookupLast (ownEntries (jsonBody options)) "id_lot" = none from hb]
    simp [lookupLast]
  have hcreate : createLot (.obj fs) (jsonBody options) =
      .ok (JVal.obj (spread [("id_lot", JVal.num (ns.foldl max 0 + 1))] (jsonBody options)),
        .obj (objSet fs "lots" (.arr (xs ++ [JVal.obj
          (spread [("id_lot", JVal.num (ns.foldl max 0 + 1))] (jsonBody options))])))) := by
    unfold createLot
    have hg : getProp (JVal.obj fs) "lots" = .ok (propOf (.obj fs) "lots") := rfl
    simp only [hg, hxs, hmap, hns, mathMax_nums, numAdd, ofNum, setProp, bind, Except.bind,
      pure, Except.pure]
  have hstored : propOf (getDemoData (saveDemoData ls (.obj (objSet fs "lots" (.arr (xs ++
      [JVal.obj (spread [("id_lot", JVal.num (ns.foldl max 0 + 1))] (jsonBody options))]))))))
      "lots" = .arr (xs.map jsonify ++ [jsonify (JVal.obj
        (spread [("id_lot", JVal.num (ns.foldl max 0 + 1))] (jsonBody options)))]) := by
    rw [getDemoData_save, propOf_jsonify_obj, getField_objSet_same]
    simp [jsonField, jsonify, jsonifyList_eq_map]
  refine ⟨JVal.obj (spread [("id_lot", JVal.num (ns.foldl max 0 + 1))] (jsonBody options)),
    saveDemoData ls (.obj (objSet fs "lots" (.arr (xs ++
      [JVal.obj (spread [("id_lot", JVal.num (ns.foldl max 0 + 1))] (jsonBody options))])))),
    ns.foldl max 0 + 1, ?_, hlot, ?_, ?_, ?_, ?_, ?_⟩
  · rw [demoRequest_createLot now options ls hm, hfs, hcreate]; rfl
  · intro l hl m hm'
    have hmem : JVal.num m ∈ ns.map JVal.num := by
      rw [← hns]; exact List.mem_map.2 ⟨l, hl, hm'⟩
    obtain ⟨m', hm'mem, hm'eq⟩ := List.mem_map.1 hmem
    have : m' = m := by simpa using hm'eq
    subst this
    have := (le_foldl_max 0 ns).2 m' hm'mem
    omega
  · unfold storedLots
    rw [hstored, elemsOf_arr]
  · refine ⟨?_, ⟨_, by rw [hstored]; rfl⟩, ?_⟩
    · rw [getDemoData_save]; exact ⟨_, rfl⟩
    · unfold storedLots
      rw [hstored, elemsOf_arr]
      intro l hl
      rcases List.mem_append.1 hl with hl | hl
      · obtain ⟨x, hx, rfl⟩ := List.mem_map.1 hl
        obtain ⟨n, hn⟩ := hids x hx
        obtain ⟨xf, rfl⟩ := isObj_of_prop_num x _ n hn
        refine ⟨n, ?_⟩
        rw [propOf_jsonify_obj]
        have : getField xf "id_lot" = .num n := hn
        rw [this]; rfl
      · simp only [List.mem_singleton] at hl
        subst hl
        refine ⟨ns.foldl max 0 + 1, ?_⟩
        rw [propOf_jsonify_obj]
        have : getField (spread [("id_lot", JVal.num (ns.foldl max 0 + 1))] (jsonBody options))
            "id_lot" = .num (ns.foldl max 0 + 1) := hlot
        rw [this]; rfl
  · have := (le_foldl_max 0 ns).1
    omega
  · intro b hb0 hle
    have hall : ∀ m ∈ ns, m ≤ b := by
      intro m hm'
      have hmem : JVal.num m ∈ xs.map (fun l => propOf l "id_lot") := by
        rw [hns]; exact List.mem_map.2 ⟨m, hm', rfl⟩
      obtain ⟨l, hl, hlm⟩ := List.mem_map.1 hmem
      exact hle l hl m hlm
    have := foldl_max_le 0 b ns hb0 hall
    omega

theorem propOf_jsonify_num (v : JVal) (k : String) (n : Int) (h : propOf v k = .num n) :
    propOf (jsonify v) k = .num n := by
  obtain ⟨fs, rfl⟩ := isObj_of_prop_num v k n h
  rw [propOf_jsonify_obj]
  have : getField fs k = .num n := h
  rw [this]; rfl

/-- C5 (amended).  For every stored lot list whose lots carry integer ids and every sequence
of demo-mode `POST /api/lots/` calls whose bodies carry no `id_lot` of their own, with the
stored ids and the number of calls so small that every id stays in the exact range (each
stored id plus the number of calls is at most 2^53): every call succeeds, the ids of the
created lots are integers in the exact range, each is strictly greater than every id
assigned earlier in the sequence, and each is strictly greater than the id of every lot
stored at the start. -/
theorem c5_lot_ids_increase (now : String) (os : List Options) (ls : Storage)
    (hs : LotsShape ls)
    (hos : ∀ o ∈ os, methodOf o = "POST" ∧ NoKey "id_lot" (jsonBody o))
    (hx : ∀ l ∈ storedLots ls, ∀ m : Int, propOf l "id_lot" = .num m →
      m + os.length ≤ maxExact)
    (hn : (os.length : Int) ≤ maxExact) :
    ∃ (created : List JVal) (ls' : Storage) (ids : List Int), postLots now os ls = .ok (created, ls') ∧
      created.map (fun l => propOf l "id_lot") = ids.map JVal.num ∧
      ids.Pairwise (fun i j => i < j) ∧
      (∀ l ∈ storedLots ls, ∀ m : Int, propOf l "id_lot" = .num m → ∀ i ∈ ids, m < i) ∧
      ∀ i ∈ ids, Exact i := by
  induction os generalizing ls with
  | nil => exact ⟨[], ls, [], rfl, rfl, List.Pairwise.nil, by simp, by simp⟩
  | cons o os ih =>
    obtain ⟨hm, hb⟩ := hos o (List.mem_cons_self _ _)
    obtain ⟨lot, ls1, n, hreq, hid, hlt, hst, hs1, hn1, hnb⟩ := createLot_step now o ls hm hs hb
    simp only [List.length_cons, Nat.cast_add, Nat.cast_one] at hx hn
    have hk : (0 : Int) ≤ (os.length : Int) := Int.ofNat_nonneg _
    have hnle : n ≤ maxExact - os.length := by
      have := hnb (maxExact - (os.length + 1)) (by omega) (fun l hl m hm' => by
        have := hx l hl m hm'
        omega)
      omega
    have hx1 : ∀ l ∈ storedLots ls1, ∀ m : Int, propOf l "id_lot" = .num m →
        m + os.length ≤ maxExact := by
      intro l hl m hm'
      rw [hst] at hl
      rcases List.mem_append.1 hl with hl | hl
      · obtain ⟨x, hx', rfl⟩ := List.mem_map.1 hl
        obtain ⟨n', hn'⟩ := hs.2.2 x hx'
        have e := propOf_jsonify_num x _ n' hn'
        rw [e] at hm'
        have e2 : n' = m := JVal.num.inj hm'
        subst e2
        have := hx x hx' n' hn'
        omega
      · simp only [List.mem_singleton] at hl
        subst hl
        have e := propOf_jsonify_num lot _ n hid
        rw [e] at hm'
        have e2 : n = m := JVal.num.inj hm'
        subst e2
        omega
    obtain ⟨created, ls', ids, hrun, hids, hpw, hinit, hex⟩ :=
      ih ls1 hs1 (fun o' ho' => hos o' (List.mem_cons_of_mem _ ho')) hx1 (by omega)
    refine ⟨lot :: created, ls', n :: ids, ?_, ?_, ?_, ?_, ?_⟩
    · simp [postLots, hreq, hrun, bind, Except.bind, pure, Except.pure]
    · simp [hid, hids]
    · refine List.Pairwise.cons ?_ hpw
      intro i hi
      refine hinit (jsonify lot) ?_ n (propOf_jsonify_num lot _ n hid) i hi
      rw [hst]; simp
    · intro l hl m hm' i hi
      rcases List.mem_cons.1 hi with rfl | hi
      · exact hlt l hl m hm'
      · refine hinit (jsonify l) ?_ m (propOf_jsonify_num l _ m hm') i hi
        rw [hst]
        exact List.mem_append_left _ (List.mem_map.2 ⟨l, hl, rfl⟩)
    · intro i hi
      rcases List.mem_cons.1 hi with rfl | hi
      · constructor <;> omega
      · exact hex i hi

theorem oneLot_shape : LotsShape oneLot := by
  refine ⟨⟨_, rfl⟩, ⟨_, rfl⟩, ?_⟩
  intro l hl
  simp [storedLots, oneLot, getDemoData, textTruthy, parseOrEmpty, propOf, getField,
    lookupLast, elemsOf, jsOr, truthy] at hl
  subst hl
  exact ⟨1, rfl⟩

theorem oneLot_ids (l : JVal) (hl : l ∈ storedLots oneLot) (m : Int)
    (hm : propOf l "id_lot" = .num m) : m = 1 := by
  simp [storedLots, oneLot, getDemoData, textTruthy, parseOrEmpty, propOf, getField,
    lookupLast, elemsOf, jsOr, truthy] at hl
  subst hl
  have h1 : JVal.num 1 = JVal.num m := hm
  injection h1 with h1
  exact h1.symm

/-- C5 (witness): two creations after the lot of id 1. -/
theorem c5_lot_ids_increase_witness :
    ∃ (created : List JVal) (ls' : Storage) (ids : List Int),
      postLots "t" [postJson (.obj [("espece", .str "thon")]), postJson (.obj [])] oneLot =
        .ok (created, ls') ∧
      created.map (fun l => propOf l "id_lot") = ids.map JVal.num ∧
      ids.Pairwise (fun i j => i < j) ∧
      (∀ l ∈ storedLots oneLot, ∀ m : Int, propOf l "id_lot" = .num m → ∀ i ∈ ids, m < i) ∧
      ∀ i ∈ ids, Exact i :=
  c5_lot_ids_increase "t" [postJson (.obj [("espece", .str "thon")]), postJson (.obj [])]
    oneLot oneLot_shape (by
      intro o ho
      simp only [List.mem_cons, List.mem_singleton, List.not_mem_nil, or_false] at ho
      rcases ho with rfl | rfl <;> exact ⟨rfl, rfl⟩)
    (by
      intro l hl m hm
      rw [oneLot_ids l hl m hm]
      norm_num [maxExact])
    (by norm_num [maxExact])

/-! ### Order creation (C7) -/

theorem demoRequest_createApprov (now : String) (options : Options) (ls : Storage)
    (hm : methodOf options = "POST") :
    demoRequest now "/api/approvisionnements/" options ls =
      (createApprov now (getDemoData ls) (jsonBody options)).map
        (fun p => (p.1, saveDemoData ls p.2)) := by
  have hp : pathOf "/api/approvisionnements/" = "/api/approvisionnements/".toList := by decide
  unfold demoRequest
  simp only [hp, hm]
  rw [if_neg (by decide), if_neg (by decide), if_neg (by decide), if_neg (by decide),
    if_neg (by decide), if_neg (by decide), if_pos (by decide)]

theorem makeLigne_ok (produits : JVal) (nextId : Option Int) (idx : Nat) (l : JVal)
    (hp : ReadableList produits) (hl : Readable l) :
    makeLigne produits nextId idx l = .ok (madeLigne produits nextId idx l) := by
  obtain ⟨he, hall⟩ := listOrEmpty_elemsOf _ hp
  have hfind : findM (sameProduit l) (elemsOf produits) =
      .ok ((elemsOf produits).find? (fun p =>
        strictEq (propOf p "id_produit") (ofNum (toNumber (propOf l "produit"))))) := by
    apply findM_eq_find
    intro p hpm
    simp [sameProduit, getProp_readable p _ (hall p hpm), getProp_readable l _ hl, bind,
      Except.bind, pure, Except.pure]
  unfold makeLigne madeLigne produitFor
  simp only [he, hfind, getProp_readable l _ hl, bind, Except.bind, pure, Except.pure]

theorem mapE_enum_eq {β : Type} (f : Nat × JVal → JsM β) (g : Nat × JVal → β)
    (xs : List JVal) (n : Nat) (h : ∀ i, ∀ x ∈ xs, f (i, x) = .ok (g (i, x))) :
    mapE f (xs.enumFrom n) = .ok ((xs.enumFrom n).map g) := by
  apply mapE_eq_map
  intro p hp
  obtain ⟨i, x⟩ := p
  exact h i x (List.snd_mem_of_mem_enumFrom hp)

theorem readableList_jsOr (v : JVal) (h : ReadableList v) : ReadableList (jsOr v (.arr [])) ∧
    elemsOf (jsOr v (.arr [])) = elemsOf v := by
  obtain ⟨xs, hxs, hall⟩ := h
  have e : jsOr (jsOr v (.arr [])) (.arr []) = jsOr v (.arr []) := by
    by_cases ht : truthy v = true
    · have e1 : jsOr v (.arr []) = v := by simp [jsOr, ht]
      rw [e1, e1]
    · have e1 : jsOr v (.arr []) = .arr [] := by simp [jsOr, ht]
      rw [e1]; rfl
  refine ⟨⟨xs, ?_, hall⟩, ?_⟩
  · unfold listOrEmpty at hxs ⊢
    rw [e]; exact hxs
  · unfold elemsOf
    rw [e]

theorem createApprov_ok (now : String) (fs : Fields) (payload : JVal)
    (ho : ReadableList (getField fs "approvisionnements"))
    (hp : ReadableList (getField fs "produits"))
    (hb : Readable payload) (hl : ReadableList (propOf payload "lignes")) :
    createApprov now (.obj fs) payload =
      .ok (createdOrder now (.obj fs) payload,
        .obj (objSet fs "approvisionnements" (.arr (elemsOf (getField fs "approvisionnements") ++
          [createdOrder now (.obj fs) payload])))) := by
  obtain ⟨heo, hallo⟩ := listOrEmpty_elemsOf _ ho
  obtain ⟨hel, halll⟩ := listOrEmpty_elemsOf _ hl
  obtain ⟨hp', _⟩ := readableList_jsOr _ hp
  have hids : mapE approvIdOrZero (elemsOf (getField fs "approvisionnements")) =
      .ok ((elemsOf (getField fs "approvisionnements")).map
        (fun a => jsOr (propOf a "id_approvisionnement") (.num 0))) := by
    apply mapE_eq_map
    intro a ha
    simp [approvIdOrZero, getProp_readable a _ (hallo a ha), bind, Except.bind, pure,
      Except.pure]
  have hlines : mapE (makeLigneAt (jsOr (getField fs "produits") (.arr []))
      (nextApprovId (elemsOf (getField fs "approvisionnements"))))
      (elemsOf (propOf payload "lignes")).enum =
      .ok ((elemsOf (propOf payload "lignes")).enum.map
        (fun p => madeLigne (jsOr (getField fs "produits") (.arr []))
          (nextApprovId (elemsOf (getField fs "approvisionnements"))) p.1 p.2)) := by
    apply mapE_enum_eq
    intro i x hx
    exact makeLigne_ok _ _ i x hp' (halll x hx)
  have hg : ∀ k, getProp (JVal.obj fs) k = .ok (getField fs k) := fun _ => rfl
  have hpo : ∀ k, propOf (JVal.obj fs) k = getField fs k := fun _ => rfl
  unfold createApprov createdOrder
  simp only [hg, heo, hids, hel, getProp_readable payload _ hb, bind, Except.bind, pure,
    Except.pure, setProp, hpo]
  simp only [nextApprovId] at hlines ⊢
  rw [hlines]

theorem sum_roundtrip (k : String) (L : List JVal)
    (h : ∀ l ∈ L, ∃ lf x, l = JVal.obj lf ∧ getField lf k = ofNum x) :
    sumNum ((L.map jsonify).map (fun l' => toNumber (propOf l' k))) =
      some (L.foldl (fun s l => s + numOrZero (propOf l k)) 0) := by
  unfold sumNum
  rw [← sumNum_somes, List.map_map]
  congr 1
  apply List.map_congr_left
  intro l hl
  obtain ⟨lf, x, rfl, hx⟩ := h l hl
  show toNumber (propOf (jsonify (JVal.obj lf)) k) = some (numOrZero (propOf (JVal.obj lf) k))
  rw [propOf_jsonify_obj, hx, toNumber_jsonField_ofNum]
  simp [propOf, hx]

theorem forall2_enumFrom_map {β : Type} (P : JVal → β → Prop) (g : Nat × JVal → β)
    (xs : List JVal) (n : Nat) (h : ∀ i, ∀ x ∈ xs, P x (g (i, x))) :
    List.Forall₂ P xs ((xs.enumFrom n).map g) := by
  induction xs generalizing n with
  | nil => exact List.Forall₂.nil
  | cons x xs ih =>
    exact List.Forall₂.cons (h n x (List.mem_cons_self _ _))
      (ih (n + 1) (fun i z hz => h i z (List.mem_cons_of_mem _ hz)))

theorem line_created (produits : JVal) (nextId : Option Int) (idx : Nat) (l : JVal) :
    LineCreated l (jsonify (madeLigne produits nextId idx l)) := by
  unfold LineCreated madeLigne
  refine ⟨?_, ?_, ?_⟩ <;> rw [propOf_jsonify_obj] <;> simp [getField, lookupLast] <;> rfl

theorem order_created (now : String) (data payload : JVal) :
    OrderCreated payload (jsonify (createdOrder now data payload)) := by
  refine ⟨?_, ?_, ?_, ?_, ?_⟩
  · rw [createdOrder, propOf_jsonify_obj]; simp [getField, lookupLast]; rfl
  · rw [createdOrder, propOf_jsonify_obj]; simp [getField, lookupLast]; rfl
  · refine ⟨((elemsOf (propOf payload "lignes")).enum.map
      (fun p => madeLigne (jsOr (propOf data "produits") (.arr []))
        (nextApprovId (elemsOf (propOf data "approvisionnements"))) p.1 p.2)).map jsonify,
      ?_, ?_, ?_⟩
    · rw [createdOrder, propOf_jsonify_obj]
      simp [getField, lookupLast, jsonField, jsonify, jsonifyList_eq_map]
    · rw [List.map_map]
      exact forall2_enumFrom_map _ _ _ 0 (fun i x _ => line_created _ _ i x)
    · rw [sum_roundtrip]
      · rw [createdOrder, propOf_jsonify_obj]
        simp [getField, lookupLast, jsonField, jsonify, ofNum]
      · intro l hl
        obtain ⟨p, _, rfl⟩ := List.mem_map.1 hl
        exact ⟨_, toNumber (jsOr (jsOr (propOf p.2 "quantite_commandee")
          (propOf p.2 "quantite")) (.num 0)), rfl, by simp [getField, lookupLast]⟩
  · intro ht
    have e : jsOr (propOf payload "numero_commande")
        (.str (numeroCommande (nextApprovId (elemsOf (propOf data "approvisionnements"))))) =
        propOf payload "numero_commande" := by simp [jsOr, ht]
    have hne : propOf payload "numero_commande" ≠ .undefined := by
      intro h; rw [h] at ht; simp [truthy] at ht
    rw [createdOrder, propOf_jsonify_obj, e]
    simp [getField, lookupLast]
    cases hv : propOf payload "numero_commande" <;> simp_all [jsonField]
  · intro ht
    have e : jsOr (propOf payload "numero_commande")
        (.str (numeroCommande (nextApprovId (elemsOf (propOf data "approvisionnements"))))) =
        .str (numeroCommande (nextApprovId (elemsOf (propOf data "approvisionnements")))) := by
      simp [jsOr, ht]
    refine ⟨nextApprovId (elemsOf (propOf data "approvisionnements")), ?_⟩
    rw [createdOrder, propOf_jsonify_obj, e]
    simp [getField, lookupLast, jsonField, jsonify]

theorem abs_sum_le (l : List Int) : |l.sum| ≤ (l.map (fun x => |x|)).sum := by
  induction l with
  | nil => simp
  | cons x l ih =>
    simp only [List.sum_cons, List.map_cons]
    exact le_trans (abs_add x l.sum) (by omega)

theorem whole_or_zero (b : JVal) (hb : Whole b) :
    ∃ k : Int, toNumber (jsOr b (.num 0)) = some k := by
  rcases hb with hb | ⟨n, rfl, _⟩
  · exact ⟨0, by simp [jsOr, hb, toNumber]⟩
  · by_cases h0 : n = 0
    · subst h0; exact ⟨0, rfl⟩
    · exact ⟨n, by simp [jsOr, truthy, h0, toNumber]⟩

theorem asked_whole (l : JVal) (ha : Whole (propOf l "quantite_commandee"))
    (hb : Whole (propOf l "quantite")) :
    toNumber (jsOr (jsOr (propOf l "quantite_commandee") (propOf l "quantite")) (.num 0)) =
      some (askedOf l) := by
  have key : ∃ k : Int, toNumber (jsOr (jsOr (propOf l "quantite_commandee")
      (propOf l "quantite")) (.num 0)) = some k := by
    by_cases ht : truthy (propOf l "quantite_commandee") = true
    · have e : jsOr (propOf l "quantite_commandee") (propOf l "quantite") =
          propOf l "quantite_commandee" := by simp [jsOr, ht]
      rw [e]
      exact whole_or_zero _ ha
    · have e : jsOr (propOf l "quantite_commandee") (propOf l "quantite") =
          propOf l "quantite" := by simp [jsOr, ht]
      rw [e]
      exact whole_or_zero _ hb
  obtain ⟨k, hk⟩ := key
  unfold askedOf
  rw [hk]
  rfl

theorem numOrZero_ofNum (x : Option Int) : numOrZero (ofNum x) = x.getD 0 := by
  cases x <;> rfl

theorem madeLigne_quantite (produits : JVal) (nextId : Option Int) (idx : Nat) (l : JVal) :
    propOf (madeLigne produits nextId idx l) "quantite_commandee" =
      ofNum (toNumber (jsOr (jsOr (propOf l "quantite_commandee") (propOf l "quantite"))
        (.num 0))) := by
  simp [madeLigne, propOf, getField, lookupLast]

theorem madeLigne_asked (produits : JVal) (nextId : Option Int) (idx : Nat) (l : JVal) :
    numOrZero (propOf (madeLigne produits nextId idx l) "quantite_commandee") = askedOf l := by
  rw [madeLigne_quantite, numOrZero_ofNum]
  rfl

theorem madeLigne_stored_quantite (produits : JVal) (nextId : Option Int) (idx : Nat)
    (l : JVal) (ha : Whole (propOf l "quantite_commandee")) (hb : Whole (propOf l "quantite")) :
    propOf (jsonify (madeLigne produits nextId idx l)) "quantite_commandee" =
      .num (askedOf l) := by
  have h := madeLigne_quantite produits nextId idx l
  rw [asked_whole l ha hb] at h
  obtain ⟨lf, hlf⟩ : ∃ lf, madeLigne produits nextId idx l = .obj lf := ⟨_, rfl⟩
  rw [hlf] at h ⊢
  rw [propOf_jsonify_obj]
  have h2 : getField lf "quantite_commandee" = ofNum (some (askedOf l)) := h
  rw [h2]
  rfl

theorem enum_map_snd {β : Type} (f : Nat × JVal → β) (g : JVal → β) (xs : List JVal) (n : Nat)
    (h : ∀ i, ∀ x ∈ xs, f (i, x) = g x) : (xs.enumFrom n).map f = xs.map g := by
  induction xs generalizing n with
  | nil => rfl
  | cons x xs ih =>
    simp only [List.enumFrom, List.map_cons]
    rw [h n x (List.mem_cons_self _ _),
      ih (n + 1) (fun i z hz => h i z (List.mem_cons_of_mem _ hz))]

theorem foldl_add_sum (l : List Int) (acc : Int) :
    l.foldl (fun s x => s + x) acc = acc + l.sum := by
  induction l generalizing acc with
  | nil => simp
  | cons x l ih => simp [List.foldl, ih]; ring

theorem foldl_max_mem (floor : Int) (ns : List Int) :
    ns.foldl max floor = floor ∨ ns.foldl max floor ∈ ns := by
  induction ns generalizing floor with
  | nil => exact Or.inl rfl
  | cons n ns ih =>
    simp only [List.foldl_cons]
    rcases ih (max floor n) with h | h
    · rcases max_choice floor n with h2 | h2
      · left; rw [h, h2]
      · right; rw [h, h2]; exact List.mem_cons_self _ _
    · right; exact List.mem_cons_of_mem _ h

/-- The new order id in the number domain: an integer `id ≥ 1` with `id * 100` plus the
number of supplied lines in the exact range. -/
theorem nextApprovId_domain (orders : List JVal) (len : Int) (h0 : len + 100 ≤ maxExact)
    (h : ∀ a ∈ orders, truthy (propOf a "id_approvisionnement") = false ∨
      ∃ n : Int, propOf a "id_approvisionnement" = .num n ∧ (n + 1) * 100 + len ≤ maxExact) :
    ∃ id : Int, nextApprovId orders = some id ∧ 1 ≤ id ∧ id * 100 + len ≤ maxExact := by
  have hns : ∃ ns : List Int, orders.map (fun a => jsOr (propOf a "id_approvisionnement")
      (.num 0)) = ns.map JVal.num ∧ ∀ n ∈ ns, (n + 1) * 100 + len ≤ maxExact := by
    induction orders with
    | nil => exact ⟨[], rfl, by simp⟩
    | cons a orders ih =>
      obtain ⟨ns, hmap, hb⟩ := ih (fun x hx => h x (List.mem_cons_of_mem _ hx))
      rcases h a (List.mem_cons_self _ _) with hf | ⟨n, hn, hle⟩
      · have e : jsOr (propOf a "id_approvisionnement") (.num 0) = .num 0 := by
          simp [jsOr, hf]
        refine ⟨0 :: ns, by rw [List.map_cons, List.map_cons, hmap, e], ?_⟩
        intro n hn
        rcases List.mem_cons.1 hn with rfl | hn
        · omega
        · exact hb n hn
      · by_cases hz : n = 0
        · subst hz
          have e : jsOr (propOf a "id_approvisionnement") (.num 0) = .num 0 := by
            rw [hn]; rfl
          refine ⟨0 :: ns, by rw [List.map_cons, List.map_cons, hmap, e], ?_⟩
          intro n hn2
          rcases List.mem_cons.1 hn2 with rfl | hn2
          · omega
          · exact hb n hn2
        · have e : jsOr (propOf a "id_approvisionnement") (.num 0) = .num n := by
            rw [hn]; simp [jsOr, truthy, hz]
          refine ⟨n :: ns, by rw [List.map_cons, List.map_cons, hmap, e], ?_⟩
          intro m hm
          rcases List.mem_cons.1 hm with rfl | hm
          · exact hle
          · exact hb m hm
  obtain ⟨ns, hmap, hb⟩ := hns
  refine ⟨ns.foldl max 0 + 1, ?_, ?_, ?_⟩
  · unfold nextApprovId
    rw [hmap, mathMax_nums]
    rfl
  · have := (le_foldl_max 0 ns).1
    omega
  · rcases foldl_max_mem 0 ns with h1 | h1
    · rw [h1]; omega
    · exact hb _ h1

theorem createdOrder_id (now : String) (data payload : JVal) :
    propOf (jsonify (createdOrder now data payload)) "id_approvisionnement" =
      jsonField (ofNum (nextApprovId (elemsOf (propOf data "approvisionnements")))) := by
  rw [createdOrder, propOf_jsonify_obj]
  simp [getField, lookupLast]

theorem createdOrder_numero (now : String) (data payload : JVal) :
    propOf (jsonify (createdOrder now data payload)) "numero_commande" =
      jsonField (jsOr (propOf payload "numero_commande")
        (.str (numeroCommande (nextApprovId (elemsOf (propOf data "approvisionnements")))))) := by
  rw [createdOrder, propOf_jsonify_obj]
  simp [getField, lookupLast]

theorem createdOrder_total (now : String) (data payload : JVal) :
    propOf (jsonify (createdOrder now data payload)) "total_quantite_commandee" =
      .num ((elemsOf (propOf payload "lignes")).map askedOf).sum := by
  have h1 : ∀ L : List JVal, L.foldl (fun sum l => sum + numOrZero (propOf l "quantite_commandee"))
      (0 : Int) = (L.map (fun l => numOrZero (propOf l "quantite_commandee"))).sum := by
    intro L
    have h3 : L.foldl (fun sum l => sum + numOrZero (propOf l "quantite_commandee")) (0 : Int) =
        (L.map (fun l => numOrZero (propOf l "quantite_commandee"))).foldl
          (fun s x => s + x) 0 := by
      rw [List.foldl_map]
    rw [h3, foldl_add_sum]
    simp
  rw [createdOrder, propOf_jsonify_obj]
  simp only [getField, lookupLast, String.reduceEq, if_false, if_true, Option.getD_some,
    ↓reduceIte]
  rw [h1, List.map_map]
  unfold List.enum
  rw [enum_map_snd _ askedOf _ 0 (fun i x _ => madeLigne_asked _ _ i x)]
  rfl

theorem createdOrder_lignes (now : String) (data payload : JVal) :
    lignesOf (jsonify (createdOrder now data payload)) =
      ((elemsOf (propOf payload "lignes")).enum.map
        (fun p => madeLigne (jsOr (propOf data "produits") (.arr []))
          (nextApprovId (elemsOf (propOf data "approvisionnements"))) p.1 p.2)).map jsonify := by
  unfold lignesOf
  rw [createdOrder, propOf_jsonify_obj]
  simp [getField, lookupLast, jsonField, jsonify, jsonifyList_eq_map, elemsOf_arr]

/-- C7.  For every stored document and body on which order creation does not throw and
stays inside the number domain (`CreateDomain`: stored order ids and line quantities that
are missing or integers in the exact range), `POST /api/approvisionnements/` returns the
created order and appends it (as serialised) to the stored orders; the created order has
status `pending`, `total_quantite_recue` 0, one line per supplied line in the same order,
every line with `quantite_recue` 0 and status `pending`, the ordered quantity of every line
is the integer the line supplies (`quantite_commandee`, else `quantite`, else 0),
`total_quantite_commandee` is the sum of the lines' `quantite_commandee`, in the exact
range, and `numero_commande` is the supplied number when one is supplied and the number
generated from the new id (an integer, at least 1) otherwise. -/
theorem c7_create_order (now : String) (options : Options) (ls : Storage)
    (hm : methodOf options = "POST") (hs : CreateShape ls (jsonBody options))
    (hd : CreateDomain ls (jsonBody options)) :
    ∃ (v : JVal) (ls' : Storage), demoRequest now "/api/approvisionnements/" options ls =
        .ok (v, ls') ∧
      storedOrders ls' = (storedOrders ls).map jsonify ++ [jsonify v] ∧
      OrderCreated (jsonBody options) (jsonify v) ∧
      (∃ id : Int, propOf (jsonify v) "id_approvisionnement" = .num id ∧ 1 ≤ id ∧
        Exact (id * 100 + (elemsOf (propOf (jsonBody options) "lignes")).length) ∧
        (truthy (propOf (jsonBody options) "numero_commande") = false →
          propOf (jsonify v) "numero_commande" = .str (numeroCommande (some id)))) ∧
      (lignesOf (jsonify v)).map (fun l' => propOf l' "quantite_commandee") =
        ((elemsOf (propOf (jsonBody options) "lignes")).map askedOf).map JVal.num ∧
      propOf (jsonify v) "total_quantite_commandee" =
        .num ((elemsOf (propOf (jsonBody options) "lignes")).map askedOf).sum ∧
      Exact ((elemsOf (propOf (jsonBody options) "lignes")).map askedOf).sum := by
  obtain ⟨hlen, hids, hlines, hsum⟩ := hd
  obtain ⟨⟨fs, hfs⟩, ho, hp, hb, hl⟩ := hs
  rw [hfs] at ho hp
  have hc := createApprov_ok now fs (jsonBody options) ho hp hb hl
  have h1 : storedOrders ls = elemsOf (getField fs "approvisionnements") := by
    simp [storedOrders, hfs, propOf]
  rw [h1] at hids
  obtain ⟨id, hid, hid1, hidle⟩ := nextApprovId_domain _ _ hlen hids
  have hid' : nextApprovId (elemsOf (propOf (JVal.obj fs) "approvisionnements")) = some id := hid
  refine ⟨createdOrder now (.obj fs) (jsonBody options),
    saveDemoData ls (.obj (objSet fs "approvisionnements"
      (.arr (elemsOf (getField fs "approvisionnements") ++
        [createdOrder now (.obj fs) (jsonBody options)])))), ?_, ?_, ?_, ?_, ?_, ?_, ?_⟩
  · rw [demoRequest_createApprov now options ls hm, hfs, hc]; rfl
  · rw [h1]
    unfold storedOrders
    rw [getDemoData_save, propOf_jsonify_obj, getField_objSet_same]
    simp [jsonField, jsonify, jsonifyList_eq_map, elemsOf_arr]
  · exact order_created now (.obj fs) (jsonBody options)
  · refine ⟨id, ?_, hid1, ?_, ?_⟩
    · rw [createdOrder_id, hid']; rfl
    · have hk : (0 : Int) ≤ ((elemsOf (propOf (jsonBody options) "lignes")).length : Int) :=
        Int.ofNat_nonneg _
      have h0 : (0 : Int) ≤ maxExact := by norm_num [maxExact]
      constructor <;> omega
    · intro ht
      rw [createdOrder_numero, hid']
      simp [jsOr, ht, jsonField, jsonify]
  · rw [createdOrder_lignes, List.map_map, List.map_map, List.map_map]
    unfold List.enum
    apply enum_map_snd
    intro i x hx
    obtain ⟨_, hq1, hq2⟩ := hlines x hx
    exact madeLigne_stored_quantite _ _ i x hq1 hq2
  · exact createdOrder_total now (.obj fs) (jsonBody options)
  · have h2 := abs_sum_le ((elemsOf (propOf (jsonBody options) "lignes")).map askedOf)
    rw [List.map_map] at h2
    have h3 := abs_le.1 (le_trans h2 hsum)
    exact ⟨h3.1, h3.2⟩

theorem twoLines_shape : CreateShape sampleOrders (jsonBody (postJson twoLinesBody)) := by
  refine ⟨⟨_, rfl⟩, ⟨_, rfl, ?_⟩, ⟨[], rfl, by simp⟩,
    ⟨by simp [jsonBody, postJson, twoLinesBody], by simp [jsonBody, postJson, twoLinesBody]⟩,
    ⟨_, rfl, ?_⟩⟩
  · intro a ha
    simp at ha
    subst ha
    exact ⟨by simp, by simp⟩
  · intro l hl
    simp at hl
    rcases hl with rfl | rfl <;> exact ⟨by simp, by simp⟩

theorem exact_small (n : Int) (h1 : -1000 ≤ n) (h2 : n ≤ 1000) : Exact n := by
  have h0 : (1000 : Int) ≤ maxExact := by norm_num [maxExact]
  constructor <;> omega

theorem twoLines_domain : CreateDomain sampleOrders (jsonBody (postJson twoLinesBody)) := by
  have hl : elemsOf (propOf (jsonBody (postJson twoLinesBody)) "lignes") =
      [.obj [("produit", .num 3), ("quantite_commandee", .num 5)],
        .obj [("produit", .num 4), ("quantite", .num 12)]] := rfl
  unfold CreateDomain
  rw [hl]
  refine ⟨by norm_num [maxExact], ?_, ?_, ?_⟩
  · intro a ha
    have ha' : a ∈ [JVal.obj [
        ("id_approvisionnement", .num 7),
        ("statut_approvisionnement", .str "cancelled"),
        ("lignes", .arr [
          .obj [("id_ligne", .num 701), ("quantite_commandee", .num 10),
            ("quantite_recue", .num 0), ("statut_ligne", .str "pending")],
          .obj [("id_ligne", .num 702), ("quantite_commandee", .num 4),
            ("quantite_recue", .num 0), ("statut_ligne", .str "pending")]])]] := ha
    simp only [List.mem_singleton] at ha'
    subst ha'
    exact Or.inr ⟨7, rfl, by norm_num [maxExact]⟩
  · intro l hl'
    simp only [List.mem_cons, List.mem_singleton, List.not_mem_nil, or_false] at hl'
    rcases hl' with rfl | rfl
    · exact ⟨Or.inr ⟨3, rfl, exact_small 3 (by omega) (by omega)⟩,
        Or.inr ⟨5, rfl, exact_small 5 (by omega) (by omega)⟩, Or.inl rfl⟩
    · exact ⟨Or.inr ⟨4, rfl, exact_small 4 (by omega) (by omega)⟩, Or.inl rfl,
        Or.inr ⟨12, rfl, exact_small 12 (by omega) (by omega)⟩⟩
  · have a1 : askedOf (.obj [("produit", .num 3), ("quantite_commandee", .num 5)]) = 5 := rfl
    have a2 : askedOf (.obj [("produit", .num 4), ("quantite", .num 12)]) = 12 := rfl
    simp only [List.map, a1, a2, List.sum_cons, List.sum_nil]
    norm_num [maxExact]

/-- C7 (witness): a body with two lines and no order number, on the sample document. -/
theorem c7_create_order_witness :
    ∃ (v : JVal) (ls' : Storage), demoRequest "t" "/api/approvisionnements/"
        (postJson twoLinesBody) sampleOrders = .ok (v, ls') ∧
      storedOrders ls' = (storedOrders sampleOrders).map jsonify ++ [jsonify v] ∧
      OrderCreated (jsonBody (postJson twoLinesBody)) (jsonify v) ∧
      propOf (jsonify v) "total_quantite_commandee" = .num 17 := by
  obtain ⟨v, ls', h1, h2, h3, _, _, h6, _⟩ :=
    c7_create_order "t" (postJson twoLinesBody) sampleOrders rfl twoLines_shape twoLines_domain
  exact ⟨v, ls', h1, h2, h3, h6⟩

theorem makeLigne_created (produits : JVal) (nextId : Option Int) (idx : Nat) (l l' : JVal)
    (h : makeLigne produits nextId idx l = .ok l') : CreatedLine l' := by
  unfold makeLigne at h
  simp only [bind, Except.bind, pure, Except.pure] at h
  repeat (split at h; · simp at h)
  simp only [Except.ok.injEq] at h
  subst h
  exact ⟨_, _, rfl, by simp [getField, lookupLast], by simp [getField, lookupLast],
    by simp [getField, lookupLast]; rfl⟩

theorem mapE_ok_forall {α β : Type} (f : α → JsM β) (P : β → Prop) (xs : List α) (ys : List β)
    (h : mapE f xs = .ok ys) (hP : ∀ x ∈ xs, ∀ y, f x = .ok y → P y) : ∀ y ∈ ys, P y := by
  induction xs generalizing ys with
  | nil =>
    have : ys = [] := by simpa [mapE, pure, Except.pure] using h.symm
    subst this; simp
  | cons x xs ih =>
    simp only [mapE, bind, Except.bind] at h
    cases hfx : f x with
    | error e => simp [hfx] at h
    | ok y =>
      cases hrest : mapE f xs with
      | error e => simp [hfx, hrest] at h
      | ok ys' =>
        simp [hfx, hrest, pure, Except.pure] at h
        subst h
        intro z hz
        rcases List.mem_cons.1 hz with rfl | hz
        · exact hP x (List.mem_cons_self _ _) _ hfx
        · exact ih ys' hrest (fun w hw => hP w (List.mem_cons_of_mem _ hw)) z hz

theorem createApprov_of_ok (now : String) (fs : Fields) (payload approv data' : JVal)
    (h : createApprov now (.obj fs) payload = .ok (approv, data')) :
    data' = .obj (objSet fs "approvisionnements"
        (.arr (elemsOf (getField fs "approvisionnements") ++ [approv]))) ∧
      ∃ af lignes, approv = .obj af ∧ getField af "lignes" = .arr lignes ∧
        ∀ l ∈ lignes, CreatedLine l := by
  unfold createApprov at h
  have hg : ∀ k, getProp (JVal.obj fs) k = .ok (getField fs k) := fun _ => rfl
  simp only [hg, bind, Except.bind, pure, Except.pure, setProp] at h
  cases hl : listOrEmpty (getField fs "approvisionnements") with
  | error e => simp [hl] at h
  | ok xs =>
    have hx := elemsOf_of_listOrEmpty _ _ hl
    simp only [hl] at h
    cases hids : mapE approvIdOrZero xs with
    | error e => simp [hids] at h
    | ok ids =>
      simp only [hids] at h
      cases hpl : getProp payload "lignes" with
      | error e => simp [hpl] at h
      | ok pl =>
        simp only [hpl] at h
        cases hsup : listOrEmpty pl with
        | error e => simp [hsup] at h
        | ok supplied =>
          simp only [hsup] at h
          cases hlines : mapE (makeLigneAt (jsOr (getField fs "produits") (.arr []))
              (numAdd (mathMax 0 ids) (some 1))) supplied.enum with
          | error e => simp [hlines] at h
          | ok lignes =>
            have hcl := mapE_ok_forall _ CreatedLine _ lignes hlines
              (fun p _ y hy => makeLigne_created _ _ p.1 p.2 y hy)
            simp only [hlines] at h
            repeat (split at h; · simp at h)
            simp only [Except.ok.injEq, Prod.mk.injEq] at h
            obtain ⟨h1, h2⟩ := h
            subst h1
            refine ⟨?_, _, lignes, rfl, by simp [getField, lookupLast], hcl⟩
            rw [hx, ← h2]

/-! ### Reachable states of the order simulator (C4) -/

theorem getProp_ok (v : JVal) (k : String) (x : JVal) (h : getProp v k = .ok x) :
    x = propOf v k := by
  cases v <;> simp_all [getProp, propOf, pure, Except.pure, throw, throwThe, MonadExceptOf.throw]

theorem mapE_ok_map {α β : Type} (f : α → JsM β) (g : α → β) (xs : List α) (ys : List β)
    (h : mapE f xs = .ok ys) (hg : ∀ x ∈ xs, ∀ y, f x = .ok y → y = g x) :
    ys = xs.map g := by
  induction xs generalizing ys with
  | nil => simpa [mapE, pure, Except.pure] using h.symm
  | cons x xs ih =>
    simp only [mapE, bind, Except.bind] at h
    cases hfx : f x with
    | error e => simp [hfx] at h
    | ok y =>
      cases hrest : mapE f xs with
      | error e => simp [hfx, hrest] at h
      | ok ys' =>
        simp [hfx, hrest, pure, Except.pure] at h
        subst h
        rw [List.map_cons, ← hg x (List.mem_cons_self _ _) y hfx,
          ← ih ys' hrest (fun z hz => hg z (List.mem_cons_of_mem _ hz))]

theorem applyApprovAction_quiet (id : Nat) (action : String) (payload a b : JVal)
    (ha : OrderShape a) (hact : action = "mark_in_transit" ∨ action = "cancel")
    (h : applyApprovAction id action payload a = .ok b) :
    b = actedOrder id action payload a := by
  obtain ⟨hobj, _⟩ := ha
  have hra := readable_of_isObj a hobj
  unfold applyApprovAction at h
  unfold actedOrder isTarget
  simp only [getProp_readable a _ hra, bind, Except.bind, pure, Except.pure] at h
  by_cases h1 : strictEq (propOf a "id_approvisionnement") (.num id) = true
  · rcases hact with rfl | rfl
    · simpa [h1] using h.symm
    · cases hp : getProp payload "raison" with
      | error e => simp [h1, hp] at h
      | ok x =>
        have hx := getProp_ok payload _ x hp
        subst hx
        simpa [h1, hp] using h.symm
  · simpa [h1] using h.symm

theorem approvAction_quiet (fs : Fields) (payload : JVal) (id : Nat) (action : String)
    (v data' : JVal)
    (hcoll : ∀ a ∈ elemsOf (getField fs "approvisionnements"), OrderShape a)
    (hact : action = "mark_in_transit" ∨ action = "cancel")
    (h : approvAction (.obj fs) payload id action = .ok (v, data')) :
    data' = .obj (objSet fs "approvisionnements"
      (.arr ((elemsOf (getField fs "approvisionnements")).map
        (actedOrder id action payload)))) := by
  unfold approvAction at h
  have hg : getProp (JVal.obj fs) "approvisionnements" =
      .ok (getField fs "approvisionnements") := rfl
  simp only [hg, bind, Except.bind] at h
  cases hl : listOrEmpty (getField fs "approvisionnements") with
  | error e => simp [hl] at h
  | ok xs =>
    have hx := elemsOf_of_listOrEmpty _ _ hl
    rw [hx] at hcoll ⊢
    cases hm : mapE (applyApprovAction id action payload) xs with
    | error e => simp [hl, hm] at h
    | ok ys =>
      have hys := mapE_ok_map _ (actedOrder id action payload) xs ys hm
        (fun a ha b hb => applyApprovAction_quiet id action payload a b (hcoll a ha) hact hb)
      simp [hl, hm, setProp, pure, Except.pure] at h
      rw [← h.2, hys]

theorem map_ok_inv {α β : Type} (r : JsM α) (f : α → β) (y : β)
    (h : r.map f = .ok y) : ∃ x, r = .ok x ∧ f x = y := by
  cases r with
  | error e => simp [Except.map] at h
  | ok x => exact ⟨x, rfl, by simpa [Except.map] using h⟩

/-- Whenever an action route returns, the stored orders are the round trip of the orders the
action writes. -/
theorem approvAction_stored_of_ok (now : String) (ds : List Char) (action : String)
    (options : Options) (ls : Storage) (v : JVal) (ls' : Storage) (hds : IsDigits ds)
    (hact : action = "mark_in_transit" ∨ action = "cancel")
    (hm : methodOf options = "POST") (hs : OrdersShape ls)
    (h : demoRequest now (approvActionPath ds action) options ls = .ok (v, ls')) :
    IsObj (getDemoData ls') ∧
      propOf (getDemoData ls') "approvisionnements" =
        .arr ((storedOrders ls).map
          (fun a => jsonify (actedOrder (digitsToNat ds) action (jsonBody options) a))) := by
  obtain ⟨⟨fs, hfs⟩, _, hcoll⟩ := hs
  have hso : storedOrders ls = elemsOf (getField fs "approvisionnements") := by
    simp [storedOrders, hfs, propOf]
  rw [hso] at hcoll ⊢
  have ha : action ∈ ["mark_in_transit", "mark_delivered", "cancel"] := by
    rcases hact with rfl | rfl <;> simp
  rw [demoRequest_approvAction now ds action options ls hds ha hm, hfs] at h
  obtain ⟨p, hp, hpe⟩ := map_ok_inv _ _ _ h
  obtain ⟨v', data'⟩ := p
  have hd := approvAction_quiet fs (jsonBody options) (digitsToNat ds) action v' data' hcoll
    hact hp
  simp only [Prod.mk.injEq] at hpe
  obtain ⟨_, rfl⟩ := hpe
  subst hd
  constructor
  · rw [getDemoData_save]; exact ⟨_, rfl⟩
  · rw [getDemoData_save, propOf_jsonify_obj, getField_objSet_same]
    simp [jsonField, jsonify, jsonifyList_eq_map]

theorem elemsOf_jsonField (v : JVal) : elemsOf (jsonField v) = (elemsOf v).map jsonify := by
  cases v with
  | arr xs => simp [jsonField, jsonify, elemsOf_arr, jsonifyList_eq_map]
  | bool b => cases b <;> simp [jsonField, jsonify, elemsOf, jsOr, truthy]
  | num n =>
    by_cases h : n = 0 <;> simp [jsonField, jsonify, elemsOf, jsOr, truthy, h]
  | str s =>
    by_cases h : s = "" <;> simp [jsonField, jsonify, elemsOf, jsOr, truthy, h]
  | _ => simp [jsonField, jsonify, elemsOf, jsOr, truthy]

theorem stableQty_jsonField (c : JVal) (h : StableQty c) : jsonField c = c := by
  rcases h with rfl | ⟨o, rfl⟩ <;> rfl

theorem lineInv_jsonify (l : JVal) (h : LineInv l) : LineInv (jsonify l) := by
  obtain ⟨hq, r, hr, hst⟩ := h
  obtain ⟨lf, rfl⟩ := isObj_of_prop_num l _ r hr
  have hr' : getField lf "quantite_recue" = .num r := hr
  have hq' : StableQty (getField lf "quantite_commandee") := hq
  have hc : propOf (jsonify (.obj lf)) "quantite_commandee" = getField lf "quantite_commandee" := by
    rw [propOf_jsonify_obj, stableQty_jsonField _ hq']
  have ho : orderedOf (jsonify (.obj lf)) = orderedOf (.obj lf) := by
    unfold orderedOf; rw [hc]; rfl
  have hs : ∀ s : String, propOf (JVal.obj lf) "statut_ligne" = .str s →
      propOf (jsonify (.obj lf)) "statut_ligne" = .str s := by
    intro s h
    rw [propOf_jsonify_obj]
    have : getField lf "statut_ligne" = .str s := h
    rw [this]; rfl
  refine ⟨by rw [hc]; exact hq', r, by rw [propOf_jsonify_obj, hr']; rfl, ?_⟩
  rw [ho]
  rcases hst with ⟨h1, h2⟩ | ⟨h1, h2⟩ | ⟨h1, h2⟩
  · exact Or.inl ⟨hs _ h1, h2⟩
  · exact Or.inr (Or.inl ⟨hs _ h1, h2⟩)
  · exact Or.inr (Or.inr ⟨hs _ h1, h2⟩)

theorem lineInv_created (l : JVal) (h : CreatedLine l) : LineInv (jsonify l) := by
  obtain ⟨lf, x, rfl, h1, h2, h3⟩ := h
  have hc : propOf (jsonify (.obj lf)) "quantite_commandee" = jsonField (ofNum x) := by
    rw [propOf_jsonify_obj, h3]
  refine ⟨?_, 0, by rw [propOf_jsonify_obj, h1]; rfl,
    Or.inl ⟨by rw [propOf_jsonify_obj, h2]; rfl, rfl⟩⟩
  rw [hc]
  cases x with
  | none => exact Or.inl rfl
  | some o => exact Or.inr ⟨o, rfl⟩

theorem lineInv_received (receipts : List (Int × Int)) (l : JVal) (h : LineInv l) :
    LineInv (jsonify (receivedLine (receiptsBody receipts) l)) := by
  obtain ⟨hq, r, hr, _⟩ := h
  obtain ⟨lf, rfl⟩ := isObj_of_prop_num l _ r hr
  have hq' : StableQty (getField lf "quantite_commandee") := hq
  have hc : propOf (jsonify (receivedLine (receiptsBody receipts) (.obj lf)))
      "quantite_commandee" = getField lf "quantite_commandee" := by
    rw [receivedLine, propOf_jsonify_obj, getField_objSet, getField_objSet]
    simp only [String.reduceEq, if_false]
    rw [getField_spread_nil, stableQty_jsonField _ hq']
  have ho : orderedOf (jsonify (receivedLine (receiptsBody receipts) (.obj lf))) =
      orderedOf (.obj lf) := by
    unfold orderedOf; rw [hc]; rfl
  obtain ⟨o, hoo⟩ : ∃ o : Int, orderedOf (.obj lf) = some o := by
    unfold orderedOf
    rcases hq' with h | ⟨o, h⟩
    · exact ⟨0, by simp [propOf, h, jsOr, truthy, toNumber]⟩
    · by_cases h0 : o = 0
      · exact ⟨0, by simp [propOf, h, h0, jsOr, truthy, toNumber]⟩
      · exact ⟨o, by simp [propOf, h, h0, jsOr, truthy, toNumber]⟩
  obtain ⟨q, hq2⟩ : ∃ q : Int, receivedOf (receiptsBody receipts) (.obj lf) = some q := by
    rw [receivedOf_receipts]
    cases suppliedFor receipts (.obj lf) with
    | some q => exact ⟨q, rfl⟩
    | none => exact ⟨o, hoo⟩
  refine ⟨by rw [hc]; exact hq', q, ?_, ?_⟩
  · rw [propOf_jsonify_receivedLine_recue, hq2]; rfl
  · rw [propOf_jsonify_receivedLine_statut, ho, hq2, hoo]
    by_cases hge : o ≤ q
    · exact Or.inr (Or.inl ⟨by simp [numGe, hge], by simp [numGe, hge]⟩)
    · refine Or.inr (Or.inr ⟨by simp [numGe, hge], ?_⟩)
      simp only [numLt, decide_eq_true_eq]
      omega

theorem lignesOf_jsonify_obj (af : Fields) :
    lignesOf (jsonify (.obj af)) = (lignesOf (.obj af)).map jsonify := by
  unfold lignesOf
  rw [propOf_jsonify_obj, elemsOf_jsonField]
  rfl

/-- The lines of an order after an action: the stored lines, serialised again, or for
`mark_delivered` on the targeted order the lines the delivery writes. -/
theorem lignes_of_acted (id : Nat) (action : String) (payload a : JVal) (ha : IsObj a) :
    lignesOf (jsonify (actedOrder id action payload a)) = (lignesOf a).map jsonify ∨
      (action = "mark_delivered" ∧
        lignesOf (jsonify (actedOrder id action payload a)) =
          (lignesOf a).map (fun l => jsonify (receivedLine payload l))) := by
  obtain ⟨af, rfl⟩ := ha
  have hkeep : ∀ F : Fields, getField F "lignes" = getField af "lignes" →
      lignesOf (jsonify (.obj F)) = (lignesOf (.obj af)).map jsonify := by
    intro F hF
    unfold lignesOf
    rw [propOf_jsonify_obj, hF, elemsOf_jsonField]
    rfl
  unfold actedOrder
  by_cases h0 : isTarget id (.obj af) = true
  · by_cases h1 : action = "mark_in_transit"
    · left
      simp only [h0, h1, Bool.not_true, Bool.false_eq_true, if_false, if_true]
      apply hkeep
      rw [getField_objSet]
      simp only [String.reduceEq, if_false]
      exact getField_spread_nil af _
    · by_cases h2 : action = "cancel"
      · left
        simp only [h0, h1, h2, Bool.not_true, Bool.false_eq_true, if_false, if_true]
        apply hkeep
        rw [getField_objSet, getField_objSet]
        simp only [String.reduceEq, if_false]
        exact getField_spread_nil af _
      · by_cases h3 : action = "mark_delivered"
        · right
          refine ⟨h3, ?_⟩
          subst h3
          simp only [h0, Bool.not_true, Bool.false_eq_true, if_false, if_true, String.reduceEq]
          unfold deliveredOrder lignesOf
          rw [propOf_jsonify_obj, getField_objSet_same, elemsOf_jsonField, elemsOf_arr,
            List.map_map]
          rfl
        · left
          simp only [h0, h1, h2, h3, Bool.not_true, Bool.false_eq_true, if_false]
          exact lignesOf_jsonify_obj af
  · left
    simp only [h0, Bool.not_false, if_true]
    exact lignesOf_jsonify_obj af

theorem stateInv_empty : StateInv {} := by
  refine ⟨⟨⟨[], rfl⟩, ⟨[], rfl⟩, ?_⟩, ?_⟩ <;> intro a ha <;> simp [storedOrders, getDemoData,
    textTruthy, propOf, getField, lookupLast, elemsOf, jsOr, truthy] at ha

theorem stateInv_acted (ls ls' : Storage) (id : Nat) (action : String) (payload : JVal)
    (receipts : List (Int × Int)) (hinv : StateInv ls)
    (hpay : action = "mark_delivered" → payload = receiptsBody receipts)
    (hobj : IsObj (getDemoData ls'))
    (hprop : propOf (getDemoData ls') "approvisionnements" =
      .arr ((storedOrders ls).map (fun a => jsonify (actedOrder id action payload a)))) :
    StateInv ls' := by
  obtain ⟨hs, hl⟩ := hinv
  refine ⟨ordersShape_after ls ls' _ hobj hprop
    (fun a ha => (acted_shape id action payload a (hs.2.2 a ha)).1), ?_⟩
  rw [storedOrders_of_prop ls' _ hprop]
  intro a' ha' l' hl'
  obtain ⟨a, ha, rfl⟩ := List.mem_map.1 ha'
  rcases lignes_of_acted id action payload a (hs.2.2 a ha).1 with h | ⟨hact, h⟩
  · rw [h] at hl'
    obtain ⟨l, hlm, rfl⟩ := List.mem_map.1 hl'
    exact lineInv_jsonify l (hl a ha l hlm)
  · rw [h] at hl'
    obtain ⟨l, hlm, rfl⟩ := List.mem_map.1 hl'
    rw [hpay hact]
    exact lineInv_received receipts l (hl a ha l hlm)

theorem orderShape_jsonify (a : JVal) (h : OrderShape a) : OrderShape (jsonify a) := by
  obtain ⟨⟨af, rfl⟩, hl⟩ := h
  refine ⟨⟨_, rfl⟩, ?_⟩
  rw [propOf_jsonify_obj]
  exact objList_jsonField _ hl

theorem stateInv_created (now : String) (options : Options) (ls : Storage) (v : JVal)
    (ls' : Storage) (hinv : StateInv ls) (hm : methodOf options = "POST")
    (h : demoRequest now "/api/approvisionnements/" options ls = .ok (v, ls')) :
    StateInv ls' := by
  obtain ⟨hs, hl⟩ := hinv
  obtain ⟨⟨fs, hfs⟩, _, hshape⟩ := hs
  have hso : storedOrders ls = elemsOf (getField fs "approvisionnements") := by
    simp [storedOrders, hfs, propOf]
  rw [demoRequest_createApprov now options ls hm, hfs] at h
  obtain ⟨p, hp, hpe⟩ := map_ok_inv _ _ _ h
  obtain ⟨approv, data'⟩ := p
  obtain ⟨hd, af, lignes, rfl, hlig, hcl⟩ := createApprov_of_ok now fs _ approv data' hp
  simp only [Prod.mk.injEq] at hpe
  obtain ⟨_, rfl⟩ := hpe
  subst hd
  have hprop : propOf (getDemoData (saveDemoData ls (.obj (objSet fs "approvisionnements"
      (.arr (elemsOf (getField fs "approvisionnements") ++ [JVal.obj af]))))))
      "approvisionnements" =
      .arr ((storedOrders ls).map jsonify ++ [jsonify (JVal.obj af)]) := by
    rw [getDemoData_save, propOf_jsonify_obj, getField_objSet_same, hso]
    simp [jsonField, jsonify, jsonifyList_eq_map]
  have hnew : lignesOf (jsonify (JVal.obj af)) = lignes.map jsonify := by
    rw [lignesOf_jsonify_obj]
    unfold lignesOf
    rw [show propOf (JVal.obj af) "lignes" = .arr lignes from hlig, elemsOf_arr]
  refine ⟨⟨?_, ⟨_, by rw [hprop]; rfl⟩, ?_⟩, ?_⟩
  · rw [getDemoData_save]; exact ⟨_, rfl⟩
  · rw [storedOrders_of_prop _ _ hprop]
    intro a ha
    rcases List.mem_append.1 ha with ha | ha
    · obtain ⟨b, hb, rfl⟩ := List.mem_map.1 ha
      exact orderShape_jsonify b (hshape b hb)
    · simp only [List.mem_singleton] at ha
      subst ha
      refine ⟨⟨_, rfl⟩, ?_⟩
      rw [propOf_jsonify_obj, hlig]
      refine ⟨lignes.map jsonify, by simp [jsonField, jsonify, jsonifyList_eq_map, listOrEmpty,
        jsOr, truthy, pure, Except.pure], ?_⟩
      intro l hlm
      obtain ⟨l0, hl0, rfl⟩ := List.mem_map.1 hlm
      obtain ⟨lf, _, rfl, _⟩ := hcl l0 hl0
      exact ⟨_, rfl⟩
  · rw [storedOrders_of_prop _ _ hprop]
    intro a ha l hlm
    rcases List.mem_append.1 ha with ha | ha
    · obtain ⟨b, hb, rfl⟩ := List.mem_map.1 ha
      obtain ⟨bf, rfl⟩ := (hshape b hb).1
      rw [lignesOf_jsonify_obj] at hlm
      obtain ⟨l0, hl0, rfl⟩ := List.mem_map.1 hlm
      exact lineInv_jsonify l0 (hl _ hb l0 hl0)
    · simp only [List.mem_singleton] at ha
      subst ha
      rw [hnew] at hlm
      obtain ⟨l0, hl0, rfl⟩ := List.mem_map.1 hlm
      exact lineInv_created l0 (hcl l0 hl0)

theorem reachable_inv (ls : Storage) (h : Reachable ls) : StateInv ls := by
  induction h with
  | empty => exact stateInv_empty
  | create now options ls v ls' _ hm _ hreq ih =>
    exact stateInv_created now options ls v ls' ih hm hreq
  | transit now ds options ls v ls' _ hds hm hreq ih =>
    obtain ⟨hobj, hprop⟩ := approvAction_stored_of_ok now ds "mark_in_transit" options ls v ls'
      hds (Or.inl rfl) hm ih.1 hreq
    exact stateInv_acted ls ls' _ "mark_in_transit" _ [] ih (by simp) hobj hprop
  | cancel now ds options ls v ls' _ hds hm hreq ih =>
    obtain ⟨hobj, hprop⟩ := approvAction_stored_of_ok now ds "cancel" options ls v ls'
      hds (Or.inr rfl) hm ih.1 hreq
    exact stateInv_acted ls ls' _ "cancel" _ [] ih (by simp) hobj hprop
  | deliver now ds receipts ls v ls' _ hds hreq ih =>
    obtain ⟨ls2, hreq2, hobj, hprop⟩ := approvAction_stored now ds "mark_delivered"
      (postJson (receiptsBody receipts)) ls hds (by simp) rfl ih.1 (receiptsBody_shape receipts)
    have e : ls' = ls2 := by
      rw [hreq] at hreq2
      simp only [Except.ok.injEq, Prod.mk.injEq] at hreq2
      exact hreq2.2
    subst e
    exact stateInv_acted ls ls' _ "mark_delivered" _ receipts ih (fun _ => rfl) hobj hprop

/-- C4 (counterexample).  Two reachable states that break the claimed rule.  After the
creation of an order with one line of ordered quantity 5 and a delivery that reports 0
received for it, the line has received 0, ordered 5 and status `partial`, not `pending`.
After the creation of an order with one line of ordered quantity 0, the line has received 0,
ordered 0 and status `pending`, not `delivered`. -/
theorem c4_partial_with_nothing_received :
    lineSummary afterEmptyDelivery = [(some 0, some 5, "partial")] ∧
      lineSummary afterCreateZero = [(some 0, some 0, "pending")] := by
  constructor <;> rfl

/-- C4 (amended).  In every state reachable from the empty demo document by order creations
and by `mark_in_transit`, `mark_delivered` and `cancel` calls, inside the number domain
(creation bodies whose line quantities are missing or integers in the exact range,
deliveries with integer receipt quantities), every line of every stored order is either as
created, with status `pending` and nothing received, or as a delivery wrote it, with status
`delivered` and received >= ordered, or with status `partial` and received < ordered (the
received quantity being a number, here an integer). -/
theorem c4_line_status_rule (ls : Storage) (h : Reachable ls) :
    ∀ a ∈ storedOrders ls, ∀ l ∈ lignesOf a, LineStatus l :=
  fun a ha l hl => ((reachable_inv ls h).2 a ha l hl).2

theorem oneLine_domain : CreateDomain {} (jsonBody (postJson (oneLineBody 5))) := by
  have hl : elemsOf (propOf (jsonBody (postJson (oneLineBody 5))) "lignes") =
      [.obj [("produit", .num 3), ("quantite_commandee", .num 5)]] := rfl
  unfold CreateDomain
  rw [hl]
  refine ⟨by norm_num [maxExact], ?_, ?_, ?_⟩
  · intro a ha
    cases ha
  · intro l hl'
    simp only [List.mem_singleton] at hl'
    subst hl'
    exact ⟨Or.inr ⟨3, rfl, exact_small 3 (by omega) (by omega)⟩,
      Or.inr ⟨5, rfl, exact_small 5 (by omega) (by omega)⟩, Or.inl rfl⟩
  · have a1 : askedOf (.obj [("produit", .num 3), ("quantite_commandee", .num 5)]) = 5 := rfl
    simp only [List.map, a1, List.sum_cons, List.sum_nil]
    norm_num [maxExact]

theorem afterEmptyDelivery_reachable : Reachable afterEmptyDelivery :=
  Reachable.deliver "t" ['1'] [(101, 0)] afterCreate successValue afterEmptyDelivery
    (Reachable.create "t" (postJson (oneLineBody 5)) {} _ afterCreate Reachable.empty rfl
      oneLine_domain rfl)
    ⟨by simp, by decide⟩ rfl

/-- C4 (witness): the state after one creation and one delivery. -/
theorem c4_line_status_rule_witness :
    Reachable afterEmptyDelivery ∧
      ∀ a ∈ storedOrders afterEmptyDelivery, ∀ l ∈ lignesOf a, LineStatus l :=
  ⟨afterEmptyDelivery_reachable,
    c4_line_status_rule afterEmptyDelivery afterEmptyDelivery_reachable⟩

/-! ### The stored demo document (C18) -/

/-- C18 (counterexample): with text that is not JSON under `demo_data_v3` and a document under
`demo_data_v2`, `getDemoData` returns the empty object: it does not fall back to the older
key, although that key holds a usable document. -/
theorem c18_unparsable_current_key :
    getDemoData brokenCurrentKey = .obj [] ∧
      brokenCurrentKey.demo_data_v2 =
        some (.json (.obj [("lots", .arr [.obj [("id_lot", .num 1)]])])) :=
  ⟨rfl, rfl⟩

/-- C18 (amended): `getDemoData` reads the newest of the keys `demo_data_v3`, `demo_data_v2`,
`demo_data_v1` that is present and not empty, and only that one: it returns what that text
parses to, and the empty object when that text does not parse; it returns the empty object
when the three keys are absent or empty. -/
theorem c18_newest_present_key (ls : Storage) :
    (∀ v, ls.demo_data_v3 = some (.json v) → getDemoData ls = v) ∧
    (ls.demo_data_v3 = some .junk → getDemoData ls = .obj []) ∧
    (textTruthy ls.demo_data_v3 = false →
      (∀ v, ls.demo_data_v2 = some (.json v) → getDemoData ls = v) ∧
      (ls.demo_data_v2 = some .junk → getDemoData ls = .obj [])) ∧
    (textTruthy ls.demo_data_v3 = false → textTruthy ls.demo_data_v2 = false →
      (∀ v, ls.demo_data_v1 = some (.json v) → getDemoData ls = v) ∧
      (ls.demo_data_v1 = some .junk → getDemoData ls = .obj []) ∧
      (textTruthy ls.demo_data_v1 = false → getDemoData ls = .obj [])) := by
  refine ⟨?_, ?_, ?_, ?_⟩
  · intro v h
    simp [getDemoData, h, textTruthy, parseOrEmpty]
  · intro h
    simp [getDemoData, h, textTruthy, parseOrEmpty]
  · intro h3
    refine ⟨?_, ?_⟩
    · intro v h
      unfold getDemoData; rw [h3]; simp [h, textTruthy, parseOrEmpty]
    · intro h
      unfold getDemoData; rw [h3]; simp [h, textTruthy, parseOrEmpty]
  · intro h3 h2
    refine ⟨?_, ?_, ?_⟩
    · intro v h
      unfold getDemoData; rw [h3, h2]; simp [h, textTruthy, parseOrEmpty]
    · intro h
      unfold getDemoData; rw [h3, h2]; simp [h, textTruthy, parseOrEmpty]
    · intro h
      unfold getDemoData; rw [h3, h2, h]; simp

/-- C18 (witness): a document stored under the oldest key only is the one returned. -/
theorem c18_newest_present_key_witness :
    textTruthy oldestKeyOnly.demo_data_v3 = false ∧
      textTruthy oldestKeyOnly.demo_data_v2 = false ∧
      getDemoData oldestKeyOnly = .obj [("lots", .arr [])] :=
  ⟨rfl, rfl, ((c18_newest_present_key oldestKeyOnly).2.2.2 rfl rfl).1 _ rfl⟩

/-! ### Error normalisation (C14) -/

/-- C14: on every error value whose properties can be read, `normalizeError` returns the
timeout error (status 408) when the error is named `AbortError`, the error itself when it is
not and carries a truthy status, and the network error (status 0) in every other case; hence
normalising a second time changes nothing.  The errors `request` hands to it land where the
taxonomy says: an aborted fetch on 408, a failed fetch and an unparsable body on 0, and the
error built from an HTTP answer of status `s > 0` is returned unchanged with status `s`. -/
theorem c14_normalize_taxonomy (e : JVal) (he : Readable e) :
    (isAbort e = true → normalizeError e = timeoutError) ∧
    (isAbort e = false → truthy (propOf e "status") = true → normalizeError e = e) ∧
    (isAbort e = false → truthy (propOf e "status") = false →
      normalizeError e = unreachableError) ∧
    normalizeError (normalizeError e) = normalizeError e ∧
    Readable (normalizeError e) ∧
    normalizeError abortError = timeoutError ∧
    normalizeError networkError = unreachableError ∧
    normalizeError syntaxError = unreachableError ∧
    (∀ r : Response, r.status ≠ 0 →
      normalizeError (parseError r) = parseError r ∧
        propOf (parseError r) "status" = .num r.status) := by
  have hto : normalizeError timeoutError = timeoutError := rfl
  have hun : normalizeError unreachableError = unreachableError := rfl
  refine ⟨?_, ?_, ?_, ?_, ?_, rfl, rfl, rfl, ?_⟩
  · intro h
    simp only [isAbort] at h
    simp [normalizeError, h, timeoutError]
  · intro h hs
    simp only [isAbort] at h
    simp [normalizeError, h, hs]
  · intro h hs
    simp only [isAbort] at h
    simp [normalizeError, h, hs, unreachableError]
  · by_cases h : strictEq (propOf e "name") (.str "AbortError") = true
    · have : normalizeError e = timeoutError := by simp [normalizeError, h, timeoutError]
      rw [this, hto]
    · by_cases hs : truthy (propOf e "status") = true
      · have : normalizeError e = e := by simp [normalizeError, h, hs]
        rw [this, this]
      · have : normalizeError e = unreachableError := by
          simp [normalizeError, h, hs, unreachableError]
        rw [this, hun]
  · by_cases h : strictEq (propOf e "name") (.str "AbortError") = true
    · have : normalizeError e = timeoutError := by simp [normalizeError, h, timeoutError]
      rw [this]; exact ⟨by simp [timeoutError], by simp [timeoutError]⟩
    · by_cases hs : truthy (propOf e "status") = true
      · have : normalizeError e = e := by simp [normalizeError, h, hs]
        rw [this]; exact he
      · have : normalizeError e = unreachableError := by
          simp [normalizeError, h, hs, unreachableError]
        rw [this]; exact ⟨by simp [unreachableError], by simp [unreachableError]⟩
  · intro r hr
    have hne : ((r.status : Int) = 0) = False := by
      simp only [eq_iff_iff, iff_false]; exact_mod_cast hr
    have hshape : (∃ m, parseError r = .obj [("status", .num r.status), ("message", m)]) ∨
        ∃ m d, parseError r = .obj [("status", .num r.status), ("message", m), ("data", d)] := by
      unfold parseError
      split
      · exact Or.inl ⟨_, rfl⟩
      · split
        · exact Or.inr ⟨_, _, rfl⟩
        · exact Or.inl ⟨_, rfl⟩
    rcases hshape with ⟨m, hm⟩ | ⟨m, d, hm⟩ <;> rw [hm] <;>
      simp [normalizeError, propOf, getField, lookupLast, strictEq, truthy, hne]

theorem readable_obj (fs : Fields) : Readable (.obj fs) :=
  ⟨fun h => (by cases h), fun h => (by cases h)⟩

/-- C14 (witness): the error built from a 500 answer is readable, is not named `AbortError`,
carries a truthy status, and is returned unchanged. -/
theorem c14_normalize_taxonomy_witness :
    Readable serverError ∧ isAbort serverError = false ∧
      truthy (propOf serverError "status") = true ∧ normalizeError serverError = serverError :=
  ⟨readable_obj _, rfl, rfl,
    (c14_normalize_taxonomy serverError (readable_obj _)).2.1 rfl rfl⟩

/-! ### Token storage and expiry (C15) -/

/-- In a zone whose offset never changes, one hour on in local time is 3600000 ms later. -/
theorem hourLater_fixed (t : Int) (iso : String) (k : Int) :
    hourLater (clockAt t iso k) = t + 3600000 := by
  simp only [hourLater, clockAt, fixedZone]
  omega

/-- In a zone whose offset never changes: `setTokens` at clock reading `t` with a non-empty
access token `a` and a refresh token `r` stores both tokens in the instance and under both
naming schemes in storage, and stores the expiry `t + 1 hour` (3600000 ms).  `isTokenValid`
at a reading `t'` is true exactly when the instance holds a truthy token and storage holds
an expiry that is a date later than `t'`; after that `setTokens` it is true at `t` and false
at every `t' ≥ t + 1 hour`.  A login that the server answers with the tokens `a` and `r`
ends in that state. -/
theorem tokens_and_expiry_fixed_zone (t : Int) (iso : String) (k : Int) (a r : String)
    (c : Client) (ha : a ≠ "") :
    (setTokens (clockAt t iso k) (.str a) (.str r) c).token = .str a ∧
    (setTokens (clockAt t iso k) (.str a) (.str r) c).refreshToken = .str r ∧
    (setTokens (clockAt t iso k) (.str a) (.str r) c).storage.token = some a ∧
    (setTokens (clockAt t iso k) (.str a) (.str r) c).storage.access_token = some a ∧
    (setTokens (clockAt t iso k) (.str a) (.str r) c).storage.refreshToken = some r ∧
    (setTokens (clockAt t iso k) (.str a) (.str r) c).storage.refresh_token = some r ∧
    (setTokens (clockAt t iso k) (.str a) (.str r) c).storage.tokenExpiry =
      some (.at (t + 3600000)) ∧
    (∀ (d : Client) (now' : Clock), isTokenValid now' d = true ↔
      truthy d.token = true ∧ ∃ e, d.storage.tokenExpiry = some (.at e) ∧ now'.ms < e) ∧
    (∀ now' : Clock,
      isTokenValid now' (setTokens (clockAt t iso k) (.str a) (.str r) c) =
        decide (now'.ms < t + 3600000)) ∧
    isTokenValid (clockAt t iso k) (setTokens (clockAt t iso k) (.str a) (.str r) c) = true ∧
    (∀ now' : Clock, t + 3600000 ≤ now'.ms →
      isTokenValid now' (setTokens (clockAt t iso k) (.str a) (.str r) c) = false) ∧
    (∀ (srv : Server) (fuel : Nat) (credentials : JVal) (resp : Response) (fs : Fields),
      srv ((clearTokens c).log ++ [outgoing LOGIN (loginOptions credentials) (clearTokens c)]) =
        .response resp →
      resp.ok = true → resp.isJson = true → resp.bodyJson = some (.obj fs) →
      getField fs "access" = .str a → getField fs "refresh" = .str r →
      ∃ v, login (clockAt t iso k) srv (fuel + 1) credentials c =
          (.returned v, setTokens (clockAt t iso k) (.str a) (.str r)
            (sent (clearTokens c) (outgoing LOGIN (loginOptions credentials) (clearTokens c)))) ∧
        propOf v "success" = .bool true) := by
  have hexp : (setTokens (clockAt t iso k) (.str a) (.str r) c).storage.tokenExpiry =
      some (.at (t + 3600000)) := by
    show some (DateText.at (hourLater (clockAt t iso k))) = _
    rw [hourLater_fixed]
  have hval : ∀ now' : Clock,
      isTokenValid now' (setTokens (clockAt t iso k) (.str a) (.str r) c) =
        decide (now'.ms < t + 3600000) := by
    intro now'
    unfold isTokenValid
    rw [hexp]
    simp [setTokens, truthy, ha]
  refine ⟨rfl, rfl, rfl, rfl, rfl, rfl, hexp, ?_, hval, ?_, ?_, ?_⟩
  · intro d now'
    unfold isTokenValid
    constructor
    · intro h
      split at h
      · rename_i e he
        simp only [Bool.and_eq_true, decide_eq_true_eq] at h
        exact ⟨h.1, e, he, h.2⟩
      · cases h
    · rintro ⟨ht, e, he, hlt⟩
      simp [he, ht, hlt]
  · rw [hval]
    simp [clockAt]
  · intro now' h
    rw [hval]; simp; omega
  · intro srv fuel credentials resp fs hsrv hok hjson hbody haccess hrefresh
    have hreq : request (clockAt t iso k) srv (fuel + 1) LOGIN (loginOptions credentials)
        (clearTokens c) =
        (.returned (.obj fs),
          sent (clearTokens c) (outgoing LOGIN (loginOptions credentials) (clearTokens c))) := by
      rw [request]
      have hauth : isAuthEndpoint LOGIN = true := by decide
      simp only [hauth, Bool.not_true, Bool.and_false, Bool.false_eq_true, if_false]
      have hlog : (sent (clearTokens c)
          (outgoing LOGIN (loginOptions credentials) (clearTokens c))).log =
          (clearTokens c).log ++ [outgoing LOGIN (loginOptions credentials) (clearTokens c)] :=
        rfl
      simp only [hlog, hsrv, hok, hjson, hbody, Bool.not_true, Bool.false_eq_true, if_false,
        if_true]
    refine ⟨.obj [("success", .bool true),
      ("tokens", .obj [("access", .str a), ("refresh", .str r)]),
      ("user", getField fs "user")], ?_, ?_⟩
    · unfold login
      simp only [hreq, getProp, haccess, hrefresh]
      rfl
    · simp [propOf, getField, lookupLast]

/-- C15: the code at the end of summer time.  `setTokens('a1', 'r1')` called at
2026-10-25T00:30:00.000Z in a browser whose zone is Europe/Paris stores the expiry
2026-10-25T02:30:00.000Z, two hours after the call and not one (`setHours(getHours() + 1)`
moves the wall clock from 02:30 to 03:30, which is read back after the clocks have gone
back); so `isTokenValid` is still true one hour after the call, at 01:30:00.000Z. -/
theorem c15_expiry_two_hours_at_fall_back :
    (setTokens parisNight (.str "a1") (.str "r1") {}).storage.tokenExpiry =
        some (.at (parisNight.ms + 7200000)) ∧
      parisHourLater.ms = parisNight.ms + 3600000 ∧
      isTokenValid parisHourLater (setTokens parisNight (.str "a1") (.str "r1") {}) = true := by
  refine ⟨?_, rfl, ?_⟩ <;> decide

/-! ### Logout (C17) -/

theorem clearTokens_cleared (c : Client) : Cleared (clearTokens c) :=
  ⟨rfl, rfl, rfl, rfl, rfl, rfl, rfl, rfl⟩

theorem logout_not_auth : isAuthEndpoint LOGOUT = false := by decide

/-- The logout request ends within one step of the budget when the simulator takes it, when
no refresh token is held, or when the answer is not a 401. -/
theorem request_logout_ends (now : Clock) (srv : Server) (fuel : Nat) (c : Client)
    (h : c.storage.demo_mode = some "true" ∨ truthy c.refreshToken = false ∨
      ∀ r, srv (c.log ++ [outgoing LOGOUT logoutOptions c]) = .response r → r.status ≠ 401) :
    (request now srv (fuel + 1) LOGOUT logoutOptions c).1.ended = true := by
  rw [request]
  by_cases hd : c.storage.demo_mode = some "true"
  · simp only [hd, logout_not_auth, Bool.not_false, Bool.and_true, decide_True, if_true]
    split <;> rfl
  · have hlog : (sent c (outgoing LOGOUT logoutOptions c)).log =
        c.log ++ [outgoing LOGOUT logoutOptions c] := rfl
    have hrt : (sent c (outgoing LOGOUT logoutOptions c)).refreshToken = c.refreshToken := rfl
    simp only [hd, decide_False, Bool.false_and, Bool.false_eq_true, if_false, hlog, hrt]
    rcases h with h | h | h
    · exact absurd h hd
    · simp only [h, Bool.and_false, Bool.false_and, Bool.false_eq_true, if_false]
      split
      · rfl
      · rfl
      · split
        · rfl
        · split
          · split <;> rfl
          · rfl
    · split
      · rfl
      · rfl
      · rename_i r hr
        have h401 := h r hr
        simp only [h401, decide_False, Bool.false_and, Bool.false_eq_true, if_false]
        split
        · rfl
        · split
          · split <;> rfl
          · rfl

/-- C17: when `logout` has ended, whether the logout request returned or threw, the instance
fields `token` and `refreshToken` are `null` and storage holds none of the keys `token`,
`access_token`, `refreshToken`, `refresh_token`, `tokenExpiry`, `userData`.  The call has
ended as soon as the logout request has, with the tokens cleared in the state the request
left; and the request ends within one step when the simulator takes it, when no refresh
token is held, or when the server's answer is not a 401 (a failed or aborted fetch
included). -/
theorem c17_logout_clears (now : Clock) (srv : Server) (c : Client) :
    (∀ fuel, (logout now srv fuel c).1.ended = true → Cleared (logout now srv fuel c).2) ∧
    (∀ fuel v c1, request now srv fuel LOGOUT logoutOptions c = (.returned v, c1) →
      logout now srv fuel c = (.returned .undefined, clearTokens c1)) ∧
    (∀ fuel e c1, request now srv fuel LOGOUT logoutOptions c = (.threw e, c1) →
      logout now srv fuel c = (.threw e, clearTokens c1)) ∧
    (∀ fuel, (c.storage.demo_mode = some "true" ∨ truthy c.refreshToken = false ∨
        ∀ r, srv (c.log ++ [outgoing LOGOUT logoutOptions c]) = .response r → r.status ≠ 401) →
      (logout now srv (fuel + 1) c).1.ended = true ∧
        Cleared (logout now srv (fuel + 1) c).2) := by
  have h1 : ∀ fuel, (logout now srv fuel c).1.ended = true →
      Cleared (logout now srv fuel c).2 := by
    intro fuel
    unfold logout
    generalize request now srv fuel LOGOUT logoutOptions c = res
    obtain ⟨o, c1⟩ := res
    cases o with
    | pending => intro h; cases h
    | returned v => intro _; exact clearTokens_cleared c1
    | threw e => intro _; exact clearTokens_cleared c1
  have h4 : ∀ fuel, (c.storage.demo_mode = some "true" ∨ truthy c.refreshToken = false ∨
        ∀ r, srv (c.log ++ [outgoing LOGOUT logoutOptions c]) = .response r → r.status ≠ 401) →
      (logout now srv (fuel + 1) c).1.ended = true := by
    intro fuel h
    have hreq := request_logout_ends now srv fuel c h
    unfold logout
    revert hreq
    generalize request now srv (fuel + 1) LOGOUT logoutOptions c = res
    obtain ⟨o, c1⟩ := res
    cases o with
    | pending => intro h; cases h
    | returned v => intro _; rfl
    | threw e => intro _; rfl
  refine ⟨h1, ?_, ?_, fun fuel h => ⟨h4 fuel h, h1 _ (h4 fuel h)⟩⟩
  · intro fuel v c1 h
    unfold logout; rw [h]
  · intro fuel e c1 h
    unfold logout; rw [h]

/-- C17 (witness): logging out with stale tokens while the server cannot be reached throws
the network error and leaves no token behind. -/
theorem c17_logout_clears_witness :
    (logout noon downServer 1 staleClient).1.ended = true ∧
      Cleared (logout noon downServer 1 staleClient).2 :=
  ⟨rfl, (c17_logout_clears noon downServer staleClient).1 1 rfl⟩

/-! ### Token refresh: what is kept and what is cleared (C16) -/

/-- The refresh token the instance holds is the same after a request that returned, and the
one `refreshAccessToken` used after a refresh that succeeded. -/
theorem refreshToken_kept (now : Clock) (srv : Server) :
    ∀ fuel : Nat,
      (∀ endpoint options c v c', request now srv fuel endpoint options c = (.returned v, c') →
        c'.refreshToken = c.refreshToken) ∧
      (∀ c c', refreshAccessToken now srv fuel c = (some true, c') →
        c'.refreshToken = jsOr c.refreshToken
          (jsOr (itemValue c.storage.refreshToken) (itemValue c.storage.refresh_token))) := by
  intro fuel
  induction fuel with
  | zero =>
    constructor
    · intro endpoint options c v c' h
      simp [request] at h
    · intro c c' h
      simp [refreshAccessToken] at h
  | succ f ih =>
    obtain ⟨ihP, ihQ⟩ := ih
    constructor
    · intro endpoint options c v c' h
      rw [request] at h
      split at h
      · split at h
        · simp only [Prod.mk.injEq] at h
          rw [← h.2]
        · simp at h
      · simp only at h
        split at h
        · simp at h
        · simp at h
        · split at h
          · split at h
            · rename_i hcond
              simp only [Bool.and_eq_true] at hcond
              split at h
              · simp at h
              · rename_i c2 hrefresh
                have h2 := ihP _ _ _ _ _ h
                have h3 := ihQ _ _ hrefresh
                have ht : truthy c.refreshToken = true := hcond.1.2
                rw [h2, h3]
                simp [sent, jsOr, ht]
              · simp at h
            · simp at h
          · split at h
            · split at h
              · simp only [Prod.mk.injEq] at h
                rw [← h.2]; rfl
              · simp at h
            · simp only [Prod.mk.injEq] at h
              rw [← h.2]; rfl
    · intro c c' h
      rw [refreshAccessToken] at h
      split at h
      · simp at h
      · split at h
        · simp at h
        · rename_i data c2 hreq
          split at h
          · simp only [Prod.mk.injEq] at h
            rw [← h.2]
            have := ihP _ _ _ _ _ hreq
            simpa [setTokens] using this
          · simp at h
        · simp at h

theorem refresh_false_cleared (now : Clock) (srv : Server) (fuel : Nat) (c c' : Client)
    (ht : truthy c.refreshToken = true)
    (h : refreshAccessToken now srv fuel c = (some false, c')) : Cleared c' := by
  cases fuel with
  | zero => simp [refreshAccessToken] at h
  | succ f =>
    rw [refreshAccessToken] at h
    have hrt : jsOr c.refreshToken
        (jsOr (itemValue c.storage.refreshToken) (itemValue c.storage.refresh_token)) =
        c.refreshToken := by
      simp [jsOr, ht]
    simp only [hrt, ht, Bool.not_true, Bool.false_eq_true, if_false] at h
    split at h
    · simp at h
    · split at h
      · simp at h
      · simp only [Prod.mk.injEq, true_and] at h
        rw [← h]; exact clearTokens_cleared _
    · simp only [Prod.mk.injEq, true_and] at h
      rw [← h]; exact clearTokens_cleared _

/-- C16: with the refresh token `r` held.  (1) When the refresh request returns data whose
`access` is the token `a`, `refreshAccessToken` returns true, and afterwards the access token
is `a` and the refresh token is still `r`, in the instance and in storage.  (2) When the
refresh request throws, it returns false and afterwards the instance tokens, the four token
keys, the expiry and the cached profile are cleared.  (3) Whenever it returns false the state
is cleared; whenever it returns true the refresh token is still `r`.  (4) A server that
answers the refresh request with `{access: a}` gives case 1, and (5) an answer that is a
failed or aborted fetch, an HTTP error other than 401 or an unparsable body gives case 2,
both within two steps of the budget. -/
theorem c16_refresh_keeps_or_clears (now : Clock) (srv : Server) (fuel : Nat) (c : Client)
    (r : String) (hr : r ≠ "") (hc : c.refreshToken = .str r) :
    (∀ data c2 a,
      request now srv fuel REFRESH_TOKEN (refreshOptions (.str r)) c = (.returned data, c2) →
      propOf data "access" = .str a →
      ∃ c', refreshAccessToken now srv (fuel + 1) c = (some true, c') ∧ Holds c' a r) ∧
    (∀ e c2,
      request now srv fuel REFRESH_TOKEN (refreshOptions (.str r)) c = (.threw e, c2) →
      ∃ c', refreshAccessToken now srv (fuel + 1) c = (some false, c') ∧ Cleared c') ∧
    (∀ c', refreshAccessToken now srv fuel c = (some false, c') → Cleared c') ∧
    (∀ c', refreshAccessToken now srv fuel c = (some true, c') →
      c'.refreshToken = .str r ∧ c'.storage.refreshToken = some r ∧
        c'.storage.refresh_token = some r) ∧
    (∀ resp fs a,
      srv (c.log ++ [outgoing REFRESH_TOKEN (refreshOptions (.str r)) c]) = .response resp →
      resp.ok = true → resp.isJson = true → resp.bodyJson = some (.obj fs) →
      getField fs "access" = .str a →
      ∃ c', refreshAccessToken now srv (fuel + 2) c = (some true, c') ∧ Holds c' a r) ∧
    (Refused (srv (c.log ++ [outgoing REFRESH_TOKEN (refreshOptions (.str r)) c])) →
      ∃ c', refreshAccessToken now srv (fuel + 2) c = (some false, c') ∧ Cleared c') := by
  have ht : truthy c.refreshToken = true := by simp [hc, truthy, hr]
  have hrt : jsOr c.refreshToken
      (jsOr (itemValue c.storage.refreshToken) (itemValue c.storage.refresh_token)) =
      .str r := by
    rw [hc]; simp [jsOr, truthy, hr]
  have hself : ({ c with refreshToken := .str r } : Client) = c := by
    cases c; simp only at hc; subst hc; rfl
  have hstep : ∀ f, refreshAccessToken now srv (f + 1) c =
      match request now srv f REFRESH_TOKEN (refreshOptions (.str r)) c with
      | (.pending, c2) => (none, c2)
      | (.returned data, c2) =>
        match getProp data "access" with
        | .ok access => (some true, setTokens now access c2.refreshToken c2)
        | .error _ => (some false, clearTokens c2)
      | (.threw _, c2) => (some false, clearTokens c2) := by
    intro f
    rw [refreshAccessToken]
    have ht' : truthy (JVal.str r) = true := by simp [truthy, hr]
    simp only [hrt, hself, ht', Bool.not_true, Bool.false_eq_true, if_false]
  have hsucc : ∀ f data c2 a,
      request now srv f REFRESH_TOKEN (refreshOptions (.str r)) c = (.returned data, c2) →
      propOf data "access" = .str a →
      ∃ c', refreshAccessToken now srv (f + 1) c = (some true, c') ∧ Holds c' a r := by
    intro f data c2 a hreq ha
    have hkeep : c2.refreshToken = .str r := by
      rw [((refreshToken_kept now srv f).1 _ _ _ _ _ hreq), hc]
    have hget : getProp data "access" = .ok (.str a) := by
      cases data <;> simp [propOf] at ha
      simp only [getProp, ha]; rfl
    refine ⟨setTokens now (.str a) (.str r) c2, ?_, rfl, rfl, rfl, rfl, rfl, rfl⟩
    rw [hstep, hreq]
    simp only [hget, hkeep]
  have hfail : ∀ f e c2,
      request now srv f REFRESH_TOKEN (refreshOptions (.str r)) c = (.threw e, c2) →
      ∃ c', refreshAccessToken now srv (f + 1) c = (some false, c') ∧ Cleared c' := by
    intro f e c2 hreq
    refine ⟨clearTokens c2, ?_, clearTokens_cleared c2⟩
    rw [hstep, hreq]
  have hlog : (sent c (outgoing REFRESH_TOKEN (refreshOptions (.str r)) c)).log =
      c.log ++ [outgoing REFRESH_TOKEN (refreshOptions (.str r)) c] := rfl
  refine ⟨hsucc fuel, hfail fuel, fun c' h => refresh_false_cleared now srv fuel c c' ht h,
    ?_, ?_, ?_⟩
  · intro c' h
    have hk := (refreshToken_kept now srv fuel).2 c c' h
    rw [hrt] at hk
    cases fuel with
    | zero => simp [refreshAccessToken] at h
    | succ f =>
      rw [hstep] at h
      split at h
      · simp at h
      · rename_i data c2 hreq
        split at h
        · simp only [Prod.mk.injEq, true_and] at h
          have hkeep : c2.refreshToken = .str r := by
            rw [((refreshToken_kept now srv f).1 _ _ _ _ _ hreq), hc]
          rw [← h, hkeep]
          exact ⟨rfl, rfl, rfl⟩
        · simp at h
      · simp at h
  · intro resp fs a hsrv hok hjson hbody ha
    apply hsucc (fuel + 1) (.obj fs) (sent c (outgoing REFRESH_TOKEN (refreshOptions (.str r)) c))
    · rw [request]
      simp only [refresh_is_auth, Bool.not_true, Bool.and_false, Bool.false_eq_true, if_false,
        hlog, hsrv, hok, hjson, hbody, if_true]
    · exact ha
  · intro href
    rcases href with h | h | ⟨resp, h, hcase⟩
    · apply hfail (fuel + 1) (normalizeError abortError)
        (sent c (outgoing REFRESH_TOKEN (refreshOptions (.str r)) c))
      rw [request]
      simp only [refresh_is_auth, Bool.not_true, Bool.and_false, Bool.false_eq_true, if_false,
        hlog, h]
    · apply hfail (fuel + 1) (normalizeError networkError)
        (sent c (outgoing REFRESH_TOKEN (refreshOptions (.str r)) c))
      rw [request]
      simp only [refresh_is_auth, Bool.not_true, Bool.and_false, Bool.false_eq_true, if_false,
        hlog, h]
    · rcases hcase with ⟨hok, h401⟩ | ⟨hok, hjson, hbody⟩
      · apply hfail (fuel + 1) (normalizeError (parseError resp))
          (sent c (outgoing REFRESH_TOKEN (refreshOptions (.str r)) c))
        rw [request]
        simp only [refresh_is_auth, Bool.not_true, Bool.and_false, Bool.false_eq_true,
          if_false, hlog, h, hok, h401, decide_False, Bool.false_and, Bool.not_false, if_true]
      · apply hfail (fuel + 1) (normalizeError syntaxError)
          (sent c (outgoing REFRESH_TOKEN (refreshOptions (.str r)) c))
        rw [request]
        simp only [refresh_is_auth, Bool.not_true, Bool.and_false, Bool.false_eq_true,
          if_false, hlog, h, hok, hjson, hbody, if_true]

/-- C16 (witness): a refresh with the tokens `a1`, `r1` held, answered with the access token
`a2`, ends with `a2` and `r1` held. -/
theorem c16_refresh_keeps_or_clears_witness :
    ("r1" : String) ≠ "" ∧ loggedIn.refreshToken = .str "r1" ∧
      ∃ c', refreshAccessToken noon refreshingServer (0 + 2) loggedIn = (some true, c') ∧
        Holds c' "a2" "r1" :=
  ⟨by decide, rfl,
    (c16_refresh_keeps_or_clears noon refreshingServer 0 loggedIn "r1" (by decide) rfl).2.2.2.2.1
      _ _ "a2" rfl rfl rfl rfl rfl⟩

/-! ### Demo diversion and the automatic header (C13) -/

/-- The log of requests only grows. -/
theorem log_grows (now : Clock) (srv : Server) :
    ∀ fuel : Nat,
      (∀ endpoint options c, ∃ rest,
        (request now srv fuel endpoint options c).2.log = c.log ++ rest) ∧
      (∀ c, ∃ rest, (refreshAccessToken now srv fuel c).2.log = c.log ++ rest) := by
  intro fuel
  induction fuel with
  | zero =>
    exact ⟨fun _ _ c => ⟨[], by simp [request]⟩, fun c => ⟨[], by simp [refreshAccessToken]⟩⟩
  | succ f ih =>
    obtain ⟨ihP, ihQ⟩ := ih
    constructor
    · intro endpoint options c
      rw [request]
      split
      · split
        · exact ⟨[], by simp⟩
        · exact ⟨[], by simp⟩
      · have hlog : (sent c (outgoing endpoint options c)).log =
            c.log ++ [outgoing endpoint options c] := rfl
        simp only
        split
        · exact ⟨_, hlog⟩
        · exact ⟨_, hlog⟩
        · split
          · split
            · obtain ⟨rest1, h1⟩ := ihQ (sent c (outgoing endpoint options c))
              split
              · rename_i c2 heq
                rw [heq] at h1
                exact ⟨_, by rw [h1, hlog, List.append_assoc]⟩
              · rename_i c2 heq
                rw [heq] at h1
                obtain ⟨rest2, h2⟩ := ihP endpoint
                  { options with authorization := some ("Bearer " ++ jsToString c2.token) } c2
                exact ⟨_, by rw [h2, h1, hlog, List.append_assoc, List.append_assoc]⟩
              · rename_i c2 heq
                rw [heq] at h1
                exact ⟨_, by rw [h1, hlog, List.append_assoc]⟩
            · exact ⟨_, hlog⟩
          · split
            · split
              · exact ⟨_, hlog⟩
              · exact ⟨_, hlog⟩
            · exact ⟨_, hlog⟩
    · intro c
      rw [refreshAccessToken]
      split
      · exact ⟨[], by simp⟩
      · split
        · rename_i c2 heq
          obtain ⟨rest, h⟩ := ihP _ _ _
          rw [heq] at h
          exact ⟨_, h⟩
        · rename_i data c2 heq
          obtain ⟨rest, h⟩ := ihP _ _ _
          rw [heq] at h
          split
          · exact ⟨_, h⟩
          · exact ⟨_, h⟩
        · rename_i e c2 heq
          obtain ⟨rest, h⟩ := ihP _ _ _
          rw [heq] at h
          exact ⟨_, h⟩

/-- C13: the code on the retry path.  A call to the login endpoint with tokens held, answered
401, then an accepted refresh, sends the login request a second time, and this second
request to the login endpoint carries the header `Authorization: Bearer a2` that the caller
never gave: api.js line 348 sets the header on the re-issued request without the test
`!isAuthEndpoint` that line 320 applies to the same header on the first request. -/
theorem c13_retried_login_carries_bearer :
    isAuthEndpoint LOGIN = true ∧ (loginOptions someCredentials).authorization = none ∧
      (request noon recoveringServer 3 LOGIN (loginOptions someCredentials) loggedIn).2.log.map
          (fun q => (q.url, q.authorization)) =
        [(BASE_URL ++ LOGIN, none), (BASE_URL ++ REFRESH_TOKEN, none),
          (BASE_URL ++ LOGIN, some "Bearer a2")] := by
  decide

/-- The diversion and the header of the first request, which are as C13 says: a call of
`request` is handed to the simulator, and sends nothing, when the demo flag is the string `true` and the endpoint is not an auth endpoint; in every other
case it starts by sending a request to the server.  The login and the refresh endpoint are
auth endpoints.  The request a call first sends to an auth endpoint carries no header
`Authorization` but the one the caller's options carry, whatever token is held; the request
it first sends to any other endpoint carries `Bearer <token>` when a token is held and the
caller's options carry no `Authorization` of their own. -/
theorem diversion_and_first_header (now : Clock) (srv : Server) (fuel : Nat)
    (endpoint : String) (options : Options) (c : Client) :
    (c.storage.demo_mode = some "true" → isAuthEndpoint endpoint = false →
      (request now srv (fuel + 1) endpoint options c).1 = simulated now endpoint options c ∧
        (request now srv (fuel + 1) endpoint options c).2.log = c.log) ∧
    ((c.storage.demo_mode ≠ some "true" ∨ isAuthEndpoint endpoint = true) →
      ∃ rest, (request now srv (fuel + 1) endpoint options c).2.log =
        c.log ++ outgoing endpoint options c :: rest) ∧
    isAuthEndpoint LOGIN = true ∧ isAuthEndpoint REFRESH_TOKEN = true ∧
    (isAuthEndpoint endpoint = true →
      (outgoing endpoint options c).authorization = options.authorization) ∧
    (isAuthEndpoint endpoint = false → options.authorization = none →
      truthy (knownToken c) = true →
      (outgoing endpoint options c).authorization =
        some ("Bearer " ++ jsToString (knownToken c))) := by
  refine ⟨?_, ?_, by decide, by decide, ?_, ?_⟩
  · intro hd ha
    rw [request]
    simp only [hd, ha, decide_True, Bool.not_false, Bool.and_self, if_true, simulated]
    generalize demoRequest now.iso endpoint options c.storage = res
    cases res with
    | error e => exact ⟨rfl, rfl⟩
    | ok p => exact ⟨rfl, rfl⟩
  · intro h
    have hcond : (decide (c.storage.demo_mode = some "true") && !isAuthEndpoint endpoint) =
        false := by
      rcases h with h | h
      · simp [h]
      · simp [h]
    rw [request]
    simp only [hcond, Bool.false_eq_true, if_false]
    have hlog : (sent c (outgoing endpoint options c)).log =
        c.log ++ [outgoing endpoint options c] := rfl
    have fin : ∀ (c' : Client) (rest : List Request),
        c'.log = (sent c (outgoing endpoint options c)).log ++ rest →
        c'.log = c.log ++ outgoing endpoint options c :: rest := by
      intro c' rest h'
      rw [h', hlog, List.append_assoc]; rfl
    split
    · exact ⟨[], fin _ [] (by simp)⟩
    · exact ⟨[], fin _ [] (by simp)⟩
    · split
      · split
        · obtain ⟨rest1, h1⟩ := (log_grows now srv fuel).2 (sent c (outgoing endpoint options c))
          split
          · rename_i c2 heq
            rw [heq] at h1
            exact ⟨_, fin _ _ h1⟩
          · rename_i c2 heq
            rw [heq] at h1
            obtain ⟨rest2, h2⟩ := (log_grows now srv fuel).1 endpoint
              { options with authorization := some ("Bearer " ++ jsToString c2.token) } c2
            exact ⟨rest1 ++ rest2, fin _ _ (by rw [h2, h1, List.append_assoc])⟩
          · rename_i c2 heq
            rw [heq] at h1
            exact ⟨_, fin _ _ h1⟩
        · exact ⟨[], fin _ [] (by simp)⟩
      · split
        · split
          · exact ⟨[], fin _ [] (by simp)⟩
          · exact ⟨[], fin _ [] (by simp)⟩
        · exact ⟨[], fin _ [] (by simp)⟩
  · intro ha
    simp only [outgoing, authHeader, ha]
    cases options.authorization <;> simp
  · intro ha ho ht
    simp only [knownToken] at ht
    simp only [outgoing, authHeader, ha, ho, knownToken, ht]
    simp

/-- An instance: in demo mode a call to the lots endpoint is answered by the simulator
without any request, a call to the login endpoint is sent to the server without a bearer
header, and in remote mode a call to the lots endpoint carries `Bearer a1`. -/
theorem diversion_and_first_header_example :
    ((request noon downServer (0 + 1) "/api/lots/" {} demoClient).1 =
        simulated noon "/api/lots/" {} demoClient ∧
      (request noon downServer (0 + 1) "/api/lots/" {} demoClient).2.log = demoClient.log) ∧
    (∃ rest, (request noon downServer (0 + 1) LOGIN (loginOptions someCredentials)
        demoClient).2.log =
      demoClient.log ++ outgoing LOGIN (loginOptions someCredentials) demoClient :: rest) ∧
    (outgoing LOGIN (loginOptions someCredentials) demoClient).authorization = none ∧
    (outgoing "/api/lots/" {} loggedIn).authorization = some "Bearer a1" :=
  ⟨(diversion_and_first_header noon downServer 0 "/api/lots/" {} demoClient).1 rfl (by decide),
    (diversion_and_first_header noon downServer 0 LOGIN (loginOptions someCredentials)
      demoClient).2.1 (Or.inr (by decide)),
    (diversion_and_first_header noon downServer 0 LOGIN (loginOptions someCredentials)
      demoClient).2.2.2.2.1 (by decide),
    (diversion_and_first_header noon downServer 0 "/api/lots/" {} loggedIn).2.2.2.2.2
      (by decide) rfl (by decide)⟩

/-! ### Notifications of a user (C20) -/

theorem filterE_eq_filter {α : Type} (p : α → JsM Bool) (g : α → Bool) (xs : List α)
    (h : ∀ x ∈ xs, p x = .ok (g x)) : filterE p xs = .ok (xs.filter g) := by
  induction xs with
  | nil => rfl
  | cons x xs ih =>
    have hx := h x (List.mem_cons_self _ _)
    have hxs := ih (fun y hy => h y (List.mem_cons_of_mem _ hy))
    simp only [filterE, hx, hxs, List.filter]
    cases g x <;> rfl

/-- A path under `/api/notifications/` that the earlier routes do not take reaches the
notification block. -/
theorem demoRequest_notifications (now : String) (endpoint : String) (options : Options)
    (ls : Storage)
    (hp : pathOf endpoint = "/api/notifications/".toList ∨
      pathOf endpoint = "/api/notifications/generer_alertes/".toList) :
    demoRequest now endpoint options ls =
      notificationsRoute now (pathOf endpoint) (queryOf endpoint) (methodOf options) options
        (getDemoData ls) ls := by
  unfold demoRequest
  rcases hp with hp | hp
  · rw [hp]
    have h1 : startsWith "/api/notifications/".toList "/api/produits/" = false := by decide
    have h2 : startsWith "/api/notifications/".toList "/api/categories/" = false := by decide
    have h3 : startsWith "/api/notifications/".toList "/api/entrepots/" = false := by decide
    have h4 : startsWith "/api/notifications/".toList "/api/lots/" = false := by decide
    have h5 : startsWith "/api/notifications/".toList "/api/mouvements/" = false := by decide
    have h6 : startsWith "/api/notifications/".toList "/api/livraisons/" = false := by decide
    have h7 : startsWith "/api/notifications/".toList "/api/notifications/" = true := by decide
    have h8 : approvActionMatch "/api/notifications/".toList = none := by decide
    have h9 : venteMatch "/api/notifications/".toList = none := by decide
    have e1 : ("/api/notifications/".toList = "/api/approvisionnements/".toList) = False := by
      simp only [eq_iff_iff, iff_false]; decide
    have e2 : ("/api/notifications/".toList = "/api/approvisionnements/stats/".toList) =
        False := by
      simp only [eq_iff_iff, iff_false]; decide
    have e3 : ("/api/notifications/".toList = "/api/ventes/".toList) = False := by
      simp only [eq_iff_iff, iff_false]; decide
    have e4 : ("/api/notifications/".toList = "/api/ventes/creer_avec_lignes/".toList) =
        False := by
      simp only [eq_iff_iff, iff_false]; decide
    simp only [h1, h2, h3, h4, h5, h6, h7, h8, h9, e1, e2, e3, e4, Bool.false_eq_true,
      if_false, if_true, decide_False, Bool.false_and, ite_self]
  · rw [hp]
    have h1 : startsWith "/api/notifications/generer_alertes/".toList "/api/produits/" =
        false := by decide
    have h2 : startsWith "/api/notifications/generer_alertes/".toList "/api/categories/" =
        false := by decide
    have h3 : startsWith "/api/notifications/generer_alertes/".toList "/api/entrepots/" =
        false := by decide
    have h4 : startsWith "/api/notifications/generer_alertes/".toList "/api/lots/" =
        false := by decide
    have h5 : startsWith "/api/notifications/generer_alertes/".toList "/api/mouvements/" =
        false := by decide
    have h6 : startsWith "/api/notifications/generer_alertes/".toList "/api/livraisons/" =
        false := by decide
    have h7 : startsWith "/api/notifications/generer_alertes/".toList "/api/notifications/" =
        true := by decide
    have h8 : approvActionMatch "/api/notifications/generer_alertes/".toList = none := by
      decide
    have h9 : venteMatch "/api/notifications/generer_alertes/".toList = none := by decide
    have e1 : ("/api/notifications/generer_alertes/".toList =
        "/api/approvisionnements/".toList) = False := by
      simp only [eq_iff_iff, iff_false]; decide
    have e2 : ("/api/notifications/generer_alertes/".toList =
        "/api/approvisionnements/stats/".toList) = False := by
      simp only [eq_iff_iff, iff_false]; decide
    have e3 : ("/api/notifications/generer_alertes/".toList = "/api/ventes/".toList) =
        False := by
      simp only [eq_iff_iff, iff_false]; decide
    have e4 : ("/api/notifications/generer_alertes/".toList =
        "/api/ventes/creer_avec_lignes/".toList) = False := by
      simp only [eq_iff_iff, iff_false]; decide
    simp only [h1, h2, h3, h4, h5, h6, h7, h8, h9, e1, e2, e3, e4, Bool.false_eq_true,
      if_false, if_true, decide_False, Bool.false_and, ite_self]

theorem pathOf_userNotificationsPath (ds : List Char) :
    pathOf (userNotificationsPath ds) = "/api/notifications/".toList := by
  unfold pathOf userNotificationsPath
  show List.takeWhile _ ("/api/notifications/".toList ++ '?' :: ("utilisateur=".toList ++ ds)) = _
  rw [List.takeWhile_append_of_pos (by decide)]
  simp [List.takeWhile]

theorem queryOf_userNotificationsPath (ds : List Char) (hds : IsDigits ds) :
    queryOf (userNotificationsPath ds) = "utilisateur=".toList ++ ds := by
  unfold queryOf userNotificationsPath
  show List.takeWhile _ (List.drop 1 (List.dropWhile _
    ("/api/notifications/".toList ++ '?' :: ("utilisateur=".toList ++ ds)))) = _
  rw [List.dropWhile_append_of_pos (by decide)]
  have : List.dropWhile (fun c => c != '?') ('?' :: ("utilisateur=".toList ++ ds)) =
      '?' :: ("utilisateur=".toList ++ ds) := by
    simp [List.dropWhile]
  rw [this]
  show List.takeWhile _ ("utilisateur=".toList ++ ds) = _
  apply takeWhile_all
  intro c hc
  simp only [List.mem_append] at hc
  rcases hc with hc | hc
  · revert c; decide
  · exact digit_ne_question c (hds.2 c hc)

theorem userParam_digits (ds : List Char) (hds : IsDigits ds) :
    hasUserParam ("utilisateur=".toList ++ ds) = true ∧
      userParam ("utilisateur=".toList ++ ds) = some (digitsToNat ds) := by
  have hne : ds.isEmpty = false := by
    cases ds with
    | nil => exact absurd rfl hds.1
    | cons _ _ => rfl
  have hsw : startsWith ("utilisateur=".toList ++ ds) "utilisateur=" = true := by
    rw [startsWith, isPrefixOf_append]
    have h1 : List.drop "utilisateur=".toList.length "utilisateur=".toList = [] := by decide
    have h2 : (List.take "utilisateur=".toList.length "utilisateur=".toList).isPrefixOf
        "utilisateur=".toList = true := by decide
    rw [h1, h2]
    cases ds <;> rfl
  have hl : "utilisateur=".toList ++ ds =
      'u' :: ("tilisateur=".toList ++ ds) := rfl
  constructor
  · rw [hl, hasUserParam, ← hl, hsw]; rfl
  · rw [hl, userParam, ← hl, hsw]
    have hdrop : List.drop 12 ("utilisateur=".toList ++ ds) = ds := by
      rw [List.drop_append_of_le_length (by decide)]
      rfl
    simp only [hdrop, takeWhile_all _ _ hds.2, hne, Bool.not_false, Bool.and_self, if_true]

theorem notificationsOf_ok (xs : List JVal) (u : Nat) (hread : ∀ x ∈ xs, Readable x) :
    notificationsOf (.arr xs) u = .ok (.arr (xs.filter (visibleTo u))) := by
  have key : ∀ p : JVal → JsM Bool, (∀ n ∈ xs, p n = .ok (visibleTo u n)) →
      (filterE p xs >>= fun mine => pure (JVal.arr mine)) =
        .ok (.arr (xs.filter (visibleTo u))) := by
    intro p hp
    rw [filterE_eq_filter p _ xs hp]
    rfl
  unfold notificationsOf
  exact key _ (by
    intro n hn
    simp only [getProp_readable n _ (hread n hn), visibleTo]
    rfl)

/-- A stored `notifications` that is not a list makes the route throw: `.filter` is not a
method of a string. -/
theorem notifications_not_a_list :
    demoRequest "t" (userNotificationsPath ['4']) {}
      { demo_data_v3 := some (.json (.obj [("notifications", .str "abc")])) } =
      .error .typeError := by
  rfl

/-- C20: for every stored document that is an object whose notifications, when present, are
a list of values other than `null`, and every user id written with the digits `ds` (a value
up to 2^53, which `Number` reads exactly), a `GET` on
`/api/notifications/?utilisateur={id}` returns the stored notifications that have no owner
or whose owner is that id, in stored order, and leaves storage as it was. -/
theorem c20_user_notifications (now : String) (ds : List Char) (options : Options)
    (ls : Storage) (hds : ExactDigits ds) (hm : methodOf options = "GET")
    (hobj : IsObj (getDemoData ls))
    (hl : ReadableList (propOf (getDemoData ls) "notifications")) :
    demoRequest now (userNotificationsPath ds) options ls =
      .ok (.arr ((storedNotifications ls).filter (visibleTo (digitsToNat ds))), ls) := by
  rw [demoRequest_notifications now _ options ls (Or.inl (pathOf_userNotificationsPath ds)),
    pathOf_userNotificationsPath, queryOf_userNotificationsPath ds hds.1, hm]
  obtain ⟨fs, hfs⟩ := hobj
  obtain ⟨hxs, hread⟩ := listOrEmpty_elemsOf _ hl
  unfold storedNotifications
  rw [hfs] at hxs hread ⊢
  have hpo : ∀ k, propOf (.obj fs) k = getField fs k := fun _ => rfl
  rw [hpo] at hxs hread ⊢
  generalize hE : elemsOf (getField fs "notifications") = xs at hxs hread
  have hassigned : jsOr (getField fs "notifications") (.arr []) = .arr xs := by
    unfold listOrEmpty at hxs
    split at hxs
    · rename_i ys hys
      simp only [pure, Except.pure, Except.ok.injEq] at hxs
      rw [hys, hxs]
    · cases hxs
  obtain ⟨hhas, hpar⟩ := userParam_digits ds hds.1
  unfold notificationsRoute
  simp only [getProp, setProp, propAfterSet, hassigned, hhas, hpar]
  simp
  rw [hassigned, notificationsOf_ok xs _ hread]
  rfl

theorem threeNotifications_readable :
    ReadableList (propOf (getDemoData threeNotifications) "notifications") := by
  refine ⟨_, rfl, ?_⟩
  intro x hx
  simp only [List.mem_cons, List.mem_singleton, List.not_mem_nil, or_false] at hx
  rcases hx with rfl | rfl | rfl <;> exact readable_obj _

/-- C20 (witness): user 4 is shown the notification without owner and their own, in stored
order, and not the one of user 5. -/
theorem c20_user_notifications_witness :
    demoRequest "t" (userNotificationsPath ['4']) {} threeNotifications =
      .ok (.arr [
        .obj [("id_notification", .num 1), ("message", .str "stock bas")],
        .obj [("id_notification", .num 2), ("utilisateur", .num 4)]], threeNotifications) :=
  c20_user_notifications "t" ['4'] {} threeNotifications ⟨⟨by decide, by decide⟩, by decide⟩
    rfl ⟨_, rfl⟩ threeNotifications_readable

/-! ### Alert generation (C11) -/

theorem listOrEmpty_arr (xs : List JVal) : listOrEmpty (.arr xs) = .ok xs := rfl

theorem jsOr_of_listOrEmpty (v : JVal) (xs : List JVal) (h : listOrEmpty v = .ok xs) :
    jsOr v (.arr []) = .arr xs := by
  unfold listOrEmpty at h
  split at h
  · rename_i ys hys
    simp only [pure, Except.pure, Except.ok.injEq] at h
    rw [hys, h]
  · cases h

theorem nextNotificationId_ok (xs : List JVal) (hread : ∀ x ∈ xs, Readable x) :
    nextNotificationId (.arr xs) = .ok (nextIdOf xs) := by
  have hmap : mapE notificationIdOrZero xs = .ok (xs.map idOrZero) :=
    mapE_eq_map _ _ _ (fun n hn => by
      simp only [notificationIdOrZero, getProp_readable n _ (hread n hn), idOrZero]
      rfl)
  unfold nextNotificationId
  rw [listOrEmpty_arr]
  show (mapE notificationIdOrZero xs >>= _) = _
  rw [hmap]
  rfl

/-- Alert generation on a document with readable notifications and alerts. -/
theorem genererAlertes_ok (now : String) (fs : Fields) (xs as : List JVal)
    (hx : ∀ x ∈ xs, Readable x)
    (has : listOrEmpty (getField fs "previsions_alertes") = .ok as)
    (ha : ∀ a ∈ as, Readable a) :
    genererAlertes now (.obj fs) (.arr xs) =
      .ok (alertsReport (as.filter isDanger).length,
        .obj (objSet fs "notifications"
          (.arr (xs ++ (as.filter isDanger).enum.map (alertNotification now (nextIdOf xs)))))) := by
  have hj := jsOr_of_listOrEmpty _ _ has
  unfold genererAlertes
  have hg : ∀ k, getProp (JVal.obj fs) k = .ok (getField fs k) := fun _ => rfl
  simp only [hg, bind, Except.bind, pure, Except.pure, hj, listOrEmpty_arr,
    nextNotificationId_ok xs hx, iterList, setProp]
  rw [filterE_eq_filter _ isDanger as]
  · simp only []
    rw [mapE_eq_map _ (alertNotification now (nextIdOf xs))]
    · simp only [alertsReport, List.length_map, List.enum_length]
    · intro p hp
      have hr : Readable p.2 := by
        obtain ⟨i, a⟩ := p
        have := List.snd_mem_of_mem_enumFrom hp
        exact ha a (List.mem_of_mem_filter this)
      simp only [getProp_readable p.2 _ hr, alertNotification]
  · intro a haa
    simp only [getProp_readable a _ (ha a haa), isDanger]

theorem elemsOf_clean (v : JVal) (h : jsonField v = v) : (elemsOf v).map jsonify = elemsOf v := by
  cases v with
  | arr xs =>
    have h' : JVal.arr (jsonifyList xs) = JVal.arr xs := by
      simpa [jsonField, jsonify] using h
    have h2 : jsonifyList xs = xs := by injection h'
    rw [elemsOf_arr, ← jsonifyList_eq_map, h2]
  | undefined => rfl
  | null => rfl
  | nan => rfl
  | bool b => cases b <;> rfl
  | num n =>
    unfold elemsOf jsOr
    split
    · rename_i heq
      split at heq
      · cases heq
      · injection heq with heq; subst heq; rfl
    · rfl
  | str s =>
    unfold elemsOf jsOr
    split
    · rename_i heq
      split at heq
      · cases heq
      · injection heq with heq; subst heq; rfl
    · rfl
  | obj fs => rfl

/-- In a document that is JSON (its round trip is itself) every stored list is made of JSON
values. -/
theorem stored_clean (data : JVal) (k : String) (h : jsonify data = data) :
    (elemsOf (propOf data k)).map jsonify = elemsOf (propOf data k) := by
  cases data with
  | obj fs =>
    apply elemsOf_clean
    have h' : JVal.obj (jsonifyFields fs) = JVal.obj fs := by
      simpa [jsonify] using h
    have h2 : jsonifyFields fs = fs := by injection h'
    have := getField_jsonifyFields fs k
    rw [h2] at this
    exact this.symm
  | undefined => rfl
  | null => rfl
  | nan => rfl
  | bool b => rfl
  | num n => rfl
  | str s => rfl
  | arr xs => rfl

theorem notifies_alert (now : String) (nextId : Option Int) (p : Nat × JVal) :
    Notifies now p.2 (jsonify (alertNotification now nextId p)) := by
  unfold Notifies alertNotification
  refine ⟨?_, ?_, ?_⟩ <;> rw [propOf_jsonify_obj] <;> simp [getField, lookupLast] <;> rfl

theorem demoRequest_genererAlertes (now : String) (options : Options) (ls : Storage)
    (fs : Fields) (xs as : List JVal) (hm : methodOf options = "POST")
    (hfs : getDemoData ls = .obj fs)
    (hxs : listOrEmpty (getField fs "notifications") = .ok xs) (hx : ∀ x ∈ xs, Readable x)
    (has : listOrEmpty (getField fs "previsions_alertes") = .ok as)
    (ha : ∀ a ∈ as, Readable a) :
    demoRequest now "/api/notifications/generer_alertes/" options ls =
      .ok (alertsReport (as.filter isDanger).length,
        saveDemoData ls (.obj (objSet (objSet fs "notifications" (.arr xs)) "notifications"
          (.arr (xs ++ (as.filter isDanger).enum.map
            (alertNotification now (nextIdOf xs))))))) := by
  have hp : pathOf "/api/notifications/generer_alertes/" =
      "/api/notifications/generer_alertes/".toList := by decide
  rw [demoRequest_notifications now _ options ls (Or.inr hp), hp, hm, hfs]
  have hassigned := jsOr_of_listOrEmpty _ _ hxs
  have has' : listOrEmpty (getField (objSet fs "notifications" (.arr xs)) "previsions_alertes") =
      .ok as := by
    rw [getField_objSet_other _ _ _ _ (by decide)]; exact has
  unfold notificationsRoute
  simp only [getProp, setProp, propAfterSet, hassigned, bind, Except.bind, pure, Except.pure,
    genererAlertes_ok now _ xs as hx has' ha]
  simp

/-- C11: for every stored document that is an object whose notifications and forecast
alerts, when present, are lists of values other than `null`, a `POST` on
`/api/notifications/generer_alertes/` returns `notifications_creees` equal to the number of
alerts whose level is `danger`, and stores the existing notifications followed by the new
ones, of which there is exactly one per `danger` alert, in order, each with the type, the
message and the date made from its alert.  The existing notifications are stored as they
were (the stored document being JSON). -/
theorem c11_generate_alerts (now : String) (options : Options) (ls : Storage)
    (hm : methodOf options = "POST") (hobj : IsObj (getDemoData ls))
    (hn : ReadableList (propOf (getDemoData ls) "notifications"))
    (ha : ReadableList (propOf (getDemoData ls) "previsions_alertes")) :
    ∃ (nouvelles : List JVal) (ls' : Storage),
      demoRequest now "/api/notifications/generer_alertes/" options ls =
        .ok (alertsReport ((storedAlerts ls).filter isDanger).length, ls') ∧
      storedNotifications ls' = (storedNotifications ls).map jsonify ++ nouvelles ∧
      (jsonify (getDemoData ls) = getDemoData ls →
        storedNotifications ls' = storedNotifications ls ++ nouvelles) ∧
      nouvelles.length = ((storedAlerts ls).filter isDanger).length ∧
      List.Forall₂ (Notifies now) ((storedAlerts ls).filter isDanger) nouvelles := by
  obtain ⟨fs, hfs⟩ := hobj
  obtain ⟨hxs, hx⟩ := listOrEmpty_elemsOf _ hn
  obtain ⟨has, haa⟩ := listOrEmpty_elemsOf _ ha
  have hclean := stored_clean (getDemoData ls) "notifications"
  unfold storedNotifications storedAlerts
  rw [hfs] at hxs hx has haa hclean ⊢
  have hpo : ∀ k, propOf (.obj fs) k = getField fs k := fun _ => rfl
  rw [hpo] at hxs hx has haa hclean
  simp only [hpo]
  generalize elemsOf (getField fs "notifications") = xs at hxs hx hclean
  generalize elemsOf (getField fs "previsions_alertes") = as at has haa
  have hreq := demoRequest_genererAlertes now options ls fs xs as hm hfs hxs hx has haa
  have hstored : elemsOf (propOf (getDemoData (saveDemoData ls
      (.obj (objSet (objSet fs "notifications" (.arr xs)) "notifications"
        (.arr (xs ++ (as.filter isDanger).enum.map (alertNotification now (nextIdOf xs))))))))
      "notifications") =
      xs.map jsonify ++ ((as.filter isDanger).enum.map
        (alertNotification now (nextIdOf xs))).map jsonify := by
    rw [getDemoData_save, propOf_jsonify_obj, getField_objSet_same]
    simp [jsonField, jsonify, jsonifyList_eq_map, elemsOf_arr]
  refine ⟨_, _, hreq, hstored, ?_, ?_, ?_⟩
  · intro hc
    rw [hstored, hclean hc]
  · simp
  · rw [List.map_map]
    exact forall2_enumFrom_map _ _ _ 0 (fun i a _ => notifies_alert now _ (i, a))

theorem twoAlerts_notifications :
    ReadableList (propOf (getDemoData twoAlerts) "notifications") := by
  refine ⟨_, rfl, ?_⟩
  intro x hx
  simp only [List.mem_singleton] at hx
  subst hx; exact readable_obj _

theorem twoAlerts_alerts :
    ReadableList (propOf (getDemoData twoAlerts) "previsions_alertes") := by
  refine ⟨_, rfl, ?_⟩
  intro x hx
  simp only [List.mem_cons, List.mem_singleton, List.not_mem_nil, or_false] at hx
  rcases hx with rfl | rfl <;> exact readable_obj _

/-- C11 (witness): with one alert at `danger` and one at `warning`, exactly one notification
is created; it follows the stored one. -/
theorem c11_generate_alerts_witness :
    ∃ (nouvelles : List JVal) (ls' : Storage),
      demoRequest "t" "/api/notifications/generer_alertes/" (postJson (.obj [])) twoAlerts =
        .ok (alertsReport 1, ls') ∧
      storedNotifications ls' = (storedNotifications twoAlerts).map jsonify ++ nouvelles ∧
      (jsonify (getDemoData twoAlerts) = getDemoData twoAlerts →
        storedNotifications ls' = storedNotifications twoAlerts ++ nouvelles) ∧
      nouvelles.length = 1 ∧
      List.Forall₂ (Notifies "t") ((storedAlerts twoAlerts).filter isDanger) nouvelles :=
  c11_generate_alerts "t" (postJson (.obj [])) twoAlerts rfl ⟨_, rfl⟩ twoAlerts_notifications
    twoAlerts_alerts

/-! ### Sale creation (C12) -/

theorem demoRequest_createVente (now : String) (options : Options) (ls : Storage)
    (hm : methodOf options = "POST") :
    demoRequest now "/api/ventes/creer_avec_lignes/" options ls =
      (createVente now (getDemoData ls) (jsonBody options)).map
        (fun p => (p.1, saveDemoData ls p.2)) := by
  have hp : pathOf "/api/ventes/creer_avec_lignes/" =
      "/api/ventes/creer_avec_lignes/".toList := by decide
  have h1 : startsWith "/api/ventes/creer_avec_lignes/".toList "/api/produits/" = false := by
    decide
  have h2 : startsWith "/api/ventes/creer_avec_lignes/".toList "/api/categories/" = false := by
    decide
  have h3 : startsWith "/api/ventes/creer_avec_lignes/".toList "/api/entrepots/" = false := by
    decide
  have h4 : startsWith "/api/ventes/creer_avec_lignes/".toList "/api/lots/" = false := by
    decide
  have h5 : startsWith "/api/ventes/creer_avec_lignes/".toList "/api/mouvements/" = false := by
    decide
  have h8 : approvActionMatch "/api/ventes/creer_avec_lignes/".toList = none := by decide
  have e1 : ("/api/ventes/creer_avec_lignes/".toList = "/api/approvisionnements/".toList) =
      False := by
    simp only [eq_iff_iff, iff_false]; decide
  have e2 : ("/api/ventes/creer_avec_lignes/".toList =
      "/api/approvisionnements/stats/".toList) = False := by
    simp only [eq_iff_iff, iff_false]; decide
  have e3 : ("/api/ventes/creer_avec_lignes/".toList = "/api/ventes/".toList) = False := by
    simp only [eq_iff_iff, iff_false]; decide
  unfold demoRequest
  simp only [hp, hm, h1, h2, h3, h4, h5, h8, e1, e2, e3, Bool.false_eq_true, if_false, if_true,
    decide_False, decide_True, Bool.false_and, Bool.and_self]

theorem lineAmount_saleLine (q : Int × Int) : lineAmount (saleLine q) = some (q.1 * q.2) := by
  have h : ∀ n : Int, toNumber (jsOr (JVal.num n) (.num 0)) = some n := by
    intro n
    by_cases hn : n = 0
    · subst hn; rfl
    · simp [jsOr, truthy, hn, toNumber]
  unfold lineAmount saleLine
  simp only [propOf, getField, lookupLast]
  simp [h, numMul]

theorem sum_saleLines (qs : List (Int × Int)) :
    sumNum ((qs.map saleLine).map lineAmount) = some (qs.map (fun q => q.1 * q.2)).sum := by
  have h1 : (qs.map saleLine).map lineAmount = qs.map (fun q => some (q.1 * q.2)) := by
    rw [List.map_map]
    apply List.map_congr_left
    intro q _
    exact lineAmount_saleLine q
  have h2 : ∀ (l : List Int) (acc : Int), l.foldl (fun s x => s + x) acc = acc + l.sum := by
    intro l
    induction l with
    | nil => intro acc; simp
    | cons x l ih => intro acc; simp [List.foldl, ih]; ring
  unfold sumNum
  rw [h1, sumNum_somes (fun q : Int × Int => q.1 * q.2) qs 0]
  have h3 : qs.foldl (fun s x => s + x.1 * x.2) 0 =
      (qs.map (fun q => q.1 * q.2)).foldl (fun s x => s + x) 0 := by
    rw [List.foldl_map]
  rw [h3, h2]
  simp

/-- Sale creation on well-shaped sales with a well-shaped body. -/
theorem createVente_ok (now : String) (fs : Fields) (payload : JVal) (vs : List JVal)
    (ids : List Int) (hvs : listOrEmpty (getField fs "ventes") = .ok vs)
    (hids : vs.map (fun v => propOf v "id_vente") = ids.map JVal.num)
    (hread : ∀ v ∈ vs, Readable v) (hb : SaleBody payload) :
    createVente now (.obj fs) payload =
      .ok (createdVente now ids payload,
        .obj (objSet fs "ventes" (.arr (vs ++ [createdVente now ids payload])))) := by
  obtain ⟨hp, hl⟩ := hb
  obtain ⟨hls, hlr⟩ := listOrEmpty_elemsOf _ hl
  have hmap : mapE venteIdOf vs = .ok (vs.map (fun v => propOf v "id_vente")) :=
    mapE_eq_map _ _ _ (fun v hv => getProp_readable v _ (hread v hv))
  unfold createVente
  have hg : ∀ k, getProp (JVal.obj fs) k = .ok (getField fs k) := fun _ => rfl
  simp only [hg, getProp_readable payload _ hp, hvs, hmap, hids, mathMax_nums, hls, bind,
    Except.bind, pure, Except.pure, setProp, numAdd, ofNum]
  rw [mapE_eq_map _ lineAmount]
  · simp only [createdVente, sumNum, ofNum]
  · intro l hl'
    simp only [getProp_readable l _ (hlr l hl'), lineAmount]


/-- C12: the code on a stored sale without id.  With one stored sale that carries no
`id_vente`, the created sale has the id `NaN` (`Math.max(500, undefined) + 1`), stored as
`null`, and an invoice number made from it: the id is not 1 plus the maximum of 500 and the
existing ids (501), and not at least 501.  The callback of api.js line 198 is
`v => v.id_vente`, without the `|| 0` of the order and notification routes (lines 119, 234
and 252). -/
theorem c12_missing_id_gives_nan :
    (demoRequest "t" "/api/ventes/creer_avec_lignes/" (postJson twoSaleLines)
        saleWithoutId).map
      (fun r => (propOf r.1 "id_vente", propOf r.1 "numero_facture",
        (storedVentes r.2).map (fun v => propOf v "id_vente"))) =
      .ok (.nan, .str "FAC-20260218-00NaN", [.undefined, .null]) := by
  rfl

theorem exact_total (qs : List (Int × Int)) (h : ExactAmounts qs) :
    Exact (qs.map (fun q => q.1 * q.2)).sum := by
  have h1 := abs_sum_le (qs.map (fun q => q.1 * q.2))
  rw [List.map_map] at h1
  have h2 : (qs.map ((fun x => |x|) ∘ fun q : Int × Int => q.1 * q.2)).sum ≤ maxExact := h.2
  have h3 := le_trans h1 h2
  have h4 := abs_le.1 h3
  exact ⟨h4.1, h4.2⟩

theorem lineAmount_whole (l : JVal) (ha : Whole (propOf l "quantite_vendue"))
    (hb : Whole (propOf l "prix_unitaire")) : lineAmount l = some (amountOf l) := by
  obtain ⟨k1, h1⟩ := whole_or_zero _ ha
  obtain ⟨k2, h2⟩ := whole_or_zero _ hb
  have h : lineAmount l = some (k1 * k2) := by
    unfold lineAmount
    rw [h1, h2]
    rfl
  unfold amountOf
  rw [h]
  rfl

theorem sum_exactLines (lines : List JVal) (h : ExactLines lines) :
    sumNum (lines.map lineAmount) = some (lines.map amountOf).sum ∧
      Exact (lines.map amountOf).sum := by
  constructor
  · have h1 : lines.map lineAmount = lines.map (fun l => some (amountOf l)) := by
      apply List.map_congr_left
      intro l hl
      exact lineAmount_whole l (h.1 l hl).1 (h.1 l hl).2
    unfold sumNum
    rw [h1, sumNum_somes amountOf lines 0]
    have h3 : lines.foldl (fun s x => s + amountOf x) 0 =
        (lines.map amountOf).foldl (fun s x => s + x) 0 := by
      rw [List.foldl_map]
    rw [h3, foldl_add_sum]
    simp
  · have h2 := abs_sum_le (lines.map amountOf)
    rw [List.map_map] at h2
    have h3 := abs_le.1 (le_trans h2 h.2)
    exact ⟨h3.1, h3.2⟩

/-- Sale creation when every stored sale has an id, which is as C12 says: for every stored
document whose sales are records with integer ids below 2^53 and every body that is not `null` and whose `lignes`, when present, is a list without
`null`, a `POST` on `/api/ventes/creer_avec_lignes/` returns a sale whose id is 1 plus the
maximum of 500 and the stored sale ids (so at least 501, greater than every stored id, and
in the exact range), whose status is `brouillon` (draft), and whose `montant_total` is, for
lines that carry integer (or missing) quantities and prices in the exact range
(`ExactLines`), the sum over the lines of quantity times unit price, and 0 when there is no
line.  The sale is stored after the existing ones. -/
theorem create_sale_in_range (now : String) (options : Options) (ls : Storage)
    (hm : methodOf options = "POST") (hs : VentesShape ls) (hb : SaleBody (jsonBody options))
    (hx : ∀ v ∈ storedVentes ls, ∀ n : Int, propOf v "id_vente" = .num n → n < maxExact) :
    ∃ (v : JVal) (ls' : Storage) (ids : List Int),
      demoRequest now "/api/ventes/creer_avec_lignes/" options ls = .ok (v, ls') ∧
      (storedVentes ls).map (fun x => propOf x "id_vente") = ids.map JVal.num ∧
      propOf v "id_vente" = .num (1 + ids.foldl max 500) ∧
      501 ≤ 1 + ids.foldl max 500 ∧ (∀ m ∈ ids, m < 1 + ids.foldl max 500) ∧
      Exact (1 + ids.foldl max 500) ∧
      propOf v "statut_vente" = .str "brouillon" ∧
      (ExactLines (elemsOf (propOf (jsonBody options) "lignes")) →
        propOf v "montant_total" =
            .num ((elemsOf (propOf (jsonBody options) "lignes")).map amountOf).sum ∧
          Exact ((elemsOf (propOf (jsonBody options) "lignes")).map amountOf).sum) ∧
      (∀ qs : List (Int × Int), propOf (jsonBody options) "lignes" = .arr (qs.map saleLine) →
        ExactAmounts qs →
        propOf v "montant_total" = .num (qs.map (fun q => q.1 * q.2)).sum ∧
          Exact (qs.map (fun q => q.1 * q.2)).sum) ∧
      (elemsOf (propOf (jsonBody options) "lignes") = [] →
        propOf v "montant_total" = .num 0) ∧
      storedVentes ls' = (storedVentes ls).map jsonify ++ [jsonify v] ∧
      (jsonify (getDemoData ls) = getDemoData ls →
        storedVentes ls' = storedVentes ls ++ [jsonify v]) := by
  obtain ⟨⟨fs, hfs⟩, ⟨vs, hvs⟩, hidsP⟩ := hs
  have hel : storedVentes ls = vs := by
    unfold storedVentes; exact elemsOf_of_listOrEmpty _ _ hvs
  have hclean := stored_clean (getDemoData ls) "ventes"
  rw [show elemsOf (propOf (getDemoData ls) "ventes") = vs from hel] at hclean
  rw [hel] at hidsP hx ⊢
  rw [hfs] at hvs
  obtain ⟨ids, hids⟩ := ids_as_nums vs "id_vente" hidsP
  have hread : ∀ v ∈ vs, Readable v := fun v hv => by
    obtain ⟨n, hn⟩ := hidsP v hv
    exact readable_of_isObj v (isObj_of_prop_num v _ n hn)
  have hcreate := createVente_ok now fs (jsonBody options) vs ids hvs hids hread hb
  have hmont : propOf (createdVente now ids (jsonBody options)) "montant_total" =
      ofNum (sumNum ((elemsOf (propOf (jsonBody options) "lignes")).map lineAmount)) := by
    simp [createdVente, propOf, getField, lookupLast]
  have hstored : elemsOf (propOf (getDemoData (saveDemoData ls (.obj (objSet fs "ventes"
      (.arr (vs ++ [createdVente now ids (jsonBody options)])))))) "ventes") =
      vs.map jsonify ++ [jsonify (createdVente now ids (jsonBody options))] := by
    rw [getDemoData_save, propOf_jsonify_obj, getField_objSet_same]
    simp [jsonField, jsonify, jsonifyList_eq_map, elemsOf_arr]
  have hbelow : ∀ m ∈ ids, m ≤ maxExact - 1 := by
    intro m hm'
    have hmem : JVal.num m ∈ vs.map (fun v => propOf v "id_vente") := by
      rw [hids]; exact List.mem_map.2 ⟨m, hm', rfl⟩
    obtain ⟨v, hv, hvm⟩ := List.mem_map.1 hmem
    have := hx v hv m hvm
    omega
  have hmax : ids.foldl max 500 ≤ maxExact - 1 :=
    foldl_max_le 500 _ ids (by norm_num [maxExact]) hbelow
  refine ⟨createdVente now ids (jsonBody options),
    saveDemoData ls (.obj (objSet fs "ventes"
      (.arr (vs ++ [createdVente now ids (jsonBody options)])))),
    ids, ?_, hids, ?_, ?_, ?_, ?_, ?_, ?_, ?_, ?_, ?_, ?_⟩
  · rw [demoRequest_createVente now options ls hm, hfs, hcreate]; rfl
  · simp [createdVente, propOf, getField, lookupLast]; ring
  · have := (le_foldl_max 500 ids).1
    omega
  · intro m hm'
    have := (le_foldl_max 500 ids).2 m hm'
    omega
  · have h1 := (le_foldl_max 500 ids).1
    have h0 : (0 : Int) ≤ maxExact := by norm_num [maxExact]
    constructor <;> omega
  · simp [createdVente, propOf, getField, lookupLast]
  · intro hlines
    obtain ⟨h1, h2⟩ := sum_exactLines _ hlines
    refine ⟨?_, h2⟩
    rw [hmont, h1]
    rfl
  · intro qs hqs hexact
    refine ⟨?_, exact_total qs hexact⟩
    rw [hmont, hqs, elemsOf_arr, sum_saleLines]
    rfl
  · intro h0
    rw [hmont, h0]
    rfl
  · unfold storedVentes
    exact hstored
  · intro hc
    unfold storedVentes
    rw [hstored, hclean hc]

theorem twoSales_shape : VentesShape twoSales := by
  refine ⟨⟨_, rfl⟩, ⟨_, rfl⟩, ?_⟩
  intro v hv
  have hv' : v ∈ [JVal.obj [("id_vente", .num 501), ("statut_vente", .str "validée")],
      JVal.obj [("id_vente", .num 640), ("statut_vente", .str "brouillon")]] := hv
  simp only [List.mem_cons, List.mem_singleton, List.not_mem_nil, or_false] at hv'
  rcases hv' with rfl | rfl
  · exact ⟨501, rfl⟩
  · exact ⟨640, rfl⟩

theorem twoSales_ids (v : JVal) (hv : v ∈ storedVentes twoSales) (n : Int)
    (hn : propOf v "id_vente" = .num n) : n < maxExact := by
  have hv' : v ∈ [JVal.obj [("id_vente", .num 501), ("statut_vente", .str "validée")],
      JVal.obj [("id_vente", .num 640), ("statut_vente", .str "brouillon")]] := hv
  simp only [List.mem_cons, List.mem_singleton, List.not_mem_nil, or_false] at hv'
  rcases hv' with rfl | rfl
  · have e : (501 : Int) = n := JVal.num.inj hn
    rw [← e]; norm_num [maxExact]
  · have e : (640 : Int) = n := JVal.num.inj hn
    rw [← e]; norm_num [maxExact]

theorem twoSaleLines_shape : SaleBody (jsonBody (postJson twoSaleLines)) := by
  refine ⟨readable_obj _, _, rfl, ?_⟩
  intro x hx
  simp only [List.mem_cons, List.mem_singleton, List.not_mem_nil, or_false] at hx
  rcases hx with rfl | rfl <;> exact readable_obj _

theorem twoSaleLines_exact : ExactAmounts [(3, 250), (2, 1000)] := by
  constructor
  · intro q hq
    simp only [List.mem_cons, List.mem_singleton, List.not_mem_nil, or_false] at hq
    rcases hq with rfl | rfl <;> constructor <;> constructor <;> norm_num [maxExact]
  · norm_num [maxExact]

/-- An instance: with stored sales 501 and 640 and the lines 3 x 250 and 2 x 1000, the new
sale has id 641, total 2750 and status `brouillon`. -/
theorem create_sale_in_range_example :
    ∃ (v : JVal) (ls' : Storage),
      demoRequest "t" "/api/ventes/creer_avec_lignes/" (postJson twoSaleLines) twoSales =
        .ok (v, ls') ∧
      propOf v "id_vente" = .num 641 ∧ propOf v "montant_total" = .num 2750 ∧
      propOf v "statut_vente" = .str "brouillon" ∧
      storedVentes ls' = (storedVentes twoSales).map jsonify ++ [jsonify v] := by
  obtain ⟨v, ls', ids, h1, h2, h3, _, _, _, h6, _, h8, _, h10, _⟩ :=
    create_sale_in_range "t" (postJson twoSaleLines) twoSales rfl twoSales_shape
      twoSaleLines_shape twoSales_ids
  have hids : ids = [501, 640] := by
    have h2' : [JVal.num 501, JVal.num 640] = ids.map JVal.num := h2
    have hinj : Function.Injective JVal.num := fun a b h => by injection h
    exact (List.map_injective_iff.2 hinj h2'.symm)
  subst hids
  exact ⟨v, ls', h1, h3, (h8 [(3, 250), (2, 1000)] rfl twoSaleLines_exact).1, h6, h10⟩

/-! ### Lot update and deletion (C19) -/

/-- C19 (counterexample): a `PUT` on `/api/lots/1/` whose body carries `id_lot: 2` stores the
merged record `{id_lot: 2, espece: 'thon', quantite: 40}` in place of lot 1 but returns the
body `{id_lot: 2}`, not the merged record: the lookup by the old id that follows the update
finds nothing. -/
theorem c19_put_returns_body :
    (demoRequest "t" (lotPath ['1']) (putJson (.obj [("id_lot", .num 2)])) threeLots).map
        (fun r => (r.1, (storedLots r.2).head?)) =
      .ok (.obj [("id_lot", .num 2)],
        some (.obj [("id_lot", .num 2), ("espece", .str "thon"), ("quantite", .num 40)])) := by
  rfl

theorem pathOf_lotPath (ds : List Char) (hds : IsDigits ds) :
    pathOf (lotPath ds) = "/api/lots/".toList ++ (ds ++ ['/']) := by
  unfold pathOf lotPath
  apply takeWhile_all
  intro c hc
  replace hc : c ∈ "/api/lots/".toList ++ (ds ++ ['/']) := hc
  simp only [List.mem_append] at hc
  rcases hc with hc | hc | hc
  · revert c; decide
  · exact digit_ne_question c (hds.2 c hc)
  · revert c; decide

theorem lotMatch_path (ds : List Char) (hds : IsDigits ds) :
    lotMatch ("/api/lots/".toList ++ (ds ++ ['/'])) = some (digitsToNat ds) := by
  have hm := matchIdSuffix_digits "/api/lots/" ds hds (by decide) (by decide)
  unfold lotMatch
  rw [← List.append_assoc, stripSlash_concat]
  exact hm

/-- A request on `/api/lots/{id}/` with a method other than `GET` and `POST` reaches the
routes that follow the id pattern. -/
theorem demoRequest_lot (now : String) (ds : List Char) (options : Options) (ls : Storage)
    (hds : IsDigits ds) (hg : methodOf options ≠ "GET") (hpost : methodOf options ≠ "POST") :
    demoRequest now (lotPath ds) options ls =
      if methodOf options = "PUT" then
        (updateLot (getDemoData ls) (jsonBody options) (digitsToNat ds)).map
          (fun p => (p.1, saveDemoData ls p.2))
      else if methodOf options = "DELETE" then
        (deleteLot (getDemoData ls) (digitsToNat ds)).map (fun p => (p.1, saveDemoData ls p.2))
      else (collection (getDemoData ls) "lots").map (fun v => (v, ls)) := by
  have hsw : startsWith ("/api/lots/".toList ++ (ds ++ ['/'])) "/api/lots/" = true := by
    rw [startsWith, isPrefixOf_append]
    have h1 : List.drop "/api/lots/".toList.length "/api/lots/".toList = [] := by decide
    have h2 : (List.take "/api/lots/".toList.length "/api/lots/".toList).isPrefixOf
        "/api/lots/".toList = true := by decide
    rw [h1, h2]
    simp [List.isPrefixOf]
  unfold demoRequest
  simp only [pathOf_lotPath ds hds]
  rw [startsWith_mismatch _ _ _ (by decide), startsWith_mismatch _ _ _ (by decide),
    startsWith_mismatch _ _ _ (by decide), hsw, lotMatch_path ds hds]
  simp only [Bool.false_eq_true, if_false, if_true, hg, hpost]

theorem readable_updatedLot (id : Nat) (payload l : JVal) (h : Readable l) :
    Readable (updatedLot id payload l) := by
  unfold updatedLot
  split
  · exact readable_obj _
  · exact h

/-- Lot update on a document whose lots are readable. -/
theorem updateLot_ok (fs : Fields) (payload : JVal) (id : Nat) (xs : List JVal)
    (hxs : listOrEmpty (getField fs "lots") = .ok xs) (hread : ∀ x ∈ xs, Readable x) :
    updateLot (.obj fs) payload id =
      .ok (jsOr (((xs.map (updatedLot id payload)).find? (isLot id)).getD .undefined) payload,
        .obj (objSet fs "lots" (.arr (xs.map (updatedLot id payload))))) := by
  unfold updateLot
  have hg : ∀ k, getProp (JVal.obj fs) k = .ok (getField fs k) := fun _ => rfl
  simp only [hg, hxs, bind, Except.bind, pure, Except.pure]
  rw [mapE_eq_map _ (updatedLot id payload)]
  · simp only [setProp, propAfterSet, arrayOf, pure, Except.pure]
    rw [findM_eq_find _ (isLot id)]
    intro x hx
    obtain ⟨l, hl, rfl⟩ := List.mem_map.1 hx
    simp only [getProp_readable _ _ (readable_updatedLot id payload l (hread l hl)), isLot]
  · intro l hl
    simp only [getProp_readable l _ (hread l hl), updatedLot, isLot, mergedLot]
    split <;> rfl

/-- Lot deletion on a document whose lots are readable. -/
theorem deleteLot_ok (fs : Fields) (id : Nat) (xs : List JVal)
    (hxs : listOrEmpty (getField fs "lots") = .ok xs) (hread : ∀ x ∈ xs, Readable x) :
    deleteLot (.obj fs) id =
      .ok (successValue,
        .obj (objSet fs "lots" (.arr (xs.filter (fun l => !isLot id l))))) := by
  unfold deleteLot
  have hg : ∀ k, getProp (JVal.obj fs) k = .ok (getField fs k) := fun _ => rfl
  simp only [hg, hxs, bind, Except.bind, pure, Except.pure]
  rw [filterE_eq_filter _ (fun l => !isLot id l)]
  · simp only [setProp, successValue, pure, Except.pure]
  · intro l hl
    simp only [getProp_readable l _ (hread l hl), isLot]

/-- The merge `{ ...l, ...payload }` of a record `l`: a property is the body's when the body
has it, else the record's. -/
theorem mergedLot_prop (payload : JVal) (lf : Fields) (k : String) :
    propOf (mergedLot payload (.obj lf)) k =
      match lookupLast (ownEntries payload) k with
      | some x => x
      | none => getField lf k := by
  unfold mergedLot
  have h0 : ownEntries (JVal.obj lf) = lf := rfl
  simp only [propOf, getField, spread, lookupLast_foldl_objSet, h0]
  generalize lookupLast (ownEntries payload) k = o
  cases o with
  | some x => rfl
  | none =>
    simp only []
    cases lookupLast lf k <;> rfl

theorem isLot_obj (id : Nat) (l : JVal) (h : isLot id l = true) : IsObj l := by
  cases l <;> simp [isLot, propOf, strictEq] at h
  exact ⟨_, rfl⟩

theorem isLot_updatedLot (id : Nat) (payload l : JVal) (hk : NoKey "id_lot" payload) :
    isLot id (updatedLot id payload l) = isLot id l := by
  unfold updatedLot
  split
  · rename_i h
    obtain ⟨lf, rfl⟩ := isLot_obj id l h
    rw [h]
    unfold isLot
    rw [mergedLot_prop, show lookupLast (ownEntries payload) "id_lot" = none from hk]
    exact h
  · rfl

theorem find_updated (id : Nat) (payload : JVal) (xs : List JVal)
    (hk : NoKey "id_lot" payload) :
    (xs.map (updatedLot id payload)).find? (isLot id) =
      (xs.find? (isLot id)).map (mergedLot payload) := by
  induction xs with
  | nil => rfl
  | cons x xs ih =>
    simp only [List.map_cons, List.find?_cons, isLot_updatedLot id payload x hk]
    cases hx : isLot id x with
    | true => simp [updatedLot, hx]
    | false => simpa using ih

theorem map_updated_none (id : Nat) (payload : JVal) (xs : List JVal)
    (h : xs.find? (isLot id) = none) : xs.map (updatedLot id payload) = xs := by
  have hall : ∀ x ∈ xs, isLot id x = false := by
    intro x hx
    have := List.find?_eq_none.1 h x hx
    simpa using this
  have hmap : xs.map (updatedLot id payload) = xs.map (fun x => x) := by
    apply List.map_congr_left
    intro x hx
    simp [updatedLot, hall x hx]
  rw [hmap]
  simp

theorem isLot_jsonify (id : Nat) (l : JVal) : isLot id (jsonify l) = isLot id l := by
  cases l with
  | obj fs =>
    unfold isLot
    rw [propOf_jsonify_obj]
    exact strictEq_jsonField_num _ _
  | arr xs => simp [isLot, jsonify, propOf]
  | undefined => rfl
  | null => rfl
  | nan => rfl
  | bool b => rfl
  | num n => rfl
  | str s => rfl

theorem map_fixed {α : Type} (f : α → α) (xs : List α) (h : xs.map f = xs) :
    ∀ x ∈ xs, f x = x := by
  induction xs with
  | nil => intro x hx; cases hx
  | cons y ys ih =>
    simp only [List.map_cons, List.cons.injEq] at h
    intro x hx
    rcases List.mem_cons.1 hx with rfl | hx
    · exact h.1
    · exact ih h.2 x hx

/-- C19 (amended): for every stored document that is an object whose lots, when present, are
a list without `null`, and every id written with the digits `ds` (a value up to 2^53, which
`Number` reads exactly).  `PUT /api/lots/{id}/` stores, in place of every lot whose `id_lot` is the id, the shallow merge of that lot and the
body (a property is the body's when the body has it, else the lot's), and leaves every other
lot and the order of the list as they were; it returns the merged record of the first such
lot when the body carries no `id_lot` of its own, and the body when no lot has the id.
`DELETE /api/lots/{id}/` returns `{success: true}` and stores the list of the lots whose
`id_lot` is not the id, in the same order, so no stored lot has the id. -/
theorem c19_update_and_delete (now : String) (ds : List Char) (options : Options)
    (ls : Storage) (hds : ExactDigits ds) (hs : LotsReadable ls) :
    (methodOf options = "PUT" →
      ∃ (v : JVal) (ls' : Storage),
        demoRequest now (lotPath ds) options ls = .ok (v, ls') ∧
        storedLots ls' = (storedLots ls).map
          (fun l => jsonify (updatedLot (digitsToNat ds) (jsonBody options) l)) ∧
        (jsonify (getDemoData ls) = getDemoData ls →
          storedLots ls' = (storedLots ls).map (fun l =>
            if isLot (digitsToNat ds) l then jsonify (mergedLot (jsonBody options) l) else l)) ∧
        (∀ (lf : Fields) (k : String), propOf (mergedLot (jsonBody options) (.obj lf)) k =
          match lookupLast (ownEntries (jsonBody options)) k with
          | some x => x
          | none => getField lf k) ∧
        (NoKey "id_lot" (jsonBody options) → ∀ l,
          (storedLots ls).find? (isLot (digitsToNat ds)) = some l →
          v = mergedLot (jsonBody options) l) ∧
        ((storedLots ls).find? (isLot (digitsToNat ds)) = none → v = jsonBody options)) ∧
    (methodOf options = "DELETE" →
      ∃ ls' : Storage,
        demoRequest now (lotPath ds) options ls = .ok (successValue, ls') ∧
        storedLots ls' =
          ((storedLots ls).filter (fun l => !isLot (digitsToNat ds) l)).map jsonify ∧
        (jsonify (getDemoData ls) = getDemoData ls →
          storedLots ls' = (storedLots ls).filter (fun l => !isLot (digitsToNat ds) l)) ∧
        ∀ l ∈ storedLots ls', isLot (digitsToNat ds) l = false) := by
  obtain ⟨⟨fs, hfs⟩, hl⟩ := hs
  obtain ⟨hxs, hread⟩ := listOrEmpty_elemsOf _ hl
  have hclean := stored_clean (getDemoData ls) "lots"
  unfold storedLots
  rw [hfs] at hxs hread hclean ⊢
  have hpo : ∀ k, propOf (.obj fs) k = getField fs k := fun _ => rfl
  rw [hpo] at hxs hread hclean
  simp only [hpo]
  generalize elemsOf (getField fs "lots") = xs at hxs hread hclean
  have hstored : ∀ ys : List JVal, elemsOf (propOf (getDemoData (saveDemoData ls
      (.obj (objSet fs "lots" (.arr ys))))) "lots") = ys.map jsonify := by
    intro ys
    rw [getDemoData_save, propOf_jsonify_obj, getField_objSet_same]
    simp [jsonField, jsonify, jsonifyList_eq_map, elemsOf_arr]
  constructor
  · intro hm
    have hroute := demoRequest_lot now ds options ls hds.1 (by rw [hm]; decide)
      (by rw [hm]; decide)
    rw [if_pos hm, hfs, updateLot_ok fs (jsonBody options) (digitsToNat ds) xs hxs hread]
      at hroute
    refine ⟨_, _, hroute, ?_, ?_, fun lf k => mergedLot_prop _ lf k, ?_, ?_⟩
    · rw [hstored, List.map_map]; rfl
    · intro hc
      rw [hstored, List.map_map]
      apply List.map_congr_left
      intro l hl'
      simp only [Function.comp, updatedLot]
      split
      · rfl
      · exact map_fixed jsonify xs (hclean hc) l hl'
    · intro hk l hfind
      rw [find_updated _ _ _ hk, hfind]
      simp [jsOr, truthy, mergedLot]
    · intro hnone
      rw [map_updated_none _ _ _ hnone, hnone]
      simp [jsOr, truthy]
  · intro hm
    have hroute := demoRequest_lot now ds options ls hds.1 (by rw [hm]; decide)
      (by rw [hm]; decide)
    rw [if_neg (by rw [hm]; decide), if_pos hm, hfs,
      deleteLot_ok fs (digitsToNat ds) xs hxs hread] at hroute
    refine ⟨_, hroute, hstored _, ?_, ?_⟩
    · intro hc
      rw [hstored]
      have hfix := map_fixed jsonify xs (hclean hc)
      calc (xs.filter (fun l => !isLot (digitsToNat ds) l)).map jsonify
          = (xs.filter (fun l => !isLot (digitsToNat ds) l)).map (fun x => x) := by
            apply List.map_congr_left
            intro l hl'
            exact hfix l (List.mem_of_mem_filter hl')
        _ = xs.filter (fun l => !isLot (digitsToNat ds) l) := by simp
    · intro l hl'
      rw [hstored] at hl'
      obtain ⟨x, hx, rfl⟩ := List.mem_map.1 hl'
      rw [isLot_jsonify]
      have := (List.mem_filter.1 hx).2
      simpa using this

theorem threeLots_readable : LotsReadable threeLots := by
  refine ⟨⟨_, rfl⟩, _, rfl, ?_⟩
  intro x hx
  simp only [List.mem_cons, List.mem_singleton, List.not_mem_nil, or_false] at hx
  rcases hx with rfl | rfl | rfl <;> exact readable_obj _

/-- C19 (witness): on the lots 1, 2, 3 a `PUT` on `/api/lots/2/` with the body
`{quantite: 9}` returns the merged lot 2 and stores it between the lots 1 and 3, and a
`DELETE` on `/api/lots/2/` leaves the lots 1 and 3. -/
theorem c19_update_and_delete_witness :
    (∃ ls' : Storage,
      demoRequest "t" (lotPath ['2']) (putJson (.obj [("quantite", .num 9)])) threeLots =
        .ok (.obj [("id_lot", .num 2), ("espece", .str "sole"), ("quantite", .num 9)], ls') ∧
      (storedLots ls').map (fun l => propOf l "quantite") = [.num 40, .num 9, .num 8]) ∧
    (∃ ls' : Storage,
      demoRequest "t" (lotPath ['2']) deleteOptions threeLots = .ok (successValue, ls') ∧
      (storedLots ls').map (fun l => propOf l "id_lot") = [.num 1, .num 3]) := by
  have hput := (c19_update_and_delete "t" ['2'] (putJson (.obj [("quantite", .num 9)]))
    threeLots ⟨⟨by decide, by decide⟩, by decide⟩ threeLots_readable).1 rfl
  have hdel := (c19_update_and_delete "t" ['2'] deleteOptions threeLots
    ⟨⟨by decide, by decide⟩, by decide⟩ threeLots_readable).2 rfl
  obtain ⟨v, ls', h1, h2, _, _, h5, _⟩ := hput
  obtain ⟨ls2, g1, g2, _, _⟩ := hdel
  refine ⟨⟨ls', ?_, ?_⟩, ⟨ls2, g1, ?_⟩⟩
  · rw [h1, h5 rfl _ rfl]; rfl
  · rw [h2]; rfl
  · rw [g2]; rfl

/-! ### Uniqueness of ids (C6) -/

theorem uniq_nil (key : String) : Uniq key [] := ⟨[], rfl, List.nodup_nil⟩

theorem uniq_mem (key : String) (xs : List JVal) (h : Uniq key xs) :
    ∀ x ∈ xs, ∃ n : Int, propOf x key = .num n := by
  obtain ⟨ns, hns, _⟩ := h
  intro x hx
  have : propOf x key ∈ ns.map JVal.num := by
    rw [← hns]; exact List.mem_map.2 ⟨x, hx, rfl⟩
  obtain ⟨n, _, hn⟩ := List.mem_map.1 this
  exact ⟨n, hn.symm⟩

theorem uniq_same_ids (key : String) (xs ys : List JVal) (h : Uniq key xs)
    (e : ys.map (fun x => propOf x key) = xs.map (fun x => propOf x key)) : Uniq key ys := by
  obtain ⟨ns, hns, hnd⟩ := h
  exact ⟨ns, by rw [e, hns], hnd⟩

theorem uniq_map_jsonify (key : String) (xs : List JVal) (h : Uniq key xs) :
    Uniq key (xs.map jsonify) := by
  apply uniq_same_ids key xs _ h
  rw [List.map_map]
  apply List.map_congr_left
  intro x hx
  obtain ⟨n, hn⟩ := uniq_mem key xs h x hx
  simp [propOf_jsonify_num x key n hn, hn]

theorem num_injective : Function.Injective JVal.num := by
  intro a b h
  simpa using h

theorem uniq_sublist (key : String) (xs ys : List JVal) (h : Uniq key xs)
    (hs : List.Sublist ys xs) : Uniq key ys := by
  obtain ⟨ns, hns, hnd⟩ := h
  have hsub : List.Sublist (ys.map (fun x => propOf x key)) (ns.map JVal.num) := by
    rw [← hns]; exact hs.map _
  obtain ⟨ms, hms, hme⟩ := List.sublist_map_iff.1 hsub
  exact ⟨ms, hme, hnd.sublist hms⟩

theorem uniq_append (key : String) (xs zs : List JVal) (ms : List Int) (bound : Int)
    (h : Uniq key xs) (hz : zs.map (fun x => propOf x key) = ms.map JVal.num)
    (hnd : ms.Nodup) (hlo : ∀ x ∈ xs, ∀ n : Int, propOf x key = .num n → n ≤ bound)
    (hhi : ∀ m ∈ ms, bound < m) : Uniq key (xs ++ zs) := by
  obtain ⟨ns, hns, hn⟩ := h
  refine ⟨ns ++ ms, by simp [hns, hz], ?_⟩
  rw [List.nodup_append]
  refine ⟨hn, hnd, ?_⟩
  intro a ha hb
  have h1 : JVal.num a ∈ xs.map (fun x => propOf x key) := by
    rw [hns]; exact List.mem_map.2 ⟨a, ha, rfl⟩
  obtain ⟨x, hx, hxa⟩ := List.mem_map.1 h1
  have := hlo x hx a hxa
  have := hhi a hb
  omega

theorem propOf_jsonify_nonobj (data : JVal) (k : String) (h : ¬ IsObj data) :
    propOf (jsonify data) k = .undefined := by
  cases data <;> simp [jsonify, propOf]
  exact absurd ⟨_, rfl⟩ h

theorem uniqueDoc_nonobj (data : JVal) (h : ¬ IsObj data) : UniqueDoc (jsonify data) := by
  intro p _
  rw [propOf_jsonify_nonobj data _ h]
  exact uniq_nil _

theorem uniqueDoc_jsonify (data : JVal) (h : UniqueDoc data) : UniqueDoc (jsonify data) := by
  by_cases ho : IsObj data
  · obtain ⟨fs, rfl⟩ := ho
    intro p hp
    rw [propOf_jsonify_obj, elemsOf_jsonField]
    exact uniq_map_jsonify _ _ (h p hp)
  · exact uniqueDoc_nonobj data ho

/-- A document that differs from one with unique ids in one collection only, which now holds
a list with unique integer ids, has unique ids, also after serialisation. -/
theorem uniqueDoc_fields (fs fs' : Fields) (coll key : String) (xs : List JVal)
    (h : UniqueDoc (.obj fs)) (hmem : (coll, key) ∈ idCollections) (hx : Uniq key xs)
    (hsame : ∀ k, getField fs' k = if coll = k then .arr xs else getField fs k) :
    UniqueDoc (jsonify (.obj fs')) := by
  intro p hp
  rw [propOf_jsonify_obj, hsame]
  by_cases hc : coll = p.1
  · have hk : key = p.2 := by
      simp only [idCollections, List.mem_cons, List.mem_singleton, List.not_mem_nil,
        or_false] at hmem hp
      obtain ⟨p1, p2⟩ := p
      simp only at hc
      subst hc
      rcases hmem with h1 | h1 | h1 | h1 <;> rcases hp with h2 | h2 | h2 | h2 <;>
        simp_all
    subst hk
    simp only [hc, if_true]
    rw [elemsOf_jsonField, elemsOf_arr]
    exact uniq_map_jsonify _ _ hx
  · simp only [hc, if_false]
    rw [elemsOf_jsonField]
    exact uniq_map_jsonify _ _ (h p hp)

/-- Replacing one collection of an object document by a list with unique integer ids keeps
the invariant, also after serialisation. -/
theorem uniqueDoc_update (fs : Fields) (coll key : String) (xs : List JVal)
    (h : UniqueDoc (.obj fs)) (hmem : (coll, key) ∈ idCollections) (hx : Uniq key xs) :
    UniqueDoc (jsonify (.obj (objSet fs coll (.arr xs)))) :=
  uniqueDoc_fields fs _ coll key xs h hmem hx (fun k => getField_objSet fs coll k _)

theorem setProp_cases (data : JVal) (k : String) (v data' : JVal)
    (h : setProp data k v = .ok data') :
    (∃ fs, data = .obj fs ∧ data' = .obj (objSet fs k v)) ∨ (¬ IsObj data ∧ data' = data) := by
  cases data <;> simp [setProp, pure, Except.pure, throw, throwThe, MonadExceptOf.throw] at h
  all_goals first
    | exact Or.inl ⟨_, rfl, h.symm⟩
    | exact Or.inr ⟨fun hh => (by obtain ⟨_, hh⟩ := hh; cases hh), h.symm⟩

theorem bind_ok {α β : Type} (r : JsM α) (f : α → JsM β) (y : β) (h : (r >>= f) = .ok y) :
    ∃ x, r = .ok x ∧ f x = .ok y := by
  cases r with
  | error e => cases h
  | ok x => exact ⟨x, rfl, h⟩

theorem mapE_ok_ids {α : Type} (f : α → JsM JVal) (key : α → JVal) (k : String) (xs : List α)
    (ys : List JVal) (h : mapE f xs = .ok ys)
    (hf : ∀ x ∈ xs, ∀ y, f x = .ok y → propOf y k = key x) :
    ys.map (fun y => propOf y k) = xs.map key := by
  induction xs generalizing ys with
  | nil =>
    have : ys = [] := by simpa [mapE, pure, Except.pure] using h.symm
    subst this; rfl
  | cons x xs ih =>
    simp only [mapE, bind, Except.bind] at h
    cases hfx : f x with
    | error e => simp [hfx] at h
    | ok y =>
      cases hrest : mapE f xs with
      | error e => simp [hfx, hrest] at h
      | ok ys' =>
        simp [hfx, hrest, pure, Except.pure] at h
        subst h
        simp only [List.map_cons]
        rw [hf x (List.mem_cons_self _ _) y hfx,
          ih ys' hrest (fun w hw => hf w (List.mem_cons_of_mem _ hw))]

theorem filterE_ok_sublist {α : Type} (p : α → JsM Bool) (xs ys : List α)
    (h : filterE p xs = .ok ys) : List.Sublist ys xs := by
  induction xs generalizing ys with
  | nil =>
    have : ys = [] := by simpa [filterE, pure, Except.pure] using h.symm
    subst this; exact List.Sublist.slnil
  | cons x xs ih =>
    simp only [filterE, bind, Except.bind] at h
    cases hpx : p x with
    | error e => simp [hpx] at h
    | ok keep =>
      cases hrest : filterE p xs with
      | error e => simp [hpx, hrest] at h
      | ok ys' =>
        simp [hpx, hrest, pure, Except.pure] at h
        subst h
        cases keep with
        | true => exact (ih ys' hrest).cons₂ x
        | false => exact (ih ys' hrest).cons x

/-- What a route reads as a collection is the stored collection. -/
theorem read_collection (data : JVal) (k : String) (v : JVal) (xs : List JVal)
    (hv : getProp data k = .ok v) (hxs : listOrEmpty v = .ok xs) :
    elemsOf (propOf data k) = xs := by
  rw [← getProp_ok data k v hv]
  exact elemsOf_of_listOrEmpty v xs hxs

/-- Writing a collection with unique integer ids into a document with unique ids gives a
document with unique ids, also after serialisation. -/
theorem unique_after_set (data data' : JVal) (coll key : String) (new : List JVal)
    (hset : setProp data coll (.arr new) = .ok data') (hu : UniqueDoc data)
    (hmem : (coll, key) ∈ idCollections) (hnew : Uniq key new) : UniqueDoc (jsonify data') := by
  rcases setProp_cases data coll _ data' hset with ⟨fs, rfl, rfl⟩ | ⟨hno, rfl⟩
  · exact uniqueDoc_update fs coll key new hu hmem hnew
  · exact uniqueDoc_nonobj _ hno

theorem jsOr_num_zero (n : Int) : jsOr (JVal.num n) (.num 0) = .num n := by
  by_cases hn : n = 0
  · subst hn; rfl
  · simp [jsOr, truthy, hn]

/-- The greatest id of a collection with unique integer ids, as the creation routes compute
it, with or without the `|| 0` of the callback. -/
theorem max_of_uniq (key : String) (xs : List JVal) (floor : Int) (h : Uniq key xs) :
    ∃ ns : List Int, xs.map (fun x => propOf x key) = ns.map JVal.num ∧ ns.Nodup ∧
      mathMax floor (xs.map (fun x => propOf x key)) = some (ns.foldl max floor) ∧
      mathMax floor (xs.map (fun x => jsOr (propOf x key) (.num 0))) =
        some (ns.foldl max floor) ∧
      ∀ x ∈ xs, ∀ n : Int, propOf x key = .num n → n ≤ ns.foldl max floor := by
  obtain ⟨ns, hns, hnd⟩ := h
  refine ⟨ns, hns, hnd, ?_, ?_, ?_⟩
  · rw [hns, mathMax_nums]
  · have : xs.map (fun x => jsOr (propOf x key) (.num 0)) = ns.map JVal.num := by
      have h1 : xs.map (fun x => jsOr (propOf x key) (.num 0)) =
          (xs.map (fun x => propOf x key)).map (fun v => jsOr v (.num 0)) := by
        rw [List.map_map]; rfl
      rw [h1, hns, List.map_map]
      apply List.map_congr_left
      intro n _
      exact jsOr_num_zero n
    rw [this, mathMax_nums]
  · intro x hx n hn
    have h1 : JVal.num n ∈ ns.map JVal.num := by
      rw [← hns]; exact List.mem_map.2 ⟨x, hx, hn⟩
    obtain ⟨m, hm, hmn⟩ := List.mem_map.1 h1
    have : m = n := by simpa using hmn
    subst this
    exact (le_foldl_max floor ns).2 m hm

theorem readable_of_uniq (key : String) (xs : List JVal) (h : Uniq key xs) :
    ∀ x ∈ xs, Readable x := by
  intro x hx
  obtain ⟨n, hn⟩ := uniq_mem key xs h x hx
  exact readable_of_isObj x (isObj_of_prop_num x key n hn)

/-- Appending one record whose id is above every stored id. -/
theorem uniq_append_one (key : String) (xs : List JVal) (z : JVal) (bound : Int)
    (h : Uniq key xs) (hz : propOf z key = .num (bound + 1))
    (hlo : ∀ x ∈ xs, ∀ n : Int, propOf x key = .num n → n ≤ bound) : Uniq key (xs ++ [z]) :=
  uniq_append key xs [z] [bound + 1] bound h (by simp [hz]) (by simp) hlo
    (by intro m hm; simp at hm; omega)

theorem createLot_unique (data payload v data' : JVal)
    (h : createLot data payload = .ok (v, data')) (hu : UniqueDoc data)
    (hk : NoKey "id_lot" payload) : UniqueDoc (jsonify data') := by
  unfold createLot at h
  obtain ⟨v0, hv0, h⟩ := bind_ok _ _ _ h
  obtain ⟨xs, hxs, h⟩ := bind_ok _ _ _ h
  obtain ⟨ids, hids, h⟩ := bind_ok _ _ _ h
  obtain ⟨d, hset, h⟩ := bind_ok _ _ _ h
  simp only [pure, Except.pure, Except.ok.injEq, Prod.mk.injEq] at h
  obtain ⟨-, rfl⟩ := h
  have hux : Uniq "id_lot" xs := by
    rw [← read_collection data "lots" v0 xs hv0 hxs]
    exact hu ("lots", "id_lot") (by simp [idCollections])
  obtain ⟨ns, hns, hnd, hmax, -, hle⟩ := max_of_uniq "id_lot" xs 0 hux
  have hids' : ids = xs.map (fun l => propOf l "id_lot") := by
    have := mapE_eq_map lotIdOf (fun l => propOf l "id_lot") xs
      (fun l hl => getProp_readable l _ (readable_of_uniq _ xs hux l hl))
    rw [this] at hids
    injection hids with hids
    exact hids.symm
  rw [hids', hmax] at hset
  apply unique_after_set data d "lots" "id_lot" _ hset hu (by simp [idCollections])
  apply uniq_append_one "id_lot" xs _ (ns.foldl max 0) hux _ hle
  simp only [propOf, getField, spread, lookupLast_foldl_objSet]
  rw [show lookupLast (ownEntries payload) "id_lot" = none from hk]
  simp [lookupLast, numAdd, ofNum]

theorem collection_uniq (data : JVal) (coll key : String) (v : JVal) (xs : List JVal)
    (hu : UniqueDoc data) (hmem : (coll, key) ∈ idCollections)
    (hv : getProp data coll = .ok v) (hxs : listOrEmpty v = .ok xs) : Uniq key xs := by
  rw [← read_collection data coll v xs hv hxs]
  exact hu (coll, key) hmem

theorem propOf_spread_nil (l : JVal) (k : String) (h : IsObj l) :
    propOf (.obj (spread [] l)) k = propOf l k := by
  obtain ⟨lf, rfl⟩ := h
  exact getField_spread_nil lf k

theorem updateLot_unique (data payload : JVal) (id : Nat) (v data' : JVal)
    (h : updateLot data payload id = .ok (v, data')) (hu : UniqueDoc data)
    (hk : NoKey "id_lot" payload) : UniqueDoc (jsonify data') := by
  unfold updateLot at h
  obtain ⟨v0, hv0, h⟩ := bind_ok _ _ _ h
  obtain ⟨xs, hxs, h⟩ := bind_ok _ _ _ h
  obtain ⟨lots', hmap, h⟩ := bind_ok _ _ _ h
  obtain ⟨d, hset, h⟩ := bind_ok _ _ _ h
  obtain ⟨cur, hcur, h⟩ := bind_ok _ _ _ h
  obtain ⟨found, hfound, h⟩ := bind_ok _ _ _ h
  simp only [pure, Except.pure, Except.ok.injEq, Prod.mk.injEq] at h
  obtain ⟨-, rfl⟩ := h
  have hux := collection_uniq data "lots" "id_lot" v0 xs hu (by simp [idCollections]) hv0 hxs
  apply unique_after_set data d "lots" "id_lot" _ hset hu (by simp [idCollections])
  apply uniq_same_ids "id_lot" xs lots' hux
  apply mapE_ok_ids _ (fun l => propOf l "id_lot") "id_lot" xs lots' hmap
  intro l hl y hy
  obtain ⟨n, hn⟩ := uniq_mem _ xs hux l hl
  obtain ⟨lf, rfl⟩ := isObj_of_prop_num l _ n hn
  simp only [getProp, bind, Except.bind, pure, Except.pure] at hy
  split at hy
  · injection hy with hy
    subst hy
    have := mergedLot_prop payload lf "id_lot"
    rw [show lookupLast (ownEntries payload) "id_lot" = none from hk] at this
    exact this
  · injection hy with hy
    subst hy; rfl

theorem deleteLot_unique (data : JVal) (id : Nat) (v data' : JVal)
    (h : deleteLot data id = .ok (v, data')) (hu : UniqueDoc data) :
    UniqueDoc (jsonify data') := by
  unfold deleteLot at h
  obtain ⟨v0, hv0, h⟩ := bind_ok _ _ _ h
  obtain ⟨xs, hxs, h⟩ := bind_ok _ _ _ h
  obtain ⟨lots', hfil, h⟩ := bind_ok _ _ _ h
  obtain ⟨d, hset, h⟩ := bind_ok _ _ _ h
  simp only [pure, Except.pure, Except.ok.injEq, Prod.mk.injEq] at h
  obtain ⟨-, rfl⟩ := h
  have hux := collection_uniq data "lots" "id_lot" v0 xs hu (by simp [idCollections]) hv0 hxs
  apply unique_after_set data d "lots" "id_lot" _ hset hu (by simp [idCollections])
  exact uniq_sublist "id_lot" xs lots' hux (filterE_ok_sublist _ xs lots' hfil)

theorem createApprov_unique (now : String) (data payload v data' : JVal)
    (h : createApprov now data payload = .ok (v, data')) (hu : UniqueDoc data) :
    UniqueDoc (jsonify data') := by
  unfold createApprov at h
  obtain ⟨v0, hv0, h⟩ := bind_ok _ _ _ h
  obtain ⟨xs, hxs, h⟩ := bind_ok _ _ _ h
  obtain ⟨ids, hids, h⟩ := bind_ok _ _ _ h
  obtain ⟨pr, hpr, h⟩ := bind_ok _ _ _ h
  obtain ⟨pl, hpl, h⟩ := bind_ok _ _ _ h
  obtain ⟨supplied, hsup, h⟩ := bind_ok _ _ _ h
  obtain ⟨lignes, hlig, h⟩ := bind_ok _ _ _ h
  obtain ⟨x1, h1, h⟩ := bind_ok _ _ _ h
  obtain ⟨x2, h2, h⟩ := bind_ok _ _ _ h
  obtain ⟨x3, h3, h⟩ := bind_ok _ _ _ h
  obtain ⟨x4, h4, h⟩ := bind_ok _ _ _ h
  obtain ⟨x5, h5, h⟩ := bind_ok _ _ _ h
  obtain ⟨x6, h6, h⟩ := bind_ok _ _ _ h
  obtain ⟨d, hset, h⟩ := bind_ok _ _ _ h
  simp only [pure, Except.pure, Except.ok.injEq, Prod.mk.injEq] at h
  obtain ⟨-, rfl⟩ := h
  have hux := collection_uniq data "approvisionnements" "id_approvisionnement" v0 xs hu
    (by simp [idCollections]) hv0 hxs
  obtain ⟨ns, hns, hnd, -, hmax, hle⟩ := max_of_uniq "id_approvisionnement" xs 0 hux
  have hids' : ids = xs.map (fun a => jsOr (propOf a "id_approvisionnement") (.num 0)) := by
    have := mapE_eq_map approvIdOrZero
      (fun a => jsOr (propOf a "id_approvisionnement") (.num 0)) xs
      (fun a ha => by
        simp only [approvIdOrZero, getProp_readable a _ (readable_of_uniq _ xs hux a ha)]
        rfl)
    rw [this] at hids
    injection hids with hids
    exact hids.symm
  rw [hids', hmax] at hset
  apply unique_after_set data d "approvisionnements" "id_approvisionnement" _ hset hu
    (by simp [idCollections])
  apply uniq_append_one "id_approvisionnement" xs _ (ns.foldl max 0) hux _ hle
  simp [propOf, getField, lookupLast, numAdd, ofNum]

theorem applyApprovAction_keeps_id (id : Nat) (action : String) (payload : JVal)
    (af : Fields) (b : JVal) (h : applyApprovAction id action payload (.obj af) = .ok b) :
    propOf b "id_approvisionnement" = getField af "id_approvisionnement" := by
  have hsp : ∀ k, getField (spread [] (JVal.obj af)) k = getField af k :=
    fun k => getField_spread_nil af k
  unfold applyApprovAction at h
  simp only [getProp, bind, Except.bind, pure, Except.pure] at h
  split at h
  · injection h with h; subst h; rfl
  · split at h
    · injection h with h; subst h
      simp only [propOf]
      rw [getField_objSet_other _ _ _ _ (by decide), hsp]
    · split at h
      · split at h
        · cases h
        · injection h with h; subst h
          simp only [propOf]
          rw [getField_objSet_other _ _ _ _ (by decide),
            getField_objSet_other _ _ _ _ (by decide), hsp]
      · split at h
        · split at h
          · cases h
          · split at h
            · cases h
            · injection h with h; subst h
              simp only [propOf]
              rw [getField_objSet_other _ _ _ _ (by decide),
                getField_objSet_other _ _ _ _ (by decide),
                getField_objSet_other _ _ _ _ (by decide), hsp]
        · injection h with h; subst h; rfl

theorem approvAction_unique (data payload : JVal) (id : Nat) (action : String)
    (v data' : JVal) (h : approvAction data payload id action = .ok (v, data'))
    (hu : UniqueDoc data) : UniqueDoc (jsonify data') := by
  unfold approvAction at h
  obtain ⟨v0, hv0, h⟩ := bind_ok _ _ _ h
  obtain ⟨xs, hxs, h⟩ := bind_ok _ _ _ h
  obtain ⟨approvs', hmap, h⟩ := bind_ok _ _ _ h
  obtain ⟨d, hset, h⟩ := bind_ok _ _ _ h
  simp only [pure, Except.pure, Except.ok.injEq, Prod.mk.injEq] at h
  obtain ⟨-, rfl⟩ := h
  have hux := collection_uniq data "approvisionnements" "id_approvisionnement" v0 xs hu
    (by simp [idCollections]) hv0 hxs
  apply unique_after_set data d "approvisionnements" "id_approvisionnement" _ hset hu
    (by simp [idCollections])
  apply uniq_same_ids "id_approvisionnement" xs approvs' hux
  apply mapE_ok_ids _ (fun a => propOf a "id_approvisionnement") "id_approvisionnement" xs
    approvs' hmap
  intro a ha y hy
  obtain ⟨n, hn⟩ := uniq_mem _ xs hux a ha
  obtain ⟨af, rfl⟩ := isObj_of_prop_num a _ n hn
  exact applyApprovAction_keeps_id id action payload af y hy

theorem venteAction_unique (data : JVal) (id : Nat) (action : String)
    (v data' : JVal) (h : venteAction data id action = .ok (v, data'))
    (hu : UniqueDoc data) : UniqueDoc (jsonify data') := by
  unfold venteAction at h
  obtain ⟨v0, hv0, h⟩ := bind_ok _ _ _ h
  obtain ⟨xs, hxs, h⟩ := bind_ok _ _ _ h
  obtain ⟨ventes', hmap, h⟩ := bind_ok _ _ _ h
  obtain ⟨d, hset, h⟩ := bind_ok _ _ _ h
  simp only [pure, Except.pure, Except.ok.injEq, Prod.mk.injEq] at h
  obtain ⟨-, rfl⟩ := h
  have hux := collection_uniq data "ventes" "id_vente" v0 xs hu
    (by simp [idCollections]) hv0 hxs
  apply unique_after_set data d "ventes" "id_vente" _ hset hu (by simp [idCollections])
  apply uniq_same_ids "id_vente" xs ventes' hux
  apply mapE_ok_ids _ (fun a => propOf a "id_vente") "id_vente" xs ventes' hmap
  intro a ha y hy
  obtain ⟨n, hn⟩ := uniq_mem _ xs hux a ha
  obtain ⟨af, rfl⟩ := isObj_of_prop_num a _ n hn
  simp only [getProp, bind, Except.bind, pure, Except.pure] at hy
  split at hy
  · injection hy with hy
    subst hy; rfl
  · injection hy with hy
    subst hy
    simp only [propOf]
    rw [getField_objSet_other _ _ _ _ (by decide)]
    exact getField_spread_nil af _

theorem createVente_unique (now : String) (data payload v data' : JVal)
    (h : createVente now data payload = .ok (v, data')) (hu : UniqueDoc data) :
    UniqueDoc (jsonify data') := by
  unfold createVente at h
  obtain ⟨v0, hv0, h⟩ := bind_ok _ _ _ h
  obtain ⟨xs, hxs, h⟩ := bind_ok _ _ _ h
  obtain ⟨ids, hids, h⟩ := bind_ok _ _ _ h
  obtain ⟨pl, hpl, h⟩ := bind_ok _ _ _ h
  obtain ⟨supplied, hsup, h⟩ := bind_ok _ _ _ h
  obtain ⟨amounts, ham, h⟩ := bind_ok _ _ _ h
  obtain ⟨x1, h1, h⟩ := bind_ok _ _ _ h
  obtain ⟨d, hset, h⟩ := bind_ok _ _ _ h
  simp only [pure, Except.pure, Except.ok.injEq, Prod.mk.injEq] at h
  obtain ⟨-, rfl⟩ := h
  have hux := collection_uniq data "ventes" "id_vente" v0 xs hu
    (by simp [idCollections]) hv0 hxs
  obtain ⟨ns, hns, hnd, hmax, -, hle⟩ := max_of_uniq "id_vente" xs 500 hux
  have hids' : ids = xs.map (fun a => propOf a "id_vente") := by
    have := mapE_eq_map venteIdOf (fun a => propOf a "id_vente") xs
      (fun a ha => getProp_readable a _ (readable_of_uniq _ xs hux a ha))
    rw [this] at hids
    injection hids with hids
    exact hids.symm
  rw [hids', hmax] at hset
  apply unique_after_set data d "ventes" "id_vente" _ hset hu (by simp [idCollections])
  apply uniq_append_one "id_vente" xs _ (ns.foldl max 500) hux _ hle
  simp [propOf, getField, lookupLast, numAdd, ofNum]

theorem iterList_of_listOrEmpty (v : JVal) (xs ys : List JVal)
    (hx : listOrEmpty v = .ok xs) (hy : iterList v = .ok ys) : ys = xs := by
  cases v with
  | arr zs =>
    have h1 : Except.ok zs = Except.ok xs := hx
    have h2 : Except.ok zs = Except.ok ys := hy
    injection h1 with h1
    injection h2 with h2
    rw [← h1, ← h2]
  | str s =>
    by_cases hs : s = ""
    · subst hs
      have h1 : Except.ok ([] : List JVal) = Except.ok xs := hx
      have h2 : Except.ok ([] : List JVal) = Except.ok ys := hy
      injection h1 with h1
      injection h2 with h2
      rw [← h1, ← h2]
    · simp [listOrEmpty, jsOr, truthy, hs, throw, throwThe, MonadExceptOf.throw] at hx
  | undefined => cases hy
  | null => cases hy
  | nan => cases hy
  | bool b => cases hy
  | num n => cases hy
  | obj fs => cases hy

theorem nextNotificationId_of_uniq (notifications : JVal) (nextId : Option Int)
    (stored : List JVal) (hs : listOrEmpty notifications = .ok stored)
    (hu : Uniq "id_notification" stored)
    (h : nextNotificationId notifications = .ok nextId) :
    ∃ m : Int, nextId = some (m + 1) ∧
      ∀ x ∈ stored, ∀ n : Int, propOf x "id_notification" = .num n → n ≤ m := by
  obtain ⟨ns, hns, hnd, -, hmax, hle⟩ := max_of_uniq "id_notification" stored 0 hu
  have hmap := mapE_eq_map notificationIdOrZero
    (fun a => jsOr (propOf a "id_notification") (.num 0)) stored
    (fun a ha => by
      simp only [notificationIdOrZero, getProp_readable a _ (readable_of_uniq _ stored hu a ha)]
      rfl)
  unfold nextNotificationId at h
  simp only [hs, hmap, hmax, bind, Except.bind, pure, Except.pure] at h
  injection h with h
  exact ⟨ns.foldl max 0, by rw [← h]; rfl, hle⟩

theorem range_ids_nodup (m : Int) (k : Nat) :
    ((List.range k).map (fun i : Nat => m + 1 + (i : Int))).Nodup ∧
      ∀ n ∈ (List.range k).map (fun i : Nat => m + 1 + (i : Int)), m < n := by
  constructor
  · apply List.Nodup.map _ (List.nodup_range k)
    intro a b hab
    simp only at hab
    omega
  · intro n hn
    obtain ⟨i, _, rfl⟩ := List.mem_map.1 hn
    omega

theorem genererAlertes_unique (now : String) (data1 notifications v data' : JVal)
    (h : genererAlertes now data1 notifications = .ok (v, data'))
    (hn : ∀ stored, listOrEmpty notifications = .ok stored → Uniq "id_notification" stored)
    (hd : ∀ new d, Uniq "id_notification" new →
      setProp data1 "notifications" (.arr new) = .ok d → UniqueDoc (jsonify d)) :
    UniqueDoc (jsonify data') := by
  unfold genererAlertes at h
  obtain ⟨v0, hv0, h⟩ := bind_ok _ _ _ h
  obtain ⟨nextId, hnext, h⟩ := bind_ok _ _ _ h
  obtain ⟨as, has, h⟩ := bind_ok _ _ _ h
  obtain ⟨dangers, hdan, h⟩ := bind_ok _ _ _ h
  obtain ⟨nouvelles, hnou, h⟩ := bind_ok _ _ _ h
  obtain ⟨current, hcur, h⟩ := bind_ok _ _ _ h
  obtain ⟨d, hset, h⟩ := bind_ok _ _ _ h
  simp only [pure, Except.pure, Except.ok.injEq, Prod.mk.injEq] at h
  obtain ⟨-, rfl⟩ := h
  have hstored : ∃ stored, listOrEmpty notifications = .ok stored := by
    unfold nextNotificationId at hnext
    obtain ⟨stored, hs, -⟩ := bind_ok _ _ _ hnext
    exact ⟨stored, hs⟩
  obtain ⟨stored, hs⟩ := hstored
  have hus := hn stored hs
  have hcs : current = stored := iterList_of_listOrEmpty notifications stored current hs hcur
  subst hcs
  obtain ⟨m, rfl, hle⟩ := nextNotificationId_of_uniq notifications nextId current hs hus hnext
  apply hd _ d _ hset
  have hids : nouvelles.map (fun y => propOf y "id_notification") =
      dangers.enum.map (fun p => JVal.num (m + 1 + (p.1 : Nat))) := by
    apply mapE_ok_ids _ _ "id_notification" dangers.enum nouvelles hnou
    intro p _ y hy
    obtain ⟨x1, -, hy⟩ := bind_ok _ _ _ hy
    obtain ⟨x2, -, hy⟩ := bind_ok _ _ _ hy
    obtain ⟨x3, -, hy⟩ := bind_ok _ _ _ hy
    simp only [pure, Except.pure, Except.ok.injEq] at hy
    subst hy
    simp [propOf, getField, lookupLast, numAdd, ofNum]
  have hids' : nouvelles.map (fun y => propOf y "id_notification") =
      ((List.range dangers.length).map (fun i : Nat => m + 1 + (i : Int))).map JVal.num := by
    rw [hids, List.map_map, ← List.enum_map_fst dangers, List.map_map]
    rfl
  exact uniq_append "id_notification" current nouvelles _ m hus hids'
    (range_ids_nodup m dangers.length).1 hle (range_ids_nodup m dangers.length).2

theorem createNotification_unique (now : String) (data1 notifications payload v data' : JVal)
    (h : createNotification now data1 notifications payload = .ok (v, data'))
    (hk : NoKey "id_notification" payload)
    (hn : ∀ stored, listOrEmpty notifications = .ok stored → Uniq "id_notification" stored)
    (hd : ∀ new d, Uniq "id_notification" new →
      setProp data1 "notifications" (.arr new) = .ok d → UniqueDoc (jsonify d)) :
    UniqueDoc (jsonify data') := by
  unfold createNotification at h
  obtain ⟨nextId, hnext, h⟩ := bind_ok _ _ _ h
  obtain ⟨de, hde, h⟩ := bind_ok _ _ _ h
  obtain ⟨current, hcur, h⟩ := bind_ok _ _ _ h
  obtain ⟨d, hset, h⟩ := bind_ok _ _ _ h
  simp only [pure, Except.pure, Except.ok.injEq, Prod.mk.injEq] at h
  obtain ⟨-, rfl⟩ := h
  have hstored : ∃ stored, listOrEmpty notifications = .ok stored := by
    unfold nextNotificationId at hnext
    obtain ⟨stored, hs, -⟩ := bind_ok _ _ _ hnext
    exact ⟨stored, hs⟩
  obtain ⟨stored, hs⟩ := hstored
  have hus := hn stored hs
  have hcs : current = stored := iterList_of_listOrEmpty notifications stored current hs hcur
  subst hcs
  obtain ⟨m, rfl, hle⟩ := nextNotificationId_of_uniq notifications nextId current hs hus hnext
  apply hd _ d _ hset
  apply uniq_append_one "id_notification" current _ m hus _ hle
  simp only [propOf]
  rw [getField_objSet_other _ _ _ _ (by decide)]
  simp only [getField, spread, lookupLast_foldl_objSet]
  rw [show lookupLast (ownEntries payload) "id_notification" = none from hk]
  simp [lookupLast, ofNum]

theorem listOrEmpty_jsOr (v : JVal) : listOrEmpty (jsOr v (.arr [])) = listOrEmpty v := by
  unfold listOrEmpty
  have : jsOr (jsOr v (.arr [])) (.arr []) = jsOr v (.arr []) := by
    by_cases h : truthy v = true
    · have h1 : jsOr v (.arr []) = v := by simp [jsOr, h]
      rw [h1, h1]
    · have h1 : jsOr v (.arr []) = .arr [] := by simp [jsOr, h]
      rw [h1]
      rfl
  rw [this]

theorem notificationsRoute_unique (now : String) (path query : List Char) (method : String)
    (options : Options) (data : JVal) (ls : Storage) (v : JVal) (ls' : Storage)
    (h : notificationsRoute now path query method options data ls = .ok (v, ls'))
    (hu : UniqueDoc data) (hk : NoKey "id_notification" (jsonBody options)) :
    ls' = ls ∨ ∃ d, ls' = saveDemoData ls d ∧ UniqueDoc (jsonify d) := by
  unfold notificationsRoute at h
  obtain ⟨v0, hv0, h⟩ := bind_ok _ _ _ h
  obtain ⟨data1, hset1, h⟩ := bind_ok _ _ _ h
  have hn : ∀ stored, listOrEmpty (propAfterSet data (jsOr v0 (.arr []))) = .ok stored →
      Uniq "id_notification" stored := by
    intro stored hs
    have hempty : ∀ w : List JVal, (Except.ok ([] : List JVal) : JsM (List JVal)) = .ok w →
        Uniq "id_notification" w := by
      intro w hw
      injection hw with hw
      subst hw
      exact uniq_nil _
    cases data with
    | obj fs =>
      have hs' : listOrEmpty v0 = .ok stored := by
        rw [← listOrEmpty_jsOr]; exact hs
      exact collection_uniq (.obj fs) "notifications" "id_notification" v0 stored hu
        (by simp [idCollections]) hv0 hs'
    | arr zs =>
      have : v0 = .undefined := by
        have h1 : Except.ok JVal.undefined = Except.ok v0 := hv0
        injection h1 with h1
        exact h1.symm
      subst this
      exact hempty stored hs
    | undefined => cases hv0
    | null => cases hv0
    | nan => exact hempty stored hs
    | bool b => exact hempty stored hs
    | num n => exact hempty stored hs
    | str s => exact hempty stored hs
  have hd : ∀ new d, Uniq "id_notification" new →
      setProp data1 "notifications" (.arr new) = .ok d → UniqueDoc (jsonify d) := by
    intro new d hnew hset
    rcases setProp_cases data "notifications" _ data1 hset1 with ⟨fs, rfl, rfl⟩ | ⟨hno, rfl⟩
    · have hd' : d = .obj (objSet (objSet fs "notifications" (jsOr v0 (.arr [])))
          "notifications" (.arr new)) := by
        have h1 : Except.ok (JVal.obj (objSet (objSet fs "notifications" (jsOr v0 (.arr [])))
            "notifications" (.arr new))) = Except.ok d := hset
        injection h1 with h1
        exact h1.symm
      subst hd'
      apply uniqueDoc_fields fs _ "notifications" "id_notification" new hu
        (by simp [idCollections]) hnew
      intro k
      rw [getField_objSet, getField_objSet]
      split <;> rfl
    · rcases setProp_cases _ "notifications" _ d hset with ⟨fs, rfl, -⟩ | ⟨-, rfl⟩
      · exact absurd ⟨fs, rfl⟩ hno
      · exact uniqueDoc_nonobj _ hno
  split at h
  · obtain ⟨p, hp, h⟩ := bind_ok _ _ _ h
    obtain ⟨res, d⟩ := p
    simp only [pure, Except.pure, Except.ok.injEq, Prod.mk.injEq] at h
    exact Or.inr ⟨d, h.2.symm, genererAlertes_unique now data1 _ res d hp hn hd⟩
  · split at h
    · obtain ⟨p, hp, h⟩ := bind_ok _ _ _ h
      obtain ⟨res, d⟩ := p
      simp only [pure, Except.pure, Except.ok.injEq, Prod.mk.injEq] at h
      exact Or.inr ⟨d, h.2.symm,
        createNotification_unique now data1 _ (jsonBody options) res d hp hk hn hd⟩
    · split at h
      · obtain ⟨r, -, h⟩ := bind_ok _ _ _ h
        simp only [pure, Except.pure, Except.ok.injEq, Prod.mk.injEq] at h
        exact Or.inl h.2.symm
      · simp only [pure, Except.pure, Except.ok.injEq, Prod.mk.injEq] at h
        exact Or.inl h.2.symm

theorem ite_ok {α : Type} {c : Prop} [Decidable c] {a b : JsM α} {y : α}
    (h : (if c then a else b) = .ok y) : (c ∧ a = .ok y) ∨ (¬ c ∧ b = .ok y) := by
  by_cases hc : c
  · rw [if_pos hc] at h; exact Or.inl ⟨hc, h⟩
  · rw [if_neg hc] at h; exact Or.inr ⟨hc, h⟩

theorem threeLots_unique : UniqueIds threeLots := by
  intro p hp
  simp only [idCollections, List.mem_cons, List.mem_singleton, List.not_mem_nil,
    or_false] at hp
  rcases hp with rfl | rfl | rfl | rfl
  · exact ⟨[1, 2, 3], rfl, by decide⟩
  · exact ⟨[], rfl, by decide⟩
  · exact ⟨[], rfl, by decide⟩
  · exact ⟨[], rfl, by decide⟩

theorem threeLots_inRange : IdsInRange threeLots := by
  have hlen : (storedAlerts threeLots).length = 0 := rfl
  unfold IdsInRange
  rw [hlen]
  refine ⟨by norm_num [maxExact], ?_⟩
  intro p hp x hx n hn
  simp only [idCollections, List.mem_cons, List.mem_singleton, List.not_mem_nil,
    or_false] at hp
  rcases hp with rfl | rfl | rfl | rfl
  · have hx' : x ∈ [JVal.obj [("id_lot", .num 1), ("espece", .str "thon"),
        ("quantite", .num 40)],
      JVal.obj [("id_lot", .num 2), ("espece", .str "sole"), ("quantite", .num 15)],
      JVal.obj [("id_lot", .num 3), ("espece", .str "dorade"), ("quantite", .num 8)]] := hx
    simp only [List.mem_cons, List.mem_singleton, List.not_mem_nil, or_false] at hx'
    rcases hx' with rfl | rfl | rfl
    · have e : (1 : Int) = n := JVal.num.inj hn
      rw [← e]; norm_num [maxExact]
    · have e : (2 : Int) = n := JVal.num.inj hn
      rw [← e]; norm_num [maxExact]
    · have e : (3 : Int) = n := JVal.num.inj hn
      rw [← e]; norm_num [maxExact]
  · cases hx
  · cases hx
  · cases hx

/-- C6 (counterexample): with the lots 1, 2, 3 stored (ids pairwise distinct in every
collection), a `PUT` on `/api/lots/2/` whose body carries `id_lot: 1` leaves the ids
1, 1, 3: the ids of the lots are no longer pairwise distinct. -/
theorem c6_put_duplicates_id :
    UniqueIds threeLots ∧
      ∃ (v : JVal) (ls' : Storage),
        demoRequest "t" (lotPath ['2']) (putJson (.obj [("id_lot", .num 1)])) threeLots =
          .ok (v, ls') ∧
        (storedLots ls').map (fun l => propOf l "id_lot") = [.num 1, .num 1, .num 3] ∧
        ¬ UniqueIds ls' := by
  refine ⟨threeLots_unique, _, _, rfl, rfl, ?_⟩
  intro hu
  obtain ⟨ns, hns, hnd⟩ := hu ("lots", "id_lot") (by simp [idCollections])
  have hns' : [JVal.num 1, JVal.num 1, JVal.num 3] = ns.map JVal.num := hns
  have : ns = [1, 1, 3] := by
    have h2 : ([1, 1, 3] : List Int).map JVal.num = ns.map JVal.num := hns'
    exact (List.map_injective_iff.2 num_injective h2).symm
  subst this
  revert hnd
  decide

/-- C6 (amended): every simulated call that returns, on any endpoint, with any method and
any body that carries no `id_lot` and no `id_notification` of its own, leaves the ids
(integers) pairwise distinct within each of the lots, procurement orders, sales and
notifications when they were so before the call and the new ids stay in the exact range
(`IdsInRange`: below 2^53 the code computes `Math.max(...) + 1` and `nextId + idx` as the
exact integer arithmetic of the model does; the proof itself does not need the bound). -/
theorem c6_unique_ids_preserved (now : String) (endpoint : String) (options : Options)
    (ls : Storage) (v : JVal) (ls' : Storage)
    (h : demoRequest now endpoint options ls = .ok (v, ls')) (hu : UniqueIds ls)
    (hl : NoKey "id_lot" (jsonBody options))
    (hn : NoKey "id_notification" (jsonBody options))
    (hx : IdsInRange ls) : UniqueIds ls' := by
  have _ := hx
  have hdone : ∀ r : JsM JVal, r.map (fun w => (w, ls)) = .ok (v, ls') → UniqueIds ls' := by
    intro r hr
    obtain ⟨x, -, hx⟩ := map_ok_inv r _ _ hr
    simp only [Prod.mk.injEq] at hx
    rw [← hx.2]; exact hu
  have hsaved : ∀ r : JsM (JVal × JVal), (∀ p, r = .ok p → UniqueDoc (jsonify p.2)) →
      r.map (fun p => (p.1, saveDemoData ls p.2)) = .ok (v, ls') → UniqueIds ls' := by
    intro r hr hmap
    obtain ⟨p, hp, hx⟩ := map_ok_inv r _ _ hmap
    simp only [Prod.mk.injEq] at hx
    rw [← hx.2]
    unfold UniqueIds
    rw [getDemoData_save]
    exact hr p hp
  have hroute : ∀ r : JsM (JVal × Storage), r = .ok (v, ls') →
      (∃ q : List Char × List Char × String,
        r = notificationsRoute now q.1 q.2.1 q.2.2 options (getDemoData ls) ls) →
      UniqueIds ls' := by
    intro r hr hq
    obtain ⟨q, rfl⟩ := hq
    rcases notificationsRoute_unique _ _ _ _ _ _ _ _ _ hr hu hn with h1 | ⟨d, h1, h2⟩
    · rw [h1]; exact hu
    · rw [h1]; unfold UniqueIds; rw [getDemoData_save]; exact h2
  unfold demoRequest at h
  simp only [] at h
  rcases ite_ok h with ⟨-, h⟩ | ⟨-, h⟩
  · exact hdone _ h
  rcases ite_ok h with ⟨-, h⟩ | ⟨-, h⟩
  · exact hdone _ h
  rcases ite_ok h with ⟨-, h⟩ | ⟨-, h⟩
  · exact hdone _ h
  rcases ite_ok h with ⟨-, h⟩ | ⟨-, h⟩
  · rcases ite_ok h with ⟨-, h⟩ | ⟨-, h⟩
    · exact hdone _ h
    rcases ite_ok h with ⟨-, h⟩ | ⟨-, h⟩
    · exact hsaved _ (fun p hp => createLot_unique _ _ p.1 p.2 hp hu hl) h
    generalize lotMatch (pathOf endpoint) = m at h
    cases m with
    | none => exact hdone _ h
    | some id =>
      dsimp only at h
      rcases ite_ok h with ⟨-, h⟩ | ⟨-, h⟩
      · exact hsaved _ (fun p hp => updateLot_unique _ _ _ p.1 p.2 hp hu hl) h
      rcases ite_ok h with ⟨-, h⟩ | ⟨-, h⟩
      · exact hsaved _ (fun p hp => deleteLot_unique _ _ p.1 p.2 hp hu) h
      · exact hdone _ h
  rcases ite_ok h with ⟨-, h⟩ | ⟨-, h⟩
  · exact hdone _ h
  rcases ite_ok h with ⟨-, h⟩ | ⟨-, h⟩
  · exact hdone _ h
  rcases ite_ok h with ⟨-, h⟩ | ⟨-, h⟩
  · exact hsaved _ (fun p hp => createApprov_unique _ _ _ p.1 p.2 hp hu) h
  rcases ite_ok h with ⟨-, h⟩ | ⟨-, h⟩
  · exact hdone _ h
  generalize (if methodOf options = "POST" then approvActionMatch (pathOf endpoint)
    else none) = m at h
  cases m with
  | some q =>
    obtain ⟨id, action⟩ := q
    exact hsaved _ (fun p hp => approvAction_unique _ _ _ _ p.1 p.2 hp hu) h
  | none =>
    dsimp only at h
    rcases ite_ok h with ⟨-, h⟩ | ⟨-, h⟩
    · exact hdone _ h
    rcases ite_ok h with ⟨-, h⟩ | ⟨-, h⟩
    · exact hsaved _ (fun p hp => createVente_unique _ _ _ p.1 p.2 hp hu) h
    generalize (if methodOf options = "POST" then venteMatch (pathOf endpoint)
      else none) = m at h
    cases m with
    | some q =>
      obtain ⟨id, action⟩ := q
      exact hsaved _ (fun p hp => venteAction_unique _ _ _ p.1 p.2 hp hu) h
    | none =>
      dsimp only at h
      rcases ite_ok h with ⟨-, h⟩ | ⟨-, h⟩
      · exact hdone _ h
      rcases ite_ok h with ⟨-, h⟩ | ⟨-, h⟩
      · exact hroute _ h ⟨(_, _, _), rfl⟩
      rcases ite_ok h with ⟨-, h⟩ | ⟨-, h⟩
      · exact hdone _ h
      rcases ite_ok h with ⟨-, h⟩ | ⟨-, h⟩
      · exact hdone _ h
      rcases ite_ok h with ⟨-, h⟩ | ⟨-, h⟩
      · exact hdone _ h
      rcases ite_ok h with ⟨-, h⟩ | ⟨-, h⟩
      · exact hdone _ h
      rcases ite_ok h with ⟨-, h⟩ | ⟨-, h⟩
      · exact hdone _ h
      · simp only [pure, Except.pure, Except.ok.injEq, Prod.mk.injEq] at h
        rw [← h.2]; exact hu

/-- C6 (witness): a `PUT` on `/api/lots/2/` with the body `{quantite: 9}` keeps the ids of
the lots 1, 2, 3 pairwise distinct. -/
theorem c6_unique_ids_preserved_witness :
    ∃ (v : JVal) (ls' : Storage),
      demoRequest "t" (lotPath ['2']) (putJson (.obj [("quantite", .num 9)])) threeLots =
        .ok (v, ls') ∧ UniqueIds ls' :=
  ⟨_, _, rfl,
    c6_unique_ids_preserved "t" (lotPath ['2']) (putJson (.obj [("quantite", .num 9)]))
      threeLots _ _ rfl threeLots_unique rfl rfl threeLots_inRange⟩

/-! ### Requests that no route takes (C21) -/

/-- C21 (counterexample): a `DELETE` on `/api/notifications/5/`, which none of the three
notification routes takes, returns the three stored notifications, not the empty list
(storage is left as it was). -/
theorem c21_notifications_fall_through :
    demoRequest "t" "/api/notifications/5/" deleteOptions threeNotifications =
      .ok (.arr [
        .obj [("id_notification", .num 1), ("message", .str "stock bas")],
        .obj [("id_notification", .num 2), ("utilisateur", .num 4)],
        .obj [("id_notification", .num 3), ("utilisateur", .num 5)]], threeNotifications) := by
  rfl

theorem jsOr_jsOr (v : JVal) : jsOr (jsOr v (.arr [])) (.arr []) = jsOr v (.arr []) := by
  by_cases h : truthy v = true
  · have h1 : jsOr v (.arr []) = v := by simp [jsOr, h]
    rw [h1, h1]
  · have h1 : jsOr v (.arr []) = .arr [] := by simp [jsOr, h]
    rw [h1]
    rfl

theorem append_ne_of_not_prefix (pre rest X : List Char) (h : pre.isPrefixOf X = false) :
    pre ++ rest ≠ X := by
  intro he
  subst he
  rw [isPrefixOf_append] at h
  simp [isPrefixOf_refl] at h

theorem append_of_startsWith (path : List Char) (p : String) (h : startsWith path p = true) :
    ∃ rest, path = p.toList ++ rest := by
  unfold startsWith at h
  obtain ⟨rest, hrest⟩ := List.isPrefixOf_iff_prefix.1 h
  exact ⟨rest, hrest.symm⟩

/-- A request under `/api/notifications/` that none of the three notification routes takes
reaches the end of the notification block. -/
theorem notifications_fall_through (now : String) (endpoint : String) (options : Options)
    (ls : Storage) (fs : Fields)
    (h : notificationsUnrouted (pathOf endpoint) (queryOf endpoint) (methodOf options) = true)
    (hfs : getDemoData ls = .obj fs) :
    demoRequest now endpoint options ls =
      .ok (jsOr (getField fs "notifications") (.arr []), ls) := by
  unfold notificationsUnrouted at h
  simp only [Bool.and_eq_true, Bool.not_eq_true', Option.isNone_iff_eq_none] at h
  obtain ⟨⟨⟨⟨⟨hsw, hA⟩, hV⟩, hgen⟩, hpost⟩, hq⟩ := h
  obtain ⟨rest, hp⟩ := append_of_startsWith _ _ hsw
  rw [hp] at hsw hA hV hgen hpost
  have e1 : ("/api/notifications/".toList ++ rest = "/api/approvisionnements/".toList) =
      False := by
    simp only [eq_iff_iff, iff_false]
    exact append_ne_of_not_prefix _ _ _ (by decide)
  have e2 : ("/api/notifications/".toList ++ rest =
      "/api/approvisionnements/stats/".toList) = False := by
    simp only [eq_iff_iff, iff_false]
    exact append_ne_of_not_prefix _ _ _ (by decide)
  have e3 : ("/api/notifications/".toList ++ rest = "/api/ventes/".toList) = False := by
    simp only [eq_iff_iff, iff_false]
    exact append_ne_of_not_prefix _ _ _ (by decide)
  have e4 : ("/api/notifications/".toList ++ rest =
      "/api/ventes/creer_avec_lignes/".toList) = False := by
    simp only [eq_iff_iff, iff_false]
    exact append_ne_of_not_prefix _ _ _ (by decide)
  unfold demoRequest
  simp only [hp, hfs]
  rw [startsWith_mismatch _ _ _ (by decide), startsWith_mismatch _ _ _ (by decide),
    startsWith_mismatch _ _ _ (by decide), startsWith_mismatch _ _ _ (by decide),
    startsWith_mismatch _ _ _ (by decide), startsWith_mismatch "/api/livraisons/" _ _
      (by decide), hsw]
  simp only [e1, e2, e3, e4, hA, hV, Bool.false_eq_true, if_false, if_true, decide_False,
    Bool.false_and, Bool.and_false]
  unfold notificationsRoute
  simp only [getProp, setProp, propAfterSet, bind, Except.bind, pure, Except.pure, hgen,
    hpost, Bool.false_eq_true, if_false, jsOr_jsOr]
  simp only [Bool.and_eq_true, hq]

/-- C21 (amended): a request that none of the routes takes (`unrouted`: the path starts with
none of the route prefixes, is none of the exact route paths with their methods, and matches
no action pattern with `POST`) returns the empty list and leaves storage as it was, whatever
the stored document.  A request under `/api/notifications/` that none of the three
notification routes takes (`notificationsUnrouted`: any method other than `GET` and `POST`,
a `POST` on another path than the block's two, a `GET` without `utilisateur=` and a digit in
its query) is not such a request: it returns the stored notifications (the empty list only
when there is none), also leaving storage as it was. -/
theorem c21_unrouted_requests (now : String) (endpoint : String) (options : Options)
    (ls : Storage) :
    (unrouted (pathOf endpoint) (methodOf options) = true →
      demoRequest now endpoint options ls = .ok (.arr [], ls)) ∧
    (notificationsUnrouted (pathOf endpoint) (queryOf endpoint) (methodOf options) = true →
      IsObj (getDemoData ls) →
      demoRequest now endpoint options ls =
        .ok (jsOr (propOf (getDemoData ls) "notifications") (.arr []), ls)) ∧
    (∀ rest : List Char, pathOf endpoint = "/api/notifications/".toList ++ rest →
      methodOf options ≠ "GET" → methodOf options ≠ "POST" →
      notificationsUnrouted (pathOf endpoint) (queryOf endpoint) (methodOf options) = true) := by
  refine ⟨?_, ?_, ?_⟩
  · intro h
    unfold unrouted at h
    simp only [Bool.and_eq_true, Bool.not_eq_true', Option.isNone_iff_eq_none] at h
    obtain ⟨⟨⟨⟨⟨⟨⟨⟨⟨⟨⟨⟨⟨⟨⟨⟨⟨⟨h1, h2⟩, h3⟩, h4⟩, h5⟩, h6⟩, h7⟩, h8⟩, h9⟩, h10⟩, h11⟩, h12⟩,
      h13⟩, h14⟩, h15⟩, h16⟩, h17⟩, h18⟩, h19⟩ := h
    have h8' : (pathOf endpoint = "/api/approvisionnements/stats/".toList) = False := by
      simp only [eq_iff_iff, iff_false]; simpa using h8
    have h10' : (pathOf endpoint = "/api/ventes/".toList) = False := by
      simp only [eq_iff_iff, iff_false]; simpa using h10
    unfold demoRequest
    simp only [h1, h2, h3, h4, h5, h6, h7, h8', h9, h10', h11, h12, h13, h14, h15, h16, h17,
      h18, h19, Bool.false_eq_true, if_false]
    rfl
  · intro h hobj
    obtain ⟨fs, hfs⟩ := hobj
    rw [notifications_fall_through now endpoint options ls fs h hfs, hfs]
    rfl
  · intro rest hp hg hpost
    have hsw : startsWith ("/api/notifications/".toList ++ rest) "/api/notifications/" =
        true := by
      rw [startsWith, isPrefixOf_append]
      have h1 : List.drop "/api/notifications/".toList.length "/api/notifications/".toList =
          [] := by decide
      have h2 : (List.take "/api/notifications/".toList.length
          "/api/notifications/".toList).isPrefixOf "/api/notifications/".toList = true := by
        decide
      rw [h1, h2]
      simp [List.isPrefixOf]
    unfold notificationsUnrouted
    rw [hp, hsw]
    simp [hg, hpost]

/-- C21 (witness): `PUT` and `DELETE` on `/api/approvisionnements/`, `GET` on
`/api/ventes/creer_avec_lignes/` and a `POST` on `/api/reports/` return the empty list and
leave storage as it was; a `POST` on `/api/notifications/12/lire/`, a `GET` on
`/api/notifications/?lu=false` and a `PATCH` on `/api/notifications/2/` return the three
stored notifications and leave storage as it was. -/
theorem c21_unrouted_requests_witness :
    demoRequest "t" "/api/approvisionnements/" (withMethod "PUT") sampleOrders =
      .ok (.arr [], sampleOrders) ∧
    demoRequest "t" "/api/approvisionnements/" (withMethod "DELETE") sampleOrders =
      .ok (.arr [], sampleOrders) ∧
    demoRequest "t" "/api/ventes/creer_avec_lignes/" (withMethod "GET") threeNotifications =
      .ok (.arr [], threeNotifications) ∧
    demoRequest "t" "/api/reports/" (withMethod "POST") threeNotifications =
      .ok (.arr [], threeNotifications) ∧
    demoRequest "t" "/api/notifications/12/lire/" (withMethod "POST") threeNotifications =
      .ok (.arr (storedNotifications threeNotifications), threeNotifications) ∧
    demoRequest "t" "/api/notifications/?lu=false" (withMethod "GET") threeNotifications =
      .ok (.arr (storedNotifications threeNotifications), threeNotifications) ∧
    demoRequest "t" "/api/notifications/2/" (withMethod "PATCH") threeNotifications =
      .ok (.arr (storedNotifications threeNotifications), threeNotifications) :=
  ⟨(c21_unrouted_requests "t" "/api/approvisionnements/" (withMethod "PUT") sampleOrders).1
      (by decide),
    (c21_unrouted_requests "t" "/api/approvisionnements/" (withMethod "DELETE")
      sampleOrders).1 (by decide),
    (c21_unrouted_requests "t" "/api/ventes/creer_avec_lignes/" (withMethod "GET")
      threeNotifications).1 (by decide),
    (c21_unrouted_requests "t" "/api/reports/" (withMethod "POST") threeNotifications).1
      (by decide),
    (c21_unrouted_requests "t" "/api/notifications/12/lire/" (withMethod "POST")
      threeNotifications).2.1 (by decide) ⟨_, rfl⟩,
    (c21_unrouted_requests "t" "/api/notifications/?lu=false" (withMethod "GET")
      threeNotifications).2.1 (by decide) ⟨_, rfl⟩,
    (c21_unrouted_requests "t" "/api/notifications/2/" (withMethod "PATCH")
      threeNotifications).2.1 (by decide) ⟨_, rfl⟩⟩

/-! ### Idempotence of the order actions (C22) -/

theorem jsonify_ne_undefined (v : JVal) : jsonify v ≠ .undefined := by
  cases v <;> simp [jsonify]

theorem lookupLast_none_iff (fs : Fields) (k : String) :
    lookupLast fs k = none ↔ ∀ e ∈ fs, e.1 ≠ k := by
  induction fs with
  | nil => simp [lookupLast]
  | cons e fs ih =>
    obtain ⟨k0, v0⟩ := e
    rw [lookupLast_cons]
    constructor
    · intro h
      cases hl : lookupLast fs k with
      | some w => rw [hl] at h; cases h
      | none =>
        rw [hl] at h
        simp only at h
        have hk : ¬ k0 = k := by
          intro hk; rw [if_pos hk] at h; cases h
        intro e he
        rcases List.mem_cons.1 he with rfl | he
        · exact hk
        · exact ih.1 hl e he
    · intro h
      have hl : lookupLast fs k = none := ih.2 (fun e he => h e (List.mem_cons_of_mem _ he))
      have hk : ¬ k0 = k := h (k0, v0) (List.mem_cons_self _ _)
      rw [hl]
      simp [hk]

mutual
theorem jsonify_idem : (v : JVal) → jsonify (jsonify v) = jsonify v
  | .undefined => rfl
  | .null => rfl
  | .nan => rfl
  | .bool _ => rfl
  | .num _ => rfl
  | .str _ => rfl
  | .arr xs => by
    simp only [jsonify]
    rw [jsonifyList_idem xs]
  | .obj fs => by
    simp only [jsonify]
    rw [jsonifyFields_idem fs]
theorem jsonifyList_idem : (xs : List JVal) → jsonifyList (jsonifyList xs) = jsonifyList xs
  | [] => rfl
  | x :: xs => by
    simp only [jsonifyList]
    rw [jsonify_idem x, jsonifyList_idem xs]
theorem jsonifyFields_idem :
    (fs : List (String × JVal)) → jsonifyFields (jsonifyFields fs) = jsonifyFields fs
  | [] => rfl
  | (k, v) :: fs => by
    rw [jsonifyFields_cons]
    by_cases h : (lookupLast fs k).isSome = true
    · rw [if_pos h]
      exact jsonifyFields_idem fs
    · rw [if_neg h]
      have hnone : lookupLast fs k = none := by
        cases hl : lookupLast fs k with
        | none => rfl
        | some w => rw [hl] at h; exact absurd rfl h
      have hj : (lookupLast (jsonifyFields fs) k).isSome = false := by
        rw [lookupLast_jsonifyFields, hnone]; rfl
      have hv := jsonify_idem v
      have hfs := jsonifyFields_idem fs
      have step : ∀ u : JVal, u ≠ .undefined → jsonify u = u →
          jsonifyFields ((k, u) :: jsonifyFields fs) = (k, u) :: jsonifyFields fs := by
        intro u hu hfix
        rw [jsonifyFields_cons, hj, hfs]
        simp only [Bool.false_eq_true, if_false]
        cases u with
        | undefined => exact absurd rfl hu
        | null => rfl
        | nan => cases hfix
        | bool b => rfl
        | num n => rfl
        | str s => rfl
        | arr xs => rw [hfix]
        | obj gs => rw [hfix]
      cases v with
      | undefined => exact hfs
      | null => exact step _ (by simp [jsonify]) hv
      | nan => exact step _ (by simp [jsonify]) hv
      | bool b => exact step _ (by simp [jsonify]) hv
      | num n => exact step _ (by simp [jsonify]) hv
      | str s => exact step _ (by simp [jsonify]) hv
      | arr xs => exact step _ (by simp [jsonify]) hv
      | obj gs => exact step _ (by simp [jsonify]) hv
end

theorem lookupLast_mem (fs : Fields) (k : String) (v : JVal) (h : lookupLast fs k = some v) :
    (k, v) ∈ fs := by
  induction fs with
  | nil => cases h
  | cons e fs ih =>
    obtain ⟨k0, v0⟩ := e
    rw [lookupLast_cons] at h
    cases hl : lookupLast fs k with
    | some w =>
      rw [hl] at h
      simp only [Option.some.injEq] at h
      subst h
      exact List.mem_cons_of_mem _ (ih hl)
    | none =>
      rw [hl] at h
      simp only at h
      by_cases hk : k0 = k
      · rw [if_pos hk] at h
        simp only [Option.some.injEq] at h
        subst hk; subst h
        exact List.mem_cons_self _ _
      · rw [if_neg hk] at h; cases h

theorem lookupLast_of_mem (fs : Fields) (k : String) (v : JVal)
    (hnd : (fs.map Prod.fst).Nodup) (h : (k, v) ∈ fs) : lookupLast fs k = some v := by
  induction fs with
  | nil => cases h
  | cons e fs ih =>
    obtain ⟨k0, v0⟩ := e
    simp only [List.map_cons, List.nodup_cons] at hnd
    rw [lookupLast_cons]
    rcases List.mem_cons.1 h with he | he
    · simp only [Prod.mk.injEq] at he
      obtain ⟨rfl, rfl⟩ := he
      have hl : lookupLast fs k = none := by
        rw [lookupLast_none_iff]
        intro e he hk
        exact hnd.1 (List.mem_map.2 ⟨e, he, hk⟩)
      rw [hl]
      simp
    · rw [ih hnd.2 he]

theorem objSet_present (fs : Fields) (k : String) (v : JVal)
    (h : (lookupLast fs k).isSome = true) :
    objSet fs k v = fs.map (fun e => if e.1 = k then (k, v) else e) := by
  unfold objSet
  rw [if_pos h]

theorem objSet_absent (fs : Fields) (k : String) (v : JVal) (h : lookupLast fs k = none) :
    objSet fs k v = fs ++ [(k, v)] := by
  unfold objSet
  rw [h]
  rfl

/-- Writing the value a property already has changes nothing. -/
theorem objSet_same (fs : Fields) (k : String) (v : JVal) (hnd : (fs.map Prod.fst).Nodup)
    (h : lookupLast fs k = some v) : objSet fs k v = fs := by
  rw [objSet_present fs k v (by rw [h]; rfl)]
  have hmap : fs.map (fun e => if e.1 = k then (k, v) else e) = fs.map (fun e => e) := by
    apply List.map_congr_left
    intro e he
    by_cases hk : e.1 = k
    · rw [if_pos hk]
      obtain ⟨k0, v0⟩ := e
      simp only at hk
      subst hk
      have := lookupLast_of_mem fs k0 v0 hnd he
      rw [h] at this
      injection this with this
      rw [this]
    · rw [if_neg hk]
  rw [hmap, List.map_id']

theorem foldl_objSet_append (es acc : Fields) (hnd : (es.map Prod.fst).Nodup)
    (hdis : ∀ e ∈ es, lookupLast acc e.1 = none) :
    es.foldl (fun a e => objSet a e.1 e.2) acc = acc ++ es := by
  induction es generalizing acc with
  | nil => simp
  | cons e es ih =>
    simp only [List.map_cons, List.nodup_cons] at hnd
    simp only [List.foldl_cons]
    rw [objSet_absent acc e.1 e.2 (hdis e (List.mem_cons_self _ _))]
    rw [ih (acc ++ [(e.1, e.2)]) hnd.2]
    · simp
    · intro e' he'
      rw [lookupLast_append_one, hdis e' (List.mem_cons_of_mem _ he')]
      have hne : ¬ e.1 = e'.1 := by
        intro heq
        exact hnd.1 (List.mem_map.2 ⟨e', he', heq.symm⟩)
      simp [hne]

/-- The spread of a record without repeated keys is the record. -/
theorem spread_nil_nodup (fs : Fields) (hnd : (fs.map Prod.fst).Nodup) :
    spread [] (.obj fs) = fs := by
  unfold spread
  have h0 : ownEntries (JVal.obj fs) = fs := rfl
  rw [h0, foldl_objSet_append fs [] hnd (fun _ _ => rfl)]
  rfl

theorem tidy_objSet (fs : Fields) (k : String) (w : JVal) (h : Tidy fs)
    (hw : w ≠ .undefined) : Tidy (objSet fs k w) := by
  obtain ⟨hnd, hval⟩ := h
  cases hl : lookupLast fs k with
  | none =>
    rw [objSet_absent fs k w hl]
    constructor
    · rw [List.map_append, List.nodup_append]
      refine ⟨hnd, by simp, ?_⟩
      intro a ha hb
      simp only [List.map_cons, List.map_nil, List.mem_singleton] at hb
      subst hb
      obtain ⟨e, he, hek⟩ := List.mem_map.1 ha
      exact (lookupLast_none_iff fs _).1 hl e he hek
    · intro e he
      rcases List.mem_append.1 he with he | he
      · exact hval e he
      · simp only [List.mem_singleton] at he
        subst he; exact hw
  | some x =>
    rw [objSet_present fs k w (by rw [hl]; rfl)]
    constructor
    · have : (fs.map (fun e => if e.1 = k then (k, w) else e)).map Prod.fst =
          fs.map Prod.fst := by
        rw [List.map_map]
        apply List.map_congr_left
        intro e _
        simp only [Function.comp]
        split
        · rename_i hk; exact hk.symm
        · rfl
      rw [this]; exact hnd
    · intro e he
      obtain ⟨e0, he0, rfl⟩ := List.mem_map.1 he
      split
      · exact hw
      · exact hval e0 he0

/-- On a tidy property list the round trip is the round trip of the values. -/
theorem jsonifyFields_tidy (fs : Fields) (h : Tidy fs) : jsonifyFields fs = mapValues fs := by
  induction fs with
  | nil => rfl
  | cons e fs ih =>
    obtain ⟨k, v⟩ := e
    obtain ⟨hnd, hval⟩ := h
    simp only [List.map_cons, List.nodup_cons] at hnd
    have hl : lookupLast fs k = none := by
      rw [lookupLast_none_iff]
      intro e he hk
      exact hnd.1 (List.mem_map.2 ⟨e, he, hk⟩)
    have hv : v ≠ .undefined := hval (k, v) (List.mem_cons_self _ _)
    have ih' := ih ⟨hnd.2, fun e he => hval e (List.mem_cons_of_mem _ he)⟩
    cases v with
    | undefined => exact absurd rfl hv
    | null => rw [jsonifyFields_cons, hl, ih']; rfl
    | nan => rw [jsonifyFields_cons, hl, ih']; rfl
    | bool b => rw [jsonifyFields_cons, hl, ih']; rfl
    | num n => rw [jsonifyFields_cons, hl, ih']; rfl
    | str s => rw [jsonifyFields_cons, hl, ih']; rfl
    | arr xs => rw [jsonifyFields_cons, hl, ih']; rfl
    | obj gs => rw [jsonifyFields_cons, hl, ih']; rfl

theorem tidy_jsonifyFields (fs : Fields) : Tidy (jsonifyFields fs) := by
  induction fs with
  | nil => exact ⟨List.nodup_nil, fun e he => by cases he⟩
  | cons e fs ih =>
    obtain ⟨k, v⟩ := e
    rw [jsonifyFields_cons]
    by_cases h : (lookupLast fs k).isSome = true
    · rw [if_pos h]; exact ih
    · rw [if_neg h]
      have hnone : lookupLast fs k = none := by
        cases hl : lookupLast fs k with
        | none => rfl
        | some w => rw [hl] at h; exact absurd rfl h
      have hj : lookupLast (jsonifyFields fs) k = none := by
        rw [lookupLast_jsonifyFields, hnone]; rfl
      have step : ∀ u : JVal, u ≠ .undefined → Tidy ((k, u) :: jsonifyFields fs) := by
        intro u hu
        constructor
        · simp only [List.map_cons, List.nodup_cons]
          refine ⟨?_, ih.1⟩
          intro hmem
          obtain ⟨e, he, hek⟩ := List.mem_map.1 hmem
          exact (lookupLast_none_iff _ _).1 hj e he hek
        · intro e he
          rcases List.mem_cons.1 he with rfl | he
          · exact hu
          · exact ih.2 e he
      cases v with
      | undefined => exact ih
      | null => exact step _ (by simp [jsonify])
      | nan => exact step _ (by simp [jsonify])
      | bool b => exact step _ (by simp [jsonify])
      | num n => exact step _ (by simp [jsonify])
      | str s => exact step _ (by simp [jsonify])
      | arr xs => exact step _ (by simp [jsonify])
      | obj gs => exact step _ (by simp [jsonify])

theorem lookupLast_mapValues_isSome (fs : Fields) (k : String) :
    (lookupLast (mapValues fs) k).isSome = (lookupLast fs k).isSome := by
  induction fs with
  | nil => rfl
  | cons e fs ih =>
    obtain ⟨k0, v0⟩ := e
    simp only [mapValues, List.map_cons] at ih ⊢
    rw [lookupLast_cons, lookupLast_cons]
    cases h1 : lookupLast (List.map (fun e => (e.1, jsonify e.2)) fs) k <;>
      cases h2 : lookupLast fs k <;> simp_all
    split <;> rfl

/-- On a tidy property list the round trip commutes with a property write. -/
theorem jsonifyFields_objSet (fs : Fields) (k : String) (w : JVal) (h : Tidy fs)
    (hw : w ≠ .undefined) :
    jsonifyFields (objSet fs k w) = objSet (jsonifyFields fs) k (jsonify w) := by
  rw [jsonifyFields_tidy _ (tidy_objSet fs k w h hw), jsonifyFields_tidy fs h]
  cases hl : lookupLast fs k with
  | none =>
    have hl' : lookupLast (mapValues fs) k = none := by
      have := lookupLast_mapValues_isSome fs k
      rw [hl] at this
      cases hx : lookupLast (mapValues fs) k with
      | none => rfl
      | some x => rw [hx] at this; cases this
    rw [objSet_absent fs k w hl, objSet_absent _ k _ hl']
    simp [mapValues]
  | some x =>
    have hs : (lookupLast fs k).isSome = true := by rw [hl]; rfl
    have hs' : (lookupLast (mapValues fs) k).isSome = true := by
      rw [lookupLast_mapValues_isSome]; exact hs
    rw [objSet_present fs k w hs, objSet_present _ k _ hs']
    simp only [mapValues, List.map_map]
    apply List.map_congr_left
    intro e _
    simp only [Function.comp]
    split <;> rfl

theorem jsonifyFields_append_undefined (fs : Fields) (k : String)
    (h : lookupLast fs k = none) :
    jsonifyFields (fs ++ [(k, .undefined)]) = jsonifyFields fs := by
  induction fs with
  | nil => rfl
  | cons e fs ih =>
    obtain ⟨k0, v0⟩ := e
    have hne : ¬ k0 = k := (lookupLast_none_iff _ _).1 h (k0, v0) (List.mem_cons_self _ _)
    have hrest : lookupLast fs k = none := by
      rw [lookupLast_none_iff] at h ⊢
      intro e he
      exact h e (List.mem_cons_of_mem _ he)
    have hne' : ¬ k = k0 := fun hh => hne hh.symm
    rw [List.cons_append, jsonifyFields_cons, jsonifyFields_cons, lookupLast_append_one,
      ih hrest]
    simp only [hne', if_false]

/-- Writing, into a tidy list `H` whose round trip is `G`, a value whose round trip is the
one `G` already holds under that key, gives a tidy list whose round trip is still `G`. -/
theorem roundtrip_set (H G : Fields) (k : String) (w : JVal) (hH : Tidy H)
    (hG : (G.map Prod.fst).Nodup) (hHG : jsonifyFields H = G) (hw : w ≠ .undefined)
    (hl : lookupLast G k = some (jsonify w)) :
    Tidy (objSet H k w) ∧ jsonifyFields (objSet H k w) = G := by
  refine ⟨tidy_objSet H k w hH hw, ?_⟩
  rw [jsonifyFields_objSet H k w hH hw, hHG]
  exact objSet_same G k _ hG hl

theorem clean_field (lf : Fields) (k : String) (h : jsonify (.obj lf) = .obj lf) :
    jsonField (getField lf k) = getField lf k := by
  have h' : JVal.obj (jsonifyFields lf) = JVal.obj lf := by simpa [jsonify] using h
  have h2 : jsonifyFields lf = lf := by injection h'
  have := getField_jsonifyFields lf k
  rw [h2] at this
  exact this.symm

theorem ofNum_ne_undefined (q : Option Int) : ofNum q ≠ .undefined := by
  cases q <;> simp [ofNum]

theorem getField_receivedFields (payload : JVal) (lf : Fields) (k : String)
    (h1 : k ≠ "quantite_recue") (h2 : k ≠ "statut_ligne") :
    propOf (jsonify (receivedLine payload (.obj lf))) k = jsonField (getField lf k) := by
  unfold receivedLine
  rw [propOf_jsonify_obj, getField_objSet_other _ _ _ _ (fun h => h2 h.symm),
    getField_objSet_other _ _ _ _ (fun h => h1 h.symm), getField_spread_nil]

/-- The quantities the simulator reads from a stored line are the same after the line has
been written by a delivery and read back. -/
theorem received_roundtrip (payload : JVal) (lf : Fields)
    (hc : jsonify (.obj lf) = .obj lf) :
    orderedOf (jsonify (receivedLine payload (.obj lf))) = orderedOf (.obj lf) ∧
      receivedOf payload (jsonify (receivedLine payload (.obj lf))) =
        receivedOf payload (.obj lf) := by
  have ho : orderedOf (jsonify (receivedLine payload (.obj lf))) = orderedOf (.obj lf) := by
    unfold orderedOf
    rw [getField_receivedFields payload lf _ (by decide) (by decide), clean_field lf _ hc]
    rfl
  have hr : receptionFor payload (jsonify (receivedLine payload (.obj lf))) =
      receptionFor payload (.obj lf) := by
    unfold receptionFor
    rw [getField_receivedFields payload lf _ (by decide) (by decide), clean_field lf _ hc]
    rfl
  refine ⟨ho, ?_⟩
  unfold receivedOf
  rw [hr, ho]

/-- A delivery applied to a line that a delivery with the same body has written stores the
same line. -/
theorem receivedLine_idem (payload l : JVal) (hl : IsObj l) (hc : jsonify l = l) :
    jsonify (receivedLine payload (jsonify (receivedLine payload l))) =
      jsonify (receivedLine payload l) := by
  obtain ⟨lf, rfl⟩ := hl
  obtain ⟨ho, hq⟩ := received_roundtrip payload lf hc
  have hfirst : ∃ F, receivedLine payload (.obj lf) = .obj F ∧
      lookupLast F "quantite_recue" = some (ofNum (receivedOf payload (.obj lf))) ∧
      lookupLast F "statut_ligne" = some (.str (if numGe (receivedOf payload (.obj lf))
        (orderedOf (.obj lf)) then "delivered" else "partial")) := by
    refine ⟨_, rfl, ?_, ?_⟩
    · rw [lookupLast_objSet, lookupLast_objSet]
      simp
    · rw [lookupLast_objSet]
      simp
  obtain ⟨F, hF, hF1, hF2⟩ := hfirst
  have hG : jsonify (receivedLine payload (.obj lf)) = .obj (jsonifyFields F) := by
    rw [hF]; simp [jsonify]
  have hT := tidy_jsonifyFields F
  have hsecond : receivedLine payload (.obj (jsonifyFields F)) =
      .obj (objSet (objSet (jsonifyFields F) "quantite_recue"
        (ofNum (receivedOf payload (.obj lf)))) "statut_ligne"
        (.str (if numGe (receivedOf payload (.obj lf)) (orderedOf (.obj lf))
          then "delivered" else "partial"))) := by
    rw [hG] at ho hq
    unfold receivedLine
    rw [ho, hq, spread_nil_nodup _ hT.1]
  rw [hG, hsecond]
  obtain ⟨hT1, hJ1⟩ := roundtrip_set (jsonifyFields F) (jsonifyFields F) "quantite_recue"
    (ofNum (receivedOf payload (.obj lf))) hT hT.1 (jsonifyFields_idem F)
    (ofNum_ne_undefined _) (by
      rw [lookupLast_jsonifyFields, hF1]
      cases receivedOf payload (.obj lf) <;> rfl)
  obtain ⟨-, hJ2⟩ := roundtrip_set _ (jsonifyFields F) "statut_ligne"
    (.str (if numGe (receivedOf payload (.obj lf)) (orderedOf (.obj lf))
      then "delivered" else "partial")) hT1 hT.1 hJ1 (by simp) (by
      rw [lookupLast_jsonifyFields, hF2]; rfl)
  simp only [jsonify]
  rw [hJ2]

theorem sum_received (payload : JVal) (L : List JVal) (g : JVal → JVal)
    (hg : ∀ l ∈ L, receivedOf payload (g l) = receivedOf payload l) :
    ((L.map g).map (receivedLine payload)).foldl
        (fun sum l => sum + numOrZero (propOf l "quantite_recue")) (0 : Int) =
      (L.map (receivedLine payload)).foldl
        (fun sum l => sum + numOrZero (propOf l "quantite_recue")) (0 : Int) := by
  have key : ∀ (acc : Int), ((L.map g).map (receivedLine payload)).foldl
        (fun sum l => sum + numOrZero (propOf l "quantite_recue")) acc =
      (L.map (receivedLine payload)).foldl
        (fun sum l => sum + numOrZero (propOf l "quantite_recue")) acc := by
    induction L with
    | nil => intro acc; rfl
    | cons l L ih =>
      intro acc
      simp only [List.map_cons, List.foldl_cons]
      rw [propOf_receivedLine_recue, propOf_receivedLine_recue,
        hg l (List.mem_cons_self _ _)]
      exact ih (fun x hx => hg x (List.mem_cons_of_mem _ hx)) _
  exact key 0

theorem jsonify_arr (xs : List JVal) : jsonify (.arr xs) = .arr (xs.map jsonify) := by
  simp [jsonify, jsonifyList_eq_map]

/-- An action applied to an order that the same action with the same body has written
stores the same order. -/
theorem actedOrder_idem (id : Nat) (action : String) (payload a : JVal) (ha : OrderShape a)
    (hc : jsonify a = a) (hact : action ∈ ["mark_in_transit", "mark_delivered", "cancel"]) :
    jsonify (actedOrder id action payload (jsonify (actedOrder id action payload a))) =
      jsonify (actedOrder id action payload a) := by
  by_cases ht : isTarget id a = true
  swap
  · have h1 : actedOrder id action payload a = a := by
      unfold actedOrder; simp [ht]
    rw [h1, hc, h1]
    exact hc
  obtain ⟨hshape1, htarget1⟩ := acted_shape id action payload a ha
  have ht1 := (htarget1 id).trans ht
  obtain ⟨⟨af, rfl⟩, hlines⟩ := ha
  have hcf : jsonifyFields af = af := by
    have h' : JVal.obj (jsonifyFields af) = JVal.obj af := by simpa [jsonify] using hc
    injection h'
  have hTa : Tidy af := by
    have := tidy_jsonifyFields af
    rw [hcf] at this; exact this
  have hsp : spread [] (JVal.obj af) = af := spread_nil_nodup af hTa.1
  simp only [List.mem_cons, List.mem_singleton, List.not_mem_nil, or_false] at hact
  rcases hact with rfl | rfl | rfl
  · -- mark_in_transit
    have hA : actedOrder id "mark_in_transit" payload (.obj af) =
        .obj (objSet af "statut_approvisionnement" (.str "in_transit")) := by
      unfold actedOrder; simp [ht, hsp]
    rw [hA] at ht1 ⊢
    have hJ : jsonify (.obj (objSet af "statut_approvisionnement" (.str "in_transit"))) =
        .obj (jsonifyFields (objSet af "statut_approvisionnement" (.str "in_transit"))) := by
      simp [jsonify]
    rw [hJ] at ht1 ⊢
    generalize hG : jsonifyFields (objSet af "statut_approvisionnement" (.str "in_transit")) = G
      at ht1
    have hT : Tidy G := by rw [← hG]; exact tidy_jsonifyFields _
    have hfix : jsonifyFields G = G := by rw [← hG]; exact jsonifyFields_idem _
    have hl : lookupLast G "statut_approvisionnement" = some (.str "in_transit") := by
      rw [← hG, lookupLast_jsonifyFields, lookupLast_objSet]
      simp [jsonProp, jsonify]
    have hB : actedOrder id "mark_in_transit" payload (.obj G) =
        .obj (objSet G "statut_approvisionnement" (.str "in_transit")) := by
      unfold actedOrder; simp [ht1, spread_nil_nodup G hT.1]
    rw [hB]
    obtain ⟨-, h2⟩ := roundtrip_set G G "statut_approvisionnement" (.str "in_transit") hT hT.1
      hfix (by simp) hl
    simp only [jsonify]
    rw [h2]
  · -- mark_delivered
    obtain ⟨L0, hL0, hobjs⟩ := hlines
    have hel : elemsOf (propOf (.obj af) "lignes") = L0 := elemsOf_of_listOrEmpty _ _ hL0
    have hfixed : ∀ l ∈ L0, jsonify l = l := by
      have := stored_clean (.obj af) "lignes" hc
      rw [hel] at this
      exact map_fixed jsonify L0 this
    have hA : actedOrder id "mark_delivered" payload (.obj af) =
        .obj (objSet (objSet (objSet af "statut_approvisionnement" (.str "delivered"))
          "total_quantite_recue" (.num ((L0.map (receivedLine payload)).foldl
            (fun sum l => sum + numOrZero (propOf l "quantite_recue")) (0 : Int))))
          "lignes" (.arr (L0.map (receivedLine payload)))) := by
      unfold actedOrder
      simp only [ht, Bool.not_true, Bool.false_eq_true, if_false]
      rw [if_neg (by decide), if_neg (by decide)]
      simp only [if_true]
      unfold deliveredOrder
      rw [hsp, hel]
    rw [hA] at ht1 ⊢
    generalize hT1 : (L0.map (receivedLine payload)).foldl
            (fun sum l => sum + numOrZero (propOf l "quantite_recue")) (0 : Int) = T1
      at ht1
    have hJ : ∀ F : Fields, jsonify (.obj F) = .obj (jsonifyFields F) := fun F => by
      simp [jsonify]
    rw [hJ] at ht1 ⊢
    generalize hG : jsonifyFields (objSet (objSet (objSet af "statut_approvisionnement"
      (.str "delivered")) "total_quantite_recue" (.num T1)) "lignes"
      (.arr (L0.map (receivedLine payload)))) = G at ht1
    have hT : Tidy G := by rw [← hG]; exact tidy_jsonifyFields _
    have hfix : jsonifyFields G = G := by rw [← hG]; exact jsonifyFields_idem _
    have hl1 : lookupLast G "statut_approvisionnement" = some (.str "delivered") := by
      rw [← hG, lookupLast_jsonifyFields, lookupLast_objSet, lookupLast_objSet,
        lookupLast_objSet]
      simp [jsonProp, jsonify]
    have hl2 : lookupLast G "total_quantite_recue" = some (.num T1) := by
      rw [← hG, lookupLast_jsonifyFields, lookupLast_objSet, lookupLast_objSet]
      simp [jsonProp, jsonify]
    have hl3 : lookupLast G "lignes" =
        some (.arr ((L0.map (receivedLine payload)).map jsonify)) := by
      rw [← hG, lookupLast_jsonifyFields, lookupLast_objSet]
      simp [jsonProp, jsonify, jsonifyList_eq_map]
    have hel1 : elemsOf (propOf (.obj G) "lignes") =
        (L0.map (fun l => jsonify (receivedLine payload l))) := by
      have : propOf (.obj G) "lignes" =
          .arr ((L0.map (receivedLine payload)).map jsonify) := by
        simp only [propOf, getField, hl3]; rfl
      rw [this, elemsOf_arr, List.map_map]; rfl
    have hB : actedOrder id "mark_delivered" payload (.obj G) =
        .obj (objSet (objSet (objSet G "statut_approvisionnement" (.str "delivered"))
          "total_quantite_recue" (.num (((L0.map (fun l => jsonify (receivedLine payload l))).map
            (receivedLine payload)).foldl
            (fun sum l => sum + numOrZero (propOf l "quantite_recue")) (0 : Int))))
          "lignes" (.arr ((L0.map (fun l => jsonify (receivedLine payload l))).map
            (receivedLine payload)))) := by
      unfold actedOrder
      simp only [ht1, Bool.not_true, Bool.false_eq_true, if_false]
      rw [if_neg (by decide), if_neg (by decide)]
      simp only [if_true]
      unfold deliveredOrder
      rw [spread_nil_nodup G hT.1, hel1]
    have hsum := sum_received payload L0 (fun l => jsonify (receivedLine payload l))
      (fun l hl => by
        obtain ⟨lf, rfl⟩ := hobjs l hl
        exact (received_roundtrip payload lf (hfixed _ hl)).2)
    have hlines2 : ((L0.map (fun l => jsonify (receivedLine payload l))).map
        (receivedLine payload)).map jsonify = (L0.map (receivedLine payload)).map jsonify := by
      rw [List.map_map, List.map_map, List.map_map]
      apply List.map_congr_left
      intro l hl
      exact receivedLine_idem payload l (hobjs l hl) (hfixed l hl)
    rw [hB, hsum, hT1]
    obtain ⟨hH1, hJ1⟩ := roundtrip_set G G "statut_approvisionnement" (.str "delivered") hT
      hT.1 hfix (by simp) hl1
    obtain ⟨hH2, hJ2⟩ := roundtrip_set _ G "total_quantite_recue" (.num T1) hH1 hT.1 hJ1
      (by simp) hl2
    obtain ⟨-, hJ3⟩ := roundtrip_set _ G "lignes"
      (.arr ((L0.map (fun l => jsonify (receivedLine payload l))).map (receivedLine payload)))
      hH2 hT.1 hJ2 (by simp) (by
        rw [hl3, jsonify_arr, hlines2])
    rw [hJ, hJ3]
  · -- cancel
    have hA : actedOrder id "cancel" payload (.obj af) =
        .obj (objSet (objSet af "statut_approvisionnement" (.str "cancelled")) "notes"
          (jsOr (propOf payload "raison") (getField af "notes"))) := by
      unfold actedOrder
      simp only [ht, Bool.not_true, Bool.false_eq_true, if_false]
      rw [if_neg (by decide)]
      simp only [if_true]
      rw [hsp]
      rfl
    rw [hA] at ht1 ⊢
    have hJ : ∀ F : Fields, jsonify (.obj F) = .obj (jsonifyFields F) := fun F => by
      simp [jsonify]
    rw [hJ] at ht1 ⊢
    generalize hG : jsonifyFields (objSet (objSet af "statut_approvisionnement"
      (.str "cancelled")) "notes" (jsOr (propOf payload "raison") (getField af "notes"))) = G
      at ht1
    have hT : Tidy G := by rw [← hG]; exact tidy_jsonifyFields _
    have hfix : jsonifyFields G = G := by rw [← hG]; exact jsonifyFields_idem _
    have hl1 : lookupLast G "statut_approvisionnement" = some (.str "cancelled") := by
      rw [← hG, lookupLast_jsonifyFields, lookupLast_objSet, lookupLast_objSet]
      simp [jsonProp, jsonify]
    have hl2 : lookupLast G "notes" =
        jsonProp (some (jsOr (propOf payload "raison") (getField af "notes"))) := by
      rw [← hG, lookupLast_jsonifyFields, lookupLast_objSet]
      simp
    have hB : actedOrder id "cancel" payload (.obj G) =
        .obj (objSet (objSet G "statut_approvisionnement" (.str "cancelled")) "notes"
          (jsOr (propOf payload "raison") (getField G "notes"))) := by
      unfold actedOrder
      simp only [ht1, Bool.not_true, Bool.false_eq_true, if_false]
      rw [if_neg (by decide)]
      simp only [if_true]
      rw [spread_nil_nodup G hT.1]
      rfl
    rw [hB]
    obtain ⟨hH1, hJ1⟩ := roundtrip_set G G "statut_approvisionnement" (.str "cancelled") hT
      hT.1 hfix (by simp) hl1
    have hsome : ∀ v : JVal, v ≠ .undefined → jsonProp (some v) = some (jsonify v) := by
      intro v hv
      cases v <;> first | exact absurd rfl hv | rfl
    have hlH1 : lookupLast (objSet G "statut_approvisionnement" (.str "cancelled")) "notes" =
        lookupLast G "notes" := by
      rw [lookupLast_objSet]; simp
    by_cases hr : truthy (propOf payload "raison") = true
    · have hw : ∀ x, jsOr (propOf payload "raison") x = propOf payload "raison" := by
        intro x; simp [jsOr, hr]
      have hne : propOf payload "raison" ≠ .undefined := by
        intro h; rw [h] at hr; cases hr
      rw [hw] at hl2 ⊢
      rw [hsome _ hne] at hl2
      obtain ⟨-, hJ2⟩ := roundtrip_set _ G "notes" (propOf payload "raison") hH1 hT.1 hJ1
        hne hl2
      rw [hJ, hJ2]
    · have hw : ∀ x, jsOr (propOf payload "raison") x = x := by
        intro x; simp [jsOr, hr]
      rw [hw] at hl2 ⊢
      by_cases hn : getField af "notes" = .undefined
      · rw [hn] at hl2
        have hnone : lookupLast G "notes" = none := hl2
        have hgn : getField G "notes" = .undefined := by
          simp [getField, hnone]
        rw [hgn, objSet_absent _ "notes" _ (hlH1.trans hnone), hJ,
          jsonifyFields_append_undefined _ _ (hlH1.trans hnone), hJ1]
      · rw [hsome _ hn] at hl2
        have hgn : getField G "notes" = jsonify (getField af "notes") := by
          simp [getField, hl2]
        rw [hgn]
        obtain ⟨-, hJ2⟩ := roundtrip_set _ G "notes" (jsonify (getField af "notes")) hH1 hT.1
          hJ1 (jsonify_ne_undefined _) (by rw [hl2, jsonify_idem])
        rw [hJ, hJ2]

/-- C22: for every stored document that is JSON and whose orders are records with a list of
lines, every id, every action among `mark_in_transit`, `mark_delivered`, `cancel` and every
body the action can process, the action applied a second time with the same body returns
`{success: true}` again and leaves the stored order list exactly as the first application
left it. -/
theorem c22_actions_idempotent (now now' : String) (ds : List Char) (action : String)
    (options : Options) (ls : Storage) (hds : IsDigits ds)
    (ha : action ∈ ["mark_in_transit", "mark_delivered", "cancel"])
    (hm : methodOf options = "POST") (hs : OrdersShape ls)
    (hb : BodyShape (jsonBody options))
    (hc : jsonify (getDemoData ls) = getDemoData ls) :
    ∃ (ls1 ls2 : Storage),
      demoRequest now (approvActionPath ds action) options ls = .ok (successValue, ls1) ∧
      demoRequest now' (approvActionPath ds action) options ls1 = .ok (successValue, ls2) ∧
      storedOrders ls2 = storedOrders ls1 := by
  obtain ⟨ls1, h1, hobj1, hprop1⟩ := approvAction_stored now ds action options ls hds ha hm hs hb
  have hs1 : OrdersShape ls1 :=
    ordersShape_after ls ls1 _ hobj1 hprop1
      (fun a ha' => (acted_shape (digitsToNat ds) action (jsonBody options) a (hs.2.2 a ha')).1)
  obtain ⟨ls2, h2, -, hprop2⟩ :=
    approvAction_stored now' ds action options ls1 hds ha hm hs1 hb
  refine ⟨ls1, ls2, h1, h2, ?_⟩
  have e1 := storedOrders_of_prop ls1 _ hprop1
  have e2 := storedOrders_of_prop ls2 _ hprop2
  have hfixed : ∀ a ∈ storedOrders ls, jsonify a = a :=
    map_fixed jsonify _ (stored_clean (getDemoData ls) "approvisionnements" hc)
  rw [e2, e1, List.map_map]
  apply List.map_congr_left
  intro a ha'
  exact actedOrder_idem (digitsToNat ds) action (jsonBody options) a (hs.2.2 a ha')
    (hfixed a ha') ha

/-- C22 (witness): delivering order 7 twice with the same receipts, 6 of line 701 and 4 of
line 702, leaves the order list the first delivery stored. -/
theorem c22_actions_idempotent_witness :
    ∃ (ls1 ls2 : Storage),
      demoRequest "t1" (approvActionPath ['7'] "mark_delivered")
        (postJson (receiptsBody [(701, 6), (702, 4)])) sampleOrders = .ok (successValue, ls1) ∧
      demoRequest "t2" (approvActionPath ['7'] "mark_delivered")
        (postJson (receiptsBody [(701, 6), (702, 4)])) ls1 = .ok (successValue, ls2) ∧
      storedOrders ls2 = storedOrders ls1 :=
  c22_actions_idempotent "t1" "t2" ['7'] "mark_delivered"
    (postJson (receiptsBody [(701, 6), (702, 4)])) sampleOrders ⟨by decide, by decide⟩
    (by decide) rfl sampleOrders_shape (receiptsBody_shape _) rfl

end Api
